import Mathlib

/-!
strategIA: turn controller, rules engine and diplomacy ledger.

A shallow embedding of the JavaScript sources `game.js`, `player.js`, `unit.js`,
`city.js`, `utils.js` and `agent.js`.

Representation:

* JavaScript objects are records.  An object reference is the `id` of the object it
  points to (`Unit.nextId++`, `City.nextId++`, and the creation index of a player), so
  `array.indexOf(obj)` is "first position holding that id" and a mutation of an object is
  applied to every stored copy that carries the id (`Game.updateUnit`, `Game.updateCity`,
  `Game.updatePlayer`).
* A unit is stored in the global list `game.units` and in its owner's roster
  `player.units`; a city is stored in its owner's `player.cities`.
* `unit.player` and `city.player` are resolved among the active players `game.players`.
* JavaScript numbers that hold integers are `Int`; list positions and ids are `Nat`.
* A `Map` is an association list in insertion order (`mapSet`, `mapGet`).
* Rendering, DOM access, logging, names, colours and behaviour profiles are left out.
-/

namespace StrategIA

/-! ## JavaScript `Map` -/

/-- JavaScript `map.set(k, v)`: replace the value of an existing key in place, else append. -/
def mapSet {κ ν : Type} [DecidableEq κ] (m : List (κ × ν)) (k : κ) (v : ν) : List (κ × ν) :=
  if m.any (fun e => decide (e.1 = k)) then
    m.map (fun e => if e.1 = k then (k, v) else e)
  else
    m ++ [(k, v)]

/-- JavaScript `map.get(k)`: the value stored under `k`, `none` for `undefined`. -/
def mapGet {κ ν : Type} [DecidableEq κ] (m : List (κ × ν)) (k : κ) : Option ν :=
  (m.find? (fun e => decide (e.1 = k))).map (fun e => e.2)

/-! ## Data model -/

/-- One entry of `city.territory`: `{ x, y, level }`. -/
structure Tile where
  x : Int
  y : Int
  level : Int
deriving DecidableEq, Repr

/-- A `City` object (city.js).  `player` is the id of the owning player. -/
structure City where
  id : Nat
  x : Int
  y : Int
  player : Nat
  level : Int
  population : Int
  range : Nat
  territorySize : Nat
  territory : List Tile
deriving DecidableEq, Repr

/-- A `Unit` object (unit.js).  `player` is the id of the owning player; `type` is the
normalised type name. -/
structure Unit where
  id : Nat
  x : Int
  y : Int
  player : Nat
  type : String
  hasMoved : Bool
  hasAttacked : Bool
  hasPerformedAction : Bool
  hp : Int
  maxHp : Int
  atk : Int
  movement : Int
  cost : Int
deriving DecidableEq, Repr

/-- Entry of `diplomacy.peaceTreaties`: `{ playerId, turnsActive, bonusCoins }`. -/
structure Treaty where
  playerId : Nat
  turnsActive : Int
  bonusCoins : Int
deriving DecidableEq, Repr

/-- Entry of `diplomacy.wars`: `{ playerId, turnsRemaining }`. -/
structure War where
  playerId : Nat
  turnsRemaining : Int
deriving DecidableEq, Repr

/-- The `Diplomacy` ledger of one player (player.js 90-97). -/
structure Diplomacy where
  player : Nat
  favorMap : List (Nat × Int)
  peaceTreaties : List Treaty
  wars : List War
  pendingTreaties : List Nat
deriving DecidableEq, Repr

/-- A `Player` object (player.js 2-31). -/
structure Player where
  id : Nat
  coins : Int
  cities : List City
  units : List Unit
  territorySize : Nat
  isActive : Bool
  diplomacy : Diplomacy
deriving DecidableEq, Repr

/-- The `parameters` object of a proposed action; an absent field is `none`. -/
structure Params where
  cityId : Option Nat
  unitType : Option String
  unitId : Option Nat
  id : Option Nat
  x : Option Int
  y : Option Int
deriving DecidableEq, Repr

/-- A proposed action `{ action, parameters }`. -/
structure Action where
  action : String
  parameters : Params
deriving DecidableEq, Repr

/-- Entry of `agent.failedActions` (the timestamp is left out). -/
structure FailedAction where
  action : String
  reason : String
deriving DecidableEq, Repr

/-- The `Agent` object (agent.js 2-11); chat entries are (player id, message). -/
structure Agent where
  chatHistory : List (Nat × String)
  pendingActions : List Action
  actionIntention : Option String
  failedActions : List FailedAction
deriving DecidableEq, Repr

/-- The `Game` object (game.js 2-17) together with the static counters `Unit.nextId` and
`City.nextId`. -/
structure Game where
  mapSize : Nat
  playerCount : Nat
  players : List Player
  currentPlayerIndex : Int
  currentTurn : Int
  units : List Unit
  hasPurchasedUnitThisTurn : Bool
  eliminatedPlayers : List Player
  agentMode : Bool
  agent : Option Agent
  nextUnitId : Nat
  nextCityId : Nat
deriving DecidableEq, Repr

/-- How a call ends: normally, or with a `TypeError` thrown on reading a property of
`undefined`; in both cases the state reached is kept. -/
inductive Completion where
  | ok (g : Game)
  | typeError (g : Game)
deriving DecidableEq, Repr

/-- The state a call leaves behind. -/
def Completion.state : Completion → Game
  | .ok g => g
  | .typeError g => g

/-! ## Diplomacy ledger (player.js 90-240) -/

/-- JavaScript `new Diplomacy(player)`. -/
def Diplomacy.new (player : Nat) : Diplomacy :=
  { player := player, favorMap := [], peaceTreaties := [], wars := [], pendingTreaties := [] }

/-- JavaScript `initializeRelations(players)`, given the ids of `players`. -/
def Diplomacy.initializeRelations (d : Diplomacy) (players : List Nat) : Diplomacy :=
  players.foldl (fun acc pid =>
    if pid ≠ acc.player then { acc with favorMap := mapSet acc.favorMap pid 0 } else acc) d

/-- JavaScript `getFavor(playerId)`: `this.favorMap.get(playerId) || 0`. -/
def Diplomacy.getFavor (d : Diplomacy) (playerId : Nat) : Int :=
  (mapGet d.favorMap playerId).getD 0

/-- JavaScript `changeFavor(playerId, amount)`: returns the new favor and the updated ledger. -/
def Diplomacy.changeFavor (d : Diplomacy) (playerId : Nat) (amount : Int) : Int × Diplomacy :=
  let currentFavor := d.getFavor playerId
  let d1 := { d with favorMap := mapSet d.favorMap playerId (max (-100) (min 100 (currentFavor + amount))) }
  (d1.getFavor playerId, d1)

/-- JavaScript `proposePeaceTreaty(playerId)`. -/
def Diplomacy.proposePeaceTreaty (d : Diplomacy) (playerId : Nat) : Bool × Diplomacy :=
  if ¬ playerId ∈ d.pendingTreaties then
    (true, { d with pendingTreaties := d.pendingTreaties ++ [playerId] })
  else
    (false, d)

/-- JavaScript `acceptPeaceTreaty(playerId)`. -/
def Diplomacy.acceptPeaceTreaty (d : Diplomacy) (playerId : Nat) : Bool × Diplomacy :=
  if playerId ∈ d.pendingTreaties then
    let d1 := { d with pendingTreaties := d.pendingTreaties.erase playerId }
    let d2 := { d1 with peaceTreaties :=
      d1.peaceTreaties ++ [Treaty.mk playerId 0 2] }
    (true, (d2.changeFavor playerId 20).2)
  else
    (false, d)

/-- JavaScript `rejectPeaceTreaty(playerId)`. -/
def Diplomacy.rejectPeaceTreaty (d : Diplomacy) (playerId : Nat) : Bool × Diplomacy :=
  if playerId ∈ d.pendingTreaties then
    let d1 := { d with pendingTreaties := d.pendingTreaties.erase playerId }
    (true, (d1.changeFavor playerId (-10)).2)
  else
    (false, d)

/-- JavaScript `hasPeaceTreaty(playerId)`. -/
def Diplomacy.hasPeaceTreaty (d : Diplomacy) (playerId : Nat) : Bool :=
  d.peaceTreaties.any (fun treaty => treaty.playerId = playerId)

/-- JavaScript `isAtWar(playerId)`. -/
def Diplomacy.isAtWar (d : Diplomacy) (playerId : Nat) : Bool :=
  d.wars.any (fun war => war.playerId = playerId)

/-- JavaScript `getWarWith(playerId)`. -/
def Diplomacy.getWarWith (d : Diplomacy) (playerId : Nat) : Option War :=
  d.wars.find? (fun war => war.playerId = playerId)

/-- JavaScript `breakPeaceTreaty(playerId)`: the loop runs over the entries of `favorMap`; it only
overwrites existing keys, so the keys visited are those present when it starts. -/
def Diplomacy.breakPeaceTreaty (d : Diplomacy) (playerId : Nat) : Bool × Diplomacy :=
  if d.peaceTreaties.any (fun treaty => treaty.playerId = playerId) then
    let d1 := { d with peaceTreaties := d.peaceTreaties.eraseP (fun treaty => treaty.playerId = playerId) }
    let d2 := { d1 with favorMap := mapSet d1.favorMap playerId (-100) }
    let d3 := (d2.favorMap.map (fun e => e.1)).foldl
      (fun acc pid => if pid ≠ playerId then (acc.changeFavor pid (-15)).2 else acc) d2
    (true, d3)
  else
    (false, d)

/-- JavaScript `declareWar(playerId)`. -/
def Diplomacy.declareWar (d : Diplomacy) (playerId : Nat) : Bool × Diplomacy :=
  let d1 := if d.hasPeaceTreaty playerId then (d.breakPeaceTreaty playerId).2 else d
  if ¬ d1.isAtWar playerId then
    let d2 := { d1 with wars := d1.wars ++ [War.mk playerId 10] }
    (true, { d2 with favorMap := mapSet d2.favorMap playerId (-100) })
  else
    (false, d1)

/-- JavaScript `proposePeace(playerId)`. -/
def Diplomacy.proposePeace (d : Diplomacy) (playerId : Nat) : Bool × Diplomacy :=
  if d.isAtWar playerId then
    match d.getWarWith playerId with
    | some war =>
      if war.turnsRemaining ≤ 0 then (true, (d.proposePeaceTreaty playerId).2) else (false, d)
    | none => (false, d)
  else
    (false, d)

/-- JavaScript `processTurn()`. -/
def Diplomacy.processTurn (d : Diplomacy) : Diplomacy :=
  { d with
    peaceTreaties := d.peaceTreaties.map (fun treaty => { treaty with turnsActive := treaty.turnsActive + 1 })
    wars := d.wars.map (fun war =>
      if war.turnsRemaining > 0 then { war with turnsRemaining := war.turnsRemaining - 1 } else war) }

/-! ## City (city.js) -/

/-- JavaScript `calculateTerritory()`: both loops run over `-range .. range`. -/
def City.calculateTerritory (c : City) : City :=
  let offsets : List Int := (List.range (2 * c.range + 1)).map (fun i => (i : Int) - (c.range : Int))
  let territory : List Tile := offsets.flatMap (fun dx =>
    (offsets.filter (fun dy => ¬ (dx = 0 ∧ dy = 0))).map (fun dy =>
      Tile.mk (c.x + dx) (c.y + dy) c.level))
  { c with territory := territory, territorySize := territory.length + 1 }

/-- JavaScript `updateRange()`. -/
def City.updateRange (c : City) : City :=
  if c.level = 4 then { c with range := 2 }
  else if c.level = 7 then { c with range := 3 }
  else if c.level = 10 then { c with range := 4 }
  else c

/-- JavaScript `new City(x, y, player)` with `id` the value taken from `City.nextId`. -/
def City.new (id : Nat) (x y : Int) (player : Nat) : City :=
  (City.mk id x y player 1 10 1 1 []).updateRange.calculateTerritory

/-- JavaScript `getUpgradeCost()`. -/
def City.getUpgradeCost (c : City) : Int :=
  c.level * 50

/-! ## Player (player.js 33-87) -/

/-- JavaScript `updateTerritorySize()`. -/
def Player.updateTerritorySize (p : Player) : Player :=
  { p with territorySize := p.cities.foldl (fun total city => total + city.territorySize) 0 }

/-- JavaScript `addCity(city)`. -/
def Player.addCity (p : Player) (city : City) : Player :=
  Player.updateTerritorySize { p with cities := p.cities ++ [city] }

/-- JavaScript `addUnit(unit)`. -/
def Player.addUnit (p : Player) (unit : Unit) : Player :=
  { p with units := p.units ++ [unit] }

/-- JavaScript `removeUnit(unit)`: `indexOf` finds the object, that is the first entry with its id. -/
def Player.removeUnit (p : Player) (unit : Unit) : Player :=
  { p with units := p.units.eraseP (fun u => u.id = unit.id) }

/-- JavaScript `collectIncome()`: returns the income and the updated player. -/
def Player.collectIncome (p : Player) : Int × Player :=
  let income := p.cities.foldl (fun total city => total + city.level) 0
  let income := p.diplomacy.peaceTreaties.foldl (fun total treaty => total + treaty.bonusCoins) income
  (income, { p with coins := p.coins + income })

/-- JavaScript `canAfford(cost)`. -/
def Player.canAfford (p : Player) (cost : Int) : Bool :=
  p.coins ≥ cost

/-- JavaScript `spend(amount)`. -/
def Player.spend (p : Player) (amount : Int) : Bool × Player :=
  if p.canAfford amount then (true, { p with coins := p.coins - amount }) else (false, p)

/-- JavaScript `player.game`: the constructor (player.js 2-31) defines no `game` property and no
statement of the repository assigns one, so the expression is `undefined` for every
player. -/
def Player.game (_p : Player) : Option Game :=
  none

/-! ## Game: lookups and object updates (game.js 117-138) -/

/-- JavaScript `getUnitAt(x, y)`. -/
def Game.getUnitAt (g : Game) (x y : Int) : Option Unit :=
  g.units.find? (fun unit => unit.x = x ∧ unit.y = y)

/-- JavaScript `getCityAt(x, y)`. -/
def Game.getCityAt (g : Game) (x y : Int) : Option City :=
  g.players.findSome? (fun player => player.cities.find? (fun city => city.x = x ∧ city.y = y))

/-- JavaScript `removeUnit(unit)`: `indexOf` finds the object, that is the first entry with its id. -/
def Game.removeUnit (g : Game) (unit : Unit) : Game :=
  { g with units := g.units.eraseP (fun u => u.id = unit.id) }

/-- JavaScript `get currentPlayer()`: `this.players[this.currentPlayerIndex]`, `none` for `undefined`. -/
def Game.currentPlayer (g : Game) : Option Player :=
  if 0 ≤ g.currentPlayerIndex then g.players[g.currentPlayerIndex.toNat]? else none

/-- The active player object a reference `pid` points to. -/
def Game.findPlayer (g : Game) (pid : Nat) : Option Player :=
  g.players.find? (fun p => p.id = pid)

/-- Mutation `f` of the player object with id `pid`. -/
def Game.updatePlayer (g : Game) (pid : Nat) (f : Player → Player) : Game :=
  { g with players := g.players.map (fun p => if p.id = pid then f p else p) }

/-- Mutation `f` of the unit object with id `uid`, seen from the global list and from
every roster. -/
def Game.updateUnit (g : Game) (uid : Nat) (f : Unit → Unit) : Game :=
  { g with
    units := g.units.map (fun u => if u.id = uid then f u else u)
    players := g.players.map (fun p =>
      { p with units := p.units.map (fun u => if u.id = uid then f u else u) }) }

/-- Mutation `f` of the city object with id `cid`. -/
def Game.updateCity (g : Game) (cid : Nat) (f : City → City) : Game :=
  { g with players := g.players.map (fun p =>
      { p with cities := p.cities.map (fun c => if c.id = cid then f c else c) }) }

/-- Every city on the board: the cities of the active players, in `getCityAt` order. -/
def Game.allCities (g : Game) : List City :=
  g.players.flatMap (fun p => p.cities)

/-! ## Game: diplomacy actions (game.js 264-335) -/

/-- JavaScript `Game.proposePeaceTreaty(fromPlayerId, toPlayerId)`. -/
def Game.proposePeaceTreaty (g : Game) (fromPlayerId toPlayerId : Nat) : Bool × Game :=
  match g.findPlayer fromPlayerId, g.findPlayer toPlayerId with
  | some fromPlayer, some toPlayer =>
    if !fromPlayer.diplomacy.hasPeaceTreaty toPlayerId && !fromPlayer.diplomacy.isAtWar toPlayerId then
      ((toPlayer.diplomacy.proposePeaceTreaty fromPlayerId).1,
        g.updatePlayer toPlayer.id (fun p =>
          { p with diplomacy := (p.diplomacy.proposePeaceTreaty fromPlayerId).2 }))
    else (false, g)
  | _, _ => (false, g)

/-- JavaScript `Game.acceptPeaceTreaty(fromPlayerId, toPlayerId)`: the two ledger calls run one
after the other, the second on the state the first one left. -/
def Game.acceptPeaceTreaty (g : Game) (fromPlayerId toPlayerId : Nat) : Bool × Game :=
  match g.findPlayer fromPlayerId, g.findPlayer toPlayerId with
  | some fromPlayer, some toPlayer =>
    let fromAccepted := (fromPlayer.diplomacy.acceptPeaceTreaty toPlayerId).1
    let g1 := g.updatePlayer fromPlayer.id (fun p =>
      { p with diplomacy := (p.diplomacy.acceptPeaceTreaty toPlayerId).2 })
    match g1.findPlayer toPlayer.id with
    | some toPlayer1 =>
      let toAccepted := (toPlayer1.diplomacy.acceptPeaceTreaty fromPlayerId).1
      let g2 := g1.updatePlayer toPlayer.id (fun p =>
        { p with diplomacy := (p.diplomacy.acceptPeaceTreaty fromPlayerId).2 })
      (fromAccepted && toAccepted, g2)
    | none => (false, g1)
  | _, _ => (false, g)

/-- JavaScript `Game.rejectPeaceTreaty(fromPlayerId, toPlayerId)`. -/
def Game.rejectPeaceTreaty (g : Game) (fromPlayerId toPlayerId : Nat) : Bool × Game :=
  match g.findPlayer toPlayerId with
  | some toPlayer =>
    ((toPlayer.diplomacy.rejectPeaceTreaty fromPlayerId).1,
      g.updatePlayer toPlayer.id (fun p =>
        { p with diplomacy := (p.diplomacy.rejectPeaceTreaty fromPlayerId).2 }))
  | none => (false, g)

/-- JavaScript `Game.breakPeaceTreaty(fromPlayerId, toPlayerId)`. -/
def Game.breakPeaceTreaty (g : Game) (fromPlayerId toPlayerId : Nat) : Bool × Game :=
  match g.findPlayer fromPlayerId, g.findPlayer toPlayerId with
  | some fromPlayer, some toPlayer =>
    let g1 := g.updatePlayer fromPlayer.id (fun p =>
      { p with diplomacy := (p.diplomacy.breakPeaceTreaty toPlayerId).2 })
    let g2 := g1.updatePlayer toPlayer.id (fun p =>
      { p with diplomacy := (p.diplomacy.breakPeaceTreaty fromPlayerId).2 })
    (true, g2)
  | _, _ => (false, g)

/-- JavaScript `Game.declareWar(fromPlayerId, toPlayerId)`. -/
def Game.declareWar (g : Game) (fromPlayerId toPlayerId : Nat) : Bool × Game :=
  match g.findPlayer fromPlayerId, g.findPlayer toPlayerId with
  | some fromPlayer, some toPlayer =>
    let g1 := g.updatePlayer fromPlayer.id (fun p =>
      { p with diplomacy := (p.diplomacy.declareWar toPlayerId).2 })
    let g2 := g1.updatePlayer toPlayer.id (fun p =>
      { p with diplomacy := (p.diplomacy.declareWar fromPlayerId).2 })
    (true, g2)
  | _, _ => (false, g)

/-- JavaScript `Game.proposePeace(fromPlayerId, toPlayerId)`. -/
def Game.proposePeace (g : Game) (fromPlayerId toPlayerId : Nat) : Bool × Game :=
  match g.findPlayer fromPlayerId with
  | some fromPlayer =>
    ((fromPlayer.diplomacy.proposePeace toPlayerId).1,
      g.updatePlayer fromPlayer.id (fun p =>
        { p with diplomacy := (p.diplomacy.proposePeace toPlayerId).2 }))
  | none => (false, g)

/-! ## Unit (unit.js) -/

/-- JavaScript `String.prototype.toLowerCase` on the characters that can reach a catalogue name: the
ASCII capitals and the Kelvin sign (U+212A, whose lower case is `k`).  Every other
character with a lower-case form maps to a non-ASCII character, as it stays here. -/
def toLowerCase (s : String) : String :=
  String.mk (s.data.map (fun c => if c = Char.ofNat 0x212A then Char.ofNat 107 else c.toLower))

/-- The own properties of the `stats` table of the constructor (unit.js 14-20):
`(cost, hp, atk, movement)` under the five catalogue names. -/
def Unit.stats (type : String) : Option (Int × Int × Int × Int) :=
  if type = "soldier" then some (3, 5, 2, 1)
  else if type = "knight" then some (7, 8, 4, 2)
  else if type = "giant" then some (12, 30, 3, 1)
  else if type = "dragon" then some (30, 25, 7, 3)
  else if type = "colonizer" then some (10, 3, 1, 1)
  else none

/-- The lower-case property names an object literal inherits from `Object.prototype`:
`table[name]` is then a function or an object, which is truthy and is not a number. -/
def inheritedProperty (name : String) : Bool :=
  name = "constructor" ∨ name = "__proto__"

/-- JavaScript `new Unit(x, y, player, type)` with `id` the value taken from `Unit.nextId`.  The
result is `none` when `stats[this.type]` is an inherited property: the default to soldier
is skipped and every stat read from it is `undefined`. -/
def Unit.new (id : Nat) (x y : Int) (player : Nat) (type : String) : Option Unit :=
  let type1 := toLowerCase type
  match Unit.stats type1 with
  | some (cost, hp, atk, movement) =>
    some (Unit.mk id x y player type1 false false false hp hp atk movement cost)
  | none =>
    if inheritedProperty type1 then none
    else some (Unit.mk id x y player "soldier" false false false 5 5 2 1 3)

/-- JavaScript `Unit.getCost(type)`; `none` when the value returned is an inherited property and not
a number. -/
def Unit.getCost (type : String) : Option Int :=
  let normalizedType := toLowerCase type
  match Unit.stats normalizedType with
  | some (cost, _, _, _) => some cost
  | none => if inheritedProperty normalizedType then none else some 3

/-- JavaScript `canMoveTo(x, y, game)`. -/
def Unit.canMoveTo (u : Unit) (x y : Int) (g : Game) : Bool :=
  if u.hasMoved then false
  else
    let dx := x - u.x
    let dy := y - u.y
    let distance := max |dx| |dy|
    if distance > u.movement then false
    else if (g.getUnitAt x y).isSome then false
    else
      match g.getCityAt x y with
      | some city => if city.player = u.player then false else true
      | none => true

/-- The range test `Math.sqrt(dx*dx + dy*dy) <= 1.5` on integer offsets, squared. -/
def inAttackRange (dx dy : Int) : Bool :=
  4 * (dx * dx + dy * dy) ≤ 9

/-- JavaScript `canAttack(unit)`. -/
def Unit.canAttack (u : Unit) (unit : Unit) : Bool :=
  if u.hasAttacked then false
  else inAttackRange (unit.x - u.x) (unit.y - u.y)

/-- JavaScript `move(x, y)` on the unit object. -/
def Unit.move (u : Unit) (x y : Int) : Unit :=
  { u with x := x, y := y, hasMoved := true }

/-- JavaScript `resetTurn()`. -/
def Unit.resetTurn (u : Unit) : Unit :=
  { u with hasMoved := false, hasAttacked := false, hasPerformedAction := false }

/-- JavaScript `attack(target)`: returns whether the target died and the updated state. -/
def Unit.attack (u : Unit) (target : Unit) (g : Game) : Bool × Game :=
  if u.hasAttacked then (false, g)
  else
    let g1 := g.updateUnit target.id (fun t => { t with hp := t.hp - u.atk })
    let g2 := g1.updateUnit u.id (fun v => { v with hasAttacked := true })
    (decide (target.hp - u.atk ≤ 0), g2)

/-- The value of `this.player.game` for a unit. -/
def Unit.playerGame (u : Unit) (g : Game) : Option Game :=
  (g.findPlayer u.player).bind Player.game

/-- JavaScript `canFoundCity()`, with `playerGame` the value of `this.player.game`. -/
def Unit.canFoundCity (u : Unit) (playerGame : Option Game) : Bool :=
  if u.type ≠ "colonizer" ∨ u.hasPerformedAction ∨ u.hasMoved then false
  else
    match playerGame with
    | some game =>
      if (game.getCityAt u.x u.y).isSome then false
      else if game.allCities.any (fun city => max |city.x - u.x| |city.y - u.y| < 3) then false
      else true
    | none => true

/-- JavaScript `canConquerCity()`. -/
def Unit.canConquerCity (u : Unit) : Bool :=
  !u.hasMoved && !u.hasAttacked && !u.hasPerformedAction

/-! ## Utils (utils.js 94-140) -/

/-- JavaScript `Utils.validateCityPlacement(x, y, gameInstance).valid`. -/
def Utils.validateCityPlacement (x y : Int) (g : Game) : Bool :=
  if g.allCities.any (fun city => max |city.x - x| |city.y - y| < 2) then false else true

/-- JavaScript `Utils.validateFoundCityAction(unit, gameInstance).valid` for an existing unit. -/
def Utils.validateFoundCityAction (unit : Unit) (g : Game) : Bool :=
  if unit.type ≠ "colonizer" then false
  else if unit.hasMoved then false
  else if unit.hasPerformedAction then false
  else Utils.validateCityPlacement unit.x unit.y g

/-! ## Game: elimination, founding, conquest -/

/-- JavaScript `this.players.indexOf(player)`: the position of the object, `-1` when absent. -/
def Game.playerIndexOf (g : Game) (player : Player) : Int :=
  match g.players.findIdx? (fun p => p.id = player.id) with
  | some i => (i : Int)
  | none => -1

/-- JavaScript `eliminatePlayer(player)`: `player` is the object as it is when the call starts; the
entry added to `eliminatedPlayers` is that object as the call leaves it. -/
def Game.eliminatePlayer (g : Game) (player : Player) : Game :=
  let roster := player.units
  let units := roster.foldl (fun us unit => us.eraseP (fun u => u.id = unit.id)) g.units
  let player1 := roster.foldl (fun p unit => p.removeUnit unit) player
  let currentPlayerIndex : Int :=
    if g.playerIndexOf player < g.currentPlayerIndex then g.currentPlayerIndex - 1
    else g.currentPlayerIndex
  let players := g.players.eraseP (fun p => p.id = player.id)
  { g with
    eliminatedPlayers := g.eliminatedPlayers ++ [player1]
    units := units
    currentPlayerIndex := currentPlayerIndex
    players := players }

/-- JavaScript `foundCity(game)`: returns the result of the call and the updated state. -/
def Unit.foundCity (u : Unit) (g : Game) : Bool × Game :=
  if !u.canFoundCity (u.playerGame g) then (false, g)
  else if !Utils.validateCityPlacement u.x u.y g then (false, g)
  else
    let city := City.new g.nextCityId u.x u.y u.player
    let g1 := { g with nextCityId := g.nextCityId + 1 }
    let g2 := g1.updatePlayer u.player (fun p => p.addCity city)
    let g3 := g2.updatePlayer u.player (fun p => p.removeUnit u)
    (true, g3.removeUnit u)

/-- The statements of `conquerCity(city, game)` from the removal of the city from its old
owner's list to the marking of the unit (unit.js 170-192). -/
def Unit.transferCity (u : Unit) (city : City) (g : Game) : Game :=
  let oldOwner := city.player
  let g1 := g.updatePlayer oldOwner (fun p =>
    { p with cities := p.cities.eraseP (fun c => c.id = city.id) })
  let city1 := if city.level > 1 then { city with level := city.level - 1 } else city
  let city2 := { city1 with player := u.player }
  let g2 := g1.updatePlayer u.player (fun p => p.addCity city2)
  let g3 := g2.updateCity city.id City.calculateTerritory
  g3.updateUnit u.id (fun v => { v with hasPerformedAction := true })

/-- JavaScript `conquerCity(city, game)`: returns the result of the call and the updated state. -/
def Unit.conquerCity (u : Unit) (city : City) (g : Game) : Bool × Game :=
  if !u.canConquerCity then (false, g)
  else
    let g4 := u.transferCity city g
    match g4.findPlayer city.player with
    | some old => if old.cities.length = 0 then (true, g4.eliminatePlayer old) else (true, g4)
    | none => (true, g4)

/-! ## Game: turn controller (game.js 140-261, 337-346) -/

/-- JavaScript `getPlayerTerritories()`: the map from tile `(x, y)` to player id. -/
def Game.getPlayerTerritories (g : Game) : List ((Int × Int) × Nat) :=
  g.players.foldl (fun territories player =>
    player.cities.foldl (fun territories city =>
      city.territory.foldl (fun territories tile => mapSet territories (tile.x, tile.y) player.id)
        (mapSet territories (city.x, city.y) player.id))
      territories) []

/-- The flag `territoryViolation` after the loop over `otherPlayer.units`. -/
def territoryViolation (territories : List ((Int × Int) × Nat)) (playerId : Nat)
    (units : List Unit) : Bool :=
  units.any (fun unit => mapGet territories (unit.x, unit.y) = some playerId)

/-- The flag `borderViolation` after the loop over `otherPlayer.units`. -/
def borderViolation (territories : List ((Int × Int) × Nat)) (playerId : Nat)
    (units : List Unit) : Bool :=
  units.any (fun unit =>
    if mapGet territories (unit.x, unit.y) = some playerId then false
    else
      ([-1, 0, 1] : List Int).any (fun dx => ([-1, 0, 1] : List Int).any (fun dy =>
        mapGet territories (unit.x + dx, unit.y + dy) = some playerId)))

/-- JavaScript `processDiplomaticEvents()`.  The scan changes favor values only, so the players, their
units and their wars are those of the state the scan starts in. -/
def Game.processDiplomaticEvents (g : Game) : Game :=
  g.players.foldl (fun acc player =>
    let territories := acc.getPlayerTerritories
    g.players.foldl (fun acc otherPlayer =>
      if player.id = otherPlayer.id then acc
      else if player.diplomacy.isAtWar otherPlayer.id then acc
      else
        let amount : Int :=
          if territoryViolation territories player.id otherPlayer.units then -10
          else if borderViolation territories player.id otherPlayer.units then -5
          else 1
        acc.updatePlayer player.id (fun p =>
          { p with diplomacy := (p.diplomacy.changeFavor otherPlayer.id amount).2 })) acc) g

/-- JavaScript `updateRankings()`. -/
def Game.updateRankings (g : Game) : Game :=
  { g with players := g.players.map Player.updateTerritorySize }

/-- JavaScript `clearPendingActions()` (agent.js 681-685). -/
def Agent.clearPendingActions (a : Agent) : Agent :=
  { a with pendingActions := [], actionIntention := none, failedActions := [] }

/-- JavaScript `nextTurn()` up to and including `updateRankings()`; the trailing call of
`processAITurn()` (the oracle loop of agent mode) is not part of this definition.
`playerCount` is the count chosen when the game starts, a positive number. -/
def Game.nextTurn (g : Game) : Completion :=
  if g.players.length ≤ 1 then .ok g
  else
    match g.currentPlayer with
    | none => .typeError g
    | some current =>
      let g1 := g.updatePlayer current.id (fun p => { p with isActive := false })
      let g2 := g1.updatePlayer current.id (fun p => { p with diplomacy := p.diplomacy.processTurn })
      let g3 : Game := if g2.agentMode then { g2 with agent := g2.agent.map Agent.clearPendingActions } else g2
      let g4 : Game := { g3 with currentPlayerIndex := Int.tmod (g3.currentPlayerIndex + 1) (g3.playerCount : Int) }
      let g5 : Game :=
        if g4.currentPlayerIndex = 0 then
          let g41 := Game.processDiplomaticEvents { g4 with currentTurn := g4.currentTurn + 1 }
          { g41 with players := g41.players.map (fun p => p.collectIncome.2) }
        else g4
      match g5.currentPlayer with
      | none => .typeError g5
      | some next =>
        let g6 := g5.updatePlayer next.id (fun p => { p with isActive := true })
        let g7 := { g6 with hasPurchasedUnitThisTurn := false }
        let g8 := next.units.foldl (fun acc unit => acc.updateUnit unit.id Unit.resetTurn) g7
        .ok g8.updateRankings

/-! ## Agent: legal-action menu (agent.js 145-278) -/

/-- Entry of the `upgradeCity` menu. -/
structure UpgradeEntry where
  cityId : Nat
  cost : Int
deriving DecidableEq, Repr

/-- Entry of the `buyUnit` menu. -/
structure BuyEntry where
  cityId : Nat
  affordableTypes : List String
deriving DecidableEq, Repr

/-- Entry of the `moveUnit` menu. -/
structure MoveEntry where
  unitId : Nat
  type : String
  x : Int
  y : Int
  movement : Int
deriving DecidableEq, Repr

/-- Entry of `potentialTargets`. -/
structure Target where
  unitId : Nat
  playerId : Nat
  x : Int
  y : Int
  hp : Int
deriving DecidableEq, Repr

/-- Entry of the `attackUnit` menu. -/
structure AttackEntry where
  unitId : Nat
  type : String
  x : Int
  y : Int
  potentialTargets : List Target
deriving DecidableEq, Repr

/-- Entry of the `foundCity` menu. -/
structure FoundEntry where
  unitId : Nat
  x : Int
  y : Int
deriving DecidableEq, Repr

/-- Entry of the `conquerCity` menu. -/
structure ConquerEntry where
  unitId : Nat
  x : Int
  y : Int
  cityId : Nat
  cityOwner : Nat
deriving DecidableEq, Repr

/-- The object returned by `evaluateAvailableActions`: a key whose list is empty is absent
from the object, and `endTurn` is always `true`. -/
structure AvailableActions where
  upgradeCity : List UpgradeEntry
  buyUnit : List BuyEntry
  moveUnit : List MoveEntry
  attackUnit : List AttackEntry
  foundCity : List FoundEntry
  conquerCity : List ConquerEntry
deriving DecidableEq, Repr

/-- JavaScript `player.canAfford(Unit.getCost(type))`: a cost that is not a number compares false. -/
def Player.canAffordUnit (p : Player) (type : String) : Bool :=
  match Unit.getCost type with
  | some cost => p.canAfford cost
  | none => false

/-- JavaScript `evaluateAvailableActions(player)` for the agent of game `g`. -/
def Agent.evaluateAvailableActions (g : Game) (player : Player) : AvailableActions :=
  { upgradeCity := (player.cities.filter (fun city => player.canAfford city.getUpgradeCost)).map
      (fun city => UpgradeEntry.mk city.id city.getUpgradeCost)
    buyUnit :=
      if !g.hasPurchasedUnitThisTurn then
        player.cities.filterMap (fun city =>
          if (g.getUnitAt city.x city.y).isNone then
            let affordableUnits := ["soldier", "knight", "giant", "dragon", "colonizer"].filter
              (fun type => player.canAffordUnit type)
            if affordableUnits.length > 0 then some (BuyEntry.mk city.id affordableUnits) else none
          else none)
      else []
    moveUnit := (player.units.filter (fun unit => !unit.hasMoved)).map
      (fun unit => MoveEntry.mk unit.id unit.type unit.x unit.y unit.movement)
    attackUnit := player.units.filterMap (fun unit =>
      if !unit.hasAttacked then
        let potentialTargets := g.players.flatMap (fun otherPlayer =>
          if otherPlayer.id = player.id then []
          else (otherPlayer.units.filter (fun enemyUnit =>
            inAttackRange (enemyUnit.x - unit.x) (enemyUnit.y - unit.y))).map
              (fun enemyUnit => Target.mk enemyUnit.id otherPlayer.id enemyUnit.x enemyUnit.y enemyUnit.hp))
        if potentialTargets.length > 0 then
          some (AttackEntry.mk unit.id unit.type unit.x unit.y potentialTargets)
        else none
      else none)
    foundCity := (player.units.filter (fun unit =>
        decide (unit.type = "colonizer") && unit.canFoundCity (unit.playerGame g)
          && (g.getCityAt unit.x unit.y).isNone)).map
      (fun unit => FoundEntry.mk unit.id unit.x unit.y)
    conquerCity := player.units.filterMap (fun unit =>
      if unit.canConquerCity then
        match g.getCityAt unit.x unit.y with
        | some city =>
          if city.player ≠ player.id then
            some (ConquerEntry.mk unit.id unit.x unit.y city.id city.player)
          else none
        | none => none
      else none) }

/-! ## Agent: bookkeeping (agent.js 82-97, 728-735) -/

/-- JavaScript `addChatMessage(player, message)`: the history keeps the last 20 entries. -/
def Agent.addChatMessage (a : Agent) (player : Nat) (message : String) : Agent :=
  let chatHistory := a.chatHistory ++ [(player, message)]
  { a with chatHistory := if chatHistory.length > 20 then chatHistory.tail else chatHistory }

/-- JavaScript `recordFailedAction(action, reason)`. -/
def Agent.recordFailedAction (a : Agent) (action reason : String) : Agent :=
  { a with failedActions := a.failedActions ++ [FailedAction.mk action reason] }

/-! ## Game: applying a proposed action (game.js 457-747) -/

/-- JavaScript `isActionAvailable(actionName, parameters)` when the agent exists and the current
player is `current`. -/
def Game.isActionAvailable (g : Game) (current : Player) (actionName : String)
    (parameters : Params) : Bool :=
  if actionName = "endTurn" then true
  else
    let availableActions := Agent.evaluateAvailableActions g current
    if actionName = "foundCity" then
      availableActions.foundCity.any (fun action => some action.unitId = parameters.unitId)
    else if actionName = "upgradeCity" then
      availableActions.upgradeCity.any (fun action => some action.cityId = parameters.cityId)
    else if actionName = "buyUnit" then
      availableActions.buyUnit.any (fun action => some action.cityId = parameters.cityId)
    else if actionName = "moveUnit" then
      availableActions.moveUnit.any (fun action => some action.unitId = parameters.unitId)
    else if actionName = "attackUnit" then
      availableActions.attackUnit.any (fun action => some action.unitId = parameters.unitId)
    else if actionName = "conquerCity" then
      availableActions.conquerCity.any (fun action => some action.unitId = parameters.unitId)
    else false

/-- JavaScript `City.upgrade()` (city.js 37-48) on the city object `city`, whose owner is resolved
through `city.player`. -/
def City.upgrade (city : City) (g : Game) : Bool × Game :=
  match g.findPlayer city.player with
  | some owner =>
    let cost := city.getUpgradeCost
    if owner.canAfford cost && (owner.spend cost).1 then
      let g1 := g.updatePlayer city.player (fun p => (p.spend cost).2)
      (true, g1.updateCity city.id (fun c =>
        City.calculateTerritory (City.updateRange
          { c with level := c.level + 1, population := c.population + 10 })))
    else (false, g)
  | none => (false, g)

/-- JavaScript `aiUpgradeCity(params)` for the current player `current`. -/
def Game.aiUpgradeCity (g : Game) (current : Player) (params : Params) : Game :=
  match current.cities.find? (fun c => some c.id = params.cityId) with
  | none => g
  | some city =>
    if current.canAfford city.getUpgradeCost then (city.upgrade g).2 else g

/-- JavaScript `aiBuyUnit(params)` for the current player `current`.  `!cityId` holds for an absent
id and for `0`; `params.unitType || 'soldier'` replaces an absent or empty type. -/
def Game.aiBuyUnit (g : Game) (current : Player) (params : Params) : Game :=
  if g.hasPurchasedUnitThisTurn then g
  else
    let cityId := params.cityId
    let city : Option City :=
      if (cityId = none ∨ cityId = some 0) ∧ current.cities.length > 0 then current.cities.head?
      else current.cities.find? (fun c => some c.id = cityId)
    match city with
    | none => g
    | some city =>
      let unitType : String :=
        match params.unitType with
        | some t => if t = "" then "soldier" else t
        | none => "soldier"
      if (g.getUnitAt city.x city.y).isSome then g
      else
        match Unit.getCost unitType with
        | none => g
        | some cost =>
          if current.canAfford cost then
            if (current.spend cost).1 then
              let g1 := g.updatePlayer current.id (fun p => (p.spend cost).2)
              match Unit.new g1.nextUnitId city.x city.y current.id unitType with
              | none => g1
              | some newUnit =>
                let g2 := { g1 with nextUnitId := g1.nextUnitId + 1 }
                let g3 := g2.updatePlayer current.id (fun p => p.addUnit newUnit)
                { g3 with units := g3.units ++ [newUnit], hasPurchasedUnitThisTurn := true }
            else g
          else g

/-- JavaScript `handleUnitMovement(unit, targetX, targetY)`. -/
def Game.handleUnitMovement (g : Game) (unit : Unit) (targetX targetY : Int) : Game :=
  if unit.hasMoved then g
  else if (g.getUnitAt targetX targetY).isSome then g
  else if unit.canMoveTo targetX targetY g then
    g.updateUnit unit.id (fun u => u.move targetX targetY)
  else g

/-- JavaScript `aiMoveUnit(params)` for the current player `current`; `parseInt` of an absent
coordinate is `NaN`. -/
def Game.aiMoveUnit (g : Game) (current : Player) (params : Params) : Game :=
  let unitId : Option Nat :=
    match params.unitId with
    | some 0 => params.id
    | some i => some i
    | none => params.id
  match params.x, params.y with
  | some targetX, some targetY =>
    if unitId = none ∨ unitId = some 0 then
      match (current.units.filter (fun u => !u.hasMoved)).head? with
      | some unit => g.handleUnitMovement unit targetX targetY
      | none => g
    else
      match current.units.find? (fun u => some u.id = unitId) with
      | none => g
      | some unit => g.handleUnitMovement unit targetX targetY
  | _, _ => g

/-- JavaScript `aiAttackUnit(params)` for the current player `current`. -/
def Game.aiAttackUnit (g : Game) (current : Player) (params : Params) : Game :=
  let unitId : Option Nat :=
    match params.unitId with
    | some 0 => params.id
    | some i => some i
    | none => params.id
  match params.x, params.y with
  | some targetX, some targetY =>
    match current.units.find? (fun u => some u.id = unitId) with
    | none => g
    | some unit =>
      match g.getUnitAt targetX targetY with
      | none => g
      | some targetUnit =>
        if targetUnit.player ≠ current.id ∧ unit.hasAttacked = false then
          if inAttackRange (targetUnit.x - unit.x) (targetUnit.y - unit.y) then
            let r := unit.attack targetUnit g
            if r.1 then
              Game.removeUnit (r.2.updatePlayer targetUnit.player (fun p => p.removeUnit targetUnit))
                targetUnit
            else r.2
          else g
        else g
  | _, _ => g

/-- JavaScript `Game.aiFoundCity(params)` for the current player `current`. -/
def Game.aiFoundCity (g : Game) (current : Player) (params : Params) : Game :=
  match current.units.find? (fun u => some u.id = params.unitId ∧ u.type = "colonizer") with
  | none => g
  | some unit =>
    if unit.canFoundCity (unit.playerGame g) then (unit.foundCity g).2 else g

/-- JavaScript `aiConquerCity(params)` for the current player `current`. -/
def Game.aiConquerCity (g : Game) (current : Player) (params : Params) : Game :=
  match current.units.find? (fun u => some u.id = params.unitId) with
  | none => g
  | some unit =>
    match g.getCityAt unit.x unit.y with
    | some city =>
      if city.player ≠ current.id ∧ unit.canConquerCity then (unit.conquerCity city g).2 else g
    | none => g

/-- JavaScript `executeAIAction(action)` for an action object.  Without an agent the menu is `{}`,
so only `endTurn` passes the check; with an agent and no current player the menu
computation reads a property of `undefined`. -/
def Game.executeAIAction (g : Game) (action : Action) : Completion :=
  let actionName := if action.action = "" then "unknown" else action.action
  let parameters := action.parameters
  if actionName = "endTurn" then .ok g
  else
    match g.agent with
    | none => .ok g
    | some agent =>
      match g.currentPlayer with
      | none => .typeError g
      | some current =>
        if !g.isActionAvailable current actionName parameters then
          let agent1 := agent.recordFailedAction actionName
            "This action is not available in the current turn state"
          let agent2 := agent1.addChatMessage current.id
            ("I tried to " ++ actionName ++ ", but that action is not available right now.")
          .ok { g with agent := some agent2 }
        else if actionName = "upgradeCity" then .ok (g.aiUpgradeCity current parameters)
        else if actionName = "buyUnit" then .ok (g.aiBuyUnit current parameters)
        else if actionName = "moveUnit" then .ok (g.aiMoveUnit current parameters)
        else if actionName = "attackUnit" then .ok (g.aiAttackUnit current parameters)
        else if actionName = "foundCity" then .ok (g.aiFoundCity current parameters)
        else if actionName = "conquerCity" then .ok (g.aiConquerCity current parameters)
        else .ok g

/-! ## Specification vocabulary -/

/-- One operation on a diplomacy ledger. -/
inductive LedgerOp where
  | proposePeaceTreaty (playerId : Nat)
  | acceptPeaceTreaty (playerId : Nat)
  | rejectPeaceTreaty (playerId : Nat)
  | breakPeaceTreaty (playerId : Nat)
  | declareWar (playerId : Nat)
  | proposePeace (playerId : Nat)
  | processTurn
deriving DecidableEq, Repr

/-- The ledger after one operation. -/
def Diplomacy.step (d : Diplomacy) : LedgerOp → Diplomacy
  | .proposePeaceTreaty p => (d.proposePeaceTreaty p).2
  | .acceptPeaceTreaty p => (d.acceptPeaceTreaty p).2
  | .rejectPeaceTreaty p => (d.rejectPeaceTreaty p).2
  | .breakPeaceTreaty p => (d.breakPeaceTreaty p).2
  | .declareWar p => (d.declareWar p).2
  | .proposePeace p => (d.proposePeace p).2
  | .processTurn => d.processTurn

/-- The ledger after a sequence of operations, first to last. -/
def Diplomacy.run (d : Diplomacy) (ops : List LedgerOp) : Diplomacy :=
  ops.foldl Diplomacy.step d

/-- The tile a city stands on. -/
def City.tile (c : City) : Int × Int :=
  (c.x, c.y)

/-- Chebyshev distance of a city from the tile `(x, y)`. -/
def City.distanceTo (c : City) (x y : Int) : Int :=
  max |c.x - x| |c.y - y|

/-- The player object with id `pid` as the state holds it: the active player, else the
most recently eliminated one. -/
def Game.playerObject (g : Game) (pid : Nat) : Option Player :=
  match g.findPlayer pid with
  | some p => some p
  | none => g.eliminatedPlayers.reverse.find? (fun p => p.id = pid)

/-- The representation invariant of a game state: ids identify objects (no id is used
twice among the active players, the units of the global list, the cities on the board),
a roster lists each of its units once, holds only units of its player that are in the
global list, every unit of the global list is owned by an active player and is in that
player's roster, and every city is listed under the player it names as owner. -/
structure Game.WellFormed (g : Game) : Prop where
  playerIds : (g.players.map (fun p => p.id)).Nodup
  unitIds : (g.units.map (fun u => u.id)).Nodup
  cityIds : (g.allCities.map (fun c => c.id)).Nodup
  rosterNodup : ∀ p ∈ g.players, p.units.Nodup
  rosterOwned : ∀ p ∈ g.players, ∀ v ∈ p.units, v.player = p.id ∧ v ∈ g.units
  rosterComplete : ∀ v ∈ g.units, ∀ p ∈ g.players, v.player = p.id → v ∈ p.units
  unitOwnerActive : ∀ v ∈ g.units, ∃ p ∈ g.players, p.id = v.player
  cityOwned : ∀ p ∈ g.players, ∀ c ∈ p.cities, c.player = p.id

/-- The conquered city object before its territory is recomputed (unit.js 179-185). -/
def conqueredCity (u : Unit) (city : City) : City :=
  { (if city.level > 1 then { city with level := city.level - 1 } else city) with player := u.player }

/-- What `transferCity` makes of the player object `p`. -/
def transferPlayer (u : Unit) (city : City) (p : Player) : Player :=
  let p1 : Player :=
    if p.id = city.player then { p with cities := p.cities.eraseP (fun c => c.id = city.id) } else p
  let p2 : Player := if p1.id = u.player then p1.addCity (conqueredCity u city) else p1
  let p3 : Player :=
    { p2 with cities := p2.cities.map (fun c => if c.id = city.id then c.calculateTerritory else c) }
  { p3 with units := p3.units.map (fun v => if v.id = u.id then { v with hasPerformedAction := true } else v) }

/-- What a successful `foundCity` makes of the player object `p`: the owner gets the new
city and loses the colonizer. -/
def foundPlayer (u : Unit) (city : City) (p : Player) : Player :=
  if p.id = u.player then (p.addCity city).removeUnit u else p

/-- The statements of `aiAttackUnit` once its checks have passed (game.js 708-713): the
attack of `u` on `t`, and the removal of `t` from its owner's roster and from the
global list when the attack killed it. -/
def attackOutcome (u t : Unit) (g : Game) : Game :=
  if (u.attack t g).1 then
    Game.removeUnit (((u.attack t g).2).updatePlayer t.player (fun p => p.removeUnit t)) t
  else (u.attack t g).2

/-- What an attack of `u` on `t` makes of the unit object `v`: the object of `t` loses
`u.atk` hit points, the object of `u` is marked as having attacked. -/
def struck (u t v : Unit) : Unit :=
  let v1 : Unit := if v.id = t.id then { v with hp := v.hp - u.atk } else v
  if v1.id = u.id then { v1 with hasAttacked := true } else v1

/-- Every unit of the global list stands on a tile of the board. -/
def Game.unitsOnMap (g : Game) : Prop :=
  ∀ u ∈ g.units, 0 ≤ u.x ∧ u.x < (g.mapSize : Int) ∧ 0 ≤ u.y ∧ u.y < (g.mapSize : Int)

instance (g : Game) : Decidable g.unitsOnMap := by
  unfold Game.unitsOnMap
  infer_instance

/-- The radius the level table gives: 1 up to level 3, 2 for levels 4 to 6, 3 for levels
7 to 9, 4 from level 10 on. -/
def radiusOfLevel (level : Int) : Nat :=
  if level ≤ 3 then 1 else if level ≤ 6 then 2 else if level ≤ 9 then 3 else 4

/-- One event in the life of the cities of a game: the unit with id `unitId` founds a
city, the city with id `cityId` is upgraded, the unit with id `unitId` conquers the city
it stands on. -/
inductive CityOp
  | found (unitId : Nat)
  | upgrade (cityId : Nat)
  | conquer (unitId : Nat)
deriving DecidableEq, Repr

/-- The state after one city event.  As in `aiConquerCity` (game.js 735-747) the city a
unit conquers is the one `getCityAt` finds on its tile, and it is conquered only when it
names another player than the unit's as its owner.  An event that names no unit or city
of the state leaves the state as it is. -/
def Game.cityStep (g : Game) : CityOp → Game
  | .found unitId =>
    match g.units.find? (fun u => u.id = unitId) with
    | some u => (u.foundCity g).2
    | none => g
  | .upgrade cityId =>
    match g.allCities.find? (fun c => c.id = cityId) with
    | some city => (city.upgrade g).2
    | none => g
  | .conquer unitId =>
    match g.units.find? (fun u => u.id = unitId) with
    | some u =>
      match g.getCityAt u.x u.y with
      | some city => if city.player ≠ u.player then (u.conquerCity city g).2 else g
      | none => g
    | none => g

/-- The state after a sequence of city events, first to last. -/
def Game.cityRun (g : Game) (ops : List CityOp) : Game :=
  ops.foldl Game.cityStep g

/-- Whether a city event is a conquest. -/
def CityOp.isConquest : CityOp → Bool
  | .conquer _ => true
  | _ => false

/-- What a successful upgrade of `city` makes of the player object `p`: the owner pays the
cost, and the city object gains a level. -/
def upgradePlayer (city : City) (p : Player) : Player :=
  { (if p.id = city.player then (p.spend city.getUpgradeCost).2 else p) with
    cities := p.cities.map (fun c =>
      if c.id = city.id then
        City.calculateTerritory (City.updateRange
          { c with level := c.level + 1, population := c.population + 10 })
      else c) }

/-- The peace-treaty entries a ledger holds for the counterpart `playerId`. -/
def Diplomacy.treatiesWith (d : Diplomacy) (playerId : Nat) : List Treaty :=
  d.peaceTreaties.filter (fun treaty => treaty.playerId = playerId)

/-- The war entries a ledger holds for the counterpart `playerId`. -/
def Diplomacy.warsWith (d : Diplomacy) (playerId : Nat) : List War :=
  d.wars.filter (fun war => war.playerId = playerId)

/-- The ledger after `n` calls of `processTurn`. -/
def Diplomacy.elapse (d : Diplomacy) (n : Nat) : Diplomacy :=
  d.run (List.replicate n LedgerOp.processTurn)

/-- The ledger of the active player `pid`. -/
def Game.ledgerOf (g : Game) (pid : Nat) : Option Diplomacy :=
  (g.findPlayer pid).map (fun p => p.diplomacy)

/-- Every favor value of the ledger lies between -100 and 100. -/
def Diplomacy.favorBounded (d : Diplomacy) : Prop :=
  ∀ e ∈ d.favorMap, -100 ≤ e.2 ∧ e.2 ≤ 100

instance (d : Diplomacy) : Decidable d.favorBounded := by
  unfold Diplomacy.favorBounded
  infer_instance

/-! ## Agent: the oracle, the plan and the decision loop (agent.js 13-79, 591-673; game.js 405-455) -/

/-- An element of the `actions` array of a parsed reply.  `null` is the JSON value `null`.
An object is kept as the proposed action it denotes (`action` absent or falsy: `""`;
`parameters` absent or falsy: every field absent) together with the value of
`parameters.playerId`: `none` when `parameters` is falsy or has no `playerId`,
`some none` when it has one that equals the id of no player, `some (some n)` when it is
the number `n`.  JSON scalars as elements of the array are not represented. -/
inductive PlanItem where
  | null
  | object (action : Action) (playerId : Option (Option Nat))
deriving DecidableEq, Repr

/-- The fields `parseResponse` reads of a reply that is a JSON object: `intention` and
`action` (`none` when absent), `actions` (`none` when absent, falsy or not an array) and
`parameters` (`none` when absent or falsy). -/
structure ReplyObject where
  intention : Option String
  actions : Option (List PlanItem)
  action : Option String
  parameters : Option Params
deriving DecidableEq, Repr

/-- What `JSON.parse` makes of the text of a reply: it throws (`unparseable`, which also
stands for a reply that is no string), or returns `null`, a value every property of
which is `undefined` (`scalar`: a number, a string, a boolean, an array) or an object. -/
inductive Response where
  | unparseable
  | null
  | scalar
  | object (o : ReplyObject)
deriving DecidableEq, Repr

/-- The outcome of one call of `callOllama`: the call throws, or returns a response. -/
inductive OracleReply where
  | failure
  | response (r : Response)
deriving DecidableEq, Repr

/-- The plan `parseResponse` returns. -/
structure ActionPlan where
  intention : Option String
  actions : List Action
deriving DecidableEq, Repr

/-- The object `{}` as `parameters`. -/
def Params.empty : Params :=
  { cityId := none, unitType := none, unitId := none, id := none, x := none, y := none }

/-- The action `{ action: "endTurn", parameters: {} }`. -/
def Action.endTurn : Action :=
  Action.mk "endTurn" Params.empty

/-- The plan `parseResponse` returns from its `catch` block (agent.js 662-672). -/
def ActionPlan.fallback : ActionPlan :=
  { intention := some "Error parsing response, using fallback action"
    actions := [Action.endTurn] }

/-- Truthiness of a string-valued field: present and not `""`. -/
def truthy (s : Option String) : Bool :=
  match s with
  | none => false
  | some v => decide (v ≠ "")

/-- The loop of `parseResponse` over the `actions` array (agent.js 614-641).  It returns
the actions left in the array, `none` when a `TypeError` is thrown (an element is
`null`, or there is no current player), and the state reached.  The name of the player
in the chat message, which the `Player` objects here do not keep, is written as its
id. -/
def Agent.handleDiplomacy : List PlanItem → Game → Option (List Action) × Game
  | [], g => (some [], g)
  | PlanItem.null :: _, g => (none, g)
  | PlanItem.object action playerId :: rest, g =>
    if action.action = "acceptPeaceTreaty" ∧ playerId.isSome then
      match g.currentPlayer with
      | none => (none, g)
      | some current =>
        let r : Bool × Game :=
          match playerId with
          | some (some fromPlayerId) => g.acceptPeaceTreaty fromPlayerId current.id
          | _ => (false, g)
        let g1 : Game :=
          if r.1 then
            { r.2 with agent := r.2.agent.map (fun a => a.addChatMessage current.id
                ("I accept the peace treaty from " ++ toString (playerId.join.getD 0) ++
                  ". Let's prosper together!")) }
          else r.2
        Agent.handleDiplomacy rest g1
    else if action.action = "rejectPeaceTreaty" ∧ playerId.isSome then
      match g.currentPlayer with
      | none => (none, g)
      | some current =>
        let r : Bool × Game :=
          match playerId with
          | some (some fromPlayerId) => g.rejectPeaceTreaty fromPlayerId current.id
          | _ => (false, g)
        let g1 : Game :=
          if r.1 then
            { r.2 with agent := r.2.agent.map (fun a => a.addChatMessage current.id
                ("I reject the peace treaty from " ++ toString (playerId.join.getD 0) ++
                  ". Now is not the time for peace.")) }
          else r.2
        Agent.handleDiplomacy rest g1
    else
      let r := Agent.handleDiplomacy rest g
      (r.1.map (fun kept => action :: kept), r.2)

/-- JavaScript `parseResponse(response)` on the value `JSON.parse` yields: the plan returned and
the state reached. -/
def Agent.parseResponse (g : Game) : Response → ActionPlan × Game
  | Response.unparseable => (ActionPlan.fallback, g)
  | Response.null => (ActionPlan.fallback, g)
  | Response.scalar => (ActionPlan.fallback, g)
  | Response.object o =>
    match o.actions with
    | some items =>
      if !truthy o.intention || items.length = 0 then (ActionPlan.fallback, g)
      else
        match Agent.handleDiplomacy items g with
        | (some kept, g1) => ({ intention := o.intention, actions := kept }, g1)
        | (none, g1) => (ActionPlan.fallback, g1)
    | none =>
      if !truthy o.action || !truthy o.intention then (ActionPlan.fallback, g)
      else
        ({ intention := o.intention
           actions := [Action.mk (o.action.getD "") (o.parameters.getD Params.empty)] }, g)

/-- Whether some kind of action other than `endTurn` is on the menu (agent.js 30-34). -/
def Agent.hasActions (menu : AvailableActions) : Bool :=
  menu.upgradeCity.length > 0 || menu.buyUnit.length > 0 || menu.moveUnit.length > 0 ||
    menu.attackUnit.length > 0 || menu.foundCity.length > 0 || menu.conquerCity.length > 0

/-- What one call of `getAction` yields: the action returned, the state reached, and the
number of calls of the oracle made so far. -/
structure Decision where
  action : Action
  game : Game
  calls : Nat
deriving DecidableEq, Repr

/-- JavaScript `getAction(player)` (agent.js 13-79) for the agent `agent` of the game `g`.  The
oracle is given by its replies: `oracle k` is the outcome of call number `k` of
`callOllama`, and `calls` counts the calls made.  `callOllama` throws before it sends
its request when `player` is not among the players (agent.js 407). -/
def Agent.getAction (agent : Agent) (g : Game) (player : Option Player)
    (oracle : Nat → OracleReply) (calls : Nat) : Decision :=
  match agent.pendingActions with
  | next :: rest =>
    Decision.mk next { g with agent := some { agent with pendingActions := rest } } calls
  | [] =>
    match player with
    | none => Decision.mk Action.endTurn g calls
    | some player =>
      if !Agent.hasActions (Agent.evaluateAvailableActions g player) then
        Decision.mk Action.endTurn
          { g with agent := some (agent.addChatMessage player.id "Nothing else I can do this turn.") }
          calls
      else if (g.findPlayer player.id).isNone then Decision.mk Action.endTurn g calls
      else
        match oracle calls with
        | OracleReply.failure => Decision.mk Action.endTurn g (calls + 1)
        | OracleReply.response r =>
          let parsed := Agent.parseResponse g r
          let actionPlan := parsed.1
          let g1 : Game :=
            if truthy actionPlan.intention then
              { parsed.2 with agent := parsed.2.agent.map (fun a =>
                  Agent.addChatMessage { a with actionIntention := actionPlan.intention }
                    player.id (actionPlan.intention.getD "")) }
            else parsed.2
          let g2 : Game :=
            if actionPlan.actions.length > 1 then
              { g1 with agent := g1.agent.map (fun a =>
                  { a with pendingActions := actionPlan.actions.tail }) }
            else g1
          Decision.mk (actionPlan.actions.head?.getD Action.endTurn) g2 (calls + 1)

/-- The state, the number of oracle calls and the number of iterations with which the
decision loop ends. -/
structure LoopResult where
  completion : Completion
  calls : Nat
  iterations : Nat
deriving DecidableEq, Repr

/-- The `while` loop of `processAITurn` (game.js 419-439), run for at most `fuel`
iterations: `none` when the loop has not ended by then.  A `TypeError` (no agent, or
thrown by `executeAIAction`) leaves the loop. -/
def Game.decisionLoop (oracle : Nat → OracleReply) :
    Nat → Game → Nat → Nat → Option LoopResult
  | 0, _, _, _ => none
  | fuel + 1, g, calls, iterations =>
    if g.players.length > 1 then
      match g.agent with
      | none => some (LoopResult.mk (Completion.typeError g) calls (iterations + 1))
      | some agent =>
        let decision := agent.getAction g g.currentPlayer oracle calls
        if decision.action.action = "endTurn" then
          some (LoopResult.mk (Completion.ok decision.game) decision.calls (iterations + 1))
        else
          match decision.game.executeAIAction decision.action with
          | Completion.ok g2 => Game.decisionLoop oracle fuel g2 decision.calls (iterations + 1)
          | Completion.typeError g2 =>
            some (LoopResult.mk (Completion.typeError g2) decision.calls (iterations + 1))
    else some (LoopResult.mk (Completion.ok g) calls iterations)

/-- JavaScript `processAITurn()` (game.js 405-455) with a loop of at most `fuel` iterations: after
the loop, or after a `TypeError` in it, the turn is advanced by `nextTurn()`. -/
def Game.processAITurn (g : Game) (oracle : Nat → OracleReply) (fuel calls : Nat) :
    Option LoopResult :=
  if !g.agentMode || g.players.length ≤ 1 then some (LoopResult.mk (Completion.ok g) calls 0)
  else
    match Game.decisionLoop oracle fuel g calls 0 with
    | none => none
    | some (LoopResult.mk (Completion.ok g1) c n) =>
      some (LoopResult.mk (if g1.players.length > 1 then g1.nextTurn else Completion.ok g1) c n)
    | some (LoopResult.mk (Completion.typeError g1) c n) => some (LoopResult.mk g1.nextTurn c n)

/-- The actions `k` successive calls of `getAction(player)` return, the state reached and
the number of oracle calls made; `none` when the game has no agent. -/
def Game.getActions (oracle : Nat → OracleReply) (player : Option Player) :
    Nat → Game → Nat → Option (List Action × Game × Nat)
  | 0, g, calls => some ([], g, calls)
  | k + 1, g, calls =>
    match g.agent with
    | none => none
    | some agent =>
      let decision := agent.getAction g player oracle calls
      (Game.getActions oracle player k decision.game decision.calls).map
        (fun r => (decision.action :: r.1, r.2))

/-- The writes `getPlayerTerritories` makes into its map, first to last: for each player,
for each of its cities, the tile of the city and then the tiles of its territory, each
written with the id of the player. -/
def Game.territoryClaims (g : Game) : List ((Int × Int) × Nat) :=
  g.players.flatMap (fun player => player.cities.flatMap (fun city =>
    ((city.x, city.y), player.id) :: city.territory.map (fun tile => ((tile.x, tile.y), player.id))))

/-- The players one of whose cities stands on the tile `(x, y)` or lists it in its
territory, in the order of the players. -/
def Game.claimants (g : Game) (x y : Int) : List Nat :=
  (g.players.filter (fun player => player.cities.any (fun city =>
    decide ((city.x, city.y) = (x, y)) ||
      city.territory.any (fun tile => decide ((tile.x, tile.y) = (x, y)))))).map (fun p => p.id)

/-- The amount `processDiplomaticEvents` adds to the favor of `player` toward `other`,
given the territory map. -/
def scanAmount (territories : List ((Int × Int) × Nat)) (player other : Player) : Int :=
  if territoryViolation territories player.id other.units then -10
  else if borderViolation territories player.id other.units then -5
  else 1

/-- The ledger of `player` after the inner loop of `processDiplomaticEvents` over `others`,
started from the ledger `d`. -/
def scanLedger (territories : List ((Int × Int) × Nat)) (player : Player) (others : List Player)
    (d : Diplomacy) : Diplomacy :=
  others.foldl (fun d other =>
    if player.id = other.id then d
    else if player.diplomacy.isAtWar other.id then d
    else (d.changeFavor other.id (scanAmount territories player other)).2) d

/-- The ledger of `p` after the outer loop of `processDiplomaticEvents` over `l`: the
inner loop is run on it for each player of `l` with the id of `p`. -/
def scanRounds (g : Game) (l : List Player) (p : Player) : Diplomacy :=
  l.foldl (fun d player =>
    if p.id = player.id then scanLedger g.getPlayerTerritories player g.players d else d) p.diplomacy

/-! ## UI: the territory shown and the click handler (ui.js 82-205, 350-371) -/

/-- What `ui.selectedEntity` can hold: a unit object or a city object, as it is when the
click is handled. -/
inductive Entity where
  | unit (u : Unit)
  | city (c : City)
deriving DecidableEq, Repr

/-- The first loop of JavaScript `renderTerritory()`: the map from tile `(x, y)` to the claim
`(player id, level)` shown for it.  The tile of a city is written with the level
`Number.MAX_SAFE_INTEGER`; a territory tile on the board replaces an entry of lower level.
The result is `none` when a city stands on a row outside the board, where the row read
from `territoryMap` is `undefined`. -/
def UI.territoryMap (g : Game) : Option (List ((Int × Int) × (Nat × Int))) :=
  let mapSize : Int := g.mapSize
  g.players.foldl (fun acc player =>
    player.cities.foldl (fun acc (city : City) =>
      match acc with
      | none => none
      | some territoryMap =>
        if 0 ≤ city.y ∧ city.y < mapSize then
          some (city.territory.foldl (fun territoryMap (tile : Tile) =>
            if 0 ≤ tile.x ∧ tile.x < mapSize ∧ 0 ≤ tile.y ∧ tile.y < mapSize then
              match mapGet territoryMap (tile.x, tile.y) with
              | none => mapSet territoryMap (tile.x, tile.y) (player.id, tile.level)
              | some claim =>
                if claim.2 < tile.level then mapSet territoryMap (tile.x, tile.y) (player.id, tile.level)
                else territoryMap
            else territoryMap)
            (mapSet territoryMap (city.x, city.y) (player.id, 9007199254740991)))
        else none) acc) (some [])

/-- JavaScript `handleClick(x, y)`, with `selectedEntity` the value of `ui.selectedEntity`
and `isProcessingAITurn` the flag of the game: returns the updated state and the new
selection.  The panels shown and the rendering are left out. -/
def UI.handleClick (g : Game) (selectedEntity : Option Entity) (isProcessingAITurn : Bool)
    (x y : Int) : Game × Option Entity :=
  if isProcessingAITurn then (g, selectedEntity)
  else
    let clickedUnit := g.getUnitAt x y
    let clickedCity := g.getCityAt x y
    let isCurrent : Nat → Bool := fun pid => g.currentPlayer.map (fun p => p.id) = some pid
    let select : Game × Option Entity :=
      match clickedUnit, clickedCity with
      | some unit, _ => (g, some (Entity.unit unit))
      | none, some city => (g, some (Entity.city city))
      | none, none => (g, none)
    match selectedEntity with
    | some (Entity.unit selected) =>
      if clickedUnit.isNone ∧ clickedCity.isNone ∧ isCurrent selected.player ∧
          selected.canMoveTo x y g then
        (g.updateUnit selected.id (fun u => u.move x y), none)
      else
        let attacked : Option (Game × Option Entity) :=
          match clickedUnit with
          | some target =>
            if ¬ isCurrent target.player ∧ selected.hasAttacked = false ∧
                inAttackRange (target.x - selected.x) (target.y - selected.y) then
              let r := selected.attack target g
              if r.1 then
                some (Game.removeUnit (r.2.updatePlayer target.player (fun p => p.removeUnit target))
                  target, none)
              else some (r.2, none)
            else none
          | none => none
        match attacked with
        | some result => result
        | none =>
          match clickedCity with
          | some city =>
            if ¬ isCurrent city.player ∧ isCurrent selected.player ∧ selected.canMoveTo x y g then
              (g.updateUnit selected.id (fun u => u.move x y), some (Entity.unit (selected.move x y)))
            else if ¬ isCurrent city.player ∧ selected.x = city.x ∧ selected.y = city.y ∧
                selected.canConquerCity then
              (g, selectedEntity)
            else select
          | none => select
    | _ => select

/-- Roster consistency: every roster holds units of its player that are in the global unit
list, and every unit of the global list is in the roster of an active player, its owner. -/
def Game.rostersConsistent (g : Game) : Prop :=
  (∀ p ∈ g.players, ∀ v ∈ p.units, v.player = p.id ∧ v ∈ g.units) ∧
  (∀ v ∈ g.units, ∃ p ∈ g.players, p.id = v.player ∧ v ∈ p.units)

instance (g : Game) : Decidable g.rostersConsistent := by
  unfold Game.rostersConsistent
  infer_instance

/-- No two units of the global list stand on the same tile. -/
def Game.tilesDistinct (g : Game) : Prop :=
  (g.units.map (fun u => (u.x, u.y))).Nodup

instance (g : Game) : Decidable g.tilesDistinct := by
  unfold Game.tilesDistinct
  infer_instance

/-- One game-level diplomacy operation (game.js 264-335), from one player to another. -/
inductive DiplomacyOp where
  | proposePeaceTreaty (fromPlayerId toPlayerId : Nat)
  | acceptPeaceTreaty (fromPlayerId toPlayerId : Nat)
  | rejectPeaceTreaty (fromPlayerId toPlayerId : Nat)
  | breakPeaceTreaty (fromPlayerId toPlayerId : Nat)
  | declareWar (fromPlayerId toPlayerId : Nat)
  | proposePeace (fromPlayerId toPlayerId : Nat)
deriving DecidableEq, Repr

/-- The state after one game-level diplomacy operation. -/
def Game.diplomacyStep (g : Game) : DiplomacyOp → Game
  | .proposePeaceTreaty a b => (g.proposePeaceTreaty a b).2
  | .acceptPeaceTreaty a b => (g.acceptPeaceTreaty a b).2
  | .rejectPeaceTreaty a b => (g.rejectPeaceTreaty a b).2
  | .breakPeaceTreaty a b => (g.breakPeaceTreaty a b).2
  | .declareWar a b => (g.declareWar a b).2
  | .proposePeace a b => (g.proposePeace a b).2

/-- The state after a sequence of game-level diplomacy operations, first to last. -/
def Game.diplomacyRun (g : Game) (ops : List DiplomacyOp) : Game :=
  ops.foldl Game.diplomacyStep g

/-- The ledger holds at most one war entry for each counterpart. -/
def Diplomacy.warsDistinct (d : Diplomacy) : Prop :=
  (d.wars.map (fun war => war.playerId)).Nodup

instance (d : Diplomacy) : Decidable d.warsDistinct := by
  unfold Diplomacy.warsDistinct
  infer_instance

/-- The ledger holds at most one peace-treaty entry for each counterpart. -/
def Diplomacy.treatiesDistinct (d : Diplomacy) : Prop :=
  (d.peaceTreaties.map (fun treaty => treaty.playerId)).Nodup

instance (d : Diplomacy) : Decidable d.treatiesDistinct := by
  unfold Diplomacy.treatiesDistinct
  infer_instance

/-- The cached territory size of the player is the sum of the territory sizes of its
cities. -/
def Player.territoryCached (p : Player) : Prop :=
  p.territorySize = (p.cities.map (fun city => city.territorySize)).sum

instance (p : Player) : Decidable p.territoryCached := by
  unfold Player.territoryCached
  infer_instance

/-! ## Scenarios -/

namespace Scenario

/-- A player as `createPlayers` and `initializeDiplomacy` leave it in a game of the
players `others`, with the given cities and units. -/
def player (id : Nat) (others : List Nat) (cities : List City) (units : List Unit) : Player :=
  Player.updateTerritorySize
    (Player.mk id 10 cities units 0 false ((Diplomacy.new id).initializeRelations others))

/-- The player whose turn it is: `player` with `isActive` set. -/
def activePlayer (id : Nat) (others : List Nat) (cities : List City) (units : List Unit) : Player :=
  { player id others cities units with isActive := true }

/-- A soldier of player `owner` at `(x, y)` that has not acted this turn. -/
def soldier (id : Nat) (x y : Int) (owner : Nat) : Unit :=
  Unit.mk id x y owner "soldier" false false false 5 5 2 1 3

/-- A colonizer of player `owner` at `(x, y)` that has not acted this turn. -/
def colonizer (id : Nat) (x y : Int) (owner : Nat) : Unit :=
  Unit.mk id x y owner "colonizer" false false false 3 3 1 1 10

/-- Three players with one level-1 city each, at (0,0), (5,5) and (9,9).  It is the turn
of player 1, whose soldier stands on the city of player 2; player 2 has a soldier of its
own at (9,8). -/
def siege : Game :=
  { mapSize := 10
    playerCount := 3
    players :=
      [player 0 [0, 1, 2] [City.new 1 0 0 0] [],
       activePlayer 1 [0, 1, 2] [City.new 2 5 5 1] [soldier 1 9 9 1],
       player 2 [0, 1, 2] [City.new 3 9 9 2] [soldier 2 9 8 2]]
    currentPlayerIndex := 1
    currentTurn := 6
    units := [soldier 1 9 9 1, soldier 2 9 8 2]
    hasPurchasedUnitThisTurn := false
    eliminatedPlayers := []
    agentMode := false
    agent := none
    nextUnitId := 3
    nextCityId := 4 }

/-- Two players at the start of a game, no units yet: cities at (0,0) and (5,5). -/
def opening : Game :=
  { mapSize := 10
    playerCount := 2
    players :=
      [activePlayer 0 [0, 1] [City.new 1 0 0 0] [],
       player 1 [0, 1] [City.new 2 5 5 1] []]
    currentPlayerIndex := 0
    currentTurn := 1
    units := []
    hasPurchasedUnitThisTurn := false
    eliminatedPlayers := []
    agentMode := true
    agent := some (Agent.mk [] [] none [])
    nextUnitId := 1
    nextCityId := 3 }

/-- The state `opening` with a colonizer of player 0 at `(x, y)`. -/
def settling (x y : Int) (hasAttacked : Bool) : Game :=
  { opening with
    players :=
      [activePlayer 0 [0, 1] [City.new 1 0 0 0]
        [{ colonizer 1 x y 0 with hasAttacked := hasAttacked }],
       player 1 [0, 1] [City.new 2 5 5 1] []]
    units := [{ colonizer 1 x y 0 with hasAttacked := hasAttacked }]
    nextUnitId := 2 }

/-- The state after the soldier of player 1 has conquered the city of player 2 in `siege`. -/
def afterSiege : Game :=
  ((soldier 1 9 9 1).conquerCity (City.new 3 9 9 2) siege).2

/-- The state `opening` after `proposePeaceTreaty(0, 1)`. -/
def proposed : Game :=
  (opening.proposePeaceTreaty 0 1).2

/-- Declare war on player 1, let ten turns pass, propose peace and accept the treaty. -/
def warThenPeace : List LedgerOp :=
  [LedgerOp.declareWar 1] ++ List.replicate 10 LedgerOp.processTurn ++
    [LedgerOp.proposePeace 1, LedgerOp.acceptPeaceTreaty 1]

/-- The colonizer of `settling x y true`: it has attacked this turn. -/
def attacker (x y : Int) : Unit :=
  { colonizer 1 x y 0 with hasAttacked := true }

/-- The parameters `{ cityId: 1, unitType: "colonizer" }`. -/
def buyColonizer : Params :=
  { cityId := some 1, unitType := some "colonizer", unitId := none, id := none, x := none, y := none }

/-- The state `opening` with a soldier of player 0 at `(ax, ay)` and a soldier of player 1
at (4,4) that has `hp` hit points left. -/
def standoff (ax ay hp : Int) : Game :=
  { opening with
    players :=
      [activePlayer 0 [0, 1] [City.new 1 0 0 0] [soldier 1 ax ay 0],
       player 1 [0, 1] [City.new 2 5 5 1] [{ soldier 2 4 4 1 with hp := hp }]]
    units := [soldier 1 ax ay 0, { soldier 2 4 4 1 with hp := hp }]
    nextUnitId := 3 }

/-- The state `standoff` after each player has proposed a peace treaty to the other and
player 0 has accepted: each ledger holds a treaty with the other player. -/
def truce (ax ay hp : Int) : Game :=
  ((((standoff ax ay hp).proposePeaceTreaty 1 0).2.proposePeaceTreaty 0 1).2.acceptPeaceTreaty 0 1).2

/-- The parameters `{ unitId: 1, x: 4, y: 4 }`. -/
def strike : Params :=
  { cityId := none, unitType := none, unitId := some 1, id := none, x := some 4, y := some 4 }

/-- The parameters `{ unitId: 1, x: 10, y: 0 }`. -/
def stepOff : Params :=
  { cityId := none, unitType := none, unitId := some 1, id := none, x := some 10, y := some 0 }

/-- The state `siege` with 300 coins in the hands of player 2. -/
def wealthySiege : Game :=
  siege.updatePlayer 2 (fun p => { p with coins := 300 })

/-- Player 2 upgrades its city three times, then the soldier of player 1 conquers it. -/
def riseAndFall : List CityOp :=
  [CityOp.upgrade 3, CityOp.upgrade 3, CityOp.upgrade 3, CityOp.conquer 1]

/-- The ledger of player 0 as `initializeDiplomacy` leaves it in a game of players 0, 1
and 2. -/
def ledger : Diplomacy :=
  (Diplomacy.new 0).initializeRelations [0, 1, 2]

/-- Accept a peace treaty proposed by player 1. -/
def calm : List LedgerOp :=
  [LedgerOp.proposePeaceTreaty 1, LedgerOp.acceptPeaceTreaty 1]

/-- Declare war on player 2, then accept a peace treaty proposed by player 1. -/
def atOdds : List LedgerOp :=
  [LedgerOp.declareWar 2, LedgerOp.proposePeaceTreaty 1, LedgerOp.acceptPeaceTreaty 1]

/-- Accept a peace treaty proposed by player 1, twice. -/
def twice : List LedgerOp :=
  calm ++ calm

/-- The state `opening` after player 0 has twice proposed a peace treaty to player 1 and
player 1 has accepted each time: the ledger of player 1 holds two treaty entries for
player 0. -/
def doubleTreaty : Game :=
  ((((opening.proposePeaceTreaty 0 1).2.acceptPeaceTreaty 0 1).2.proposePeaceTreaty 0 1).2.acceptPeaceTreaty
    0 1).2

/-- The state in which every ledger of `g` has seen `n` more calls of `processTurn`. -/
def later (n : Nat) (g : Game) : Game :=
  { g with players := g.players.map (fun p => { p with diplomacy := p.diplomacy.elapse n }) }

/-- The state `opening` ten rounds after war was declared between players 0 and 1. -/
def longWar : Game :=
  later 10 (opening.declareWar 0 1).2

/-- Player 1 of `truce 3 3 5`: one city of level 1, 10 coins, one peace treaty (with
player 0). -/
def truceHolder : Player :=
  { player 1 [0, 1] [City.new 2 5 5 1] [soldier 2 4 4 1] with
    diplomacy :=
      ((Diplomacy.new 1).initializeRelations [0, 1]).run
        [LedgerOp.proposePeaceTreaty 0, LedgerOp.acceptPeaceTreaty 0] }

/-- The state `opening` after player 0 has bought a unit this turn and lost it: the
purchase gate is closed, the 10 coins do not pay for an upgrade and there is no unit. -/
def idle : Game :=
  { opening with hasPurchasedUnitThisTurn := true }

/-- The parameters `{ unitId: 1, x: x, y: y }`. -/
def moveTo (x y : Int) : Params :=
  { cityId := none, unitType := none, unitId := some 1, id := none, x := some x, y := some y }

/-- A reply with an intention and a plan of two moves of unit 1. -/
def twoMoves : ReplyObject :=
  { intention := some "Explore the coast"
    actions := some [PlanItem.object (Action.mk "moveUnit" (moveTo 8 0)) none,
      PlanItem.object (Action.mk "moveUnit" (moveTo 7 0)) none]
    action := none
    parameters := none }

/-- An oracle that answers every call with the same reply. -/
def always (reply : OracleReply) : Nat → OracleReply :=
  fun _ => reply

/-- Player 0 of `settling 9 0 false`. -/
def settler : Player :=
  activePlayer 0 [0, 1] [City.new 1 0 0 0] [colonizer 1 9 0 0]

/-- The two moves of `twoMoves`. -/
def coastPlan : List (Action × Option (Option Nat)) :=
  [(Action.mk "moveUnit" (moveTo 8 0), none), (Action.mk "moveUnit" (moveTo 7 0), none)]

/-- Two players with 2000 coins each and cities two tiles apart, at (0,0) and (2,0). -/
def frontier : Game :=
  { opening with
    players :=
      [{ activePlayer 0 [0, 1] [City.new 1 0 0 0] [] with coins := 2000 },
       { player 1 [0, 1] [City.new 2 2 0 1] [] with coins := 2000 }] }

/-- The state `frontier` after player 0 has upgraded its city six times (level 7, range 3)
and player 1 its city three times (level 4, range 2). -/
def contested : Game :=
  frontier.cityRun [CityOp.upgrade 1, CityOp.upgrade 1, CityOp.upgrade 1, CityOp.upgrade 1,
    CityOp.upgrade 1, CityOp.upgrade 1, CityOp.upgrade 2, CityOp.upgrade 2, CityOp.upgrade 2]

/-- Player 0 proposes a peace treaty to player 1 and player 1 accepts, twice over. -/
def renewedTreaty : List DiplomacyOp :=
  [DiplomacyOp.proposePeaceTreaty 0 1, DiplomacyOp.acceptPeaceTreaty 0 1,
   DiplomacyOp.proposePeaceTreaty 0 1, DiplomacyOp.acceptPeaceTreaty 0 1]

/-- The state `frontier` after player 0 has upgraded its city twice: level 3, range 1. -/
def beforeGrowth : Game :=
  frontier.cityRun [CityOp.upgrade 1, CityOp.upgrade 1]

/-- The action `{ action: 'upgradeCity', parameters: { cityId: 1 } }`. -/
def upgradeFirst : Action :=
  Action.mk "upgradeCity"
    { cityId := some 1, unitType := none, unitId := none, id := none, x := none, y := none }

/-- The state `siege` in which player 2 owns a second city, at (6,9). -/
def twoCities : Game :=
  { siege with
    players :=
      [player 0 [0, 1, 2] [City.new 1 0 0 0] [],
       activePlayer 1 [0, 1, 2] [City.new 2 5 5 1] [soldier 1 9 9 1],
       player 2 [0, 1, 2] [City.new 3 9 9 2, City.new 4 6 9 2] [soldier 2 9 8 2]]
    nextCityId := 5 }

/-- Three players, the turn of player 0, who has no unit: a soldier of player 1 at (9,9)
and a soldier of player 2 next to it, at (9,8). -/
def bystander : Game :=
  { siege with
    players :=
      [activePlayer 0 [0, 1, 2] [City.new 1 0 0 0] [],
       player 1 [0, 1, 2] [City.new 2 5 5 1] [soldier 1 9 9 1],
       player 2 [0, 1, 2] [City.new 3 9 9 2] [soldier 2 9 8 2]]
    currentPlayerIndex := 0 }

/-- The parameters `{ unitId: 1, x: 9, y: 8 }`. -/
def strikeNorth : Params :=
  { cityId := none, unitType := none, unitId := some 1, id := none, x := some 9, y := some 8 }

/-- The state `settling 9 0 false` after player 1 has proposed a peace treaty to player 0:
the proposal is pending in the ledger of player 0. -/
def courted : Game :=
  ((settling 9 0 false).proposePeaceTreaty 1 0).2

/-- Player 0 of `courted`. -/
def courtedSettler : Player :=
  { settler with diplomacy := (settler.diplomacy.proposePeaceTreaty 1).2 }

/-- A reply with an intention and three actions: accept the peace treaty of player 1, buy
a colonizer in city 1, move unit 1 to (8,0). -/
def treatyThenBuild : ReplyObject :=
  { intention := some "Make peace, then expand"
    actions := some [PlanItem.object (Action.mk "acceptPeaceTreaty" Params.empty) (some (some 1)),
      PlanItem.object (Action.mk "buyUnit" buyColonizer) none,
      PlanItem.object (Action.mk "moveUnit" (moveTo 8 0)) none]
    action := none
    parameters := none }

/-- The actions of `treatyThenBuild` other than the acceptance of the treaty. -/
def buildPlan : List Action :=
  [Action.mk "buyUnit" buyColonizer, Action.mk "moveUnit" (moveTo 8 0)]

/-- A reply in the single-action format: move unit 1 to (8,0). -/
def singleMove : ReplyObject :=
  { intention := some "Head west"
    actions := none
    action := some "moveUnit"
    parameters := some (moveTo 8 0) }

end Scenario

/-! ## Lemmas on lists and on the object updates -/


/-- Erasing the first entry with a key that is used once keeps the entries with another key. -/
theorem eraseP_key_eq_filter {α : Type} (f : α → Nat) (i : Nat) (l : List α)
    (h : (l.map f).Nodup) :
    l.eraseP (fun a => decide (f a = i)) = l.filter (fun a => decide (f a ≠ i)) := by
  induction l with
  | nil => rfl
  | cons a t ih =>
    simp only [List.map_cons, List.nodup_cons] at h
    by_cases ha : f a = i
    · have ht : ∀ b ∈ t, f b ≠ i := by
        intro b hb hbi
        exact h.1 (List.mem_map.mpr ⟨b, hb, by rw [hbi, ha]⟩)
      have hfil : t.filter (fun a => !decide (f a = i)) = t := by
        rw [List.filter_eq_self]
        intro b hb
        simpa using ht b hb
      simp [List.eraseP_cons, ha, List.filter_cons, hfil]
    · simp [List.eraseP_cons, ha, List.filter_cons, ih h.2]

/-- Membership after erasing, one after the other, the first entries whose keys are those
of `r`, when every key of `l` is used once. -/
theorem mem_foldl_eraseP_key {α : Type} (f : α → Nat) (r : List α) (l : List α)
    (h : (l.map f).Nodup) (a : α) :
    a ∈ r.foldl (fun us x => us.eraseP (fun b => decide (f b = f x))) l ↔
      a ∈ l ∧ ∀ x ∈ r, f a ≠ f x := by
  induction r generalizing l with
  | nil => simp
  | cons x t ih =>
    simp only [List.foldl_cons]
    have hsub : ((l.eraseP (fun b => decide (f b = f x))).map f).Nodup :=
      List.Nodup.sublist ((List.eraseP_sublist l).map f) h
    rw [ih _ hsub, eraseP_key_eq_filter f (f x) l h]
    simp only [List.mem_filter, ne_eq, decide_not, Bool.not_eq_true', decide_eq_false_iff_not,
      List.mem_cons, forall_eq_or_imp]
    tauto

/-- A roster is empty once each of its units has been removed from it. -/
theorem removeUnit_all_units (r : List Unit) (p : Player) (h : p.units = r) :
    (r.foldl (fun q unit => q.removeUnit unit) p).units = [] := by
  induction r generalizing p with
  | nil => simpa using h
  | cons x t ih =>
    simp only [List.foldl_cons]
    apply ih
    simp [Player.removeUnit, h, List.eraseP_cons]


/-! ### Projections of the object updates -/

@[simp] theorem Player.addCity_id (p : Player) (c : City) : (p.addCity c).id = p.id := rfl
@[simp] theorem Player.addCity_cities (p : Player) (c : City) : (p.addCity c).cities = p.cities ++ [c] := rfl
@[simp] theorem Player.addCity_units (p : Player) (c : City) : (p.addCity c).units = p.units := rfl
@[simp] theorem Player.removeUnit_id (p : Player) (u : Unit) : (p.removeUnit u).id = p.id := rfl
@[simp] theorem Player.removeUnit_cities (p : Player) (u : Unit) : (p.removeUnit u).cities = p.cities := rfl

theorem transferCity_players (u : Unit) (city : City) (g : Game) :
    (u.transferCity city g).players = g.players.map (transferPlayer u city) := by
  simp only [Unit.transferCity, Game.updatePlayer, Game.updateCity, Game.updateUnit, List.map_map]
  rfl

theorem transferCity_units (u : Unit) (city : City) (g : Game) :
    (u.transferCity city g).units =
      g.units.map (fun v => if v.id = u.id then { v with hasPerformedAction := true } else v) := rfl

theorem transferCity_eliminated (u : Unit) (city : City) (g : Game) :
    (u.transferCity city g).eliminatedPlayers = g.eliminatedPlayers := rfl

theorem transferCity_index (u : Unit) (city : City) (g : Game) :
    (u.transferCity city g).currentPlayerIndex = g.currentPlayerIndex := rfl

theorem transferPlayer_id (u : Unit) (city : City) (p : Player) :
    (transferPlayer u city p).id = p.id := by
  unfold transferPlayer
  dsimp only
  split_ifs <;> simp_all

theorem transferPlayer_units (u : Unit) (city : City) (p : Player) :
    (transferPlayer u city p).units =
      p.units.map (fun v => if v.id = u.id then { v with hasPerformedAction := true } else v) := by
  unfold transferPlayer
  dsimp only
  split_ifs <;> simp_all

theorem transferPlayer_cities (u : Unit) (city : City) (p : Player) :
    (transferPlayer u city p).cities =
      ((if p.id = city.player then p.cities.eraseP (fun c => c.id = city.id) else p.cities) ++
        (if p.id = u.player then [conqueredCity u city] else [])).map
        (fun c => if c.id = city.id then c.calculateTerritory else c) := by
  unfold transferPlayer
  dsimp only
  split_ifs <;> simp_all


theorem findPlayer_id {g : Game} {pid : Nat} {p : Player} (h : g.findPlayer pid = some p) :
    p.id = pid := by
  have := List.find?_some h
  simpa using this

theorem findPlayer_mem {g : Game} {pid : Nat} {p : Player} (h : g.findPlayer pid = some p) :
    p ∈ g.players :=
  List.mem_of_find?_eq_some h

theorem transferCity_findPlayer (u : Unit) (city : City) (g : Game) (pid : Nat) :
    (u.transferCity city g).findPlayer pid = (g.findPlayer pid).map (transferPlayer u city) := by
  unfold Game.findPlayer
  rw [transferCity_players, List.find?_map]
  congr 2
  funext p
  simp [transferPlayer_id]

theorem conquerCity_fst (u : Unit) (city : City) (g : Game) :
    (u.conquerCity city g).1 = u.canConquerCity := by
  unfold Unit.conquerCity
  by_cases h : u.canConquerCity = true
  · simp only [h, Bool.not_true, Bool.false_eq_true, ↓reduceIte]
    split
    · split <;> rfl
    · rfl
  · simp only [Bool.not_eq_true] at h
    simp [h]

theorem conquerCity_snd_of_success (u : Unit) (city : City) (g : Game)
    (h : (u.conquerCity city g).1 = true) :
    (u.conquerCity city g).2 =
      match (g.findPlayer city.player).map (transferPlayer u city) with
      | some old =>
        if old.cities.length = 0 then (u.transferCity city g).eliminatePlayer old
        else u.transferCity city g
      | none => u.transferCity city g := by
  rw [conquerCity_fst] at h
  unfold Unit.conquerCity
  simp only [h, Bool.not_true, Bool.false_eq_true, ↓reduceIte, transferCity_findPlayer]
  cases (g.findPlayer city.player).map (transferPlayer u city) with
  | none => rfl
  | some old => dsimp only; split <;> rfl

theorem eliminatePlayer_players (g : Game) (p : Player) :
    (g.eliminatePlayer p).players = g.players.eraseP (fun q => decide (q.id = p.id)) := rfl

theorem eliminatePlayer_units (g : Game) (p : Player) :
    (g.eliminatePlayer p).units =
      p.units.foldl (fun us unit => us.eraseP (fun v => decide (v.id = unit.id))) g.units := rfl

theorem eliminatePlayer_eliminated (g : Game) (p : Player) :
    (g.eliminatePlayer p).eliminatedPlayers =
      g.eliminatedPlayers ++ [p.units.foldl (fun q unit => q.removeUnit unit) p] := rfl

theorem foldl_removeUnit_id (r : List Unit) (p : Player) :
    (r.foldl (fun q unit => q.removeUnit unit) p).id = p.id := by
  induction r generalizing p with
  | nil => rfl
  | cons x t ih => simp only [List.foldl_cons]; rw [ih]; rfl

theorem foldl_removeUnit_cities (r : List Unit) (p : Player) :
    (r.foldl (fun q unit => q.removeUnit unit) p).cities = p.cities := by
  induction r generalizing p with
  | nil => rfl
  | cons x t ih => simp only [List.foldl_cons]; rw [ih]; rfl


/-- The scenario `siege` satisfies the representation invariant. -/
theorem Scenario.siege_wellFormed : Scenario.siege.WellFormed :=
  ⟨by decide, by decide, by decide, by decide, by decide, by decide, by decide, by decide⟩

/-- A list whose keys are used once is its entry `a` followed by what erasing the first
entry with the key of `a` leaves. -/
theorem eraseP_key_perm {α : Type} (f : α → Nat) (l : List α) (a : α)
    (h : (l.map f).Nodup) (ha : a ∈ l) :
    l.Perm (a :: l.eraseP (fun b => decide (f b = f a))) := by
  induction l with
  | nil => cases ha
  | cons b t ih =>
    by_cases hb : f b = f a
    · have hba : b = a :=
        List.inj_on_of_nodup_map h (List.mem_cons_self b t) ha hb
      subst hba
      simp [List.eraseP_cons]
    · have hat : a ∈ t := by
        rcases List.mem_cons.mp ha with h1 | h1
        · exact absurd (by rw [h1]) hb
        · exact h1
      simp only [List.map_cons, List.nodup_cons] at h
      simp only [List.eraseP_cons, hb, decide_False, cond_false]
      exact ((ih h.2 hat).cons b).trans (List.Perm.swap a b _)

/-- Erasing an entry that contributes nothing leaves a `flatMap` as it is. -/
theorem flatMap_eraseP_of_nil {α β : Type} (P : α → Bool) (F : α → List β) (l : List α)
    (h : ∀ q ∈ l, P q = true → F q = []) :
    (l.eraseP P).flatMap F = l.flatMap F := by
  induction l with
  | nil => rfl
  | cons b t ih =>
    by_cases hb : P b = true
    · simp [List.eraseP_cons, hb, h b (List.mem_cons_self b t) hb]
    · simp only [Bool.not_eq_true] at hb
      simp only [List.eraseP_cons, hb, cond_false, List.flatMap_cons]
      rw [ih (fun q hq => h q (List.mem_cons_of_mem b hq))]

/-- Looking up one key is not affected by erasing the first entry with another key. -/
theorem find?_eraseP_key_ne {α : Type} (f : α → Nat) (i j : Nat) (hij : i ≠ j) (l : List α) :
    (l.eraseP (fun b => decide (f b = j))).find? (fun b => decide (f b = i)) =
      l.find? (fun b => decide (f b = i)) := by
  induction l with
  | nil => rfl
  | cons b t ih =>
    by_cases hb : f b = j
    · have hbi : decide (f b = i) = false := decide_eq_false (fun h => hij (h.symm.trans hb))
      have hbj : decide (f b = j) = true := decide_eq_true hb
      simp only [List.eraseP_cons, hbj, cond_true, List.find?_cons, hbi]
    · simp only [List.eraseP_cons, hb, decide_False, cond_false, List.find?_cons]
      rw [ih]

/-- The perm algebra behind a conquest: the tile `a` leaves one list and joins another. -/
theorem perm_move_entry {α : Type} [DecidableEq α] (a : α) (E Bn R Bo : List α)
    (h : Bo.Perm (a :: E)) : (E ++ ((Bn ++ [a]) ++ R)).Perm (Bo ++ (Bn ++ R)) := by
  rw [List.perm_iff_count]
  intro t
  have := h.count_eq t
  simp only [List.count_append, List.count_cons, List.count_nil] at this ⊢
  omega

theorem cities_ids_nodup {g : Game} (hwf : g.WellFormed) {p : Player} (hp : p ∈ g.players) :
    (p.cities.map (fun c => c.id)).Nodup := by
  have hsub : p.cities.Sublist g.allCities := by
    unfold Game.allCities
    rw [List.flatMap_def]
    exact List.sublist_flatten_of_mem (List.mem_map.mpr ⟨p, hp, rfl⟩)
  exact List.Nodup.sublist (hsub.map _) hwf.cityIds

theorem City.calculateTerritory_tile (c : City) : c.calculateTerritory.tile = c.tile := rfl
theorem City.calculateTerritory_id (c : City) : c.calculateTerritory.id = c.id := rfl
theorem City.calculateTerritory_player (c : City) : c.calculateTerritory.player = c.player := rfl
theorem City.calculateTerritory_level (c : City) : c.calculateTerritory.level = c.level := rfl

theorem City.calculateTerritory_tile_level (c : City) :
    ∀ t ∈ c.calculateTerritory.territory, t.level = c.level := by
  intro t ht
  simp only [City.calculateTerritory, List.mem_flatMap, List.mem_map] at ht
  obtain ⟨dx, _, dy, _, rfl⟩ := ht
  rfl

theorem conqueredCity_id (u : Unit) (city : City) : (conqueredCity u city).id = city.id := by
  unfold conqueredCity; split <;> rfl

theorem conqueredCity_tile (u : Unit) (city : City) : (conqueredCity u city).tile = city.tile := by
  unfold conqueredCity City.tile; split <;> rfl

theorem conqueredCity_player (u : Unit) (city : City) : (conqueredCity u city).player = u.player := rfl

theorem conqueredCity_level (u : Unit) (city : City) :
    (conqueredCity u city).level = if city.level > 1 then city.level - 1 else city.level := by
  unfold conqueredCity; split <;> rfl

/-- The tiles of the cities of a player after `transferCity`. -/
theorem transferPlayer_tiles (u : Unit) (city : City) (p : Player) :
    (transferPlayer u city p).cities.map City.tile =
      (if p.id = city.player then (p.cities.eraseP (fun c => c.id = city.id)).map City.tile
        else p.cities.map City.tile) ++
      (if p.id = u.player then [city.tile] else []) := by
  rw [transferPlayer_cities, List.map_map]
  have : (City.tile ∘ fun c : City => if c.id = city.id then c.calculateTerritory else c) = City.tile := by
    funext c; simp only [Function.comp]; split <;> rfl
  rw [this, List.map_append]
  congr 1
  · split <;> rfl
  · split
    · simp [conqueredCity_tile]
    · rfl

theorem allCities_tiles (g : Game) :
    g.allCities.map City.tile = g.players.flatMap (fun p => p.cities.map City.tile) := by
  unfold Game.allCities
  rw [List.map_flatMap]

theorem transferCity_allCities_tiles (u : Unit) (city : City) (g : Game) :
    (u.transferCity city g).allCities.map City.tile =
      g.players.flatMap (fun p => (transferPlayer u city p).cities.map City.tile) := by
  rw [allCities_tiles, transferCity_players, List.flatMap_map]

/-- JavaScript `transferCity` moves the tile of the conquered city from one city list to another:
the tiles of the board are the same up to order. -/
theorem transferCity_tiles_perm (u : Unit) (city : City) (g : Game) (old new : Player)
    (hwf : g.WellFormed)
    (hold : g.findPlayer city.player = some old) (hcity : city ∈ old.cities)
    (hnew : g.findPlayer u.player = some new) :
    ((u.transferCity city g).allCities.map City.tile).Perm (g.allCities.map City.tile) := by
  have hoid : old.id = city.player := findPlayer_id hold
  have hnid : new.id = u.player := findPlayer_id hnew
  have hom : old ∈ g.players := findPlayer_mem hold
  have hnm : new ∈ g.players := findPlayer_mem hnew
  have hinj := List.inj_on_of_nodup_map hwf.playerIds
  have hE : (old.cities.map City.tile).Perm
      (city.tile :: (old.cities.eraseP (fun c => decide (c.id = city.id))).map City.tile) :=
    (eraseP_key_perm (fun c : City => c.id) old.cities city (cities_ids_nodup hwf hom) hcity).map
      City.tile
  rw [transferCity_allCities_tiles, allCities_tiles]
  have h1 : g.players.Perm (old :: g.players.erase old) := List.perm_cons_erase hom
  have hrest1 : ∀ q ∈ g.players.erase old, q.id ≠ city.player := by
    intro q hq hqid
    have hq' := (List.Nodup.mem_erase_iff (List.Nodup.of_map _ hwf.playerIds)).mp hq
    exact hq'.1 (hinj hq'.2 hom (hqid.trans hoid.symm))
  by_cases hsame : u.player = city.player
  · -- the unit's player owns the city
    refine ((List.Perm.flatMap_right _ h1).trans ?_).trans (List.Perm.flatMap_right _ h1).symm
    simp only [List.flatMap_cons]
    have hrest : (g.players.erase old).flatMap
        (fun p => (transferPlayer u city p).cities.map City.tile) =
        (g.players.erase old).flatMap (fun p => p.cities.map City.tile) := by
      apply List.flatMap_congr
      intro q hq
      have hq1 := hrest1 q hq
      have hq2 : ¬ q.id = u.player := fun h => hq1 (h.trans hsame)
      rw [transferPlayer_tiles]
      simp [hq1, hq2]
    rw [hrest, transferPlayer_tiles]
    simp only [hoid, hsame, ↓reduceIte]
    refine List.Perm.append_right _ ?_
    exact (List.perm_append_comm.trans (by simpa using hE.symm))
  · -- the unit's player is another active player
    have hne : new ≠ old := fun h => hsame (by rw [← hnid, h, hoid])
    have hnm1 : new ∈ g.players.erase old :=
      (List.Nodup.mem_erase_iff (List.Nodup.of_map _ hwf.playerIds)).mpr ⟨hne, hnm⟩
    have h2 : (g.players.erase old).Perm (new :: (g.players.erase old).erase new) :=
      List.perm_cons_erase hnm1
    have h12 : g.players.Perm (old :: new :: (g.players.erase old).erase new) :=
      h1.trans (h2.cons old)
    have hnd1 : (g.players.erase old).Nodup :=
      List.Nodup.sublist (List.erase_sublist old g.players) (List.Nodup.of_map _ hwf.playerIds)
    have hrest2 : ∀ q ∈ (g.players.erase old).erase new,
        q.id ≠ city.player ∧ q.id ≠ u.player := by
      intro q hq
      have hq' := (List.Nodup.mem_erase_iff hnd1).mp hq
      refine ⟨hrest1 q hq'.2, fun hqid => hq'.1 ?_⟩
      have hqm : q ∈ g.players := List.mem_of_mem_erase hq'.2
      exact hinj hqm hnm (hqid.trans hnid.symm)
    refine ((List.Perm.flatMap_right _ h12).trans ?_).trans (List.Perm.flatMap_right _ h12).symm
    simp only [List.flatMap_cons]
    have hrest : ((g.players.erase old).erase new).flatMap
        (fun p => (transferPlayer u city p).cities.map City.tile) =
        ((g.players.erase old).erase new).flatMap (fun p => p.cities.map City.tile) := by
      apply List.flatMap_congr
      intro q hq
      obtain ⟨hq1, hq2⟩ := hrest2 q hq
      rw [transferPlayer_tiles]
      simp [hq1, hq2]
    have hno : ¬ old.id = u.player := fun h => hsame (h.symm.trans hoid)
    have hnn : ¬ new.id = city.player := fun h => hsame (hnid.symm.trans h)
    rw [hrest, transferPlayer_tiles, transferPlayer_tiles]
    simp only [hoid, hnid, hnn, ↓reduceIte, List.append_nil]
    have hno' : ¬ city.player = u.player := fun h => hsame h.symm
    simp only [hno', hsame, ↓reduceIte, List.append_nil]
    exact perm_move_entry city.tile _ _ _ _ hE

theorem findPlayer_of_mem {g : Game} {p : Player} (hp : p ∈ g.players) :
    ∃ q, g.findPlayer p.id = some q := by
  unfold Game.findPlayer
  cases h : g.players.find? (fun q => decide (q.id = p.id)) with
  | some q => exact ⟨q, rfl⟩
  | none =>
    rw [List.find?_eq_none] at h
    exact absurd (by simp) (h p hp)

theorem transferCity_playerIds (u : Unit) (city : City) (g : Game) :
    (u.transferCity city g).players.map (fun p => p.id) = g.players.map (fun p => p.id) := by
  rw [transferCity_players, List.map_map]
  congr 1
  funext p
  simp [transferPlayer_id]

theorem transferCity_unitIds (u : Unit) (city : City) (g : Game) :
    (u.transferCity city g).units.map (fun v => v.id) = g.units.map (fun v => v.id) := by
  rw [transferCity_units, List.map_map]
  congr 1
  funext v
  simp only [Function.comp]
  split <;> rfl

/-- The state a successful conquest leaves, by whether the old owner keeps a city. -/
theorem conquerCity_snd_cases (u : Unit) (city : City) (g : Game) (old : Player)
    (hold : g.findPlayer city.player = some old)
    (hok : (u.conquerCity city g).1 = true) :
    ((transferPlayer u city old).cities = [] ∧
      (u.conquerCity city g).2 =
        (u.transferCity city g).eliminatePlayer (transferPlayer u city old)) ∨
    ((transferPlayer u city old).cities ≠ [] ∧
      (u.conquerCity city g).2 = u.transferCity city g) := by
  rw [conquerCity_snd_of_success u city g hok, hold]
  simp only [Option.map_some']
  by_cases h : (transferPlayer u city old).cities = []
  · left; exact ⟨h, by simp [h]⟩
  · right; exact ⟨h, by simp [h]⟩

/-- A successful conquest keeps the tiles of the cities on the board, up to order. -/
theorem conquerCity_tiles_perm (u : Unit) (city : City) (g : Game) (old new : Player)
    (hwf : g.WellFormed)
    (hold : g.findPlayer city.player = some old) (hcity : city ∈ old.cities)
    (hnew : g.findPlayer u.player = some new)
    (hok : (u.conquerCity city g).1 = true) :
    ((u.conquerCity city g).2.allCities.map City.tile).Perm (g.allCities.map City.tile) := by
  rcases conquerCity_snd_cases u city g old hold hok with ⟨hnil, hsnd⟩ | ⟨_, hsnd⟩
  · rw [hsnd]
    have : ((u.transferCity city g).eliminatePlayer (transferPlayer u city old)).allCities =
        (u.transferCity city g).allCities := by
      unfold Game.allCities
      rw [eliminatePlayer_players]
      apply flatMap_eraseP_of_nil
      intro q hq hqid
      rw [transferCity_players] at hq
      obtain ⟨q0, hq0, rfl⟩ := List.mem_map.mp hq
      have hid : q0.id = old.id := by
        simpa [transferPlayer_id] using hqid
      have : q0 = old :=
        List.inj_on_of_nodup_map hwf.playerIds hq0 (findPlayer_mem hold) hid
      rw [this]; exact hnil
    rw [this]
    exact transferCity_tiles_perm u city g old new hwf hold hcity hnew
  · rw [hsnd]
    exact transferCity_tiles_perm u city g old new hwf hold hcity hnew



theorem foundCity_success (u : Unit) (g : Game) (hok : (u.foundCity g).1 = true) :
    u.canFoundCity (u.playerGame g) = true ∧ Utils.validateCityPlacement u.x u.y g = true ∧
    (u.foundCity g).2.players =
      g.players.map (foundPlayer u (City.new g.nextCityId u.x u.y u.player)) ∧
    (u.foundCity g).2.units = g.units.eraseP (fun v => decide (v.id = u.id)) := by
  unfold Unit.foundCity at hok ⊢
  by_cases h1 : u.canFoundCity (u.playerGame g) = true
  · by_cases h2 : Utils.validateCityPlacement u.x u.y g = true
    · simp only [h1, h2, Bool.not_true, Bool.false_eq_true, ↓reduceIte, true_and]
      refine ⟨?_, rfl⟩
      simp only [Game.removeUnit, Game.updatePlayer, List.map_map]
      apply List.map_congr_left
      intro p _
      simp only [Function.comp, foundPlayer]
      split <;> simp_all
    · simp [h1, h2] at hok
  · simp [h1] at hok

theorem foundPlayer_id (u : Unit) (city : City) (p : Player) : (foundPlayer u city p).id = p.id := by
  unfold foundPlayer; split <;> rfl

theorem foundPlayer_cities (u : Unit) (city : City) (p : Player) :
    (foundPlayer u city p).cities = p.cities ++ (if p.id = u.player then [city] else []) := by
  unfold foundPlayer; split <;> simp

theorem foundPlayer_units (u : Unit) (city : City) (p : Player) :
    (foundPlayer u city p).units =
      if p.id = u.player then p.units.eraseP (fun v => decide (v.id = u.id)) else p.units := by
  unfold foundPlayer; split <;> rfl

/-- A placement that passes `validateCityPlacement` has every city at distance 2 or more. -/
theorem validateCityPlacement_iff (x y : Int) (g : Game) :
    Utils.validateCityPlacement x y g = true ↔ ∀ c ∈ g.allCities, 2 ≤ c.distanceTo x y := by
  unfold Utils.validateCityPlacement City.distanceTo
  constructor
  · intro h c hc
    by_contra hlt
    have : g.allCities.any (fun city => decide (max |city.x - x| |city.y - y| < 2)) = true :=
      List.any_eq_true.mpr ⟨c, hc, by simpa using hlt⟩
    rw [if_pos this] at h
    exact Bool.false_ne_true h
  · intro h
    have : g.allCities.any (fun city => decide (max |city.x - x| |city.y - y| < 2)) = false := by
      rw [List.any_eq_false]
      intro c hc
      have := h c hc
      simp only [decide_eq_true_eq, not_lt]
      exact this
    rw [this]
    rfl

theorem no_city_at_of_valid (x y : Int) (g : Game)
    (h : Utils.validateCityPlacement x y g = true) :
    ∀ p ∈ g.players, p.cities.find? (fun city => decide (city.x = x ∧ city.y = y)) = none := by
  intro p hp
  rw [List.find?_eq_none]
  intro c hc hxy
  have hmem : c ∈ g.allCities := List.mem_flatMap.mpr ⟨p, hp, hc⟩
  have := (validateCityPlacement_iff x y g).mp h c hmem
  simp only [decide_eq_true_eq] at hxy
  unfold City.distanceTo at this
  rw [hxy.1, hxy.2] at this
  simp at this

theorem City.new_level (id : Nat) (x y : Int) (p : Nat) : (City.new id x y p).level = 1 := rfl
theorem City.new_player (id : Nat) (x y : Int) (p : Nat) : (City.new id x y p).player = p := rfl
theorem City.new_x (id : Nat) (x y : Int) (p : Nat) : (City.new id x y p).x = x := rfl
theorem City.new_y (id : Nat) (x y : Int) (p : Nat) : (City.new id x y p).y = y := rfl

theorem roster_ids_nodup {g : Game} (hwf : g.WellFormed) {p : Player} (hp : p ∈ g.players) :
    (p.units.map (fun v => v.id)).Nodup := by
  refine List.Nodup.map_on ?_ (hwf.rosterNodup p hp)
  intro x hx y hy hxy
  exact List.inj_on_of_nodup_map hwf.unitIds (hwf.rosterOwned p hp x hx).2
    (hwf.rosterOwned p hp y hy).2 hxy

theorem findPlayer_of_unit {g : Game} (hwf : g.WellFormed) {u : Unit} (hu : u ∈ g.units) :
    ∃ owner, g.findPlayer u.player = some owner := by
  obtain ⟨p, hp, hpid⟩ := hwf.unitOwnerActive u hu
  obtain ⟨q, hq⟩ := findPlayer_of_mem hp
  exact ⟨q, hpid ▸ hq⟩

/-- The city found at the tile of a successful founding is the new city. -/
theorem foundCity_getCityAt (u : Unit) (g : Game) (owner : Player)
    (howner : g.findPlayer u.player = some owner)
    (hok : (u.foundCity g).1 = true) :
    (u.foundCity g).2.getCityAt u.x u.y = some (City.new g.nextCityId u.x u.y u.player) := by
  obtain ⟨_, hvalid, hplayers, _⟩ := foundCity_success u g hok
  have hnone := no_city_at_of_valid u.x u.y g hvalid
  unfold Game.getCityAt
  rw [hplayers]
  obtain ⟨hid, as, bs, hsplit, has⟩ := List.find?_eq_some.mp howner
  simp only [decide_eq_true_eq] at hid
  have hmem : ∀ a ∈ as, a ∈ g.players := fun a ha => by
    rw [hsplit]; exact List.mem_append_left _ ha
  have hom : owner ∈ g.players := by rw [hsplit]; simp
  rw [hsplit, List.map_append, List.findSome?_append]
  have h1 : List.findSome? (fun player : Player =>
      player.cities.find? (fun city => decide (city.x = u.x ∧ city.y = u.y)))
      (as.map (foundPlayer u (City.new g.nextCityId u.x u.y u.player))) = none := by
    rw [List.findSome?_eq_none_iff]
    intro q hq
    obtain ⟨a, ha, rfl⟩ := List.mem_map.mp hq
    have hne : ¬ a.id = u.player := by simpa using has a ha
    rw [foundPlayer_cities]
    simp only [hne, ↓reduceIte, List.append_nil]
    exact hnone a (hmem a ha)
  rw [h1, Option.none_or, List.map_cons, List.findSome?_cons, foundPlayer_cities]
  simp only [hid, ↓reduceIte, List.find?_append, hnone owner hom, Option.none_or]
  simp [List.find?_cons, City.new_x, City.new_y]

/-- The scenario `settling 9 0 false` satisfies the representation invariant. -/
theorem Scenario.settling_wellFormed : (Scenario.settling 9 0 false).WellFormed :=
  ⟨by decide, by decide, by decide, by decide, by decide, by decide, by decide, by decide⟩

theorem foundCity_allCities_tiles (u : Unit) (g : Game) (hok : (u.foundCity g).1 = true) :
    (u.foundCity g).2.allCities.map City.tile =
      g.players.flatMap (fun p =>
        p.cities.map City.tile ++ (if p.id = u.player then [(u.x, u.y)] else [])) := by
  obtain ⟨_, _, hplayers, _⟩ := foundCity_success u g hok
  rw [allCities_tiles, hplayers, List.flatMap_map]
  apply List.flatMap_congr
  intro p _
  rw [foundPlayer_cities, List.map_append]
  congr 1
  split <;> rfl

/-- A successful founding adds the colonizer's tile to the tiles of the board when the
colonizer's player is active, and leaves them as they are otherwise. -/
theorem foundCity_tiles_perm (u : Unit) (g : Game) (hwf : g.WellFormed)
    (hok : (u.foundCity g).1 = true) :
    ((u.foundCity g).2.allCities.map City.tile).Perm ((u.x, u.y) :: g.allCities.map City.tile) ∨
    (u.foundCity g).2.allCities.map City.tile = g.allCities.map City.tile := by
  rw [foundCity_allCities_tiles u g hok, allCities_tiles]
  cases howner : g.findPlayer u.player with
  | none =>
    right
    apply List.flatMap_congr
    intro p hp
    have hne : ¬ p.id = u.player := by
      unfold Game.findPlayer at howner
      rw [List.find?_eq_none] at howner
      simpa using howner p hp
    simp [hne]
  | some owner =>
    left
    have hoid : owner.id = u.player := findPlayer_id howner
    have hom : owner ∈ g.players := findPlayer_mem howner
    have h1 : g.players.Perm (owner :: g.players.erase owner) := List.perm_cons_erase hom
    have hrest : ∀ q ∈ g.players.erase owner, ¬ q.id = u.player := by
      intro q hq hqid
      have hq' := (List.Nodup.mem_erase_iff (List.Nodup.of_map _ hwf.playerIds)).mp hq
      exact hq'.1 (List.inj_on_of_nodup_map hwf.playerIds hq'.2 hom (hqid.trans hoid.symm))
    refine ((List.Perm.flatMap_right _ h1).trans ?_).trans
      ((List.Perm.flatMap_right _ h1).symm.cons (u.x, u.y))
    simp only [List.flatMap_cons, hoid, ↓reduceIte]
    have hcongr : (g.players.erase owner).flatMap (fun p =>
        p.cities.map City.tile ++ (if p.id = u.player then [(u.x, u.y)] else [])) =
        (g.players.erase owner).flatMap (fun p => p.cities.map City.tile) := by
      apply List.flatMap_congr
      intro q hq
      simp [hrest q hq]
    rw [hcongr, List.perm_iff_count]
    intro t
    simp only [List.count_append, List.count_cons, List.count_nil]
    omega

/-! ### The purchase gate under the object updates -/

@[simp] theorem Game.updatePlayer_gate (g : Game) (pid : Nat) (f : Player → Player) :
    (g.updatePlayer pid f).hasPurchasedUnitThisTurn = g.hasPurchasedUnitThisTurn := rfl

@[simp] theorem Game.updateUnit_gate (g : Game) (uid : Nat) (f : Unit → Unit) :
    (g.updateUnit uid f).hasPurchasedUnitThisTurn = g.hasPurchasedUnitThisTurn := rfl

@[simp] theorem Game.updateCity_gate (g : Game) (cid : Nat) (f : City → City) :
    (g.updateCity cid f).hasPurchasedUnitThisTurn = g.hasPurchasedUnitThisTurn := rfl

@[simp] theorem Game.removeUnit_gate (g : Game) (u : Unit) :
    (g.removeUnit u).hasPurchasedUnitThisTurn = g.hasPurchasedUnitThisTurn := rfl

@[simp] theorem Game.eliminatePlayer_gate (g : Game) (p : Player) :
    (g.eliminatePlayer p).hasPurchasedUnitThisTurn = g.hasPurchasedUnitThisTurn := rfl

theorem City.upgrade_gate (city : City) (g : Game) :
    (city.upgrade g).2.hasPurchasedUnitThisTurn = g.hasPurchasedUnitThisTurn := by
  unfold City.upgrade
  split
  · dsimp only
    split <;> rfl
  · rfl

theorem Game.aiUpgradeCity_gate (g : Game) (current : Player) (params : Params) :
    (g.aiUpgradeCity current params).hasPurchasedUnitThisTurn = g.hasPurchasedUnitThisTurn := by
  unfold Game.aiUpgradeCity
  split
  · rfl
  · split
    · exact City.upgrade_gate _ g
    · rfl

theorem Game.handleUnitMovement_gate (g : Game) (unit : Unit) (x y : Int) :
    (g.handleUnitMovement unit x y).hasPurchasedUnitThisTurn = g.hasPurchasedUnitThisTurn := by
  unfold Game.handleUnitMovement
  split
  · rfl
  · split
    · rfl
    · split <;> rfl

theorem Game.aiMoveUnit_gate (g : Game) (current : Player) (params : Params) :
    (g.aiMoveUnit current params).hasPurchasedUnitThisTurn = g.hasPurchasedUnitThisTurn := by
  unfold Game.aiMoveUnit
  dsimp only
  split
  · split
    · split
      · exact Game.handleUnitMovement_gate _ _ _ _
      · rfl
    · split
      · rfl
      · exact Game.handleUnitMovement_gate _ _ _ _
  · rfl

theorem Unit.attack_gate (u target : Unit) (g : Game) :
    (u.attack target g).2.hasPurchasedUnitThisTurn = g.hasPurchasedUnitThisTurn := by
  unfold Unit.attack
  split <;> rfl

theorem Game.aiAttackUnit_gate (g : Game) (current : Player) (params : Params) :
    (g.aiAttackUnit current params).hasPurchasedUnitThisTurn = g.hasPurchasedUnitThisTurn := by
  unfold Game.aiAttackUnit
  dsimp only
  split
  · split
    · rfl
    · split
      · rfl
      · split
        · split
          · split
            · simp only [Game.removeUnit_gate, Game.updatePlayer_gate]
              exact Unit.attack_gate _ _ g
            · exact Unit.attack_gate _ _ g
          · rfl
        · rfl
  · rfl

theorem Unit.foundCity_gate (u : Unit) (g : Game) :
    (u.foundCity g).2.hasPurchasedUnitThisTurn = g.hasPurchasedUnitThisTurn := by
  unfold Unit.foundCity
  split
  · rfl
  · split <;> rfl

theorem Game.aiFoundCity_gate (g : Game) (current : Player) (params : Params) :
    (g.aiFoundCity current params).hasPurchasedUnitThisTurn = g.hasPurchasedUnitThisTurn := by
  unfold Game.aiFoundCity
  split
  · rfl
  · split
    · exact Unit.foundCity_gate _ g
    · rfl

theorem Unit.conquerCity_gate (u : Unit) (city : City) (g : Game) :
    (u.conquerCity city g).2.hasPurchasedUnitThisTurn = g.hasPurchasedUnitThisTurn := by
  unfold Unit.conquerCity
  split
  · rfl
  · dsimp only
    split
    · split <;> rfl
    · rfl

theorem Game.aiConquerCity_gate (g : Game) (current : Player) (params : Params) :
    (g.aiConquerCity current params).hasPurchasedUnitThisTurn = g.hasPurchasedUnitThisTurn := by
  unfold Game.aiConquerCity
  split
  · rfl
  · split
    · split
      · exact Unit.conquerCity_gate _ _ g
      · rfl
    · rfl

theorem Game.aiBuyUnit_gate (g : Game) (current : Player) (params : Params)
    (h : g.hasPurchasedUnitThisTurn = true) :
    g.aiBuyUnit current params = g := by
  unfold Game.aiBuyUnit
  simp [h]

/-- No action applied through `executeAIAction` clears the purchase gate. -/
theorem Game.executeAIAction_gate (g : Game) (action : Action)
    (h : g.hasPurchasedUnitThisTurn = true) :
    (g.executeAIAction action).state.hasPurchasedUnitThisTurn = true := by
  unfold Game.executeAIAction
  dsimp only
  generalize (if action.action = "" then "unknown" else action.action) = name
  cases g.agent with
  | none => dsimp only; split <;> exact h
  | some agent =>
    cases g.currentPlayer with
    | none => dsimp only; split <;> exact h
    | some current =>
      dsimp only
      split_ifs
      all_goals first
        | exact h
        | simp only [Completion.state, Game.aiUpgradeCity_gate, Game.aiBuyUnit_gate g _ _ h,
            Game.aiMoveUnit_gate, Game.aiAttackUnit_gate, Game.aiFoundCity_gate,
            Game.aiConquerCity_gate, h]

/-- The entry with a given key is the one `find?` returns when keys are used once. -/
theorem find?_key_of_mem {α : Type} (f : α → Nat) (l : List α) (a : α)
    (h : (l.map f).Nodup) (ha : a ∈ l) :
    l.find? (fun b => decide (f b = f a)) = some a := by
  cases hf : l.find? (fun b => decide (f b = f a)) with
  | none =>
    rw [List.find?_eq_none] at hf
    exact absurd (by simp) (hf a ha)
  | some b =>
    have hb := List.find?_some hf
    simp only [decide_eq_true_eq] at hb
    rw [List.inj_on_of_nodup_map h (List.mem_of_find?_eq_some hf) ha hb]

/-- A numeric cost is the cost of one of the five catalogue types. -/
theorem getCost_catalogue (type : String) (cost : Int) (h : Unit.getCost type = some cost) :
    ∃ t ∈ ["soldier", "knight", "giant", "dragon", "colonizer"], Unit.getCost t = some cost := by
  unfold Unit.getCost at h
  dsimp only at h
  unfold Unit.stats at h
  split_ifs at h
  all_goals simp only [Option.some.injEq] at h
  all_goals try subst h
  all_goals first
    | exact ⟨"soldier", by decide, by decide⟩
    | exact ⟨"knight", by decide, by decide⟩
    | exact ⟨"giant", by decide, by decide⟩
    | exact ⟨"dragon", by decide, by decide⟩
    | exact ⟨"colonizer", by decide, by decide⟩

/-- The constructor builds a unit for every type that has a numeric cost, with that cost. -/
theorem Unit.new_of_getCost (id : Nat) (x y : Int) (player : Nat) (type : String) (cost : Int)
    (h : Unit.getCost type = some cost) :
    ∃ unit, Unit.new id x y player type = some unit ∧ unit.id = id ∧ unit.x = x ∧ unit.y = y ∧
      unit.player = player ∧ unit.cost = cost := by
  unfold Unit.getCost at h
  unfold Unit.new
  dsimp only at h ⊢
  cases hs : Unit.stats (toLowerCase type) with
  | some st =>
    obtain ⟨c, hp, a, m⟩ := st
    rw [hs] at h
    simp only [Option.some.injEq] at h
    exact ⟨_, rfl, rfl, rfl, rfl, rfl, h⟩
  | none =>
    rw [hs] at h
    dsimp only at h ⊢
    split at h
    · cases h
    · rename_i hi
      simp only [Option.some.injEq] at h
      rw [if_neg hi]
      exact ⟨_, rfl, rfl, rfl, rfl, rfl, h⟩

/-- The `buyUnit` menu lists a city of the player that has no unit on it when the gate is
open and some catalogue type is affordable. -/
theorem buyUnit_listed (g : Game) (current : Player) (city : City) (type : String) (cost : Int)
    (hgate : g.hasPurchasedUnitThisTurn = false)
    (hcity : city ∈ current.cities)
    (hfree : g.getUnitAt city.x city.y = none)
    (hcost : Unit.getCost type = some cost) (hcoins : current.coins ≥ cost) :
    (Agent.evaluateAvailableActions g current).buyUnit.any
      (fun action => decide (some action.cityId = some city.id)) = true := by
  obtain ⟨t, ht, htc⟩ := getCost_catalogue type cost hcost
  have hne : (["soldier", "knight", "giant", "dragon", "colonizer"].filter
      (fun type => current.canAffordUnit type)).length > 0 := by
    apply List.length_pos_of_mem (a := t)
    rw [List.mem_filter]
    refine ⟨ht, ?_⟩
    unfold Player.canAffordUnit
    rw [htc]
    simpa [Player.canAfford] using hcoins
  rw [List.any_eq_true]
  refine ⟨BuyEntry.mk city.id (["soldier", "knight", "giant", "dragon", "colonizer"].filter
      (fun type => current.canAffordUnit type)), ?_, by simp⟩
  simp only [Agent.evaluateAvailableActions, hgate, Bool.not_false, ↓reduceIte]
  rw [List.mem_filterMap]
  refine ⟨city, hcity, ?_⟩
  rw [hfree]
  simp only [Option.isNone_none, ↓reduceIte]
  rw [if_pos hne]

/-- What `aiBuyUnit` does when the purchase goes through. -/
theorem aiBuyUnit_success (g : Game) (current : Player) (city : City)
    (type : String) (cost : Int) (params : Params) (newUnit : Unit)
    (hgate : g.hasPurchasedUnitThisTurn = false)
    (hcity : city ∈ current.cities) (hcid : 0 < city.id)
    (hids : (current.cities.map (fun c => c.id)).Nodup)
    (hfree : g.getUnitAt city.x city.y = none)
    (hp1 : params.cityId = some city.id) (hp2 : params.unitType = some type)
    (htype : type ≠ "")
    (hcost : Unit.getCost type = some cost) (hcoins : current.coins ≥ cost)
    (hnew : Unit.new g.nextUnitId city.x city.y current.id type = some newUnit)
    (hpids : (g.players.map (fun p => p.id)).Nodup) (hmem : current ∈ g.players) :
    (g.aiBuyUnit current params).units = g.units ++ [newUnit] ∧
    (g.aiBuyUnit current params).players = g.players.map (fun p =>
      if p.id = current.id then { p with coins := p.coins - cost, units := p.units ++ [newUnit] }
      else p) ∧
    (g.aiBuyUnit current params).hasPurchasedUnitThisTurn = true := by
  have hfind : current.cities.find? (fun c => decide (some c.id = some city.id)) = some city := by
    have := find?_key_of_mem (fun c : City => c.id) current.cities city hids hcity
    simpa using this
  have hne0 : ¬ (city.id = 0) := by omega
  have hafford : current.canAfford cost = true := by simpa [Player.canAfford] using hcoins
  have hspend : current.spend cost = (true, { current with coins := current.coins - cost }) := by
    simp [Player.spend, hafford]
  have hfind' : current.cities.find? (fun c => decide (c.id = city.id)) = some city :=
    find?_key_of_mem (fun c : City => c.id) current.cities city hids hcity
  have hnew1 : Unit.new (g.updatePlayer current.id fun p => (p.spend cost).2).nextUnitId
      city.x city.y current.id type = some newUnit := hnew
  unfold Game.aiBuyUnit
  simp only [hgate, Bool.false_eq_true, ↓reduceIte, hp1, hp2, Option.some.injEq, hne0, or_self,
    false_and, hfind, hfind', htype, hfree, Option.isSome_none, hcost, hafford, hspend,
    reduceCtorEq, false_or, hnew1]
  refine ⟨rfl, ?_, trivial⟩
  simp only [Game.updatePlayer, List.map_map]
  apply List.map_congr_left
  intro p hp
  simp only [Function.comp]
  by_cases hpid : p.id = current.id
  · have hpc : p = current := List.inj_on_of_nodup_map hpids hp hmem hpid
    subst hpc
    simp [hspend, Player.addUnit]
  · simp [hpid]

theorem currentPlayer_mem {g : Game} {current : Player} (h : g.currentPlayer = some current) :
    current ∈ g.players := by
  unfold Game.currentPlayer at h
  split at h
  · exact List.getElem?_mem h
  · cases h

/-- The scenario `opening` satisfies the representation invariant. -/
theorem Scenario.opening_wellFormed : Scenario.opening.WellFormed :=
  ⟨by decide, by decide, by decide, by decide, by decide, by decide, by decide, by decide⟩

/-- The constructor keeps a catalogue name as the type of the unit. -/
theorem Unit.new_type_of_catalogue (id : Nat) (x y : Int) (player : Nat) (type : String)
    (unit : Unit) (ht : type ∈ ["soldier", "knight", "giant", "dragon", "colonizer"])
    (h : Unit.new id x y player type = some unit) : unit.type = type := by
  simp only [List.mem_cons, List.mem_singleton, List.not_mem_nil, or_false] at ht
  rcases ht with rfl | rfl | rfl | rfl | rfl
  · have h2 : Unit.new id x y player "soldier" =
        some (Unit.mk id x y player "soldier" false false false 5 5 2 1 3) := rfl
    rw [h2] at h; injection h with h; rw [← h]
  · have h2 : Unit.new id x y player "knight" =
        some (Unit.mk id x y player "knight" false false false 8 8 4 2 7) := rfl
    rw [h2] at h; injection h with h; rw [← h]
  · have h2 : Unit.new id x y player "giant" =
        some (Unit.mk id x y player "giant" false false false 30 30 3 1 12) := rfl
    rw [h2] at h; injection h with h; rw [← h]
  · have h2 : Unit.new id x y player "dragon" =
        some (Unit.mk id x y player "dragon" false false false 25 25 7 3 30) := rfl
    rw [h2] at h; injection h with h; rw [← h]
  · have h2 : Unit.new id x y player "colonizer" =
        some (Unit.mk id x y player "colonizer" false false false 3 3 1 1 10) := rfl
    rw [h2] at h; injection h with h; rw [← h]

@[simp] theorem Game.updatePlayer_index (g : Game) (pid : Nat) (f : Player → Player) :
    (g.updatePlayer pid f).currentPlayerIndex = g.currentPlayerIndex := rfl

@[simp] theorem Game.updatePlayer_playerCount (g : Game) (pid : Nat) (f : Player → Player) :
    (g.updatePlayer pid f).playerCount = g.playerCount := rfl

@[simp] theorem Game.updateUnit_index (g : Game) (uid : Nat) (f : Unit → Unit) :
    (g.updateUnit uid f).currentPlayerIndex = g.currentPlayerIndex := rfl

theorem foldl_updateUnit_index (r : List Unit) (f : Unit → Unit) (g : Game) :
    (r.foldl (fun acc unit => acc.updateUnit unit.id f) g).currentPlayerIndex =
      g.currentPlayerIndex := by
  induction r generalizing g with
  | nil => rfl
  | cons x t ih => simp only [List.foldl_cons]; rw [ih]; rfl

theorem processDiplomaticEvents_index (g : Game) :
    g.processDiplomaticEvents.currentPlayerIndex = g.currentPlayerIndex := by
  unfold Game.processDiplomaticEvents
  have inner : ∀ (l : List Player) (player : Player) (terr : List ((Int × Int) × Nat)) (acc : Game),
      (l.foldl (fun acc otherPlayer =>
        if player.id = otherPlayer.id then acc
        else if player.diplomacy.isAtWar otherPlayer.id then acc
        else
          acc.updatePlayer player.id (fun p =>
            { p with diplomacy := (p.diplomacy.changeFavor otherPlayer.id
              (if territoryViolation terr player.id otherPlayer.units then -10
                else if borderViolation terr player.id otherPlayer.units then -5
                else 1)).2 })) acc).currentPlayerIndex = acc.currentPlayerIndex := by
    intro l player terr
    induction l with
    | nil => intro acc; rfl
    | cons x t ih =>
      intro acc
      simp only [List.foldl_cons]
      rw [ih]
      split
      · rfl
      · split <;> rfl
  have outer : ∀ (l : List Player) (acc : Game),
      (l.foldl (fun acc player =>
        let territories := acc.getPlayerTerritories
        g.players.foldl (fun acc otherPlayer =>
          if player.id = otherPlayer.id then acc
          else if player.diplomacy.isAtWar otherPlayer.id then acc
          else
            let amount : Int :=
              if territoryViolation territories player.id otherPlayer.units then -10
              else if borderViolation territories player.id otherPlayer.units then -5
              else 1
            acc.updatePlayer player.id (fun p =>
              { p with diplomacy := (p.diplomacy.changeFavor otherPlayer.id amount).2 })) acc)
        acc).currentPlayerIndex = acc.currentPlayerIndex := by
    intro l
    induction l with
    | nil => intro acc; rfl
    | cons x t ih =>
      intro acc
      simp only [List.foldl_cons]
      rw [ih]
      exact inner g.players x _ acc
  exact outer g.players g

theorem state_index_of_match (g5 : Game) (F : Player → Game)
    (hF : ∀ n, (F n).currentPlayerIndex = g5.currentPlayerIndex) :
    (match g5.currentPlayer with
      | none => Completion.typeError g5
      | some n => Completion.ok (F n)).state.currentPlayerIndex = g5.currentPlayerIndex := by
  cases g5.currentPlayer with
  | none => rfl
  | some n => exact hF n

/-- No unit stands on a tile exactly when `getUnitAt` finds none there. -/
theorem Game.getUnitAt_eq_none_iff (g : Game) (x y : Int) :
    g.getUnitAt x y = none ↔ ∀ v ∈ g.units, ¬ (v.x = x ∧ v.y = y) := by
  unfold Game.getUnitAt
  rw [List.find?_eq_none]
  simp

theorem struck_id (u t v : Unit) : (struck u t v).id = v.id := by
  unfold struck
  dsimp only
  split_ifs <;> rfl

theorem struck_target (u t : Unit) (h : t.id ≠ u.id) :
    struck u t t = { t with hp := t.hp - u.atk } := by
  unfold struck
  dsimp only
  rw [if_pos rfl, if_neg h]

theorem struck_attacker (u t : Unit) (h : u.id ≠ t.id) :
    struck u t u = { u with hasAttacked := true } := by
  unfold struck
  dsimp only
  rw [if_neg h, if_pos rfl]

theorem struck_other (u t v : Unit) (hu : v.id ≠ u.id) (ht : v.id ≠ t.id) :
    struck u t v = v := by
  unfold struck
  dsimp only
  rw [if_neg ht, if_neg hu]

theorem struck_hasAttacked (u t v : Unit) (h : v.id = u.id) :
    (struck u t v).hasAttacked = true := by
  unfold struck
  dsimp only
  split_ifs <;> rfl

/-- What `attack` returns for a unit that has not attacked yet. -/
theorem Unit.attack_eq (u t : Unit) (g : Game) (hf : u.hasAttacked = false) :
    u.attack t g = (decide (t.hp - u.atk ≤ 0),
      { g with
        units := g.units.map (struck u t)
        players := g.players.map (fun p => { p with units := p.units.map (struck u t) }) }) := by
  unfold Unit.attack Game.updateUnit
  rw [hf]
  simp only [Bool.false_eq_true, if_false, List.map_map, Function.comp_def]
  rfl

theorem attackOutcome_units (u t : Unit) (g : Game) (hf : u.hasAttacked = false) :
    (attackOutcome u t g).units =
      if t.hp - u.atk ≤ 0 then (g.units.map (struck u t)).eraseP (fun v => v.id = t.id)
      else g.units.map (struck u t) := by
  unfold attackOutcome
  rw [Unit.attack_eq u t g hf]
  by_cases h : t.hp - u.atk ≤ 0
  · simp only [h, decide_True, if_true]
    rfl
  · simp only [h, decide_False, if_false, Bool.false_eq_true]

theorem attackOutcome_players (u t : Unit) (g : Game) (hf : u.hasAttacked = false) :
    (attackOutcome u t g).players =
      g.players.map (fun p =>
        if t.hp - u.atk ≤ 0 ∧ p.id = t.player then
          Player.removeUnit { p with units := p.units.map (struck u t) } t
        else { p with units := p.units.map (struck u t) }) := by
  unfold attackOutcome
  rw [Unit.attack_eq u t g hf]
  by_cases h : t.hp - u.atk ≤ 0
  · simp only [h, decide_True, if_true, true_and]
    unfold Game.removeUnit Game.updatePlayer
    simp only [List.map_map]
    rfl
  · simp only [h, decide_False, if_false, Bool.false_eq_true, false_and]

/-- An entry of the `attackUnit` menu is built from a unit of the player that has not
attacked and has at least one target. -/
theorem mem_attackUnit_menu (g : Game) (player : Player) (e : AttackEntry) :
    e ∈ (Agent.evaluateAvailableActions g player).attackUnit ↔
      ∃ u ∈ player.units, u.hasAttacked = false ∧
        e = AttackEntry.mk u.id u.type u.x u.y
          (g.players.flatMap (fun otherPlayer =>
            if otherPlayer.id = player.id then []
            else (otherPlayer.units.filter (fun enemyUnit =>
              inAttackRange (enemyUnit.x - u.x) (enemyUnit.y - u.y))).map
                (fun enemyUnit =>
                  Target.mk enemyUnit.id otherPlayer.id enemyUnit.x enemyUnit.y enemyUnit.hp))) ∧
        e.potentialTargets ≠ [] := by
  unfold Agent.evaluateAvailableActions
  dsimp only
  rw [List.mem_filterMap]
  constructor
  · rintro ⟨u, hu, h⟩
    refine ⟨u, hu, ?_⟩
    cases hf : u.hasAttacked
    · rw [hf] at h
      simp only [Bool.not_false, if_true] at h
      split_ifs at h with hl
      · injection h with h
        subst h
        refine ⟨rfl, rfl, ?_⟩
        exact List.ne_nil_of_length_pos hl
    · rw [hf] at h
      simp at h
  · rintro ⟨u, hu, hf, he, hne⟩
    refine ⟨u, hu, ?_⟩
    rw [hf]
    simp only [Bool.not_false, if_true]
    rw [he] at hne
    rw [if_pos (List.length_pos.mpr hne), he]

/-- The targets listed for a unit `u`: the units of the other active players within range. -/
theorem mem_potentialTargets (g : Game) (player : Player) (u : Unit) (tg : Target) :
    tg ∈ g.players.flatMap (fun otherPlayer =>
            if otherPlayer.id = player.id then []
            else (otherPlayer.units.filter (fun enemyUnit =>
              inAttackRange (enemyUnit.x - u.x) (enemyUnit.y - u.y))).map
                (fun enemyUnit =>
                  Target.mk enemyUnit.id otherPlayer.id enemyUnit.x enemyUnit.y enemyUnit.hp)) ↔
      ∃ other ∈ g.players, other.id ≠ player.id ∧ ∃ t ∈ other.units,
        inAttackRange (t.x - u.x) (t.y - u.y) = true ∧
        tg = Target.mk t.id other.id t.x t.y t.hp := by
  rw [List.mem_flatMap]
  constructor
  · rintro ⟨other, ho, h⟩
    split_ifs at h with hid
    · cases h
    · rw [List.mem_map] at h
      obtain ⟨t, ht, rfl⟩ := h
      rw [List.mem_filter] at ht
      exact ⟨other, ho, hid, t, ht.1, ht.2, rfl⟩
  · rintro ⟨other, ho, hid, t, ht, hr, rfl⟩
    refine ⟨other, ho, ?_⟩
    rw [if_neg hid, List.mem_map]
    exact ⟨t, List.mem_filter.mpr ⟨ht, hr⟩, rfl⟩

/-- Either `aiAttackUnit` leaves the state as it is, or a unit of the current player that
has not attacked strikes the unit found on the target tile, an enemy within range. -/
theorem Game.aiAttackUnit_cases (g : Game) (current : Player) (params : Params) :
    g.aiAttackUnit current params = g ∨
      ∃ u ∈ current.units, ∃ t ∈ g.units, ∃ x y, params.x = some x ∧ params.y = some y ∧
        (params.unitId = some u.id ∨
          (params.id = some u.id ∧ (params.unitId = none ∨ params.unitId = some 0))) ∧
        g.getUnitAt x y = some t ∧ t.player ≠ current.id ∧ u.hasAttacked = false ∧
        inAttackRange (t.x - u.x) (t.y - u.y) = true ∧
        g.aiAttackUnit current params = attackOutcome u t g := by
  unfold Game.aiAttackUnit attackOutcome
  dsimp only
  cases hx : params.x with
  | none => left; rfl
  | some x =>
    cases hy : params.y with
    | none => left; rfl
    | some y =>
      dsimp only
      generalize hu : List.find? _ current.units = r
      cases r with
      | none => left; rfl
      | some u =>
        dsimp only
        cases ht : g.getUnitAt x y with
        | none => left; rfl
        | some t =>
          dsimp only
          by_cases hc : t.player ≠ current.id ∧ u.hasAttacked = false
          · rw [if_pos hc]
            by_cases hr : inAttackRange (t.x - u.x) (t.y - u.y) = true
            · rw [if_pos hr]
              right
              have hpred := List.find?_some hu
              simp only [decide_eq_true_eq] at hpred
              refine ⟨u, List.mem_of_find?_eq_some hu, t, ?_, x, y, rfl, rfl, ?_, ht, hc.1, hc.2,
                hr, rfl⟩
              · unfold Game.getUnitAt at ht
                exact List.mem_of_find?_eq_some ht
              · cases hpu : params.unitId with
                | none =>
                  rw [hpu] at hpred
                  exact Or.inr ⟨hpred.symm, Or.inl rfl⟩
                | some i =>
                  rw [hpu] at hpred
                  cases i with
                  | zero => exact Or.inr ⟨hpred.symm, Or.inr rfl⟩
                  | succ k => exact Or.inl hpred.symm
            · rw [if_neg hr]; left; rfl
          · rw [if_neg hc]; left; rfl

/-- The state `aiAttackUnit` leaves when its checks pass. -/
theorem Game.aiAttackUnit_of_found (g : Game) (current : Player) (params : Params)
    (u t : Unit) (x y : Int) (hid : params.unitId = some u.id) (h0 : 0 < u.id)
    (hx : params.x = some x) (hy : params.y = some y)
    (hu : current.units.find? (fun v => v.id = u.id) = some u)
    (ht : g.getUnitAt x y = some t) (hene : t.player ≠ current.id)
    (hfresh : u.hasAttacked = false)
    (hr : inAttackRange (t.x - u.x) (t.y - u.y) = true) :
    g.aiAttackUnit current params = attackOutcome u t g := by
  obtain ⟨k, hk⟩ : ∃ k, u.id = k + 1 := ⟨u.id - 1, by omega⟩
  unfold Game.aiAttackUnit attackOutcome
  simp only [hid, hk, hx, hy]
  have hu2 : current.units.find? (fun v => decide (some v.id = some (k + 1))) = some u := by
    rw [← hu]
    congr 1
    funext v
    simp [hk]
  rw [hu2]
  simp only [ht]
  rw [if_pos ⟨hene, hfresh⟩, if_pos hr]

/-- A unit marked as having attacked cannot be made to attack again: executing
`attackUnit` for it leaves units and players as they are. -/
theorem attackUnit_again (g : Game) (uid : Nat) (hpos : 0 < uid)
    (hflag : ∀ p ∈ g.players, ∀ v ∈ p.units, v.id = uid → v.hasAttacked = true)
    (params : Params) (hid : params.unitId = some uid) :
    (g.executeAIAction (Action.mk "attackUnit" params)).state.units = g.units ∧
    (g.executeAIAction (Action.mk "attackUnit" params)).state.players = g.players := by
  unfold Game.executeAIAction
  dsimp only
  have hname : (if "attackUnit" = "" then "unknown" else "attackUnit") = "attackUnit" := by decide
  rw [hname]
  have hend : ¬ ("attackUnit" = "endTurn") := by decide
  rw [if_neg hend]
  cases g.agent with
  | none => exact ⟨rfl, rfl⟩
  | some agent =>
    cases hcur : g.currentPlayer with
    | none => exact ⟨rfl, rfl⟩
    | some current =>
      dsimp only
      cases hav : g.isActionAvailable current "attackUnit" params
      · simp only [Bool.not_false, ↓reduceIte]
        exact ⟨rfl, rfl⟩
      · have hsame : g.aiAttackUnit current params = g := by
          rcases Game.aiAttackUnit_cases g current params with h | h
          · exact h
          · obtain ⟨u, hu, t, _, x, y, _, _, hlink, _, _, hfresh, _, _⟩ := h
            have huid : u.id = uid := by
              rcases hlink with h1 | ⟨_, h2 | h2⟩
              · rw [hid] at h1; injection h1 with h1; exact h1.symm
              · rw [hid] at h2; cases h2
              · rw [hid] at h2; injection h2 with h2; omega
            rw [hflag current (currentPlayer_mem hcur) u hu huid] at hfresh
            cases hfresh
        simp only [Bool.not_true, Bool.false_eq_true, ↓reduceIte, String.reduceEq, hsame]
        exact ⟨rfl, rfl⟩

/-- The scenario `standoff 3 3 5` satisfies the representation invariant. -/
theorem Scenario.standoff_wellFormed : (Scenario.standoff 3 3 5).WellFormed :=
  ⟨by decide, by decide, by decide, by decide, by decide, by decide, by decide, by decide⟩

theorem inAttackRange_iff_sq (dx dy : Int) :
    inAttackRange dx dy = true ↔ dx * dx + dy * dy ≤ 2 := by
  unfold inAttackRange
  rw [decide_eq_true_iff]
  constructor <;> intro h <;> omega

theorem sq_le_two_iff_adjacent (dx dy : Int) :
    dx * dx + dy * dy ≤ 2 ↔ max |dx| |dy| ≤ 1 := by
  rw [max_le_iff, abs_le, abs_le]
  constructor
  · intro h
    refine ⟨⟨?_, ?_⟩, ⟨?_, ?_⟩⟩ <;> nlinarith [mul_self_nonneg dx, mul_self_nonneg dy]
  · rintro ⟨⟨h1, h2⟩, ⟨h3, h4⟩⟩
    nlinarith

theorem inAttackRange_iff_adjacent (dx dy : Int) :
    inAttackRange dx dy = true ↔ max |dx| |dy| ≤ 1 := by
  rw [inAttackRange_iff_sq, sq_le_two_iff_adjacent]

/-- The square root of an integer is at most 1.5 exactly when four times the integer is at
most 9. -/
theorem sqrt_le_iff_sq (n : Int) :
    Real.sqrt ((n : Int) : Real) ≤ 1.5 ↔ 4 * n ≤ 9 := by
  rw [Real.sqrt_le_left (by norm_num)]
  constructor
  · intro h
    have : ((4 * n : Int) : Real) ≤ ((9 : Int) : Real) := by push_cast; linarith
    exact_mod_cast this
  · intro h
    have : ((4 * n : Int) : Real) ≤ ((9 : Int) : Real) := by exact_mod_cast h
    push_cast at this
    linarith

/-- The city `getCityAt` finds is one of the cities on the board. -/
theorem getCityAt_mem {g : Game} {x y : Int} {c : City} (h : g.getCityAt x y = some c) :
    ∃ p ∈ g.players, c ∈ p.cities := by
  unfold Game.getCityAt at h
  obtain ⟨p, hp, hc⟩ := List.exists_of_findSome?_eq_some h
  exact ⟨p, hp, List.mem_of_find?_eq_some hc⟩

theorem mem_allCities {g : Game} {c : City} :
    c ∈ g.allCities ↔ ∃ p ∈ g.players, c ∈ p.cities := by
  unfold Game.allCities
  rw [List.mem_flatMap]

/-- A property of cities that the constructor establishes stays true of every city when a
unit founds one. -/
theorem foundCity_cities_all (P : City → Prop) (u : Unit) (g : Game)
    (hnew : ∀ id x y pl, P (City.new id x y pl))
    (h : ∀ p ∈ g.players, ∀ c ∈ p.cities, P c) :
    ∀ p ∈ (u.foundCity g).2.players, ∀ c ∈ p.cities, P c := by
  cases hok : (u.foundCity g).1
  · have hsame : (u.foundCity g).2 = g := by
      unfold Unit.foundCity at hok ⊢
      split_ifs at hok ⊢ <;> rfl
    rw [hsame]; exact h
  · obtain ⟨_, _, hpl, _⟩ := foundCity_success u g hok
    rw [hpl]
    intro p hp c hc
    obtain ⟨p0, hp0, rfl⟩ := List.mem_map.mp hp
    rw [foundPlayer_cities, List.mem_append] at hc
    rcases hc with hc | hc
    · exact h p0 hp0 c hc
    · split_ifs at hc
      · rw [List.mem_singleton] at hc
        rw [hc]; exact hnew _ _ _ _
      · cases hc

/-- A property of cities that an upgrade preserves stays true of every city when a city
is upgraded. -/
theorem upgrade_cities_all (P : City → Prop) (city : City) (g : Game)
    (hup : ∀ c, P c → P (City.calculateTerritory (City.updateRange
      { c with level := c.level + 1, population := c.population + 10 })))
    (h : ∀ p ∈ g.players, ∀ c ∈ p.cities, P c) :
    ∀ p ∈ (city.upgrade g).2.players, ∀ c ∈ p.cities, P c := by
  unfold City.upgrade
  cases g.findPlayer city.player with
  | none => exact h
  | some owner =>
    dsimp only
    split_ifs
    · intro p hp c hc
      simp only [Game.updateCity, Game.updatePlayer, List.map_map] at hp
      obtain ⟨p0, hp0, rfl⟩ := List.mem_map.mp hp
      simp only [Function.comp] at hc
      obtain ⟨c0, hc0, rfl⟩ := List.mem_map.mp hc
      have hc0' : c0 ∈ p0.cities := by
        split_ifs at hc0
        · unfold Player.spend at hc0
          split_ifs at hc0 <;> exact hc0
        · exact hc0
      split_ifs
      · exact hup c0 (h p0 hp0 c0 hc0')
      · exact h p0 hp0 c0 hc0'
    · exact h

/-- A property of cities that the recomputation of the territory and the change of owner
with loss of a level preserve stays true of every city when a city of the board is
conquered. -/
theorem conquerCity_cities_all (P : City → Prop) (u : Unit) (city : City) (g : Game)
    (hcalc : ∀ c, P c → P c.calculateTerritory)
    (hconq : ∀ c, P c → P (conqueredCity u c))
    (hcity : P city)
    (h : ∀ p ∈ g.players, ∀ c ∈ p.cities, P c) :
    ∀ p ∈ (u.conquerCity city g).2.players, ∀ c ∈ p.cities, P c := by
  have htr : ∀ p ∈ (u.transferCity city g).players, ∀ c ∈ p.cities, P c := by
    intro p hp c hc
    rw [transferCity_players] at hp
    obtain ⟨p0, hp0, rfl⟩ := List.mem_map.mp hp
    rw [transferPlayer_cities] at hc
    obtain ⟨c0, hc0, rfl⟩ := List.mem_map.mp hc
    have hP0 : P c0 := by
      rw [List.mem_append] at hc0
      rcases hc0 with hc0 | hc0
      · split_ifs at hc0
        · exact h p0 hp0 c0 (List.mem_of_mem_eraseP hc0)
        · exact h p0 hp0 c0 hc0
      · split_ifs at hc0
        · rw [List.mem_singleton] at hc0
          rw [hc0]; exact hconq city hcity
        · cases hc0
    split_ifs
    · exact hcalc c0 hP0
    · exact hP0
  unfold Unit.conquerCity
  split_ifs
  · exact h
  · dsimp only
    cases (u.transferCity city g).findPlayer city.player with
    | none => exact htr
    | some old =>
      dsimp only
      split_ifs
      · intro p hp c hc
        rw [eliminatePlayer_players] at hp
        exact htr p (List.mem_of_mem_eraseP hp) c hc
      · exact htr

theorem City.new_range (id : Nat) (x y : Int) (p : Nat) : (City.new id x y p).range = 1 := rfl

theorem City.upgraded_level (c : City) :
    (City.calculateTerritory (City.updateRange
      { c with level := c.level + 1, population := c.population + 10 })).level = c.level + 1 := by
  unfold City.calculateTerritory City.updateRange
  dsimp only
  split_ifs <;> rfl

theorem City.upgraded_range (c : City) :
    (City.calculateTerritory (City.updateRange
      { c with level := c.level + 1, population := c.population + 10 })).range =
      if c.level + 1 = 4 then 2 else if c.level + 1 = 7 then 3
      else if c.level + 1 = 10 then 4 else c.range := by
  unfold City.calculateTerritory City.updateRange
  dsimp only
  split_ifs <;> rfl

theorem conqueredCity_range (u : Unit) (city : City) :
    (conqueredCity u city).range = city.range := by
  unfold conqueredCity
  split_ifs <;> rfl

theorem upgradePlayer_id (city : City) (p : Player) : (upgradePlayer city p).id = p.id := by
  unfold upgradePlayer Player.spend
  split_ifs <;> rfl

theorem City.upgraded_id (c : City) :
    (City.calculateTerritory (City.updateRange
      { c with level := c.level + 1, population := c.population + 10 })).id = c.id := by
  unfold City.calculateTerritory City.updateRange
  dsimp only
  split_ifs <;> rfl

/-- The result of `upgrade` when the owner can pay. -/
theorem City.upgrade_success (city : City) (g : Game) (owner : Player)
    (howner : g.findPlayer city.player = some owner)
    (hcoins : owner.coins ≥ 50 * city.level) :
    (city.upgrade g).1 = true ∧
    (city.upgrade g).2.players = g.players.map (upgradePlayer city) := by
  have hcan : owner.canAfford city.getUpgradeCost = true := by
    unfold Player.canAfford City.getUpgradeCost
    rw [decide_eq_true_iff]
    omega
  have hspend : (owner.spend city.getUpgradeCost).1 = true := by
    unfold Player.spend
    rw [if_pos hcan]
  unfold City.upgrade
  simp only [howner, hcan, hspend, Bool.and_self, if_true, true_and]
  simp only [Game.updateCity, Game.updatePlayer, List.map_map]
  apply List.map_congr_left
  intro p _
  simp only [Function.comp, upgradePlayer]
  unfold Player.spend
  split_ifs <;> rfl

/-- The result of `upgrade` when the owner cannot pay. -/
theorem City.upgrade_failure (city : City) (g : Game) (owner : Player)
    (howner : g.findPlayer city.player = some owner)
    (hcoins : owner.coins < 50 * city.level) :
    city.upgrade g = (false, g) := by
  have hcan : owner.canAfford city.getUpgradeCost = false := by
    unfold Player.canAfford City.getUpgradeCost
    rw [decide_eq_false_iff_not]
    omega
  unfold City.upgrade
  simp only [howner, hcan, Bool.false_and, Bool.false_eq_true, if_false]

/-- The scenario `wealthySiege` satisfies the representation invariant. -/
theorem Scenario.wealthySiege_wellFormed : Scenario.wealthySiege.WellFormed :=
  ⟨by decide, by decide, by decide, by decide, by decide, by decide, by decide, by decide⟩

theorem find?_mapSet_map {κ ν : Type} [DecidableEq κ] (m : List (κ × ν)) (k k2 : κ) (v : ν) :
    (m.map (fun e => if e.1 = k then (k, v) else e)).find? (fun e => decide (e.1 = k2)) =
      (m.find? (fun e => decide (e.1 = k2))).map (fun e => if e.1 = k then (k, v) else e) := by
  rw [List.find?_map]
  congr 2
  funext e
  simp only [Function.comp]
  split_ifs with h
  · rw [h]
  · rfl

theorem mapGet_mapSet_self {κ ν : Type} [DecidableEq κ] (m : List (κ × ν)) (k : κ) (v : ν) :
    mapGet (mapSet m k v) k = some v := by
  unfold mapGet mapSet
  split_ifs with h
  · rw [find?_mapSet_map]
    cases hf : m.find? (fun e => decide (e.1 = k)) with
    | none =>
      rw [List.find?_eq_none] at hf
      rw [List.any_eq_true] at h
      obtain ⟨e, he, hek⟩ := h
      exact absurd hek (hf e he)
    | some e =>
      have he := List.find?_some hf
      simp only [decide_eq_true_eq] at he
      simp only [Option.map_some', if_pos he]
  · have hnone : m.find? (fun e => decide (e.1 = k)) = none := by
      rw [List.find?_eq_none]
      intro e he hek
      exact h (List.any_eq_true.mpr ⟨e, he, hek⟩)
    rw [List.find?_append, hnone]
    simp

theorem mapGet_mapSet_ne {κ ν : Type} [DecidableEq κ] (m : List (κ × ν)) (k k2 : κ) (v : ν)
    (hne : k2 ≠ k) : mapGet (mapSet m k v) k2 = mapGet m k2 := by
  unfold mapGet mapSet
  split_ifs with h
  · rw [find?_mapSet_map]
    cases hf : m.find? (fun e => decide (e.1 = k2)) with
    | none => rfl
    | some e =>
      have he := List.find?_some hf
      simp only [decide_eq_true_eq] at he
      have hek : ¬ e.1 = k := fun h2 => hne (he.symm.trans h2)
      simp only [Option.map_some', if_neg hek]
  · rw [List.find?_append]
    have : List.find? (fun e => decide (e.1 = k2)) [(k, v)] = none := by
      simp [List.find?_cons, Ne.symm hne]
    rw [this]
    simp

/-- The keys of a map after `set`: unchanged for a key that is present, the new key last
otherwise. -/
theorem keys_mapSet {κ ν : Type} [DecidableEq κ] (m : List (κ × ν)) (k : κ) (v : ν) :
    (mapSet m k v).map Prod.fst =
      if k ∈ m.map Prod.fst then m.map Prod.fst else m.map Prod.fst ++ [k] := by
  unfold mapSet
  by_cases h : m.any (fun e => decide (e.1 = k)) = true
  · have hk : k ∈ m.map Prod.fst := by
      rw [List.any_eq_true] at h
      obtain ⟨e, he, hek⟩ := h
      exact List.mem_map.mpr ⟨e, he, by simpa using hek⟩
    rw [if_pos h, if_pos hk, List.map_map]
    apply List.map_congr_left
    intro e _
    simp only [Function.comp]
    split_ifs with he
    · exact he.symm
    · rfl
  · have hk : ¬ k ∈ m.map Prod.fst := by
      intro hk
      obtain ⟨e, he, hek⟩ := List.mem_map.mp hk
      exact h (List.any_eq_true.mpr ⟨e, he, by simpa using hek⟩)
    rw [if_neg h, if_neg hk, List.map_append]
    rfl

theorem Diplomacy.getFavor_changeFavor (d : Diplomacy) (pid c : Nat) (amount : Int) :
    (d.changeFavor pid amount).2.getFavor c =
      if c = pid then max (-100) (min 100 (d.getFavor pid + amount)) else d.getFavor c := by
  unfold Diplomacy.changeFavor Diplomacy.getFavor
  dsimp only
  split_ifs with h
  · rw [h, mapGet_mapSet_self]; rfl
  · rw [mapGet_mapSet_ne _ _ _ _ h]

theorem Diplomacy.changeFavor_peaceTreaties (d : Diplomacy) (pid : Nat) (amount : Int) :
    (d.changeFavor pid amount).2.peaceTreaties = d.peaceTreaties := rfl

/-- The favor toward `c` after the loop of `breakPeaceTreaty` over the keys `ks`. -/
theorem breakLoop_getFavor (b c : Nat) (hcb : c ≠ b) (ks : List Nat) (hnd : ks.Nodup)
    (acc : Diplomacy) :
    (ks.foldl (fun acc pid => if pid ≠ b then (acc.changeFavor pid (-15)).2 else acc)
        acc).getFavor c =
      if c ∈ ks then max (-100) (min 100 (acc.getFavor c + -15)) else acc.getFavor c := by
  induction ks generalizing acc with
  | nil => simp
  | cons k t ih =>
    rw [List.nodup_cons] at hnd
    simp only [List.foldl_cons]
    rw [ih hnd.2]
    by_cases hkc : c = k
    · subst hkc
      rw [if_neg hnd.1, if_pos (List.mem_cons_self _ _), if_pos hcb,
        Diplomacy.getFavor_changeFavor, if_pos rfl]
    · have hmem : c ∈ k :: t ↔ c ∈ t := by
        simp [hkc]
      have hsame : (if k ≠ b then (acc.changeFavor k (-15)).2 else acc).getFavor c =
          acc.getFavor c := by
        split_ifs
        · rw [Diplomacy.getFavor_changeFavor, if_neg hkc]
        · rfl
      rw [hsame]
      by_cases hct : c ∈ t
      · rw [if_pos hct, if_pos (hmem.mpr hct)]
      · rw [if_neg hct, if_neg (fun h => hct (hmem.mp h))]

theorem breakLoop_getFavor_self (b : Nat) (ks : List Nat) (acc : Diplomacy) :
    (ks.foldl (fun acc pid => if pid ≠ b then (acc.changeFavor pid (-15)).2 else acc)
        acc).getFavor b = acc.getFavor b := by
  induction ks generalizing acc with
  | nil => rfl
  | cons k t ih =>
    simp only [List.foldl_cons]
    rw [ih]
    split_ifs with h
    · rw [Diplomacy.getFavor_changeFavor, if_neg (Ne.symm h)]
    · rfl

theorem breakLoop_peaceTreaties (b : Nat) (ks : List Nat) (acc : Diplomacy) :
    (ks.foldl (fun acc pid => if pid ≠ b then (acc.changeFavor pid (-15)).2 else acc)
        acc).peaceTreaties = acc.peaceTreaties := by
  induction ks generalizing acc with
  | nil => rfl
  | cons k t ih =>
    simp only [List.foldl_cons]
    rw [ih]
    split_ifs <;> rfl

/-- Erasing the first entry that satisfies `p` leaves none when there was exactly one. -/
theorem any_eraseP_of_one {α : Type} (p : α → Bool) (l : List α)
    (h : (l.filter p).length = 1) : (l.eraseP p).any p = false := by
  induction l with
  | nil => simp at h
  | cons a t ih =>
    by_cases ha : p a = true
    · rw [List.filter_cons_of_pos ha] at h
      simp only [List.length_cons, add_left_eq_self, List.length_eq_zero] at h
      rw [List.eraseP_cons_of_pos ha]
      rw [List.any_eq_false]
      intro x hx hpx
      have : x ∈ t.filter p := List.mem_filter.mpr ⟨hx, hpx⟩
      rw [h] at this
      cases this
    · rw [List.filter_cons_of_neg ha] at h
      rw [List.eraseP_cons_of_neg ha, List.any_cons, ih h]
      simp [ha]

/-- For a unit marked as having attacked, `aiAttackUnit` leaves the state as it is. -/
theorem Game.aiAttackUnit_again (g : Game) (current : Player) (uid : Nat) (hpos : 0 < uid)
    (hflag : ∀ v ∈ current.units, v.id = uid → v.hasAttacked = true)
    (params : Params) (hid : params.unitId = some uid) :
    g.aiAttackUnit current params = g := by
  rcases Game.aiAttackUnit_cases g current params with h | h
  · exact h
  · obtain ⟨u, hu, t, _, x, y, _, _, hlink, _, _, hfresh, _, _⟩ := h
    have huid : u.id = uid := by
      rcases hlink with h1 | ⟨_, h2 | h2⟩
      · rw [hid] at h1; injection h1 with h1; exact h1.symm
      · rw [hid] at h2; cases h2
      · rw [hid] at h2; injection h2 with h2; omega
    rw [hflag u hu huid] at hfresh
    cases hfresh

theorem breakLoop_wars (b : Nat) (ks : List Nat) (acc : Diplomacy) :
    (ks.foldl (fun acc pid => if pid ≠ b then (acc.changeFavor pid (-15)).2 else acc)
        acc).wars = acc.wars := by
  induction ks generalizing acc with
  | nil => rfl
  | cons k t ih =>
    simp only [List.foldl_cons]
    rw [ih]
    split_ifs <;> rfl

theorem Diplomacy.breakPeaceTreaty_wars (d : Diplomacy) (b : Nat) :
    (d.breakPeaceTreaty b).2.wars = d.wars := by
  unfold Diplomacy.breakPeaceTreaty
  split_ifs
  · dsimp only
    rw [breakLoop_wars]
  · rfl

theorem Diplomacy.breakPeaceTreaty_peaceTreaties (d : Diplomacy) (b : Nat) :
    (d.breakPeaceTreaty b).2.peaceTreaties =
      d.peaceTreaties.eraseP (fun treaty => decide (treaty.playerId = b)) := by
  unfold Diplomacy.breakPeaceTreaty
  split_ifs with h
  · dsimp only
    rw [breakLoop_peaceTreaties]
  · dsimp only
    rw [List.eraseP_of_forall_not]
    intro t ht hp
    exact h (List.any_eq_true.mpr ⟨t, ht, hp⟩)

/-- The ledger a declaration of war leaves, when it held no war with the counterpart and
at most one treaty with it. -/
theorem Diplomacy.declareWar_fresh (d : Diplomacy) (b : Nat)
    (hwar : d.isAtWar b = false) (hone : (d.treatiesWith b).length ≤ 1) :
    (d.declareWar b).1 = true ∧
    (d.declareWar b).2.warsWith b = [War.mk b 10] ∧
    (d.declareWar b).2.hasPeaceTreaty b = false ∧
    (d.declareWar b).2.getFavor b = -100 ∧
    (d.declareWar b).2.declareWar b = (false, (d.declareWar b).2) := by
  have key : ∀ d1 : Diplomacy, d1.wars = d.wars → d1.hasPeaceTreaty b = false →
      (if ¬ d1.isAtWar b = true then
        (true, ({ ({ d1 with wars := d1.wars ++ [War.mk b 10] } : Diplomacy) with
          favorMap := mapSet d1.favorMap b (-100) } : Diplomacy))
      else (false, d1)) =
      (true, ({ ({ d1 with wars := d1.wars ++ [War.mk b 10] } : Diplomacy) with
          favorMap := mapSet d1.favorMap b (-100) } : Diplomacy)) ∧
      (d.wars ++ [War.mk b 10]).filter (fun war => decide (war.playerId = b)) = [War.mk b 10] := by
    intro d1 hw _
    have hnot : ¬ d1.isAtWar b = true := by
      unfold Diplomacy.isAtWar at hwar ⊢
      rw [hw, hwar]; simp
    refine ⟨if_pos hnot, ?_⟩
    rw [List.filter_append]
    have : d.wars.filter (fun war => decide (war.playerId = b)) = [] := by
      rw [List.filter_eq_nil_iff]
      intro w hwm hwb
      unfold Diplomacy.isAtWar at hwar
      rw [List.any_eq_false] at hwar
      exact hwar w hwm hwb
    rw [this]
    simp
  have hd1 : ∃ d1 : Diplomacy,
      (if d.hasPeaceTreaty b = true then (d.breakPeaceTreaty b).2 else d) = d1 ∧
      d1.wars = d.wars ∧ d1.hasPeaceTreaty b = false := by
    by_cases ht : d.hasPeaceTreaty b = true
    · refine ⟨(d.breakPeaceTreaty b).2, if_pos ht, Diplomacy.breakPeaceTreaty_wars d b, ?_⟩
      unfold Diplomacy.hasPeaceTreaty
      rw [Diplomacy.breakPeaceTreaty_peaceTreaties]
      apply any_eraseP_of_one
      unfold Diplomacy.treatiesWith at hone
      have hpos : 0 < (d.peaceTreaties.filter
          (fun treaty => decide (treaty.playerId = b))).length := by
        unfold Diplomacy.hasPeaceTreaty at ht
        rw [List.any_eq_true] at ht
        obtain ⟨t, htm, htb⟩ := ht
        exact List.length_pos_of_mem (List.mem_filter.mpr ⟨htm, htb⟩)
      omega
    · exact ⟨d, if_neg ht, rfl, by simpa using ht⟩
  obtain ⟨d1, hd1eq, hd1w, hd1t⟩ := hd1
  obtain ⟨hres, hfil⟩ := key d1 hd1w hd1t
  have hdecl : d.declareWar b = (true, ({ ({ d1 with wars := d1.wars ++ [War.mk b 10] } :
      Diplomacy) with favorMap := mapSet d1.favorMap b (-100) } : Diplomacy)) := by
    unfold Diplomacy.declareWar
    dsimp only
    rw [hd1eq]
    exact hres
  rw [hdecl]
  dsimp only
  have hwars : (({ ({ d1 with wars := d1.wars ++ [War.mk b 10] } : Diplomacy) with
      favorMap := mapSet d1.favorMap b (-100) } : Diplomacy)).isAtWar b = true := by
    unfold Diplomacy.isAtWar
    dsimp only
    rw [List.any_append]
    simp
  refine ⟨rfl, ?_, hd1t, ?_, ?_⟩
  · unfold Diplomacy.warsWith
    dsimp only
    rw [hd1w]
    exact hfil
  · unfold Diplomacy.getFavor
    dsimp only
    rw [mapGet_mapSet_self]
    rfl
  · unfold Diplomacy.declareWar
    dsimp only
    have hnt : ¬ (({ ({ d1 with wars := d1.wars ++ [War.mk b 10] } : Diplomacy) with
        favorMap := mapSet d1.favorMap b (-100) } : Diplomacy)).hasPeaceTreaty b = true := by
      have : (({ ({ d1 with wars := d1.wars ++ [War.mk b 10] } : Diplomacy) with
        favorMap := mapSet d1.favorMap b (-100) } : Diplomacy)).hasPeaceTreaty b =
          d1.hasPeaceTreaty b := rfl
      rw [this, hd1t]; simp
    rw [if_neg hnt, if_neg (not_not.mpr hwars)]

/-- The player a reference designates after an update that keeps ids. -/
theorem findPlayer_updatePlayer (g : Game) (pid q : Nat) (f : Player → Player)
    (hf : ∀ p, (f p).id = p.id) :
    (g.updatePlayer pid f).findPlayer q =
      (g.findPlayer q).map (fun p => if p.id = pid then f p else p) := by
  unfold Game.findPlayer Game.updatePlayer
  dsimp only
  rw [List.find?_map]
  congr 2
  funext p
  simp only [Function.comp]
  split_ifs
  · rw [hf]
  · rfl

/-- The ledger of a player after an update of the ledgers of the players with id `pid`. -/
theorem ledgerOf_updatePlayer (g : Game) (pid q : Nat) (F : Diplomacy → Diplomacy) :
    (g.updatePlayer pid (fun p => { p with diplomacy := F p.diplomacy })).ledgerOf q =
      (g.ledgerOf q).map (fun d => if q = pid then F d else d) := by
  unfold Game.ledgerOf
  rw [findPlayer_updatePlayer g pid q (fun p => { p with diplomacy := F p.diplomacy })
    (fun _ => rfl)]
  cases h : g.findPlayer q with
  | none => rfl
  | some p =>
    have hid : p.id = q := findPlayer_id h
    simp only [Option.map_some', hid]
    split_ifs <;> rfl

/-- The ledgers after `Game.declareWar` between two active players. -/
theorem Game.declareWar_ledgers (g : Game) (a b : Nat) (da db : Diplomacy) (hab : a ≠ b)
    (ha : g.ledgerOf a = some da) (hb : g.ledgerOf b = some db) :
    (g.declareWar a b).1 = true ∧
    (g.declareWar a b).2.ledgerOf a = some (da.declareWar b).2 ∧
    (g.declareWar a b).2.ledgerOf b = some (db.declareWar a).2 := by
  unfold Game.ledgerOf at ha hb
  cases hfa : g.findPlayer a with
  | none => rw [hfa] at ha; cases ha
  | some pa =>
    cases hfb : g.findPlayer b with
    | none => rw [hfb] at hb; cases hb
    | some pb =>
      rw [hfa] at ha
      rw [hfb] at hb
      simp only [Option.map_some', Option.some.injEq] at ha hb
      have hpa : pa.id = a := findPlayer_id hfa
      have hpb : pb.id = b := findPlayer_id hfb
      have hla : g.ledgerOf a = some da := by unfold Game.ledgerOf; rw [hfa, ← ha]; rfl
      have hlb : g.ledgerOf b = some db := by unfold Game.ledgerOf; rw [hfb, ← hb]; rfl
      unfold Game.declareWar
      rw [hfa, hfb]
      dsimp only
      rw [hpa, hpb]
      refine ⟨rfl, ?_, ?_⟩
      · rw [ledgerOf_updatePlayer _ b a (fun d => (d.declareWar a).2),
          ledgerOf_updatePlayer g a a (fun d => (d.declareWar b).2), hla]
        simp [hab]
      · rw [ledgerOf_updatePlayer _ b b (fun d => (d.declareWar a).2),
          ledgerOf_updatePlayer g a b (fun d => (d.declareWar b).2), hlb]
        simp [Ne.symm hab]

theorem Diplomacy.elapse_succ (d : Diplomacy) (n : Nat) :
    d.elapse (n + 1) = (d.elapse n).processTurn := by
  unfold Diplomacy.elapse Diplomacy.run
  rw [List.replicate_succ', List.foldl_append]
  rfl

/-- The wars of a ledger after `n` calls of `processTurn`: each has counted down `n`
turns, not below what it had when it was at most zero. -/
theorem Diplomacy.elapse_wars (d : Diplomacy) (n : Nat) :
    (d.elapse n).wars = d.wars.map (fun war =>
      { war with turnsRemaining :=
          if war.turnsRemaining ≤ 0 then war.turnsRemaining
          else max 0 (war.turnsRemaining - n) }) := by
  induction n with
  | zero =>
    have h0 : d.elapse 0 = d := rfl
    rw [h0]
    conv_lhs => rw [← List.map_id d.wars]
    apply List.map_congr_left
    intro w _
    cases w with
    | mk p t =>
      simp only [id, Nat.cast_zero, sub_zero]
      congr 1
      split_ifs with h
      · rfl
      · omega
  | succ k ih =>
    rw [Diplomacy.elapse_succ]
    unfold Diplomacy.processTurn
    dsimp only
    rw [ih, List.map_map]
    apply List.map_congr_left
    intro w _
    cases w with
    | mk p t =>
      simp only [Function.comp]
      push_cast
      split_ifs <;> first | rfl | (congr 1; omega)

theorem Diplomacy.elapse_pending (d : Diplomacy) (n : Nat) :
    (d.elapse n).pendingTreaties = d.pendingTreaties := by
  induction n with
  | zero => rfl
  | succ k ih => rw [Diplomacy.elapse_succ]; exact ih

/-- The wars of a ledger after a declaration of war that returned `true`: the new entry
comes last, and no entry before it is for the same counterpart. -/
theorem Diplomacy.declareWar_wars (d : Diplomacy) (b : Nat) (h : (d.declareWar b).1 = true) :
    ∃ ws : List War, (∀ w ∈ ws, w.playerId ≠ b) ∧
      (d.declareWar b).2.wars = ws ++ [War.mk b 10] := by
  unfold Diplomacy.declareWar at h ⊢
  dsimp only at h ⊢
  generalize (if d.hasPeaceTreaty b = true then (d.breakPeaceTreaty b).2 else d) = d1 at h ⊢
  by_cases hw : d1.isAtWar b = true
  · rw [if_neg (not_not.mpr hw)] at h
    cases h
  · rw [if_pos hw]
    refine ⟨d1.wars, ?_, rfl⟩
    intro w hwm hwb
    apply hw
    unfold Diplomacy.isAtWar
    exact List.any_eq_true.mpr ⟨w, hwm, by simpa using hwb⟩

/-- The entries of a map after `set`: old entries or the entry set. -/
theorem mem_mapSet {κ ν : Type} [DecidableEq κ] (m : List (κ × ν)) (k : κ) (v : ν)
    (e : κ × ν) (he : e ∈ mapSet m k v) : e ∈ m ∨ e = (k, v) := by
  unfold mapSet at he
  split_ifs at he
  · obtain ⟨e0, he0, rfl⟩ := List.mem_map.mp he
    split_ifs
    · right; rfl
    · left; exact he0
  · rw [List.mem_append, List.mem_singleton] at he
    exact he

theorem favorBounded_mapSet (d : Diplomacy) (k : Nat) (v : Int) (h : d.favorBounded)
    (hv : -100 ≤ v ∧ v ≤ 100) (d1 : Diplomacy) (h1 : d1.favorMap = mapSet d.favorMap k v) :
    d1.favorBounded := by
  intro e he
  rw [h1] at he
  rcases mem_mapSet _ _ _ _ he with h2 | h2
  · exact h e h2
  · rw [h2]; exact hv

theorem Diplomacy.changeFavor_bounded (d : Diplomacy) (p : Nat) (amount : Int)
    (h : d.favorBounded) : (d.changeFavor p amount).2.favorBounded := by
  refine favorBounded_mapSet d p (max (-100) (min 100 (d.getFavor p + amount))) h ?_ _ rfl
  constructor
  · exact le_max_left _ _
  · exact max_le (by norm_num) (min_le_left _ _)

theorem breakLoop_bounded (b : Nat) (ks : List Nat) (acc : Diplomacy) (h : acc.favorBounded) :
    (ks.foldl (fun acc pid => if pid ≠ b then (acc.changeFavor pid (-15)).2 else acc)
        acc).favorBounded := by
  induction ks generalizing acc with
  | nil => exact h
  | cons k t ih =>
    simp only [List.foldl_cons]
    apply ih
    split_ifs
    · exact Diplomacy.changeFavor_bounded acc k (-15) h
    · exact h

theorem Diplomacy.breakPeaceTreaty_bounded (d : Diplomacy) (b : Nat) (h : d.favorBounded) :
    (d.breakPeaceTreaty b).2.favorBounded := by
  unfold Diplomacy.breakPeaceTreaty
  split_ifs
  · dsimp only
    apply breakLoop_bounded
    exact favorBounded_mapSet d b (-100) h (by norm_num) _ rfl
  · exact h

theorem Diplomacy.acceptPeaceTreaty_bounded (d : Diplomacy) (b : Nat) (h : d.favorBounded) :
    (d.acceptPeaceTreaty b).2.favorBounded := by
  unfold Diplomacy.acceptPeaceTreaty
  split_ifs
  · dsimp only
    exact Diplomacy.changeFavor_bounded _ b 20 h
  · exact h

theorem Diplomacy.rejectPeaceTreaty_bounded (d : Diplomacy) (b : Nat) (h : d.favorBounded) :
    (d.rejectPeaceTreaty b).2.favorBounded := by
  unfold Diplomacy.rejectPeaceTreaty
  split_ifs
  · dsimp only
    exact Diplomacy.changeFavor_bounded _ b (-10) h
  · exact h

theorem Diplomacy.declareWar_bounded (d : Diplomacy) (b : Nat) (h : d.favorBounded) :
    (d.declareWar b).2.favorBounded := by
  have h1 : (if d.hasPeaceTreaty b = true then (d.breakPeaceTreaty b).2 else d).favorBounded := by
    split_ifs
    · exact Diplomacy.breakPeaceTreaty_bounded d b h
    · exact h
  unfold Diplomacy.declareWar
  dsimp only
  split_ifs
  all_goals first
    | exact favorBounded_mapSet _ b (-100) (Diplomacy.breakPeaceTreaty_bounded d b h)
        (by norm_num) _ rfl
    | exact favorBounded_mapSet _ b (-100) h (by norm_num) _ rfl
    | exact Diplomacy.breakPeaceTreaty_bounded d b h
    | exact h

/-- Every ledger of the game keeps its favor values within bounds during the border
scan. -/
theorem processDiplomaticEvents_bounded (g : Game)
    (h : ∀ p ∈ g.players, p.diplomacy.favorBounded) :
    ∀ p ∈ g.processDiplomaticEvents.players, p.diplomacy.favorBounded := by
  unfold Game.processDiplomaticEvents
  have inner : ∀ (l2 : List Player) (player : Player) (terr : List ((Int × Int) × Nat))
      (acc : Game), (∀ p ∈ acc.players, p.diplomacy.favorBounded) →
      ∀ p ∈ (l2.foldl (fun acc otherPlayer =>
        if player.id = otherPlayer.id then acc
        else if player.diplomacy.isAtWar otherPlayer.id then acc
        else
          let amount : Int :=
            if territoryViolation terr player.id otherPlayer.units then -10
            else if borderViolation terr player.id otherPlayer.units then -5
            else 1
          acc.updatePlayer player.id (fun p =>
            { p with diplomacy := (p.diplomacy.changeFavor otherPlayer.id amount).2 })) acc).players,
        p.diplomacy.favorBounded := by
    intro l2 player terr
    induction l2 with
    | nil => intro acc hacc; exact hacc
    | cons o t ih =>
      intro acc hacc
      simp only [List.foldl_cons]
      apply ih
      split_ifs
      all_goals first
        | exact hacc
        | (intro p hp
           unfold Game.updatePlayer at hp
           dsimp only at hp
           obtain ⟨p0, hp0, rfl⟩ := List.mem_map.mp hp
           split_ifs
           · exact Diplomacy.changeFavor_bounded _ _ _ (hacc p0 hp0)
           · exact hacc p0 hp0)
  have outer : ∀ (l1 : List Player) (acc : Game),
      (∀ p ∈ acc.players, p.diplomacy.favorBounded) →
      ∀ p ∈ (l1.foldl (fun acc player =>
        let territories := acc.getPlayerTerritories
        g.players.foldl (fun acc otherPlayer =>
          if player.id = otherPlayer.id then acc
          else if player.diplomacy.isAtWar otherPlayer.id then acc
          else
            let amount : Int :=
              if territoryViolation territories player.id otherPlayer.units then -10
              else if borderViolation territories player.id otherPlayer.units then -5
              else 1
            acc.updatePlayer player.id (fun p =>
              { p with diplomacy := (p.diplomacy.changeFavor otherPlayer.id amount).2 })) acc)
        acc).players, p.diplomacy.favorBounded := by
    intro l1
    induction l1 with
    | nil => intro acc hacc; exact hacc
    | cons pl t ih =>
      intro acc hacc
      simp only [List.foldl_cons]
      apply ih
      exact inner g.players pl acc.getPlayerTerritories acc hacc
  exact outer g.players g h

theorem foldl_add_eq_sum {α : Type} (f : α → Int) (l : List α) (a : Int) :
    l.foldl (fun total x => total + f x) a = a + (l.map f).sum := by
  induction l generalizing a with
  | nil => simp
  | cons x t ih =>
    simp only [List.foldl_cons, List.map_cons, List.sum_cons]
    rw [ih]
    omega

/-- Every treaty entry a ledger operation leaves has the bonus 2 when those before it
had. -/
theorem Diplomacy.step_bonus (d : Diplomacy) (op : LedgerOp)
    (h : ∀ t ∈ d.peaceTreaties, t.bonusCoins = 2) :
    ∀ t ∈ (d.step op).peaceTreaties, t.bonusCoins = 2 := by
  have hbreak : ∀ p, ∀ t ∈ (d.breakPeaceTreaty p).2.peaceTreaties, t.bonusCoins = 2 := by
    intro p t ht
    rw [Diplomacy.breakPeaceTreaty_peaceTreaties] at ht
    exact h t (List.mem_of_mem_eraseP ht)
  cases op with
  | proposePeaceTreaty p =>
    unfold Diplomacy.step Diplomacy.proposePeaceTreaty
    dsimp only
    split_ifs <;> exact h
  | acceptPeaceTreaty p =>
    unfold Diplomacy.step Diplomacy.acceptPeaceTreaty
    dsimp only
    split_ifs
    · intro t ht
      rw [Diplomacy.changeFavor_peaceTreaties] at ht
      dsimp only at ht
      rw [List.mem_append, List.mem_singleton] at ht
      rcases ht with ht | ht
      · exact h t ht
      · rw [ht]
    · exact h
  | rejectPeaceTreaty p =>
    unfold Diplomacy.step Diplomacy.rejectPeaceTreaty
    dsimp only
    split_ifs
    · intro t ht
      rw [Diplomacy.changeFavor_peaceTreaties] at ht
      exact h t ht
    · exact h
  | breakPeaceTreaty p => exact hbreak p
  | declareWar p =>
    unfold Diplomacy.step Diplomacy.declareWar
    dsimp only
    split_ifs
    all_goals first
      | exact hbreak p
      | exact h
  | proposePeace p =>
    unfold Diplomacy.step Diplomacy.proposePeace
    dsimp only
    split_ifs
    · cases d.getWarWith p with
      | none => exact h
      | some war =>
        dsimp only
        unfold Diplomacy.proposePeaceTreaty
        split_ifs <;> exact h
    · exact h
  | processTurn =>
    unfold Diplomacy.step Diplomacy.processTurn
    dsimp only
    intro t ht
    obtain ⟨t0, ht0, rfl⟩ := List.mem_map.mp ht
    exact h t0 ht0

theorem Diplomacy.run_bonus (ops : List LedgerOp) (d : Diplomacy)
    (h : ∀ t ∈ d.peaceTreaties, t.bonusCoins = 2) :
    ∀ t ∈ (d.run ops).peaceTreaties, t.bonusCoins = 2 := by
  induction ops generalizing d with
  | nil => exact h
  | cons op rest ih => exact ih (d.step op) (Diplomacy.step_bonus d op h)

/-- The `player.game` a unit reads is never set (C19 and the model of `Unit.playerGame`). -/
theorem Unit.playerGame_none (u : Unit) (g : Game) : u.playerGame g = none := by
  unfold Unit.playerGame
  cases g.findPlayer u.player <;> rfl

/-- The loop of `parseResponse` keeps every action that is neither an acceptance nor a
rejection of a peace treaty, and leaves the state as it is. -/
theorem Agent.handleDiplomacy_keep (g : Game) (plan : List (Action × Option (Option Nat)))
    (h : ∀ a ∈ plan, a.1.action ≠ "acceptPeaceTreaty" ∧ a.1.action ≠ "rejectPeaceTreaty") :
    Agent.handleDiplomacy (plan.map (fun a => PlanItem.object a.1 a.2)) g =
      (some (plan.map Prod.fst), g) := by
  induction plan with
  | nil => rfl
  | cons a rest ih =>
    obtain ⟨h1, h2⟩ := h a (List.mem_cons_self _ _)
    simp only [List.map_cons]
    unfold Agent.handleDiplomacy
    rw [if_neg (fun hc => h1 hc.1), if_neg (fun hc => h2 hc.1)]
    dsimp only
    rw [ih (fun b hb => h b (List.mem_cons_of_mem _ hb))]
    rfl

/-- While the queue of pending actions is not empty `getAction` returns its first
element and removes it, without a call of the oracle. -/
theorem Game.getActions_pending (oracle : Nat → OracleReply) (player : Option Player)
    (l : List Action) (g : Game) (agent : Agent) (calls : Nat)
    (hagent : g.agent = some agent) (hq : agent.pendingActions = l) :
    Game.getActions oracle player l.length g calls =
      some (l, { g with agent := some { agent with pendingActions := [] } }, calls) := by
  induction l generalizing g agent with
  | nil =>
    unfold Game.getActions
    simp only [List.length_nil]
    cases g with
    | mk a1 a2 a3 a4 a5 a6 a7 a8 a9 a10 a11 a12 =>
      cases agent with
      | mk c1 c2 c3 c4 =>
        simp only at hagent hq
        subst hagent hq
        rfl
  | cons a rest ih =>
    simp only [List.length_cons]
    unfold Game.getActions
    rw [hagent]
    dsimp only
    have hdec : agent.getAction g player oracle calls =
        Decision.mk a { g with agent := some { agent with pendingActions := rest } } calls := by
      unfold Agent.getAction
      rw [hq]
    rw [hdec]
    dsimp only
    rw [ih { g with agent := some { agent with pendingActions := rest } }
      { agent with pendingActions := rest } rfl rfl]
    rfl

/-- The list of integers `0 - r, ..., (n - 1) - r` as it is built in `calculateTerritory`. -/
theorem coerced_range (n : Nat) (r : Int) :
    (List.map (fun i => i - r) (do let a ← List.range n; pure (a : Int)) : List Int) =
      (List.range n).map (fun i : Nat => (i : Int) - r) := by
  simp only [List.bind_eq_flatMap, List.pure_def, List.map_flatMap, List.map_cons, List.map_nil]
  induction List.range n with
  | nil => rfl
  | cons a t ih => simp [List.flatMap_cons, ih]

/-- The offsets `-r, ..., r` the loops of `calculateTerritory` run over. -/
theorem mem_offsets (r : Nat) (z : Int) :
    z ∈ (List.range (2 * r + 1)).map (fun i : Nat => (i : Int) - (r : Int)) ↔
      -(r : Int) ≤ z ∧ z ≤ r := by
  simp only [List.mem_map, List.mem_range]
  constructor
  · rintro ⟨i, hi, rfl⟩
    omega
  · rintro ⟨h1, h2⟩
    exact ⟨(z + r).toNat, by omega, by omega⟩

theorem offsets_nodup (r : Nat) :
    ((List.range (2 * r + 1)).map (fun i : Nat => (i : Int) - (r : Int))).Nodup := by
  apply List.Nodup.map _ (List.nodup_range _)
  intro a b hab
  simp only at hab
  omega

/-- The territory list as the offset pairs other than `(0, 0)`, in the order of the loops. -/
theorem City.calculateTerritory_territory (c : City) :
    c.calculateTerritory.territory =
      ((((List.range (2 * c.range + 1)).map (fun i : Nat => (i : Int) - (c.range : Int))) ×ˢ
          ((List.range (2 * c.range + 1)).map (fun i : Nat => (i : Int) - (c.range : Int)))).filter
        (fun d => decide (d ≠ (0, 0)))).map (fun d => Tile.mk (c.x + d.1) (c.y + d.2) c.level) := by
  unfold City.calculateTerritory
  dsimp only
  rw [coerced_range]
  generalize (List.range (2 * c.range + 1)).map (fun i : Nat => (i : Int) - (c.range : Int)) = offsets
  generalize hk : offsets = inner
  nth_rewrite 1 [← hk]
  nth_rewrite 2 [← hk]
  clear hk
  induction offsets with
  | nil => rfl
  | cons dx rest ih =>
    simp only [List.flatMap_cons, List.product_cons, List.filter_append, List.map_append, ih]
    congr 1
    simp only [List.filter_map, List.map_map]
    congr 1
    apply List.filter_congr
    intro dy _
    simp [Prod.ext_iff]

/-- The entry at position `n` of a list after the first entry satisfying `p`, which stands
at position `k ≠ n`, has been erased: positions after `k` move down by one. -/
theorem getElem?_eraseP_of_findIdx? {α : Type} (p : α → Bool) (l : List α) (k n : Nat)
    (hk : l.findIdx? p = some k) (hn : n ≠ k) :
    (l.eraseP p)[if k < n then n - 1 else n]? = l[n]? := by
  induction l generalizing k n with
  | nil => simp at hk
  | cons a t ih =>
    rw [List.findIdx?_cons] at hk
    by_cases hpa : p a = true
    · rw [if_pos hpa] at hk
      have hk0 : k = 0 := by simpa using hk.symm
      subst hk0
      have hpos : 0 < n := Nat.pos_of_ne_zero hn
      rw [if_pos hpos, List.eraseP_cons_of_pos hpa]
      obtain ⟨m, rfl⟩ : ∃ m, n = m + 1 := ⟨n - 1, by omega⟩
      simp
    · rw [if_neg hpa] at hk
      rw [List.findIdx?_succ] at hk
      cases ht : t.findIdx? p with
      | none => rw [ht] at hk; simp at hk
      | some j =>
        rw [ht] at hk
        have hkj : k = j + 1 := by simpa using hk.symm
        subst hkj
        rw [List.eraseP_cons_of_neg hpa]
        cases n with
        | zero => simp
        | succ m =>
          have hm : m ≠ j := by omega
          have := ih j m ht hm
          by_cases hjm : j < m
          · rw [if_pos hjm] at this
            rw [if_pos (by omega)]
            obtain ⟨m', rfl⟩ : ∃ m', m = m' + 1 := ⟨m - 1, by omega⟩
            simpa using this
          · rw [if_neg hjm] at this
            rw [if_neg (by omega)]
            simpa using this

/-- The position of a listed player is the position `findIdx?` returns, and the player
stands there, when ids are used once. -/
theorem findIdx?_of_mem_players {l : List Player} (h : (l.map (fun p => p.id)).Nodup)
    {P : Player} (hP : P ∈ l) :
    ∃ k, l.findIdx? (fun p => decide (p.id = P.id)) = some k ∧ l[k]? = some P := by
  induction l with
  | nil => cases hP
  | cons a t ih =>
    simp only [List.map_cons, List.nodup_cons] at h
    rw [List.findIdx?_cons]
    by_cases ha : a.id = P.id
    · refine ⟨0, by simp [ha], ?_⟩
      rcases List.mem_cons.mp hP with rfl | hPt
      · simp
      · exact absurd (List.mem_map.mpr ⟨P, hPt, ha.symm⟩) h.1
    · have hPt : P ∈ t := by
        rcases List.mem_cons.mp hP with rfl | hPt
        · exact absurd rfl ha
        · exact hPt
      obtain ⟨k, hk, hget⟩ := ih h.2 hPt
      refine ⟨k + 1, ?_, by simpa using hget⟩
      simp [ha, List.findIdx?_succ, hk]

/-- A map built by successive `set` calls holds under a key the value of the last call
for that key, and what it held before when there is none. -/
theorem mapGet_foldl_mapSet {κ ν : Type} [DecidableEq κ] (ws : List (κ × ν)) (m : List (κ × ν))
    (k : κ) :
    mapGet (ws.foldl (fun acc e => mapSet acc e.1 e.2) m) k =
      match ws.reverse.find? (fun e => decide (e.1 = k)) with
      | some e => some e.2
      | none => mapGet m k := by
  induction ws generalizing m with
  | nil => rfl
  | cons w t ih =>
    rw [List.foldl_cons, ih, List.reverse_cons, List.find?_append]
    cases ht : t.reverse.find? (fun e => decide (e.1 = k)) with
    | some e => rfl
    | none =>
      dsimp only [Option.or]
      by_cases hk : w.1 = k
      · simp only [List.find?_cons, hk, decide_True, Option.none_or]
        rw [← hk, mapGet_mapSet_self]
      · simp only [List.find?_cons, hk, decide_False, List.find?_nil, Option.none_or]
        rw [mapGet_mapSet_ne m w.1 k w.2 (fun h => hk h.symm)]

/-- The territory map is the map the writes of `territoryClaims` build. -/
theorem getPlayerTerritories_eq_foldl (g : Game) :
    g.getPlayerTerritories = g.territoryClaims.foldl (fun acc e => mapSet acc e.1 e.2) [] := by
  unfold Game.getPlayerTerritories Game.territoryClaims
  generalize ([] : List ((Int × Int) × Nat)) = m
  induction g.players generalizing m with
  | nil => rfl
  | cons p ps ih =>
    rw [List.foldl_cons, List.flatMap_cons, List.foldl_append, ih]
    congr 1
    generalize p.cities = cs
    induction cs generalizing m with
    | nil => rfl
    | cons c t ihc =>
      rw [List.foldl_cons, List.flatMap_cons, List.foldl_append, ihc]
      congr 1
      rw [List.foldl_cons, List.foldl_map]

/-- The territory map assigns a tile to the last of its claimants, in the order of the
players, and to no player when it has none. -/
theorem getPlayerTerritories_last_claimant (g : Game) (x y : Int) :
    mapGet g.getPlayerTerritories (x, y) = (g.claimants x y).getLast? := by
  rw [getPlayerTerritories_eq_foldl, mapGet_foldl_mapSet]
  have hnil : mapGet ([] : List ((Int × Int) × Nat)) (x, y) = none := rfl
  rw [hnil]
  unfold Game.territoryClaims Game.claimants
  induction g.players with
  | nil => rfl
  | cons p ps ih =>
    rw [List.flatMap_cons, List.reverse_append, List.find?_append]
    have hvalue : ∀ e ∈ p.cities.flatMap (fun city =>
        ((city.x, city.y), p.id) :: city.territory.map (fun tile => ((tile.x, tile.y), p.id))),
        e.2 = p.id := by
      intro e he
      obtain ⟨c, _, hc⟩ := List.mem_flatMap.mp he
      rcases List.mem_cons.mp hc with rfl | hc
      · rfl
      · obtain ⟨tile, _, rfl⟩ := List.mem_map.mp hc
        rfl
    have hkey : (∃ e ∈ p.cities.flatMap (fun city =>
        ((city.x, city.y), p.id) :: city.territory.map (fun tile => ((tile.x, tile.y), p.id))),
        e.1 = (x, y)) ↔
        p.cities.any (fun city => decide ((city.x, city.y) = (x, y)) ||
          city.territory.any (fun tile => decide ((tile.x, tile.y) = (x, y)))) = true := by
      rw [List.any_eq_true]
      constructor
      · rintro ⟨e, he, hk⟩
        obtain ⟨c, hc, hec⟩ := List.mem_flatMap.mp he
        refine ⟨c, hc, ?_⟩
        rcases List.mem_cons.mp hec with rfl | hec
        · simp only [Bool.or_eq_true, decide_eq_true_eq]
          exact Or.inl hk
        · obtain ⟨tile, htile, rfl⟩ := List.mem_map.mp hec
          simp only [Bool.or_eq_true, decide_eq_true_eq, List.any_eq_true]
          exact Or.inr ⟨tile, htile, hk⟩
      · rintro ⟨c, hc, h⟩
        simp only [Bool.or_eq_true, decide_eq_true_eq, List.any_eq_true] at h
        rcases h with h | ⟨tile, htile, h⟩
        · exact ⟨((c.x, c.y), p.id), List.mem_flatMap.mpr ⟨c, hc, List.mem_cons_self _ _⟩, h⟩
        · exact ⟨((tile.x, tile.y), p.id), List.mem_flatMap.mpr ⟨c, hc,
            List.mem_cons_of_mem _ (List.mem_map.mpr ⟨tile, htile, rfl⟩)⟩, h⟩
    generalize p.cities.flatMap (fun city =>
        ((city.x, city.y), p.id) :: city.territory.map (fun tile => ((tile.x, tile.y), p.id))) = own
      at hvalue hkey ⊢
    rw [List.filter_cons]
    cases hrest : (ps.flatMap (fun player => player.cities.flatMap (fun city =>
        ((city.x, city.y), player.id) ::
          city.territory.map (fun tile => ((tile.x, tile.y), player.id))))).reverse.find?
        (fun e => decide (e.1 = (x, y))) with
    | some e =>
      rw [hrest] at ih
      dsimp only [Option.or] at ih ⊢
      have hne : (ps.filter (fun player => player.cities.any (fun city =>
          decide ((city.x, city.y) = (x, y)) ||
            city.territory.any (fun tile => decide ((tile.x, tile.y) = (x, y)))))).map
          (fun p => p.id) ≠ [] := by
        intro h
        rw [h] at ih
        cases ih
      split_ifs
      · obtain ⟨b, l, hbl⟩ := List.exists_cons_of_ne_nil hne
        rw [List.map_cons, hbl, List.getLast?_cons_cons, ← hbl]
        exact ih
      · exact ih
    | none =>
      rw [hrest] at ih
      dsimp only [Option.or] at ih ⊢
      have hnil2 : (ps.filter (fun player => player.cities.any (fun city =>
          decide ((city.x, city.y) = (x, y)) ||
            city.territory.any (fun tile => decide ((tile.x, tile.y) = (x, y)))))).map
          (fun p => p.id) = [] := List.getLast?_eq_none_iff.mp ih.symm
      cases hown : own.reverse.find? (fun e => decide (e.1 = (x, y))) with
      | some e =>
        have hmem : e ∈ own := List.mem_reverse.mp (List.mem_of_find?_eq_some hown)
        have hk : e.1 = (x, y) := by simpa using List.find?_some hown
        rw [if_pos (hkey.mp ⟨e, hmem, hk⟩), List.map_cons, hnil2]
        dsimp only
        rw [hvalue e hmem]
        rfl
      | none =>
        have hno : ¬ (p.cities.any (fun city => decide ((city.x, city.y) = (x, y)) ||
            city.territory.any (fun tile => decide ((tile.x, tile.y) = (x, y)))) = true) := by
          intro h
          obtain ⟨e, he, hk⟩ := hkey.mpr h
          have := List.find?_eq_none.mp hown e (List.mem_reverse.mpr he)
          simp [hk] at this
        rw [if_neg hno, hnil2]
        rfl

/-- The territory map reads the ids and the cities of the players only. -/
theorem getPlayerTerritories_congr (g1 g2 : Game)
    (h : g1.players.map (fun p => (p.id, p.cities)) = g2.players.map (fun p => (p.id, p.cities))) :
    g1.getPlayerTerritories = g2.getPlayerTerritories := by
  have key : ∀ g : Game, g.getPlayerTerritories =
      (g.players.map (fun p => (p.id, p.cities))).foldl (fun territories e =>
        e.2.foldl (fun territories city =>
          city.territory.foldl (fun territories tile => mapSet territories (tile.x, tile.y) e.1)
            (mapSet territories (city.x, city.y) e.1)) territories) [] := by
    intro g
    unfold Game.getPlayerTerritories
    rw [List.foldl_map]
  rw [key g1, key g2, h]

theorem scanLedger_cons (territories : List ((Int × Int) × Nat)) (player o : Player)
    (t : List Player) (d : Diplomacy) :
    scanLedger territories player (o :: t) d =
      scanLedger territories player t
        (if player.id = o.id then d
          else if player.diplomacy.isAtWar o.id then d
          else (d.changeFavor o.id (scanAmount territories player o)).2) := rfl

/-- The players after the inner loop of the border scan for `player`. -/
theorem scan_inner_players (territories : List ((Int × Int) × Nat)) (player : Player)
    (others : List Player) (acc : Game) :
    (others.foldl (fun acc otherPlayer =>
      if player.id = otherPlayer.id then acc
      else if player.diplomacy.isAtWar otherPlayer.id then acc
      else
        let amount : Int :=
          if territoryViolation territories player.id otherPlayer.units then -10
          else if borderViolation territories player.id otherPlayer.units then -5
          else 1
        acc.updatePlayer player.id (fun p =>
          { p with diplomacy := (p.diplomacy.changeFavor otherPlayer.id amount).2 })) acc).players =
      acc.players.map (fun p =>
        if p.id = player.id then
          { p with diplomacy := scanLedger territories player others p.diplomacy }
        else p) := by
  induction others generalizing acc with
  | nil =>
    simp only [List.foldl_nil, scanLedger]
    symm
    apply List.map_id''
    intro p
    split_ifs <;> rfl
  | cons o t ih =>
    rw [List.foldl_cons, ih]
    simp only [scanLedger_cons]
    by_cases h1 : player.id = o.id
    · simp only [if_pos h1]
    · simp only [if_neg h1]
      by_cases h2 : player.diplomacy.isAtWar o.id = true
      · simp only [if_pos h2]
      · simp only [if_neg h2]
        unfold Game.updatePlayer
        dsimp only
        rw [List.map_map]
        apply List.map_congr_left
        intro p _
        simp only [Function.comp]
        by_cases hp : p.id = player.id
        · simp only [if_pos hp]
          rfl
        · simp only [if_neg hp]

/-- The players after the border scan: each ledger has gone through the inner loop of
each player with the id of its owner. -/
theorem scan_outer_players (g : Game) (l : List Player) (acc : Game)
    (hacc : acc.players.map (fun p => (p.id, p.cities)) =
      g.players.map (fun p => (p.id, p.cities))) :
    (l.foldl (fun acc player =>
      let territories := acc.getPlayerTerritories
      g.players.foldl (fun acc otherPlayer =>
        if player.id = otherPlayer.id then acc
        else if player.diplomacy.isAtWar otherPlayer.id then acc
        else
          let amount : Int :=
            if territoryViolation territories player.id otherPlayer.units then -10
            else if borderViolation territories player.id otherPlayer.units then -5
            else 1
          acc.updatePlayer player.id (fun p =>
            { p with diplomacy := (p.diplomacy.changeFavor otherPlayer.id amount).2 })) acc)
      acc).players =
      acc.players.map (fun p => { p with diplomacy := scanRounds g l p }) := by
  induction l generalizing acc with
  | nil =>
    simp only [List.foldl_nil]
    symm
    exact List.map_id'' (fun p => rfl) _
  | cons pl t ih =>
    rw [List.foldl_cons]
    have hterr : acc.getPlayerTerritories = g.getPlayerTerritories :=
      getPlayerTerritories_congr acc g hacc
    have hinner := scan_inner_players acc.getPlayerTerritories pl g.players acc
    have hcore : ∀ acc1 : Game,
        acc1.players = acc.players.map (fun p =>
          if p.id = pl.id then
            { p with diplomacy := scanLedger acc.getPlayerTerritories pl g.players p.diplomacy }
          else p) →
        acc1.players.map (fun p => (p.id, p.cities)) = g.players.map (fun p => (p.id, p.cities)) := by
      intro acc1 h1
      rw [h1, List.map_map, ← hacc]
      apply List.map_congr_left
      intro p _
      simp only [Function.comp]
      split_ifs <;> rfl
    rw [ih _ (hcore _ hinner), hinner, List.map_map, hterr]
    apply List.map_congr_left
    intro p _
    simp only [Function.comp, scanRounds, List.foldl_cons]
    by_cases hp : p.id = pl.id
    · simp only [if_pos hp]
    · simp only [if_neg hp]

/-- The players after `processDiplomaticEvents`. -/
theorem processDiplomaticEvents_players (g : Game) :
    g.processDiplomaticEvents.players =
      g.players.map (fun p => { p with diplomacy := scanRounds g g.players p }) :=
  scan_outer_players g g.players g rfl

/-- A loop that acts on the players with the id of `A` acts once, as for `A`, when `A` is
listed and ids are used once. -/
theorem foldl_own_id {δ : Type} (S : Player → δ → δ) (l : List Player)
    (hl : (l.map (fun p => p.id)).Nodup) (A : Player) (hA : A ∈ l) (d : δ) :
    l.foldl (fun d player => if A.id = player.id then S player d else d) d = S A d := by
  have hnone : ∀ (t : List Player) (e : δ), (∀ q ∈ t, q.id ≠ A.id) →
      t.foldl (fun d player => if A.id = player.id then S player d else d) e = e := by
    intro t
    induction t with
    | nil => intro e _; rfl
    | cons q r ihr =>
      intro e hq
      rw [List.foldl_cons, if_neg (fun h => hq q (List.mem_cons_self _ _) h.symm)]
      exact ihr e (fun x hx => hq x (List.mem_cons_of_mem _ hx))
  induction l generalizing d with
  | nil => cases hA
  | cons q t ih =>
    simp only [List.map_cons, List.nodup_cons] at hl
    rw [List.foldl_cons]
    rcases List.mem_cons.mp hA with rfl | hAt
    · rw [if_pos rfl]
      apply hnone
      intro x hx hxa
      exact hl.1 (List.mem_map.mpr ⟨x, hx, hxa⟩)
    · have hq : A.id ≠ q.id := by
        intro h
        exact hl.1 (List.mem_map.mpr ⟨A, hAt, h⟩)
      rw [if_neg hq]
      exact ih hl.2 hAt d

/-- The favor of `A` toward a listed player `B` after the inner loop of the border scan. -/
theorem scanLedger_getFavor (territories : List ((Int × Int) × Nat)) (A B : Player)
    (l : List Player) (hl : (l.map (fun p => p.id)).Nodup) (hB : B ∈ l) (hAB : A.id ≠ B.id)
    (d : Diplomacy) :
    (scanLedger territories A l d).getFavor B.id =
      if A.diplomacy.isAtWar B.id then d.getFavor B.id
      else max (-100) (min 100 (d.getFavor B.id + scanAmount territories A B)) := by
  have hother : ∀ (t : List Player) (e : Diplomacy), (∀ q ∈ t, q.id ≠ B.id) →
      (scanLedger territories A t e).getFavor B.id = e.getFavor B.id := by
    intro t
    induction t with
    | nil => intro e _; rfl
    | cons q r ihr =>
      intro e hq
      rw [scanLedger_cons, ihr _ (fun x hx => hq x (List.mem_cons_of_mem _ hx))]
      split_ifs
      · rfl
      · rfl
      · rw [Diplomacy.getFavor_changeFavor, if_neg (fun h => hq q (List.mem_cons_self _ _) h.symm)]
  induction l generalizing d with
  | nil => cases hB
  | cons q t ih =>
    simp only [List.map_cons, List.nodup_cons] at hl
    rw [scanLedger_cons]
    rcases List.mem_cons.mp hB with rfl | hBt
    · rw [hother t _ (fun x hx hxb => hl.1 (List.mem_map.mpr ⟨x, hx, hxb⟩)), if_neg hAB]
      split_ifs
      · rfl
      · rw [Diplomacy.getFavor_changeFavor, if_pos rfl]
    · have hq : q.id ≠ B.id := fun h => hl.1 (List.mem_map.mpr ⟨B, hBt, h.symm⟩)
      rw [ih hl.2 hBt]
      have hsame : (if A.id = q.id then d
          else if A.diplomacy.isAtWar q.id = true then d
          else (d.changeFavor q.id (scanAmount territories A q)).2).getFavor B.id =
          d.getFavor B.id := by
        split_ifs
        · rfl
        · rfl
        · rw [Diplomacy.getFavor_changeFavor, if_neg (fun h => hq h.symm)]
      rw [hsame]

/-- With ids used once, a reference to the id of a listed player designates that player. -/
theorem findPlayer_eq_of_mem {g : Game} (hids : (g.players.map (fun p => p.id)).Nodup)
    {A : Player} (hA : A ∈ g.players) : g.findPlayer A.id = some A := by
  obtain ⟨q, hq⟩ := findPlayer_of_mem hA
  have hqid := findPlayer_id hq
  have hqmem := findPlayer_mem hq
  rw [hq, List.inj_on_of_nodup_map hids hqmem hA hqid]

/-- The flag `territoryViolation` says that some unit stands on a tile the map assigns to
the player. -/
theorem territoryViolation_iff (territories : List ((Int × Int) × Nat)) (playerId : Nat)
    (units : List Unit) :
    territoryViolation territories playerId units = true ↔
      ∃ u ∈ units, mapGet territories (u.x, u.y) = some playerId := by
  unfold territoryViolation
  simp only [List.any_eq_true, decide_eq_true_eq]

/-- When no unit stands on a tile of the player, the flag `borderViolation` says that some
unit stands within one tile of a tile the map assigns to the player. -/
theorem borderViolation_iff (territories : List ((Int × Int) × Nat)) (playerId : Nat)
    (units : List Unit)
    (hnot : ¬ ∃ u ∈ units, mapGet territories (u.x, u.y) = some playerId) :
    borderViolation territories playerId units = true ↔
      ∃ u ∈ units, ∃ dx dy : Int, |dx| ≤ 1 ∧ |dy| ≤ 1 ∧
        mapGet territories (u.x + dx, u.y + dy) = some playerId := by
  have hoff : ∀ z : Int, z ∈ ([-1, 0, 1] : List Int) ↔ |z| ≤ 1 := by
    intro z
    simp only [List.mem_cons, List.mem_singleton, List.not_mem_nil, or_false, abs_le]
    omega
  unfold borderViolation
  simp only [List.any_eq_true, decide_eq_true_eq]
  constructor
  · rintro ⟨u, hu, h⟩
    have hu0 : ¬ mapGet territories (u.x, u.y) = some playerId := fun h0 => hnot ⟨u, hu, h0⟩
    rw [if_neg hu0] at h
    simp only [List.any_eq_true, decide_eq_true_eq] at h
    obtain ⟨dx, hdx, dy, hdy, hget⟩ := h
    exact ⟨u, hu, dx, dy, (hoff dx).mp hdx, (hoff dy).mp hdy, hget⟩
  · rintro ⟨u, hu, dx, dy, hdx, hdy, hget⟩
    have hu0 : ¬ mapGet territories (u.x, u.y) = some playerId := fun h0 => hnot ⟨u, hu, h0⟩
    refine ⟨u, hu, ?_⟩
    rw [if_neg hu0]
    simp only [List.any_eq_true, decide_eq_true_eq]
    exact ⟨dx, (hoff dx).mpr hdx, dy, (hoff dy).mpr hdy, hget⟩

/-- Roster consistency is read from the global unit list and from the ids and rosters of
the players. -/
theorem rostersConsistent_of_frame (g g1 : Game) (hu : g1.units = g.units)
    (hp : g1.players.map (fun p => (p.id, p.units)) = g.players.map (fun p => (p.id, p.units)))
    (h : g.rostersConsistent) : g1.rostersConsistent := by
  have hto : ∀ p1 ∈ g1.players, ∃ p ∈ g.players, p.id = p1.id ∧ p.units = p1.units := by
    intro p1 hp1
    have hmem : (p1.id, p1.units) ∈ g.players.map (fun p => (p.id, p.units)) := by
      rw [← hp]
      exact List.mem_map.mpr ⟨p1, hp1, rfl⟩
    obtain ⟨p, hpm, hpe⟩ := List.mem_map.mp hmem
    rw [Prod.mk.injEq] at hpe
    exact ⟨p, hpm, hpe.1, hpe.2⟩
  have hfrom : ∀ p ∈ g.players, ∃ p1 ∈ g1.players, p1.id = p.id ∧ p1.units = p.units := by
    intro p hpm
    have hmem : (p.id, p.units) ∈ g1.players.map (fun p => (p.id, p.units)) := by
      rw [hp]
      exact List.mem_map.mpr ⟨p, hpm, rfl⟩
    obtain ⟨p1, hp1, hpe⟩ := List.mem_map.mp hmem
    rw [Prod.mk.injEq] at hpe
    exact ⟨p1, hp1, hpe.1, hpe.2⟩
  constructor
  · intro p1 hp1 v hv
    obtain ⟨p, hpm, hid, hunits⟩ := hto p1 hp1
    rw [← hunits] at hv
    rw [hu, ← hid]
    exact h.1 p hpm v hv
  · intro v hv
    rw [hu] at hv
    obtain ⟨p, hpm, hid, hvp⟩ := h.2 v hv
    obtain ⟨p1, hp1, hid1, hunits1⟩ := hfrom p hpm
    exact ⟨p1, hp1, by rw [hid1, hid], by rw [hunits1]; exact hvp⟩

/-- Roster consistency is kept when the same change, one that keeps the owner, is made to
every unit object in the global list and in the rosters. -/
theorem rostersConsistent_of_map (g g1 : Game) (F : Unit → Unit) (G : Player → Player)
    (hF : ∀ v, (F v).player = v.player)
    (hGid : ∀ p ∈ g.players, (G p).id = p.id)
    (hGu : ∀ p ∈ g.players, (G p).units = p.units.map F)
    (hu : g1.units = g.units.map F) (hp : g1.players = g.players.map G)
    (h : g.rostersConsistent) : g1.rostersConsistent := by
  constructor
  · intro p1 hp1 v1 hv1
    rw [hp] at hp1
    obtain ⟨p, hpm, rfl⟩ := List.mem_map.mp hp1
    rw [hGu p hpm] at hv1
    obtain ⟨v, hv, rfl⟩ := List.mem_map.mp hv1
    rw [hF, hGid p hpm, hu]
    exact ⟨(h.1 p hpm v hv).1, List.mem_map.mpr ⟨v, (h.1 p hpm v hv).2, rfl⟩⟩
  · intro v1 hv1
    rw [hu] at hv1
    obtain ⟨v, hv, rfl⟩ := List.mem_map.mp hv1
    obtain ⟨p, hpm, hid, hvp⟩ := h.2 v hv
    refine ⟨G p, ?_, ?_, ?_⟩
    · rw [hp]
      exact List.mem_map.mpr ⟨p, hpm, rfl⟩
    · rw [hGid p hpm, hF, hid]
    · rw [hGu p hpm]
      exact List.mem_map.mpr ⟨v, hvp, rfl⟩

/-- Roster consistency is kept when a unit of an active player is added to the global list
and to the roster of that player. -/
theorem rostersConsistent_of_append (g g1 : Game) (n : Unit) (c : Player) (G : Player → Player)
    (hc : c ∈ g.players) (hn : n.player = c.id)
    (hGid : ∀ p ∈ g.players, (G p).id = p.id)
    (hGu : ∀ p ∈ g.players, (G p).units = if p.id = c.id then p.units ++ [n] else p.units)
    (hu : g1.units = g.units ++ [n]) (hp : g1.players = g.players.map G)
    (h : g.rostersConsistent) : g1.rostersConsistent := by
  constructor
  · intro p1 hp1 v hv
    rw [hp] at hp1
    obtain ⟨p, hpm, rfl⟩ := List.mem_map.mp hp1
    rw [hGu p hpm] at hv
    rw [hGid p hpm, hu]
    by_cases hpc : p.id = c.id
    · rw [if_pos hpc] at hv
      rcases List.mem_append.mp hv with hv | hv
      · exact ⟨(h.1 p hpm v hv).1, List.mem_append_left _ (h.1 p hpm v hv).2⟩
      · rw [List.mem_singleton] at hv
        subst hv
        exact ⟨by rw [hn, hpc], List.mem_append_right _ (List.mem_singleton_self _)⟩
    · rw [if_neg hpc] at hv
      exact ⟨(h.1 p hpm v hv).1, List.mem_append_left _ (h.1 p hpm v hv).2⟩
  · intro v hv
    rw [hu] at hv
    rcases List.mem_append.mp hv with hv | hv
    · obtain ⟨p, hpm, hid, hvp⟩ := h.2 v hv
      refine ⟨G p, ?_, by rw [hGid p hpm, hid], ?_⟩
      · rw [hp]
        exact List.mem_map.mpr ⟨p, hpm, rfl⟩
      · rw [hGu p hpm]
        split_ifs
        · exact List.mem_append_left _ hvp
        · exact hvp
    · rw [List.mem_singleton] at hv
      subst hv
      refine ⟨G c, ?_, by rw [hGid c hc, hn], ?_⟩
      · rw [hp]
        exact List.mem_map.mpr ⟨c, hc, rfl⟩
      · rw [hGu c hc, if_pos rfl]
        exact List.mem_append_right _ (List.mem_singleton_self _)

/-- Roster consistency is kept when the unit with id `tid`, a unit of the global list owned
by `tpl`, is removed from the list and from the roster of its owner, ids being used once in
the list and in each roster. -/
theorem rostersConsistent_of_erase (g g1 : Game) (tid tpl : Nat) (G : Player → Player)
    (hnd : (g.units.map (fun v => v.id)).Nodup)
    (hrnd : ∀ p ∈ g.players, (p.units.map (fun v => v.id)).Nodup)
    (ht : ∃ t ∈ g.units, t.id = tid ∧ t.player = tpl)
    (hGid : ∀ p ∈ g.players, (G p).id = p.id)
    (hGu : ∀ p ∈ g.players, (G p).units =
      if p.id = tpl then p.units.eraseP (fun v => decide (v.id = tid)) else p.units)
    (hu : g1.units = g.units.eraseP (fun v => decide (v.id = tid)))
    (hp : g1.players = g.players.map G)
    (h : g.rostersConsistent) : g1.rostersConsistent := by
  obtain ⟨t, ht, htid, htpl⟩ := ht
  have hunits : ∀ v, v ∈ g1.units ↔ v ∈ g.units ∧ v.id ≠ tid := by
    intro v
    rw [hu, eraseP_key_eq_filter (fun v : Unit => v.id) tid g.units hnd, List.mem_filter]
    simp
  have hroster : ∀ p ∈ g.players, ∀ v, v ∈ (G p).units ↔
      v ∈ p.units ∧ (p.id = tpl → v.id ≠ tid) := by
    intro p hpm v
    rw [hGu p hpm]
    by_cases hpt : p.id = tpl
    · rw [if_pos hpt, eraseP_key_eq_filter (fun v : Unit => v.id) tid p.units (hrnd p hpm),
        List.mem_filter]
      simp [hpt]
    · rw [if_neg hpt]
      simp [hpt]
  constructor
  · intro p1 hp1 v hv
    rw [hp] at hp1
    obtain ⟨p, hpm, rfl⟩ := List.mem_map.mp hp1
    obtain ⟨hvp, hne⟩ := (hroster p hpm v).mp hv
    have hown := h.1 p hpm v hvp
    refine ⟨by rw [hGid p hpm]; exact hown.1, (hunits v).mpr ⟨hown.2, ?_⟩⟩
    intro hid
    have hvt : v = t := List.inj_on_of_nodup_map hnd hown.2 ht (by rw [hid, htid])
    apply hne _ hid
    rw [← hown.1, hvt, htpl]
  · intro v hv
    obtain ⟨hvg, hne⟩ := (hunits v).mp hv
    obtain ⟨p, hpm, hid, hvp⟩ := h.2 v hvg
    refine ⟨G p, ?_, by rw [hGid p hpm, hid], (hroster p hpm v).mpr ⟨hvp, fun _ => hne⟩⟩
    rw [hp]
    exact List.mem_map.mpr ⟨p, hpm, rfl⟩

/-- Roster consistency is kept by the elimination of an active player, ids being used
once among the players and in the global unit list. -/
theorem rostersConsistent_eliminatePlayer (g : Game) (old : Player) (hold : old ∈ g.players)
    (hpid : (g.players.map (fun p => p.id)).Nodup)
    (hnd : (g.units.map (fun v => v.id)).Nodup)
    (h : g.rostersConsistent) : (g.eliminatePlayer old).rostersConsistent := by
  have hunits : ∀ v, v ∈ (g.eliminatePlayer old).units ↔
      v ∈ g.units ∧ ∀ x ∈ old.units, v.id ≠ x.id := by
    intro v
    rw [eliminatePlayer_units]
    exact mem_foldl_eraseP_key (fun v : Unit => v.id) old.units g.units hnd v
  have hplayers : ∀ p, p ∈ (g.eliminatePlayer old).players ↔ p ∈ g.players ∧ p.id ≠ old.id := by
    intro p
    rw [eliminatePlayer_players, eraseP_key_eq_filter (fun p : Player => p.id) old.id g.players hpid,
      List.mem_filter]
    simp
  constructor
  · intro p hp v hv
    obtain ⟨hpm, hne⟩ := (hplayers p).mp hp
    have hown := h.1 p hpm v hv
    refine ⟨hown.1, (hunits v).mpr ⟨hown.2, ?_⟩⟩
    intro x hx hid
    have hxown := h.1 old hold x hx
    have hvx : v = x := List.inj_on_of_nodup_map hnd hown.2 hxown.2 hid
    apply hne
    rw [← hown.1, hvx, hxown.1]
  · intro v hv
    obtain ⟨hvg, hnot⟩ := (hunits v).mp hv
    obtain ⟨p, hpm, hid, hvp⟩ := h.2 v hvg
    refine ⟨p, (hplayers p).mpr ⟨hpm, ?_⟩, hid, hvp⟩
    intro hpo
    have hpe : p = old := List.inj_on_of_nodup_map hpid hpm hold hpo
    rw [hpe] at hvp
    exact hnot v hvp rfl

theorem Game.WellFormed.rostersConsistent {g : Game} (hwf : g.WellFormed) :
    g.rostersConsistent :=
  ⟨hwf.rosterOwned, fun v hv => by
    obtain ⟨p, hp, hid⟩ := hwf.unitOwnerActive v hv
    exact ⟨p, hp, hid, hwf.rosterComplete v hv p hp hid.symm⟩⟩

theorem rostersConsistent_updatePlayer (g : Game) (pid : Nat) (f : Player → Player)
    (hf : ∀ p, (f p).id = p.id ∧ (f p).units = p.units) (h : g.rostersConsistent) :
    (g.updatePlayer pid f).rostersConsistent := by
  apply rostersConsistent_of_frame g (g.updatePlayer pid f) rfl _ h
  unfold Game.updatePlayer
  dsimp only
  rw [List.map_map]
  apply List.map_congr_left
  intro p _
  simp only [Function.comp]
  split_ifs
  · rw [(hf p).1, (hf p).2]
  · rfl

theorem rostersConsistent_updateCity (g : Game) (cid : Nat) (f : City → City)
    (h : g.rostersConsistent) : (g.updateCity cid f).rostersConsistent := by
  apply rostersConsistent_of_frame g (g.updateCity cid f) rfl _ h
  unfold Game.updateCity
  dsimp only
  rw [List.map_map]
  rfl

theorem rostersConsistent_updateUnit (g : Game) (uid : Nat) (f : Unit → Unit)
    (hf : ∀ v, (f v).player = v.player) (h : g.rostersConsistent) :
    (g.updateUnit uid f).rostersConsistent := by
  apply rostersConsistent_of_map g _ (fun u => if u.id = uid then f u else u)
    (fun p => { p with units := p.units.map (fun u => if u.id = uid then f u else u) })
    _ (fun _ _ => rfl) (fun _ _ => rfl) rfl rfl h
  intro v
  dsimp only
  split_ifs
  · exact hf v
  · rfl

theorem City.upgrade_rostersConsistent (city : City) (g : Game) (h : g.rostersConsistent) :
    (city.upgrade g).2.rostersConsistent := by
  unfold City.upgrade
  cases g.findPlayer city.player with
  | none => exact h
  | some owner =>
    dsimp only
    split_ifs
    · apply rostersConsistent_updateCity
      apply rostersConsistent_updatePlayer _ _ _ _ h
      intro p
      unfold Player.spend
      split_ifs <;> exact ⟨rfl, rfl⟩
    · exact h

theorem Game.aiUpgradeCity_rostersConsistent (g : Game) (current : Player) (params : Params)
    (h : g.rostersConsistent) : (g.aiUpgradeCity current params).rostersConsistent := by
  unfold Game.aiUpgradeCity
  cases current.cities.find? (fun c => decide (some c.id = params.cityId)) with
  | none => exact h
  | some city =>
    dsimp only
    split_ifs
    · exact City.upgrade_rostersConsistent city g h
    · exact h

theorem Game.handleUnitMovement_rostersConsistent (g : Game) (unit : Unit) (x y : Int)
    (h : g.rostersConsistent) : (g.handleUnitMovement unit x y).rostersConsistent := by
  unfold Game.handleUnitMovement
  split_ifs
  · exact h
  · exact h
  · exact rostersConsistent_updateUnit g unit.id _ (fun _ => rfl) h
  · exact h

theorem Game.aiMoveUnit_rostersConsistent (g : Game) (current : Player) (params : Params)
    (h : g.rostersConsistent) : (g.aiMoveUnit current params).rostersConsistent := by
  unfold Game.aiMoveUnit
  dsimp only
  cases params.x with
  | none => exact h
  | some targetX =>
    cases params.y with
    | none => exact h
    | some targetY =>
      dsimp only
      split_ifs
      · cases (current.units.filter (fun u => !u.hasMoved)).head? with
        | none => exact h
        | some unit => exact Game.handleUnitMovement_rostersConsistent g unit _ _ h
      · generalize current.units.find? _ = found
        cases found with
        | none => exact h
        | some unit => exact Game.handleUnitMovement_rostersConsistent g unit _ _ h

/-- A unit made by the constructor has the position and the owner it is given. -/
theorem Unit.new_fields (id : Nat) (x y : Int) (player : Nat) (type : String) (newUnit : Unit)
    (hnew : Unit.new id x y player type = some newUnit) :
    newUnit.id = id ∧ newUnit.x = x ∧ newUnit.y = y ∧ newUnit.player = player := by
  unfold Unit.new at hnew
  dsimp only at hnew
  split at hnew
  · cases hnew; exact ⟨rfl, rfl, rfl, rfl⟩
  · split_ifs at hnew
    cases hnew; exact ⟨rfl, rfl, rfl, rfl⟩

theorem Player.spend_id_units (cost : Int) (p : Player) :
    ((p.spend cost).2).id = p.id ∧ ((p.spend cost).2).units = p.units := by
  unfold Player.spend
  split_ifs <;> exact ⟨rfl, rfl⟩

/-- The three ways `aiBuyUnit` ends: nothing changes; the player pays and no unit is
made; the player pays and a unit is put on the free tile of one of its cities, in the
global list and in the roster of the player. -/
theorem Game.aiBuyUnit_cases (g : Game) (current : Player) (params : Params) :
    g.aiBuyUnit current params = g ∨
    (∃ cost, g.aiBuyUnit current params = g.updatePlayer current.id (fun p => (p.spend cost).2)) ∨
    (∃ (city : City) (cost : Int) (newUnit : Unit),
      g.getUnitAt city.x city.y = none ∧ newUnit.id = g.nextUnitId ∧
      newUnit.x = city.x ∧ newUnit.y = city.y ∧
      newUnit.player = current.id ∧
      (g.aiBuyUnit current params).units = g.units ++ [newUnit] ∧
      (g.aiBuyUnit current params).players =
        (g.updatePlayer current.id (fun p => (p.spend cost).2)).players.map
          (fun p => if p.id = current.id then p.addUnit newUnit else p)) := by
  unfold Game.aiBuyUnit
  dsimp only
  repeat' split
  all_goals try exact Or.inl rfl
  · exact Or.inr (Or.inl ⟨_, rfl⟩)
  · rename_i hfree _ cost _ _ _ _ newUnit hnew
    have hfields := Unit.new_fields _ _ _ _ _ _ hnew
    refine Or.inr (Or.inr ⟨_, cost, newUnit, ?_, hfields.1, hfields.2.1, hfields.2.2.1,
      hfields.2.2.2, rfl, rfl⟩)
    simpa using hfree

theorem Game.aiBuyUnit_rostersConsistent (g : Game) (current : Player) (params : Params)
    (hc : current ∈ g.players) (h : g.rostersConsistent) :
    (g.aiBuyUnit current params).rostersConsistent := by
  rcases Game.aiBuyUnit_cases g current params with h0 | ⟨cost, h1⟩ | ⟨city, cost, newUnit, _, _, _, _, hpl, hu, hp⟩
  · rw [h0]
    exact h
  · rw [h1]
    exact rostersConsistent_updatePlayer g current.id _ (Player.spend_id_units cost) h
  · have h1 := rostersConsistent_updatePlayer g current.id (fun p => (p.spend cost).2)
      (Player.spend_id_units cost) h
    have hc1 : (current.spend cost).2 ∈
        (g.updatePlayer current.id (fun p => (p.spend cost).2)).players := by
      unfold Game.updatePlayer
      dsimp only
      exact List.mem_map.mpr ⟨current, hc, by rw [if_pos rfl]⟩
    apply rostersConsistent_of_append
      (g.updatePlayer current.id (fun p => (p.spend cost).2)) _ newUnit
      ((current.spend cost).2)
      (fun p => if p.id = current.id then p.addUnit newUnit else p) hc1
      (by rw [hpl, (Player.spend_id_units cost current).1]) _ _ hu hp h1
    · intro p _
      dsimp only
      split_ifs <;> rfl
    · intro p _
      dsimp only
      rw [(Player.spend_id_units cost current).1]
      split_ifs <;> rfl

theorem struck_player (u t v : Unit) : (struck u t v).player = v.player := by
  unfold struck
  dsimp only
  split_ifs <;> rfl

theorem map_struck_ids (u t : Unit) (l : List Unit) :
    (l.map (struck u t)).map (fun v => v.id) = l.map (fun v => v.id) := by
  rw [List.map_map]
  apply List.map_congr_left
  intro v _
  exact struck_id u t v

theorem roster_ids_nodup_of {g : Game} (hnd : (g.units.map (fun v => v.id)).Nodup)
    (hr : ∀ p ∈ g.players, p.units.Nodup) (h : g.rostersConsistent) :
    ∀ p ∈ g.players, (p.units.map (fun v => v.id)).Nodup := by
  intro p hp
  apply List.Nodup.map_on _ (hr p hp)
  intro a ha b hb hab
  exact List.inj_on_of_nodup_map hnd (h.1 p hp a ha).2 (h.1 p hp b hb).2 hab

/-- Roster consistency after the statements of an attack. -/
theorem attackOutcome_rostersConsistent (u t : Unit) (g : Game) (hf : u.hasAttacked = false)
    (ht : t ∈ g.units) (hnd : (g.units.map (fun v => v.id)).Nodup)
    (hrnd : ∀ p ∈ g.players, (p.units.map (fun v => v.id)).Nodup)
    (h : g.rostersConsistent) : (attackOutcome u t g).rostersConsistent := by
  have h1 : Game.rostersConsistent { g with
      units := g.units.map (struck u t)
      players := g.players.map (fun p => { p with units := p.units.map (struck u t) }) } :=
    rostersConsistent_of_map g _ (struck u t)
      (fun p => { p with units := p.units.map (struck u t) }) (struck_player u t)
      (fun _ _ => rfl) (fun _ _ => rfl) rfl rfl h
  by_cases hkill : t.hp - u.atk ≤ 0
  · apply rostersConsistent_of_erase _ (attackOutcome u t g) t.id t.player
      (fun p => if p.id = t.player then p.removeUnit t else p) _ _ _ _ _ _ _ h1
    · show ((g.units.map (struck u t)).map (fun v => v.id)).Nodup
      rw [map_struck_ids]
      exact hnd
    · intro p hp
      obtain ⟨p0, hp0, rfl⟩ := List.mem_map.mp hp
      show ((p0.units.map (struck u t)).map (fun v => v.id)).Nodup
      rw [map_struck_ids]
      exact hrnd p0 hp0
    · exact ⟨struck u t t, List.mem_map.mpr ⟨t, ht, rfl⟩, struck_id u t t, struck_player u t t⟩
    · intro p _
      dsimp only
      split_ifs <;> rfl
    · intro p _
      dsimp only
      split_ifs <;> rfl
    · rw [attackOutcome_units u t g hf, if_pos hkill]
    · rw [attackOutcome_players u t g hf]
      show _ = (g.players.map (fun p => { p with units := p.units.map (struck u t) })).map _
      rw [List.map_map]
      apply List.map_congr_left
      intro p _
      simp only [Function.comp]
      by_cases hp : p.id = t.player
      · rw [if_pos ⟨hkill, hp⟩, if_pos hp]
      · rw [if_neg (fun hh => hp hh.2), if_neg hp]
  · apply rostersConsistent_of_frame _ (attackOutcome u t g) _ _ h1
    · rw [attackOutcome_units u t g hf, if_neg hkill]
    · rw [attackOutcome_players u t g hf]
      apply congrArg
      apply List.map_congr_left
      intro p _
      rw [if_neg (fun hh => hkill hh.1)]

theorem Game.aiAttackUnit_rostersConsistent (g : Game) (current : Player) (params : Params)
    (hnd : (g.units.map (fun v => v.id)).Nodup)
    (hrnd : ∀ p ∈ g.players, (p.units.map (fun v => v.id)).Nodup)
    (h : g.rostersConsistent) : (g.aiAttackUnit current params).rostersConsistent := by
  rcases Game.aiAttackUnit_cases g current params with h0 | ⟨u, _, t, ht, _, _, _, _, _, _, _, hf, _, hout⟩
  · rw [h0]
    exact h
  · rw [hout]
    exact attackOutcome_rostersConsistent u t g hf ht hnd hrnd h

theorem Unit.foundCity_failure (u : Unit) (g : Game) (h : (u.foundCity g).1 = false) :
    (u.foundCity g).2 = g := by
  unfold Unit.foundCity at h ⊢
  split_ifs at h ⊢
  · rfl
  · rfl

/-- Roster consistency after `foundCity` by a unit of the global list. -/
theorem Unit.foundCity_rostersConsistent (u : Unit) (g : Game) (hu : u ∈ g.units)
    (hnd : (g.units.map (fun v => v.id)).Nodup)
    (hrnd : ∀ p ∈ g.players, (p.units.map (fun v => v.id)).Nodup)
    (h : g.rostersConsistent) : (u.foundCity g).2.rostersConsistent := by
  cases hok : (u.foundCity g).1 with
  | false =>
    rw [Unit.foundCity_failure u g hok]
    exact h
  | true =>
    obtain ⟨_, _, hplayers, hunits⟩ := foundCity_success u g hok
    exact rostersConsistent_of_erase g _ u.id u.player
      (foundPlayer u (City.new g.nextCityId u.x u.y u.player)) hnd hrnd ⟨u, hu, rfl, rfl⟩
      (fun p _ => foundPlayer_id u _ p) (fun p _ => foundPlayer_units u _ p) hunits hplayers h

theorem Game.aiFoundCity_rostersConsistent (g : Game) (current : Player) (params : Params)
    (hc : current ∈ g.players)
    (hnd : (g.units.map (fun v => v.id)).Nodup)
    (hrnd : ∀ p ∈ g.players, (p.units.map (fun v => v.id)).Nodup)
    (h : g.rostersConsistent) : (g.aiFoundCity current params).rostersConsistent := by
  unfold Game.aiFoundCity
  generalize hfound : current.units.find? _ = found
  cases found with
  | none => exact h
  | some unit =>
    dsimp only
    split_ifs
    · exact Unit.foundCity_rostersConsistent unit g
        (h.1 current hc unit (List.mem_of_find?_eq_some hfound)).2 hnd hrnd h
    · exact h

/-- Roster consistency after `conquerCity`, elimination of the old owner included. -/
theorem Unit.conquerCity_rostersConsistent (u : Unit) (city : City) (g : Game)
    (hpid : (g.players.map (fun p => p.id)).Nodup)
    (hnd : (g.units.map (fun v => v.id)).Nodup)
    (h : g.rostersConsistent) : (u.conquerCity city g).2.rostersConsistent := by
  have h4 : (u.transferCity city g).rostersConsistent :=
    rostersConsistent_of_map g _
      (fun v => if v.id = u.id then { v with hasPerformedAction := true } else v)
      (transferPlayer u city)
      (by intro v; dsimp only; split_ifs <;> rfl)
      (fun p _ => transferPlayer_id u city p) (fun p _ => transferPlayer_units u city p)
      (transferCity_units u city g) (transferCity_players u city g) h
  unfold Unit.conquerCity
  split_ifs
  · exact h
  · dsimp only
    cases hold : (u.transferCity city g).findPlayer city.player with
    | none => exact h4
    | some old =>
      dsimp only
      split_ifs
      · apply rostersConsistent_eliminatePlayer _ old (findPlayer_mem hold) _ _ h4
        · rw [transferCity_playerIds]
          exact hpid
        · rw [transferCity_unitIds]
          exact hnd
      · exact h4

theorem Game.aiConquerCity_rostersConsistent (g : Game) (current : Player) (params : Params)
    (hpid : (g.players.map (fun p => p.id)).Nodup)
    (hnd : (g.units.map (fun v => v.id)).Nodup)
    (h : g.rostersConsistent) : (g.aiConquerCity current params).rostersConsistent := by
  unfold Game.aiConquerCity
  generalize current.units.find? _ = found
  cases found with
  | none => exact h
  | some unit =>
    dsimp only
    cases g.getCityAt unit.x unit.y with
    | none => exact h
    | some city =>
      dsimp only
      split_ifs
      · exact Unit.conquerCity_rostersConsistent unit city g hpid hnd h
      · exact h

theorem processDiplomaticEvents_units (g : Game) :
    g.processDiplomaticEvents.units = g.units := by
  unfold Game.processDiplomaticEvents
  have inner : ∀ (l : List Player) (player : Player) (terr : List ((Int × Int) × Nat)) (acc : Game),
      (l.foldl (fun acc otherPlayer =>
        if player.id = otherPlayer.id then acc
        else if player.diplomacy.isAtWar otherPlayer.id then acc
        else
          acc.updatePlayer player.id (fun p =>
            { p with diplomacy := (p.diplomacy.changeFavor otherPlayer.id
              (if territoryViolation terr player.id otherPlayer.units then -10
                else if borderViolation terr player.id otherPlayer.units then -5
                else 1)).2 })) acc).units = acc.units := by
    intro l player terr
    induction l with
    | nil => intro acc; rfl
    | cons x t ih =>
      intro acc
      simp only [List.foldl_cons]
      rw [ih]
      split
      · rfl
      · split <;> rfl
  have outer : ∀ (l : List Player) (acc : Game),
      (l.foldl (fun acc player =>
        let territories := acc.getPlayerTerritories
        g.players.foldl (fun acc otherPlayer =>
          if player.id = otherPlayer.id then acc
          else if player.diplomacy.isAtWar otherPlayer.id then acc
          else
            let amount : Int :=
              if territoryViolation territories player.id otherPlayer.units then -10
              else if borderViolation territories player.id otherPlayer.units then -5
              else 1
            acc.updatePlayer player.id (fun p =>
              { p with diplomacy := (p.diplomacy.changeFavor otherPlayer.id amount).2 })) acc)
        acc).units = acc.units := by
    intro l
    induction l with
    | nil => intro acc; rfl
    | cons x t ih =>
      intro acc
      simp only [List.foldl_cons]
      rw [ih]
      exact inner g.players x _ acc
  exact outer g.players g

theorem rostersConsistent_processDiplomaticEvents (g : Game) (h : g.rostersConsistent) :
    g.processDiplomaticEvents.rostersConsistent := by
  apply rostersConsistent_of_frame g g.processDiplomaticEvents (processDiplomaticEvents_units g) _ h
  rw [processDiplomaticEvents_players, List.map_map]
  rfl

theorem rostersConsistent_mapPlayers (g : Game) (G : Player → Player)
    (hG : ∀ p, (G p).id = p.id ∧ (G p).units = p.units) (h : g.rostersConsistent) :
    Game.rostersConsistent { g with players := g.players.map G } := by
  apply rostersConsistent_of_frame g { g with players := g.players.map G } rfl _ h
  show (g.players.map G).map (fun p => (p.id, p.units)) = _
  rw [List.map_map]
  apply List.map_congr_left
  intro p _
  simp only [Function.comp]
  rw [(hG p).1, (hG p).2]

theorem rostersConsistent_updateRankings (g : Game) (h : g.rostersConsistent) :
    g.updateRankings.rostersConsistent :=
  rostersConsistent_mapPlayers g Player.updateTerritorySize (fun _ => ⟨rfl, rfl⟩) h

theorem rostersConsistent_foldl_updateUnit (r : List Unit) (f : Unit → Unit)
    (hf : ∀ v, (f v).player = v.player) (g : Game) (h : g.rostersConsistent) :
    (r.foldl (fun acc unit => acc.updateUnit unit.id f) g).rostersConsistent := by
  induction r generalizing g with
  | nil => exact h
  | cons x t ih =>
    rw [List.foldl_cons]
    exact ih _ (rostersConsistent_updateUnit g x.id f hf h)

theorem rostersConsistent_withGate (g : Game) (b : Bool) (h : g.rostersConsistent) :
    Game.rostersConsistent { g with hasPurchasedUnitThisTurn := b } := h

/-- A property of the state `nextTurn` leaves, from the same property of the state before
the next player is looked up and of the state each player found leads to. -/
theorem state_of_match (P : Game → Prop) (g5 : Game) (F : Player → Game) (h5 : P g5)
    (hF : ∀ n, P (F n)) :
    P (match g5.currentPlayer with
      | none => Completion.typeError g5
      | some n => Completion.ok (F n)).state := by
  cases g5.currentPlayer with
  | none => exact h5
  | some n => exact hF n

/-- Roster consistency after `nextTurn`. -/
theorem Game.nextTurn_rostersConsistent (g : Game) (h : g.rostersConsistent) :
    g.nextTurn.state.rostersConsistent := by
  unfold Game.nextTurn
  split_ifs
  · exact h
  · cases g.currentPlayer with
    | none => exact h
    | some current =>
      dsimp only
      have h2 : ((g.updatePlayer current.id (fun p => { p with isActive := false })).updatePlayer
          current.id (fun p => { p with diplomacy := p.diplomacy.processTurn })).rostersConsistent :=
        rostersConsistent_updatePlayer _ _ _ (fun _ => ⟨rfl, rfl⟩)
          (rostersConsistent_updatePlayer _ _ _ (fun _ => ⟨rfl, rfl⟩) h)
      generalize (g.updatePlayer current.id (fun p => { p with isActive := false })).updatePlayer
          current.id (fun p => { p with diplomacy := p.diplomacy.processTurn }) = g2 at h2 ⊢
      have h3 : (if g2.agentMode = true then
          { g2 with agent := g2.agent.map Agent.clearPendingActions } else g2).rostersConsistent := by
        split_ifs
        · exact h2
        · exact h2
      generalize (if g2.agentMode = true then
          { g2 with agent := g2.agent.map Agent.clearPendingActions } else g2) = g3 at h3 ⊢
      apply state_of_match Game.rostersConsistent
      · split_ifs
        · exact rostersConsistent_mapPlayers _ _ (fun _ => ⟨rfl, rfl⟩)
            (rostersConsistent_processDiplomaticEvents _ h3)
        · exact h3
      · intro n
        apply rostersConsistent_updateRankings
        apply rostersConsistent_foldl_updateUnit _ Unit.resetTurn (fun _ => rfl)
        apply rostersConsistent_withGate
        apply rostersConsistent_updatePlayer _ _ (fun p => { p with isActive := true })
          (fun _ => ⟨rfl, rfl⟩)
        split_ifs
        · exact rostersConsistent_mapPlayers _ _ (fun _ => ⟨rfl, rfl⟩)
            (rostersConsistent_processDiplomaticEvents _ h3)
        · exact h3

/-- Roster consistency after `executeAIAction`, whatever the action. -/
theorem Game.executeAIAction_rostersConsistent (g : Game) (action : Action)
    (hpid : (g.players.map (fun p => p.id)).Nodup)
    (hnd : (g.units.map (fun v => v.id)).Nodup)
    (hrnd : ∀ p ∈ g.players, (p.units.map (fun v => v.id)).Nodup)
    (h : g.rostersConsistent) : (g.executeAIAction action).state.rostersConsistent := by
  unfold Game.executeAIAction
  dsimp only
  generalize (if action.action = "" then "unknown" else action.action) = actionName
  by_cases hend : actionName = "endTurn"
  · rw [if_pos hend]
    exact h
  · rw [if_neg hend]
    cases g.agent with
    | none => exact h
    | some agent =>
      dsimp only
      cases hcur : g.currentPlayer with
      | none => exact h
      | some current =>
        have hc : current ∈ g.players := currentPlayer_mem hcur
        dsimp only
        split_ifs
        · exact h
        · exact Game.aiUpgradeCity_rostersConsistent g current _ h
        · exact Game.aiBuyUnit_rostersConsistent g current _ hc h
        · exact Game.aiMoveUnit_rostersConsistent g current _ h
        · exact Game.aiAttackUnit_rostersConsistent g current _ hnd hrnd h
        · exact Game.aiFoundCity_rostersConsistent g current _ hc hnd hrnd h
        · exact Game.aiConquerCity_rostersConsistent g current _ hpid hnd h
        · exact h

/-- Moving the unit with id `uid` to a free tile keeps the tiles of a list of units
distinct, ids being used once. -/
theorem nodup_tiles_move (l : List Unit) (uid : Nat) (x y : Int)
    (hids : (l.map (fun u => u.id)).Nodup)
    (htiles : (l.map (fun u => (u.x, u.y))).Nodup)
    (hfree : ∀ v ∈ l, ¬ (v.x = x ∧ v.y = y)) :
    ((l.map (fun u => if u.id = uid then u.move x y else u)).map (fun u => (u.x, u.y))).Nodup := by
  induction l with
  | nil => exact List.nodup_nil
  | cons a t ih =>
    simp only [List.map_cons, List.nodup_cons] at hids htiles ⊢
    have hfree_t : ∀ v ∈ t, ¬ (v.x = x ∧ v.y = y) := fun v hv => hfree v (List.mem_cons_of_mem _ hv)
    refine ⟨?_, ih hids.2 htiles.2 hfree_t⟩
    intro hmem
    obtain ⟨w, hw, hwe⟩ := List.mem_map.mp hmem
    obtain ⟨v, hv, rfl⟩ := List.mem_map.mp hw
    by_cases ha : a.id = uid
    · rw [if_pos ha] at hwe
      by_cases hvid : v.id = uid
      · exact hids.1 (List.mem_map.mpr ⟨v, hv, by rw [hvid, ha]⟩)
      · rw [if_neg hvid] at hwe
        have h1 : (v.x, v.y) = (x, y) := hwe
        rw [Prod.mk.injEq] at h1
        exact hfree_t v hv h1
    · rw [if_neg ha] at hwe
      by_cases hvid : v.id = uid
      · rw [if_pos hvid] at hwe
        have h1 : (x, y) = (a.x, a.y) := hwe
        rw [Prod.mk.injEq] at h1
        exact hfree a (List.mem_cons_self _ _) ⟨h1.1.symm, h1.2.symm⟩
      · rw [if_neg hvid] at hwe
        exact htiles.1 (List.mem_map.mpr ⟨v, hv, hwe⟩)

theorem Game.handleUnitMovement_tilesDistinct (g : Game) (unit : Unit) (x y : Int)
    (hids : (g.units.map (fun u => u.id)).Nodup) (h : g.tilesDistinct) :
    (g.handleUnitMovement unit x y).tilesDistinct := by
  unfold Game.handleUnitMovement
  split_ifs with h1 h2 h3
  · exact h
  · exact h
  · have hnone : g.getUnitAt x y = none := by
      cases hget : g.getUnitAt x y with
      | none => rfl
      | some v => rw [hget] at h2; exact absurd rfl h2
    exact nodup_tiles_move g.units unit.id x y hids h ((Game.getUnitAt_eq_none_iff g x y).mp hnone)
  · exact h

theorem Game.aiMoveUnit_tilesDistinct (g : Game) (current : Player) (params : Params)
    (hids : (g.units.map (fun u => u.id)).Nodup) (h : g.tilesDistinct) :
    (g.aiMoveUnit current params).tilesDistinct := by
  unfold Game.aiMoveUnit
  dsimp only
  cases params.x with
  | none => exact h
  | some targetX =>
    cases params.y with
    | none => exact h
    | some targetY =>
      dsimp only
      split_ifs
      · cases (current.units.filter (fun u => !u.hasMoved)).head? with
        | none => exact h
        | some unit => exact Game.handleUnitMovement_tilesDistinct g unit _ _ hids h
      · generalize current.units.find? _ = found
        cases found with
        | none => exact h
        | some unit => exact Game.handleUnitMovement_tilesDistinct g unit _ _ hids h

theorem Game.aiBuyUnit_tilesDistinct (g : Game) (current : Player) (params : Params)
    (h : g.tilesDistinct) : (g.aiBuyUnit current params).tilesDistinct := by
  rcases Game.aiBuyUnit_cases g current params with h0 | ⟨cost, h1⟩ |
    ⟨city, cost, newUnit, hfree, _, hx, hy, _, hu, _⟩
  · rw [h0]
    exact h
  · rw [h1]
    exact h
  · unfold Game.tilesDistinct at h ⊢
    rw [hu, List.map_append, List.map_cons, List.map_nil, hx, hy]
    apply List.Nodup.append h (List.nodup_singleton _)
    intro tile h1 h2
    rw [List.mem_singleton] at h2
    subst h2
    obtain ⟨v, hv, hve⟩ := List.mem_map.mp h1
    rw [Prod.mk.injEq] at hve
    exact (Game.getUnitAt_eq_none_iff g city.x city.y).mp hfree v hv hve

theorem Diplomacy.changeFavor_wars (d : Diplomacy) (pid : Nat) (amount : Int) :
    (d.changeFavor pid amount).2.wars = d.wars := rfl

theorem Diplomacy.proposePeaceTreaty_wars (d : Diplomacy) (b : Nat) :
    (d.proposePeaceTreaty b).2.wars = d.wars := by
  unfold Diplomacy.proposePeaceTreaty
  split_ifs <;> rfl

theorem Diplomacy.acceptPeaceTreaty_wars (d : Diplomacy) (b : Nat) :
    (d.acceptPeaceTreaty b).2.wars = d.wars := by
  unfold Diplomacy.acceptPeaceTreaty
  split_ifs <;> rfl

theorem Diplomacy.rejectPeaceTreaty_wars (d : Diplomacy) (b : Nat) :
    (d.rejectPeaceTreaty b).2.wars = d.wars := by
  unfold Diplomacy.rejectPeaceTreaty
  split_ifs <;> rfl

theorem Diplomacy.proposePeace_wars (d : Diplomacy) (b : Nat) :
    (d.proposePeace b).2.wars = d.wars := by
  unfold Diplomacy.proposePeace
  split_ifs
  · cases d.getWarWith b with
    | none => rfl
    | some war =>
      dsimp only
      split_ifs
      · exact Diplomacy.proposePeaceTreaty_wars d b
      · rfl
  · rfl

/-- A declaration of war keeps the war entries of a ledger distinct: it adds an entry only
when the ledger holds none for that player. -/
theorem Diplomacy.declareWar_warsDistinct (d : Diplomacy) (b : Nat) (h : d.warsDistinct) :
    (d.declareWar b).2.warsDistinct := by
  unfold Diplomacy.declareWar
  dsimp only
  have h1 : (if d.hasPeaceTreaty b = true then (d.breakPeaceTreaty b).2 else d).warsDistinct := by
    unfold Diplomacy.warsDistinct
    split_ifs
    · rw [Diplomacy.breakPeaceTreaty_wars]
      exact h
    · exact h
  generalize (if d.hasPeaceTreaty b = true then (d.breakPeaceTreaty b).2 else d) = d1 at h1 ⊢
  by_cases hw : d1.isAtWar b = true
  · rw [if_neg (not_not.mpr hw)]
    exact h1
  · rw [if_pos hw]
    unfold Diplomacy.warsDistinct at h1 ⊢
    show ((d1.wars ++ [War.mk b 10]).map (fun war => war.playerId)).Nodup
    rw [List.map_append, List.map_cons, List.map_nil]
    apply List.Nodup.append h1 (List.nodup_singleton _)
    intro k hk hkb
    rw [List.mem_singleton] at hkb
    subst hkb
    obtain ⟨w, hwm, hwk⟩ := List.mem_map.mp hk
    apply hw
    unfold Diplomacy.isAtWar
    exact List.any_eq_true.mpr ⟨w, hwm, by simpa using hwk⟩

/-- A property of every ledger is kept by an update of ledgers that keeps it. -/
theorem ledgers_updatePlayer (Q : Diplomacy → Prop) (g : Game) (pid : Nat)
    (F : Diplomacy → Diplomacy) (hF : ∀ d, Q d → Q (F d))
    (h : ∀ p ∈ g.players, Q p.diplomacy) :
    ∀ p ∈ (g.updatePlayer pid (fun p => { p with diplomacy := F p.diplomacy })).players,
      Q p.diplomacy := by
  intro p hp
  unfold Game.updatePlayer at hp
  dsimp only at hp
  obtain ⟨p0, hp0, rfl⟩ := List.mem_map.mp hp
  split_ifs
  · exact hF _ (h p0 hp0)
  · exact h p0 hp0

/-- Every game-level diplomacy operation keeps the war entries of every ledger distinct. -/
theorem Game.diplomacyStep_warsDistinct (g : Game) (op : DiplomacyOp)
    (h : ∀ p ∈ g.players, p.diplomacy.warsDistinct) :
    ∀ p ∈ (g.diplomacyStep op).players, p.diplomacy.warsDistinct := by
  have hsame : ∀ F : Diplomacy → Diplomacy, (∀ d, (F d).wars = d.wars) →
      ∀ d : Diplomacy, d.warsDistinct → (F d).warsDistinct := by
    intro F hF d hd
    unfold Diplomacy.warsDistinct
    rw [hF]
    exact hd
  cases op with
  | proposePeaceTreaty a b =>
    unfold Game.diplomacyStep Game.proposePeaceTreaty
    dsimp only
    split
    · split_ifs
      · exact ledgers_updatePlayer _ g _ (fun d => (d.proposePeaceTreaty a).2)
          (hsame _ (fun d => Diplomacy.proposePeaceTreaty_wars d a)) h
      · exact h
    · exact h
  | acceptPeaceTreaty a b =>
    unfold Game.diplomacyStep Game.acceptPeaceTreaty
    dsimp only
    split
    · have h1 := fun pid : Nat => ledgers_updatePlayer Diplomacy.warsDistinct g pid
        (fun d => (d.acceptPeaceTreaty b).2)
        (hsame _ (fun d => Diplomacy.acceptPeaceTreaty_wars d b)) h
      split
      · exact ledgers_updatePlayer _ _ _ (fun d => (d.acceptPeaceTreaty a).2)
          (hsame _ (fun d => Diplomacy.acceptPeaceTreaty_wars d a)) (h1 _)
      · exact h1 _
    · exact h
  | rejectPeaceTreaty a b =>
    unfold Game.diplomacyStep Game.rejectPeaceTreaty
    dsimp only
    split
    · exact ledgers_updatePlayer _ g _ (fun d => (d.rejectPeaceTreaty a).2)
        (hsame _ (fun d => Diplomacy.rejectPeaceTreaty_wars d a)) h
    · exact h
  | breakPeaceTreaty a b =>
    unfold Game.diplomacyStep Game.breakPeaceTreaty
    dsimp only
    split
    · exact ledgers_updatePlayer _ _ _ (fun d => (d.breakPeaceTreaty a).2)
        (hsame _ (fun d => Diplomacy.breakPeaceTreaty_wars d a))
        (ledgers_updatePlayer _ g _ (fun d => (d.breakPeaceTreaty b).2)
          (hsame _ (fun d => Diplomacy.breakPeaceTreaty_wars d b)) h)
    · exact h
  | declareWar a b =>
    unfold Game.diplomacyStep Game.declareWar
    dsimp only
    split
    · exact ledgers_updatePlayer _ _ _ (fun d => (d.declareWar a).2)
        (fun d => Diplomacy.declareWar_warsDistinct d a)
        (ledgers_updatePlayer _ g _ (fun d => (d.declareWar b).2)
          (fun d => Diplomacy.declareWar_warsDistinct d b) h)
    · exact h
  | proposePeace a b =>
    unfold Game.diplomacyStep Game.proposePeace
    dsimp only
    split
    · exact ledgers_updatePlayer _ g _ (fun d => (d.proposePeace b).2)
        (hsame _ (fun d => Diplomacy.proposePeace_wars d b)) h
    · exact h

theorem foldl_add_eq_sum_nat {α : Type} (f : α → Nat) (l : List α) (a : Nat) :
    l.foldl (fun total x => total + f x) a = a + (l.map f).sum := by
  induction l generalizing a with
  | nil => simp
  | cons x t ih =>
    rw [List.foldl_cons, ih, List.map_cons, List.sum_cons]
    omega

theorem Player.updateTerritorySize_cached (p : Player) : p.updateTerritorySize.territoryCached := by
  unfold Player.territoryCached Player.updateTerritorySize
  dsimp only
  rw [foldl_add_eq_sum_nat (fun city : City => city.territorySize)]
  omega

theorem updateRankings_cached (g : Game) : ∀ p ∈ g.updateRankings.players, p.territoryCached := by
  intro p hp
  unfold Game.updateRankings at hp
  obtain ⟨q, _, rfl⟩ := List.mem_map.mp hp
  exact Player.updateTerritorySize_cached q

/-- The loop of `parseResponse` changes neither the units nor the queue of pending
actions of the agent. -/
theorem Agent.handleDiplomacy_frame (items : List PlanItem) (g : Game) :
    (Agent.handleDiplomacy items g).2.units = g.units ∧
      (Agent.handleDiplomacy items g).2.agent.map (fun a => a.pendingActions) =
        g.agent.map (fun a => a.pendingActions) := by
  have haccept : ∀ (g : Game) (a b : Nat), (g.acceptPeaceTreaty a b).2.units = g.units ∧
      (g.acceptPeaceTreaty a b).2.agent = g.agent := by
    intro g a b
    unfold Game.acceptPeaceTreaty
    split
    · dsimp only
      split <;> exact ⟨rfl, rfl⟩
    · exact ⟨rfl, rfl⟩
  have hreject : ∀ (g : Game) (a b : Nat), (g.rejectPeaceTreaty a b).2.units = g.units ∧
      (g.rejectPeaceTreaty a b).2.agent = g.agent := by
    intro g a b
    unfold Game.rejectPeaceTreaty
    split <;> exact ⟨rfl, rfl⟩
  have hchat : ∀ (r : Bool × Game) (g : Game) (pid : Nat) (message : String),
      r.2.units = g.units ∧ r.2.agent = g.agent →
      (if r.1 = true then
          { r.2 with agent := r.2.agent.map (fun a => a.addChatMessage pid message) }
        else r.2).units = g.units ∧
      (if r.1 = true then
          { r.2 with agent := r.2.agent.map (fun a => a.addChatMessage pid message) }
        else r.2).agent.map (fun a => a.pendingActions) =
        g.agent.map (fun a => a.pendingActions) := by
    intro r g pid message h
    split_ifs
    · refine ⟨h.1, ?_⟩
      dsimp only
      rw [h.2, Option.map_map]
      rfl
    · exact ⟨h.1, by rw [h.2]⟩
  have hround : ∀ (g : Game) (playerId : Option (Option Nat)) (cid : Nat)
      (f : Game → Nat → Nat → Bool × Game),
      (∀ (g : Game) (a b : Nat), (f g a b).2.units = g.units ∧ (f g a b).2.agent = g.agent) →
      (match playerId with
        | some (some fromPlayerId) => f g fromPlayerId cid
        | _ => (false, g)).2.units = g.units ∧
      (match playerId with
        | some (some fromPlayerId) => f g fromPlayerId cid
        | _ => (false, g)).2.agent = g.agent := by
    intro g playerId cid f hf
    split
    · exact hf _ _ _
    · exact ⟨rfl, rfl⟩
  induction items generalizing g with
  | nil => exact ⟨rfl, rfl⟩
  | cons item rest ih =>
    cases item with
    | null => exact ⟨rfl, rfl⟩
    | object action playerId =>
      unfold Agent.handleDiplomacy
      split_ifs with h1 h2
      · cases hc : g.currentPlayer with
        | none => exact ⟨rfl, rfl⟩
        | some current =>
          dsimp only
          have h := hchat _ g current.id
            ("I accept the peace treaty from " ++ toString (playerId.join.getD 0) ++
              ". Let's prosper together!")
            (hround g playerId current.id Game.acceptPeaceTreaty haccept)
          exact ⟨(ih _).1.trans h.1, (ih _).2.trans h.2⟩
      · cases hc : g.currentPlayer with
        | none => exact ⟨rfl, rfl⟩
        | some current =>
          dsimp only
          have h := hchat _ g current.id
            ("I reject the peace treaty from " ++ toString (playerId.join.getD 0) ++
              ". Now is not the time for peace.")
            (hround g playerId current.id Game.rejectPeaceTreaty hreject)
          exact ⟨(ih _).1.trans h.1, (ih _).2.trans h.2⟩
      · exact ih g

/-- The call `parseResponse(response)` changes neither the units nor the queue of pending
actions of the agent. -/
theorem Agent.parseResponse_frame (g : Game) (r : Response) :
    (Agent.parseResponse g r).2.units = g.units ∧
      (Agent.parseResponse g r).2.agent.map (fun a => a.pendingActions) =
        g.agent.map (fun a => a.pendingActions) := by
  cases r with
  | unparseable => exact ⟨rfl, rfl⟩
  | null => exact ⟨rfl, rfl⟩
  | scalar => exact ⟨rfl, rfl⟩
  | object o =>
    unfold Agent.parseResponse
    dsimp only
    cases ha : o.actions with
    | none =>
      dsimp only
      split_ifs <;> exact ⟨rfl, rfl⟩
    | some items =>
      dsimp only
      have h := Agent.handleDiplomacy_frame items g
      split_ifs
      · exact ⟨rfl, rfl⟩
      · cases hd : Agent.handleDiplomacy items g with
        | mk kept g1 =>
          rw [hd] at h
          cases kept <;> exact h

/-! ## C1: `nextTurn` and the active players -/

/-- C1, the code at the failing input.  In `Scenario.siege` (three players, turn of
player 1) the soldier of player 1 conquers the only city of player 2: player 2 is
eliminated, two players stay active and the index stays 1.  `nextTurn` then sets the index
to `(1 + 1) % playerCount = 2`, not to `(1 + 1) % 2 = 0`: no active player stands at
index 2 and the call ends in a TypeError. -/
theorem nextTurn_index_past_active_players :
    Scenario.afterSiege.players.length = 2 ∧
    Scenario.afterSiege.currentPlayerIndex = 1 ∧
    Scenario.afterSiege.playerCount = 3 ∧
    Scenario.afterSiege.nextTurn.state.currentPlayerIndex = 2 ∧
    Scenario.afterSiege.nextTurn.state.currentPlayerIndex ≠
      (Scenario.afterSiege.currentPlayerIndex + 1) % (Scenario.afterSiege.players.length : Int) ∧
    Scenario.afterSiege.nextTurn.state.currentPlayer = none ∧
    Scenario.afterSiege.nextTurn = Completion.typeError Scenario.afterSiege.nextTurn.state := by
  refine ⟨by decide, by decide, by decide, by decide, by decide, by decide, by decide⟩

/-! ## C2: proposing and accepting a peace treaty -/

/-- C2, the code at the failing input.  In `Scenario.opening` players 0 and 1 have no
treaty and no war.  `proposePeaceTreaty(0, 1)` succeeds and records the proposal in the
ledger of player 1 only; `acceptPeaceTreaty(0, 1)` then returns false: the ledger of
player 1 gets the treaty and +20 favor, the ledger of player 0 gets neither. -/
theorem acceptPeaceTreaty_registers_one_side :
    (Scenario.opening.proposePeaceTreaty 0 1).1 = true ∧
    (Scenario.proposed.acceptPeaceTreaty 0 1).1 = false ∧
    ((Scenario.proposed.acceptPeaceTreaty 0 1).2.findPlayer 0).map
        (fun p => (p.diplomacy.hasPeaceTreaty 1, p.diplomacy.getFavor 1)) = some (false, 0) ∧
    ((Scenario.proposed.acceptPeaceTreaty 0 1).2.findPlayer 1).map
        (fun p => (p.diplomacy.hasPeaceTreaty 0, p.diplomacy.getFavor 0)) = some (true, 20) ∧
    (Scenario.opening.findPlayer 0).map (fun p => p.diplomacy.getFavor 1) = some 0 := by
  refine ⟨by decide, by decide, by decide, by decide, by decide⟩

/-! ## C3: peace treaties and wars in one ledger -/

/-- C3, the code at the failing input.  A ledger declares war on player 1, lets the ten
locked turns pass, proposes peace and accepts the treaty: the war entry is still there, so
player 1 is both in the peace treaties and in the wars.  The same holds when the proposal
is entered and accepted right after the declaration of war. -/
theorem treaty_and_war_with_same_player :
    (((Diplomacy.new 0).run Scenario.warThenPeace).hasPeaceTreaty 1 = true ∧
      ((Diplomacy.new 0).run Scenario.warThenPeace).isAtWar 1 = true) ∧
    (((Diplomacy.new 0).run
        [.declareWar 1, .proposePeaceTreaty 1, .acceptPeaceTreaty 1]).hasPeaceTreaty 1 = true ∧
      ((Diplomacy.new 0).run
        [.declareWar 1, .proposePeaceTreaty 1, .acceptPeaceTreaty 1]).isAtWar 1 = true) := by
  refine ⟨⟨by decide, by decide⟩, by decide, by decide⟩


/-! ## C4: conquest of a player's last city -/

/-- C4.  In a well-formed state, when a unit of another player successfully conquers a
city whose owner `old` is an active player with exactly that one city, then after the call
no active player has the old owner's id, no unit of the global list is owned by the old
owner, and the old owner's object (now the most recently eliminated player) has an empty
roster. -/
theorem conquerCity_last_city_eliminates_owner (u : Unit) (city : City) (g : Game) (old : Player)
    (hwf : g.WellFormed)
    (hold : g.findPlayer city.player = some old)
    (hcity : city ∈ old.cities) (hone : old.cities.length = 1)
    (hother : u.player ≠ city.player)
    (hok : (u.conquerCity city g).1 = true) :
    (∀ p ∈ (u.conquerCity city g).2.players, p.id ≠ city.player) ∧
    (∀ v ∈ (u.conquerCity city g).2.units, v.player ≠ city.player) ∧
    (∃ old1, (u.conquerCity city g).2.playerObject city.player = some old1 ∧ old1.units = []) := by
  have hid : old.id = city.player := findPlayer_id hold
  have hmem : old ∈ g.players := findPlayer_mem hold
  have hcities : old.cities = [city] := by
    obtain ⟨c, hc⟩ := List.length_eq_one.mp hone
    rw [hc] at hcity ⊢
    rw [List.mem_singleton.mp hcity]
  have hcan : u.canConquerCity = true := by rw [← conquerCity_fst u city g]; exact hok
  -- the old owner after the transfer has no city left
  have hold1 : (transferPlayer u city old).cities = [] := by
    rw [transferPlayer_cities, hid, hcities]
    have : ¬ city.player = u.player := fun h => hother h.symm
    simp [this, List.eraseP_cons]
  have hsnd : (u.conquerCity city g).2 =
      (u.transferCity city g).eliminatePlayer (transferPlayer u city old) := by
    rw [conquerCity_snd_of_success u city g hok, hold]
    simp [hold1]
  have hpid : (transferPlayer u city old).id = city.player := by rw [transferPlayer_id, hid]
  have hids : ((u.transferCity city g).players.map (fun p => p.id)).Nodup := by
    rw [transferCity_players, List.map_map]
    have : ((fun p : Player => p.id) ∘ transferPlayer u city) = fun p => p.id := by
      funext p; simp [transferPlayer_id]
    rw [this]; exact hwf.playerIds
  have hplayers : ∀ p ∈ (u.conquerCity city g).2.players, p.id ≠ city.player := by
    intro p hp
    rw [hsnd, eliminatePlayer_players, hpid,
      eraseP_key_eq_filter (fun q : Player => q.id) city.player _ hids] at hp
    simpa using (List.mem_filter.mp hp).2
  refine ⟨hplayers, ?_, ?_⟩
  · intro v hv hvp
    rw [hsnd, eliminatePlayer_units] at hv
    have huids : ((u.transferCity city g).units.map (fun v => v.id)).Nodup := by
      rw [transferCity_units, List.map_map]
      have : ((fun v : Unit => v.id) ∘
          fun v => if v.id = u.id then { v with hasPerformedAction := true } else v) =
          fun v => v.id := by
        funext v; simp only [Function.comp]; split <;> rfl
      rw [this]; exact hwf.unitIds
    rw [mem_foldl_eraseP_key (fun v : Unit => v.id) _ _ huids] at hv
    obtain ⟨hv4, hnot⟩ := hv
    rw [transferCity_units] at hv4
    obtain ⟨v0, hv0, rfl⟩ := List.mem_map.mp hv4
    have hv0p : v0.player = old.id := by
      rw [hid, ← hvp]; split <;> rfl
    have hroster : v0 ∈ old.units := hwf.rosterComplete v0 hv0 old hmem hv0p
    have : (if v0.id = u.id then { v0 with hasPerformedAction := true } else v0) ∈
        (transferPlayer u city old).units := by
      rw [transferPlayer_units]
      exact List.mem_map.mpr ⟨v0, hroster, rfl⟩
    exact hnot _ this rfl
  · refine ⟨(transferPlayer u city old).units.foldl (fun q unit => q.removeUnit unit)
      (transferPlayer u city old), ?_, removeUnit_all_units _ _ rfl⟩
    unfold Game.playerObject
    have hnone : (u.conquerCity city g).2.findPlayer city.player = none := by
      unfold Game.findPlayer
      rw [List.find?_eq_none]
      intro p hp
      simpa using hplayers p hp
    rw [hnone, hsnd, eliminatePlayer_eliminated]
    simp [foldl_removeUnit_id, hpid]


/-- C4 at `Scenario.siege`: the soldier of player 1 conquers the only city of player 2. -/
theorem conquerCity_last_city_eliminates_owner_witness :
    Scenario.siege.WellFormed ∧
    Scenario.siege.findPlayer (City.new 3 9 9 2).player =
      some (Scenario.player 2 [0, 1, 2] [City.new 3 9 9 2] [Scenario.soldier 2 9 8 2]) ∧
    ((Scenario.soldier 1 9 9 1).conquerCity (City.new 3 9 9 2) Scenario.siege).1 = true ∧
    ((∀ p ∈ ((Scenario.soldier 1 9 9 1).conquerCity (City.new 3 9 9 2) Scenario.siege).2.players,
        p.id ≠ (City.new 3 9 9 2).player) ∧
      (∀ v ∈ ((Scenario.soldier 1 9 9 1).conquerCity (City.new 3 9 9 2) Scenario.siege).2.units,
        v.player ≠ (City.new 3 9 9 2).player) ∧
      (∃ old1, ((Scenario.soldier 1 9 9 1).conquerCity (City.new 3 9 9 2)
          Scenario.siege).2.playerObject (City.new 3 9 9 2).player = some old1 ∧ old1.units = [])) :=
  ⟨Scenario.siege_wellFormed, by decide, by decide,
    conquerCity_last_city_eliminates_owner (Scenario.soldier 1 9 9 1) (City.new 3 9 9 2)
      Scenario.siege (Scenario.player 2 [0, 1, 2] [City.new 3 9 9 2] [Scenario.soldier 2 9 8 2])
      Scenario.siege_wellFormed (by decide) (by decide) (by decide) (by decide) (by decide)⟩

/-! ## C5: what a conquest changes -/

/-- C5.  In a well-formed state, for a unit of the global list whose three per-turn flags
are false and a city of level at least 1 listed under an active owner other than the
unit's player, `conquerCity` returns true and afterwards: the new owner's list holds the
city (same id and tile) with the unit's player as owner, with level `max 1 (level - 1)`
and every tile of its territory carrying that level; the old owner's list holds no city
with that id; the unit is still in the global list and every copy of it, there and in the
new owner's roster, has `hasPerformedAction` set; and the board has as many cities as
before. -/
theorem conquerCity_transfers_city (u : Unit) (city : City) (g : Game) (old : Player)
    (hwf : g.WellFormed) (hu : u ∈ g.units)
    (hold : g.findPlayer city.player = some old) (hcity : city ∈ old.cities)
    (hother : city.player ≠ u.player)
    (hmoved : u.hasMoved = false) (hattacked : u.hasAttacked = false)
    (hperformed : u.hasPerformedAction = false)
    (hlevel : 1 ≤ city.level) :
    (u.conquerCity city g).1 = true ∧
    (∃ newOwner c, (u.conquerCity city g).2.findPlayer u.player = some newOwner ∧
      c ∈ newOwner.cities ∧ c.id = city.id ∧ c.tile = city.tile ∧ c.player = u.player ∧
      c.level = max 1 (city.level - 1) ∧
      (∀ t ∈ c.territory, t.level = max 1 (city.level - 1)) ∧
      (∀ v ∈ newOwner.units, v.id = u.id → v.hasPerformedAction = true)) ∧
    (∃ oldOwner, (u.conquerCity city g).2.playerObject city.player = some oldOwner ∧
      ∀ c ∈ oldOwner.cities, c.id ≠ city.id) ∧
    (∃ v ∈ (u.conquerCity city g).2.units, v.id = u.id) ∧
    (∀ v ∈ (u.conquerCity city g).2.units, v.id = u.id → v.hasPerformedAction = true) ∧
    (u.conquerCity city g).2.allCities.length = g.allCities.length := by
  have hok : (u.conquerCity city g).1 = true := by
    rw [conquerCity_fst]; simp [Unit.canConquerCity, hmoved, hattacked, hperformed]
  have hoid : old.id = city.player := findPlayer_id hold
  have hom : old ∈ g.players := findPlayer_mem hold
  obtain ⟨p, hp, hpid⟩ := hwf.unitOwnerActive u hu
  obtain ⟨new, hnew⟩ := findPlayer_of_mem hp
  rw [hpid] at hnew
  have hnid : new.id = u.player := findPlayer_id hnew
  have hnm : new ∈ g.players := findPlayer_mem hnew
  have hno : ¬ old.id = u.player := fun h => hother (hoid.symm.trans h)
  have hnn : ¬ new.id = city.player := fun h => hother (h.symm.trans hnid)
  -- the old owner's cities after the transfer
  have hTold : ∀ c ∈ (transferPlayer u city old).cities, c.id ≠ city.id := by
    intro c hc
    rw [transferPlayer_cities] at hc
    simp only [hoid, ↓reduceIte, hother, List.append_nil] at hc
    obtain ⟨c0, hc0, rfl⟩ := List.mem_map.mp hc
    rw [eraseP_key_eq_filter (fun c : City => c.id) city.id _ (cities_ids_nodup hwf hom)] at hc0
    have hne : c0.id ≠ city.id := by simpa using (List.mem_filter.mp hc0).2
    simp [hne]
  -- the new owner's cities after the transfer
  have hTnew : (conqueredCity u city).calculateTerritory ∈ (transferPlayer u city new).cities := by
    rw [transferPlayer_cities]
    simp only [hnn, hnid, ↓reduceIte]
    refine List.mem_map.mpr ⟨conqueredCity u city, by simp, ?_⟩
    simp [conqueredCity_id]
  have hlev : (conqueredCity u city).level = max 1 (city.level - 1) := by
    rw [conqueredCity_level]
    split <;> omega
  have hTunits : ∀ v ∈ (transferPlayer u city new).units, v.id = u.id → v.hasPerformedAction = true := by
    intro v hv hvid
    rw [transferPlayer_units] at hv
    obtain ⟨v0, _, rfl⟩ := List.mem_map.mp hv
    by_cases h0 : v0.id = u.id
    · simp [h0]
    · simp only [h0, ↓reduceIte] at hvid
  have hg4new : (u.transferCity city g).findPlayer u.player = some (transferPlayer u city new) := by
    rw [transferCity_findPlayer, hnew]; rfl
  have hg4old : (u.transferCity city g).findPlayer city.player = some (transferPlayer u city old) := by
    rw [transferCity_findPlayer, hold]; rfl
  have hmark : ∀ v ∈ (u.transferCity city g).units, v.id = u.id → v.hasPerformedAction = true := by
    intro v hv hvid
    rw [transferCity_units] at hv
    obtain ⟨v0, _, rfl⟩ := List.mem_map.mp hv
    by_cases h0 : v0.id = u.id
    · simp [h0]
    · simp only [h0, ↓reduceIte] at hvid
  have hu4 : ({ u with hasPerformedAction := true } : Unit) ∈ (u.transferCity city g).units := by
    rw [transferCity_units]
    exact List.mem_map.mpr ⟨u, hu, by simp⟩
  have hlen : (u.conquerCity city g).2.allCities.length = g.allCities.length := by
    have := (conquerCity_tiles_perm u city g old new hwf hold hcity hnew hok).length_eq
    simpa using this
  refine ⟨hok, ?_, ?_, ?_, ?_, hlen⟩
  · refine ⟨transferPlayer u city new, (conqueredCity u city).calculateTerritory, ?_, hTnew,
      conqueredCity_id u city, conqueredCity_tile u city, rfl, hlev, ?_, hTunits⟩
    · rcases conquerCity_snd_cases u city g old hold hok with ⟨_, hsnd⟩ | ⟨_, hsnd⟩
      · rw [hsnd]
        unfold Game.findPlayer
        rw [eliminatePlayer_players, transferPlayer_id, hoid,
          find?_eraseP_key_ne (fun q : Player => q.id) u.player city.player (Ne.symm hother)]
        exact hg4new
      · rw [hsnd]; exact hg4new
    · intro t ht
      rw [← hlev]
      exact City.calculateTerritory_tile_level _ t ht
  · rcases conquerCity_snd_cases u city g old hold hok with ⟨hnil, hsnd⟩ | ⟨_, hsnd⟩
    · refine ⟨(transferPlayer u city old).units.foldl (fun q unit => q.removeUnit unit)
        (transferPlayer u city old), ?_, ?_⟩
      · have hids : ((u.transferCity city g).players.map (fun p => p.id)).Nodup := by
          rw [transferCity_playerIds]; exact hwf.playerIds
        have hnone : (u.conquerCity city g).2.findPlayer city.player = none := by
          unfold Game.findPlayer
          rw [List.find?_eq_none]
          intro q hq
          rw [hsnd, eliminatePlayer_players, transferPlayer_id, hoid,
            eraseP_key_eq_filter (fun q : Player => q.id) city.player _ hids] at hq
          simpa using (List.mem_filter.mp hq).2
        unfold Game.playerObject
        rw [hnone, hsnd, eliminatePlayer_eliminated]
        simp [foldl_removeUnit_id, transferPlayer_id, hoid]
      · rw [foldl_removeUnit_cities]; exact hTold
    · refine ⟨transferPlayer u city old, ?_, hTold⟩
      unfold Game.playerObject
      rw [hsnd, hg4old]
  · rcases conquerCity_snd_cases u city g old hold hok with ⟨_, hsnd⟩ | ⟨_, hsnd⟩
    · refine ⟨{ u with hasPerformedAction := true }, ?_, rfl⟩
      rw [hsnd, eliminatePlayer_units,
        mem_foldl_eraseP_key (fun v : Unit => v.id) _ _
          (by rw [transferCity_unitIds]; exact hwf.unitIds)]
      refine ⟨hu4, ?_⟩
      intro x hx hxid
      rw [transferPlayer_units] at hx
      obtain ⟨x0, hx0, rfl⟩ := List.mem_map.mp hx
      have hx0id : x0.id = u.id := by
        have : (if x0.id = u.id then { x0 with hasPerformedAction := true } else x0).id = x0.id := by
          split <;> rfl
        rw [this] at hxid
        exact hxid.symm
      have hx0g := hwf.rosterOwned old hom x0 hx0
      have : x0 = u := List.inj_on_of_nodup_map hwf.unitIds hx0g.2 hu hx0id
      rw [this] at hx0g
      exact hother (hoid.symm.trans hx0g.1.symm)
    · exact ⟨{ u with hasPerformedAction := true }, by rw [hsnd]; exact hu4, rfl⟩
  · intro v hv hvid
    rcases conquerCity_snd_cases u city g old hold hok with ⟨_, hsnd⟩ | ⟨_, hsnd⟩
    · rw [hsnd, eliminatePlayer_units,
        mem_foldl_eraseP_key (fun v : Unit => v.id) _ _
          (by rw [transferCity_unitIds]; exact hwf.unitIds)] at hv
      exact hmark v hv.1 hvid
    · rw [hsnd] at hv
      exact hmark v hv hvid


/-- C5 at `Scenario.siege`: the soldier of player 1 conquers the city of player 2. -/
theorem conquerCity_transfers_city_witness :
    Scenario.siege.WellFormed ∧
    Scenario.soldier 1 9 9 1 ∈ Scenario.siege.units ∧
    (City.new 3 9 9 2).player ≠ (Scenario.soldier 1 9 9 1).player ∧
    1 ≤ (City.new 3 9 9 2).level ∧
    (((Scenario.soldier 1 9 9 1).conquerCity (City.new 3 9 9 2) Scenario.siege).1 = true ∧
      (∃ newOwner c,
        ((Scenario.soldier 1 9 9 1).conquerCity (City.new 3 9 9 2) Scenario.siege).2.findPlayer
          (Scenario.soldier 1 9 9 1).player = some newOwner ∧
        c ∈ newOwner.cities ∧ c.id = (City.new 3 9 9 2).id ∧ c.tile = (City.new 3 9 9 2).tile ∧
        c.player = (Scenario.soldier 1 9 9 1).player ∧
        c.level = max 1 ((City.new 3 9 9 2).level - 1) ∧
        (∀ t ∈ c.territory, t.level = max 1 ((City.new 3 9 9 2).level - 1)) ∧
        (∀ v ∈ newOwner.units, v.id = (Scenario.soldier 1 9 9 1).id →
          v.hasPerformedAction = true)) ∧
      (∃ oldOwner,
        ((Scenario.soldier 1 9 9 1).conquerCity (City.new 3 9 9 2) Scenario.siege).2.playerObject
          (City.new 3 9 9 2).player = some oldOwner ∧
        ∀ c ∈ oldOwner.cities, c.id ≠ (City.new 3 9 9 2).id) ∧
      (∃ v ∈ ((Scenario.soldier 1 9 9 1).conquerCity (City.new 3 9 9 2) Scenario.siege).2.units,
        v.id = (Scenario.soldier 1 9 9 1).id) ∧
      (∀ v ∈ ((Scenario.soldier 1 9 9 1).conquerCity (City.new 3 9 9 2) Scenario.siege).2.units,
        v.id = (Scenario.soldier 1 9 9 1).id → v.hasPerformedAction = true) ∧
      ((Scenario.soldier 1 9 9 1).conquerCity (City.new 3 9 9 2) Scenario.siege).2.allCities.length =
        Scenario.siege.allCities.length) :=
  ⟨Scenario.siege_wellFormed, by decide, by decide, by decide,
    conquerCity_transfers_city (Scenario.soldier 1 9 9 1) (City.new 3 9 9 2) Scenario.siege
      (Scenario.player 2 [0, 1, 2] [City.new 3 9 9 2] [Scenario.soldier 2 9 8 2])
      Scenario.siege_wellFormed (by decide) (by decide) (by decide) (by decide) rfl rfl rfl
      (by decide)⟩

/-! ## C6: when a colonizer may found a city -/

/-- C6, the claim fails as stated.  In `Scenario.settling 9 0 true` the colonizer of
player 0 stands at (9,0), far from both cities, and has attacked this turn:
`canFoundCity` returns true although `hasAttacked` is set. -/
theorem canFoundCity_ignores_hasAttacked :
    (Scenario.attacker 9 0).hasAttacked = true ∧
    (Scenario.attacker 9 0).canFoundCity
      ((Scenario.attacker 9 0).playerGame (Scenario.settling 9 0 true)) = true ∧
    ¬ ((Scenario.attacker 9 0).canFoundCity
        ((Scenario.attacker 9 0).playerGame (Scenario.settling 9 0 true)) = true ↔
      ((Scenario.attacker 9 0).type = "colonizer" ∧
        (Scenario.attacker 9 0).hasMoved = false ∧
        (Scenario.attacker 9 0).hasAttacked = false ∧
        (Scenario.attacker 9 0).hasPerformedAction = false ∧
        (Scenario.settling 9 0 true).getCityAt 9 0 = none ∧
        ∀ c ∈ (Scenario.settling 9 0 true).allCities, 3 ≤ c.distanceTo 9 0)) := by
  refine ⟨by decide, by decide, by decide⟩

/-- C6, amended.  `canFoundCity` returns true exactly when the unit is a colonizer, its
`hasMoved` and `hasPerformedAction` flags are false (`hasAttacked` is not consulted) and,
for the game its owner refers to as `player.game`, no city stands on its tile and every
city of the board is at Chebyshev distance at least 3 from its tile. -/
theorem canFoundCity_iff (u : Unit) (playerGame : Option Game) :
    u.canFoundCity playerGame = true ↔
      u.type = "colonizer" ∧ u.hasMoved = false ∧ u.hasPerformedAction = false ∧
      ∀ game, playerGame = some game →
        game.getCityAt u.x u.y = none ∧ ∀ c ∈ game.allCities, 3 ≤ c.distanceTo u.x u.y := by
  unfold Unit.canFoundCity
  by_cases ht : u.type = "colonizer"
  · cases hm : u.hasMoved
    · cases hp : u.hasPerformedAction
      · cases playerGame with
        | none => simp [ht]
        | some game =>
          simp only [ht, ne_eq, not_true_eq_false, Bool.false_eq_true, or_self, ↓reduceIte,
            true_and, Option.some.injEq, forall_eq']
          cases hc : game.getCityAt u.x u.y with
          | some c => simp
          | none =>
            simp only [Option.isSome_none, Bool.false_eq_true, ↓reduceIte, true_and]
            by_cases hany : game.allCities.any
                (fun city => decide (max |city.x - u.x| |city.y - u.y| < 3)) = true
            · rw [if_pos hany]
              simp only [Bool.false_eq_true, false_iff, not_forall]
              obtain ⟨c, hc1, hc2⟩ := List.any_eq_true.mp hany
              refine ⟨c, hc1, ?_⟩
              unfold City.distanceTo
              simpa using hc2
            · rw [if_neg hany]
              simp only [true_iff]
              intro c hc1
              unfold City.distanceTo
              by_contra hlt
              exact hany (List.any_eq_true.mpr ⟨c, hc1, by simpa using hlt⟩)
      · simp [ht]
    · simp [ht]
  · simp [ht]

/-! ## C7: founding next to an existing city -/

/-- C7, the code at the failing input.  In `Scenario.settling 2 0 false` the colonizer of
player 0 stands at (2,0), at Chebyshev distance 2 from the city at (0,0): `foundCity`
returns true, the board has one more city, it stands at (2,0), and the colonizer is removed
from the global list. -/
theorem foundCity_at_distance_two :
    (∃ c ∈ (Scenario.settling 2 0 false).allCities, c.distanceTo 2 0 < 3) ∧
    ((Scenario.colonizer 1 2 0 0).foundCity (Scenario.settling 2 0 false)).1 = true ∧
    ((Scenario.colonizer 1 2 0 0).foundCity (Scenario.settling 2 0 false)).2.allCities.length =
      (Scenario.settling 2 0 false).allCities.length + 1 ∧
    ((Scenario.colonizer 1 2 0 0).foundCity (Scenario.settling 2 0 false)).2.getCityAt 2 0 =
      some (City.new 3 2 0 0) ∧
    ((Scenario.colonizer 1 2 0 0).foundCity (Scenario.settling 2 0 false)).2.units = [] := by
  refine ⟨by decide, by decide, by decide, by decide, by decide⟩

/-! ## C8: what a successful founding leaves -/

/-- C8.  In a well-formed state, whenever `foundCity` returns true for a colonizer `u` of
the global list standing at `(x, y)`: no unit with its id is left in the global list, so
`getUnitAt(x, y)` does not return it, nor in its owner's roster; `getCityAt(x, y)` returns
a city of level 1 at `(x, y)` owned by the colonizer's player; and that player's city list
is the former list followed by exactly that city. -/
theorem foundCity_replaces_colonizer (u : Unit) (g : Game)
    (hwf : g.WellFormed) (hu : u ∈ g.units)
    (hok : (u.foundCity g).1 = true) :
    (∀ v ∈ (u.foundCity g).2.units, v.id ≠ u.id) ∧
    (∀ v, (u.foundCity g).2.getUnitAt u.x u.y = some v → v.id ≠ u.id) ∧
    ∃ owner owner1 c, g.findPlayer u.player = some owner ∧
      (u.foundCity g).2.findPlayer u.player = some owner1 ∧
      (∀ v ∈ owner1.units, v.id ≠ u.id) ∧
      (u.foundCity g).2.getCityAt u.x u.y = some c ∧
      c.level = 1 ∧ c.player = u.player ∧ c.x = u.x ∧ c.y = u.y ∧
      owner1.cities = owner.cities ++ [c] := by
  obtain ⟨_, _, hplayers, hunits⟩ := foundCity_success u g hok
  obtain ⟨owner, howner⟩ := findPlayer_of_unit hwf hu
  have hoid : owner.id = u.player := findPlayer_id howner
  have hom : owner ∈ g.players := findPlayer_mem howner
  have hgone : ∀ v ∈ (u.foundCity g).2.units, v.id ≠ u.id := by
    intro v hv
    rw [hunits, eraseP_key_eq_filter (fun v : Unit => v.id) u.id _ hwf.unitIds] at hv
    simpa using (List.mem_filter.mp hv).2
  refine ⟨hgone, ?_, owner, foundPlayer u (City.new g.nextCityId u.x u.y u.player) owner,
    City.new g.nextCityId u.x u.y u.player, howner, ?_, ?_,
    foundCity_getCityAt u g owner howner hok, rfl, rfl, rfl, rfl, ?_⟩
  · intro v hv
    exact hgone v (List.mem_of_find?_eq_some hv)
  · unfold Game.findPlayer
    rw [hplayers, List.find?_map]
    have : ((fun p : Player => decide (p.id = u.player)) ∘
        foundPlayer u (City.new g.nextCityId u.x u.y u.player)) =
        fun p => decide (p.id = u.player) := by
      funext p; simp [foundPlayer_id]
    rw [this]
    unfold Game.findPlayer at howner
    rw [howner]; rfl
  · intro v hv
    rw [foundPlayer_units] at hv
    simp only [hoid, ↓reduceIte] at hv
    rw [eraseP_key_eq_filter (fun v : Unit => v.id) u.id _ (roster_ids_nodup hwf hom)] at hv
    simpa using (List.mem_filter.mp hv).2
  · rw [foundPlayer_cities]
    simp [hoid]


/-- C8 at `Scenario.settling 9 0 false`: the colonizer of player 0 founds a city at (9,0). -/
theorem foundCity_replaces_colonizer_witness :
    (Scenario.settling 9 0 false).WellFormed ∧
    Scenario.colonizer 1 9 0 0 ∈ (Scenario.settling 9 0 false).units ∧
    ((Scenario.colonizer 1 9 0 0).foundCity (Scenario.settling 9 0 false)).1 = true ∧
    ((∀ v ∈ ((Scenario.colonizer 1 9 0 0).foundCity (Scenario.settling 9 0 false)).2.units,
        v.id ≠ (Scenario.colonizer 1 9 0 0).id) ∧
      (∀ v, ((Scenario.colonizer 1 9 0 0).foundCity (Scenario.settling 9 0 false)).2.getUnitAt
          (Scenario.colonizer 1 9 0 0).x (Scenario.colonizer 1 9 0 0).y = some v →
        v.id ≠ (Scenario.colonizer 1 9 0 0).id) ∧
      ∃ owner owner1 c,
        (Scenario.settling 9 0 false).findPlayer (Scenario.colonizer 1 9 0 0).player = some owner ∧
        ((Scenario.colonizer 1 9 0 0).foundCity (Scenario.settling 9 0 false)).2.findPlayer
          (Scenario.colonizer 1 9 0 0).player = some owner1 ∧
        (∀ v ∈ owner1.units, v.id ≠ (Scenario.colonizer 1 9 0 0).id) ∧
        ((Scenario.colonizer 1 9 0 0).foundCity (Scenario.settling 9 0 false)).2.getCityAt
          (Scenario.colonizer 1 9 0 0).x (Scenario.colonizer 1 9 0 0).y = some c ∧
        c.level = 1 ∧ c.player = (Scenario.colonizer 1 9 0 0).player ∧
        c.x = (Scenario.colonizer 1 9 0 0).x ∧ c.y = (Scenario.colonizer 1 9 0 0).y ∧
        owner1.cities = owner.cities ++ [c]) :=
  ⟨Scenario.settling_wellFormed, by decide, by decide,
    foundCity_replaces_colonizer (Scenario.colonizer 1 9 0 0) (Scenario.settling 9 0 false)
      Scenario.settling_wellFormed (by decide) (by decide)⟩

/-! ## C9: no two cities on one tile -/

/-- C9.  In a well-formed state whose cities stand on pairwise distinct tiles, the cities
still stand on pairwise distinct tiles after every successful `foundCity`, and after every
successful `conquerCity` of a unit of the global list on a city of the board. -/
theorem cities_stay_on_distinct_tiles (g : Game) (hwf : g.WellFormed)
    (htiles : (g.allCities.map City.tile).Nodup) :
    (∀ u : Unit, (u.foundCity g).1 = true →
      ((u.foundCity g).2.allCities.map City.tile).Nodup) ∧
    (∀ (u : Unit) (city : City), u ∈ g.units → city ∈ g.allCities →
      (u.conquerCity city g).1 = true →
      ((u.conquerCity city g).2.allCities.map City.tile).Nodup) := by
  constructor
  · intro u hok
    rcases foundCity_tiles_perm u g hwf hok with hperm | heq
    · rw [hperm.nodup_iff, List.nodup_cons]
      refine ⟨?_, htiles⟩
      intro hmem
      obtain ⟨c, hc, hct⟩ := List.mem_map.mp hmem
      have hvalid := (foundCity_success u g hok).2.1
      have := (validateCityPlacement_iff u.x u.y g).mp hvalid c hc
      unfold City.tile at hct
      unfold City.distanceTo at this
      injection hct with hx hy
      rw [hx, hy] at this
      simp at this
    · rw [heq]; exact htiles
  · intro u city hu hcity hok
    obtain ⟨p, hp, hcp⟩ := List.mem_flatMap.mp hcity
    have hpid : city.player = p.id := hwf.cityOwned p hp city hcp
    obtain ⟨old, hold⟩ := findPlayer_of_mem hp
    rw [← hpid] at hold
    have hop : old = p :=
      List.inj_on_of_nodup_map hwf.playerIds (findPlayer_mem hold) hp
        ((findPlayer_id hold).trans hpid)
    obtain ⟨new, hnew⟩ := findPlayer_of_unit hwf hu
    rw [(conquerCity_tiles_perm u city g old new hwf hold (hop ▸ hcp) hnew hok).nodup_iff]
    exact htiles


/-- C9 at `Scenario.settling 9 0 false` (a founding at (9,0)) and at `Scenario.siege` (the
conquest of the city at (9,9)). -/
theorem cities_stay_on_distinct_tiles_witness :
    ((Scenario.settling 9 0 false).WellFormed ∧
      ((Scenario.settling 9 0 false).allCities.map City.tile).Nodup ∧
      ((Scenario.colonizer 1 9 0 0).foundCity (Scenario.settling 9 0 false)).1 = true ∧
      (((Scenario.colonizer 1 9 0 0).foundCity
        (Scenario.settling 9 0 false)).2.allCities.map City.tile).Nodup) ∧
    (Scenario.siege.WellFormed ∧
      (Scenario.siege.allCities.map City.tile).Nodup ∧
      Scenario.soldier 1 9 9 1 ∈ Scenario.siege.units ∧
      City.new 3 9 9 2 ∈ Scenario.siege.allCities ∧
      ((Scenario.soldier 1 9 9 1).conquerCity (City.new 3 9 9 2) Scenario.siege).1 = true ∧
      (((Scenario.soldier 1 9 9 1).conquerCity (City.new 3 9 9 2)
        Scenario.siege).2.allCities.map City.tile).Nodup) :=
  ⟨⟨Scenario.settling_wellFormed, by decide, by decide,
      (cities_stay_on_distinct_tiles (Scenario.settling 9 0 false) Scenario.settling_wellFormed
        (by decide)).1 (Scenario.colonizer 1 9 0 0) (by decide)⟩,
    ⟨Scenario.siege_wellFormed, by decide, by decide, by decide, by decide,
      (cities_stay_on_distinct_tiles Scenario.siege Scenario.siege_wellFormed
        (by decide)).2 (Scenario.soldier 1 9 9 1) (City.new 3 9 9 2)
        (by decide) (by decide) (by decide)⟩⟩

/-! ## C10: one purchase per turn -/

/-- C10.  In a well-formed state with an agent, where the purchase gate is open, the
current player owns a city (ids are allocated from 1) with no unit on its tile and has at
least `cost = Unit.getCost(type)` coins: executing `buyUnit` for that city and type ends
normally, appends to the global list and to the current player's roster the one unit the
constructor builds for that type on the city's tile (of that very type when it is one of
the five catalogue names), lowers the current player's coins by
exactly `cost`, leaves every other player as it was and sets the gate.  No action executed
through `executeAIAction` clears the gate (only `nextTurn` does), and while it is set every
`buyUnit`, for any city, type and coin balance, leaves units and players (hence coins)
unchanged. -/
theorem buyUnit_once_per_turn (g : Game) (agent : Agent) (current : Player) (city : City)
    (type : String) (cost : Int) (params : Params)
    (hwf : g.WellFormed)
    (hagent : g.agent = some agent) (hcur : g.currentPlayer = some current)
    (hgate : g.hasPurchasedUnitThisTurn = false)
    (hcity : city ∈ current.cities) (hcid : 0 < city.id)
    (hfree : g.getUnitAt city.x city.y = none)
    (hp1 : params.cityId = some city.id) (hp2 : params.unitType = some type)
    (htype : type ≠ "")
    (hcost : Unit.getCost type = some cost) (hcoins : current.coins ≥ cost) :
    (∃ newUnit g1,
      Unit.new g.nextUnitId city.x city.y current.id type = some newUnit ∧
      (type ∈ ["soldier", "knight", "giant", "dragon", "colonizer"] → newUnit.type = type) ∧
      newUnit.x = city.x ∧ newUnit.y = city.y ∧ newUnit.player = current.id ∧
      g.executeAIAction (Action.mk "buyUnit" params) = Completion.ok g1 ∧
      g1.units = g.units ++ [newUnit] ∧
      g1.players = g.players.map (fun p =>
        if p.id = current.id then
          { p with coins := p.coins - cost, units := p.units ++ [newUnit] }
        else p) ∧
      g1.hasPurchasedUnitThisTurn = true) ∧
    (∀ (g2 : Game) (action : Action), g2.hasPurchasedUnitThisTurn = true →
      (g2.executeAIAction action).state.hasPurchasedUnitThisTurn = true) ∧
    (∀ (g2 : Game) (params2 : Params), g2.hasPurchasedUnitThisTurn = true →
      (g2.executeAIAction (Action.mk "buyUnit" params2)).state.units = g2.units ∧
      (g2.executeAIAction (Action.mk "buyUnit" params2)).state.players = g2.players) := by
  refine ⟨?_, fun g2 action h => Game.executeAIAction_gate g2 action h, ?_⟩
  · have hmem : current ∈ g.players := currentPlayer_mem hcur
    obtain ⟨newUnit, hnew, _, hx, hy, hpl, _⟩ :=
      Unit.new_of_getCost g.nextUnitId city.x city.y current.id type cost hcost
    obtain ⟨hunits, hplayers, hflag⟩ := aiBuyUnit_success g current city type cost params newUnit
      hgate hcity hcid (cities_ids_nodup hwf hmem) hfree hp1 hp2 htype hcost hcoins hnew
      hwf.playerIds hmem
    have havail : g.isActionAvailable current "buyUnit" params = true := by
      unfold Game.isActionAvailable
      have := buyUnit_listed g current city type cost hgate hcity hfree hcost hcoins
      simp only [hp1]
      simpa using this
    refine ⟨newUnit, g.aiBuyUnit current params, hnew,
      fun ht => Unit.new_type_of_catalogue _ _ _ _ type newUnit ht hnew,
      hx, hy, hpl, ?_, hunits, hplayers, hflag⟩
    unfold Game.executeAIAction
    simp [hagent, hcur, havail]
  · intro g2 params2 h
    unfold Game.executeAIAction
    dsimp only
    have hname : (if "buyUnit" = "" then "unknown" else "buyUnit") = "buyUnit" := by decide
    rw [hname]
    have hend : ¬ ("buyUnit" = "endTurn") := by decide
    rw [if_neg hend]
    cases g2.agent with
    | none => exact ⟨rfl, rfl⟩
    | some agent2 =>
      cases g2.currentPlayer with
      | none => exact ⟨rfl, rfl⟩
      | some current2 =>
        dsimp only
        have hno : g2.isActionAvailable current2 "buyUnit" params2 = false := by
          unfold Game.isActionAvailable
          simp [Agent.evaluateAvailableActions, h]
        simp only [hno, Bool.not_false, ↓reduceIte]
        exact ⟨rfl, rfl⟩


/-- C10 at `Scenario.opening`: player 0 has 10 coins and buys a colonizer (cost 10) at its
city; the colonizer appears on the city's tile (0,0) and 0 coins are left. -/
theorem buyUnit_once_per_turn_witness :
    Scenario.opening.WellFormed ∧
    Scenario.opening.hasPurchasedUnitThisTurn = false ∧
    Scenario.opening.getUnitAt (City.new 1 0 0 0).x (City.new 1 0 0 0).y = none ∧
    Unit.getCost "colonizer" = some 10 ∧
    (Scenario.activePlayer 0 [0, 1] [City.new 1 0 0 0] []).coins ≥ 10 ∧
    (∃ newUnit g1,
      Unit.new Scenario.opening.nextUnitId (City.new 1 0 0 0).x (City.new 1 0 0 0).y
        (Scenario.activePlayer 0 [0, 1] [City.new 1 0 0 0] []).id "colonizer" = some newUnit ∧
      ("colonizer" ∈ ["soldier", "knight", "giant", "dragon", "colonizer"] →
        newUnit.type = "colonizer") ∧
      newUnit.x = (City.new 1 0 0 0).x ∧ newUnit.y = (City.new 1 0 0 0).y ∧
      newUnit.player = (Scenario.activePlayer 0 [0, 1] [City.new 1 0 0 0] []).id ∧
      Scenario.opening.executeAIAction (Action.mk "buyUnit" Scenario.buyColonizer) =
        Completion.ok g1 ∧
      g1.units = Scenario.opening.units ++ [newUnit] ∧
      g1.players = Scenario.opening.players.map (fun p =>
        if p.id = (Scenario.activePlayer 0 [0, 1] [City.new 1 0 0 0] []).id then
          { p with coins := p.coins - 10, units := p.units ++ [newUnit] }
        else p) ∧
      g1.hasPurchasedUnitThisTurn = true) ∧
    (Scenario.opening.executeAIAction (Action.mk "buyUnit" Scenario.buyColonizer)).state.players.map
      (fun p => p.coins) = [0, 10] :=
  ⟨Scenario.opening_wellFormed, by decide, by decide, by decide, by decide,
    (buyUnit_once_per_turn Scenario.opening (Agent.mk [] [] none [])
      (Scenario.activePlayer 0 [0, 1] [City.new 1 0 0 0] []) (City.new 1 0 0 0) "colonizer" 10
      Scenario.buyColonizer Scenario.opening_wellFormed (by decide) (by decide) (by decide)
      (by decide) (by decide) (by decide) (by decide) (by decide) (by decide) (by decide)
      (by decide)).1,
    by decide⟩

/-! ## C11: where a unit may move -/

/-- C11: `canMoveTo` answers true exactly when the unit has not moved this turn, the
destination is within Chebyshev distance `movement`, no unit stands on the destination,
and the city `getCityAt` finds there, if any, is not one of the unit's own player (a
city of another player is allowed).  In particular a unit at (0,0) with movement 2 may
move to (2,2) when that tile holds no unit and no city, and may not move to (3,0). -/
theorem canMoveTo_iff :
    (∀ (u : Unit) (x y : Int) (g : Game),
      u.canMoveTo x y g = true ↔
        u.hasMoved = false ∧ max |x - u.x| |y - u.y| ≤ u.movement ∧
        (∀ v ∈ g.units, ¬ (v.x = x ∧ v.y = y)) ∧
        (∀ c, g.getCityAt x y = some c → c.player ≠ u.player)) ∧
    (∀ (u : Unit) (g : Game), u.x = 0 → u.y = 0 → u.movement = 2 →
      (u.hasMoved = false → (∀ v ∈ g.units, ¬ (v.x = 2 ∧ v.y = 2)) →
        g.getCityAt 2 2 = none → u.canMoveTo 2 2 g = true) ∧
      u.canMoveTo 3 0 g = false) := by
  have key : ∀ (u : Unit) (x y : Int) (g : Game),
      u.canMoveTo x y g = true ↔
        u.hasMoved = false ∧ max |x - u.x| |y - u.y| ≤ u.movement ∧
        (∀ v ∈ g.units, ¬ (v.x = x ∧ v.y = y)) ∧
        (∀ c, g.getCityAt x y = some c → c.player ≠ u.player) := by
    intro u x y g
    rw [← Game.getUnitAt_eq_none_iff]
    unfold Unit.canMoveTo
    dsimp only
    cases hm : u.hasMoved
    · by_cases hd : max |x - u.x| |y - u.y| > u.movement
      · have : ¬ max |x - u.x| |y - u.y| ≤ u.movement := not_le.mpr hd
        simp only [Bool.false_eq_true, if_false, if_pos hd, this, false_and, and_false]
      · have hle : max |x - u.x| |y - u.y| ≤ u.movement := not_lt.mp hd
        simp only [Bool.false_eq_true, if_false, if_neg hd, hle, true_and]
        cases hu : g.getUnitAt x y
        · cases hc : g.getCityAt x y with
          | none => simp
          | some c =>
            by_cases hp : c.player = u.player
            · simp [hp]
            · simp [hp]
        · simp
    · simp
  refine ⟨key, ?_⟩
  intro u g hx hy hmv
  constructor
  · intro hm hu hc
    rw [key]
    refine ⟨hm, ?_, hu, ?_⟩
    · rw [hx, hy, hmv]; decide
    · intro c h; rw [hc] at h; cases h
  · cases h : u.canMoveTo 3 0 g
    · rfl
    · rw [key] at h
      obtain ⟨_, hd, _⟩ := h
      rw [hx, hy, hmv] at hd
      exact absurd hd (by decide)

/-! ## C12: moves and the edge of the board -/

/-- C12, evaluated on `Scenario.settling 9 0 false` (a 10 by 10 board, every unit on it):
executing `moveUnit` with `{ unitId: 1, x: 10, y: 0 }` moves the colonizer of player 0
from (9,0) to (10,0), a position that is not on the board. -/
theorem moveUnit_leaves_the_board :
    (Scenario.settling 9 0 false).unitsOnMap ∧
    ((Scenario.settling 9 0 false).executeAIAction (Action.mk "moveUnit" Scenario.stepOff)).state.units =
      [{ Scenario.colonizer 1 10 0 0 with hasMoved := true }] ∧
    ¬ ((Scenario.settling 9 0 false).executeAIAction
        (Action.mk "moveUnit" Scenario.stepOff)).state.unitsOnMap := by
  refine ⟨by decide, by decide, by decide⟩

/-! ## C13: what an attack changes -/

/-- C13.  In a well-formed state with an agent, let `attacker` be a unit of the current
player that has not attacked (ids are allocated from 1) and let the unit `getUnitAt`
finds on the target tile belong to another player and be within range.  Executing
`attackUnit` ends normally; the attacker is marked as having attacked, in the global
list and in its roster, whether or not the target dies; when the target's hit points
less the attacker's `atk` stay positive the target remains in the global list and in
its owner's roster with exactly that many hit points, and when they do not it is in
neither; every other unit stays in the global list as it was; and any further
`attackUnit` for the same attacker leaves units and players as they are
(`aiAttackUnit` leaves the whole state as it is). -/
theorem attackUnit_effect (g : Game) (agent : Agent) (current : Player)
    (attacker target : Unit) (params : Params) (x y : Int)
    (hwf : g.WellFormed)
    (hagent : g.agent = some agent) (hcur : g.currentPlayer = some current)
    (hown : attacker ∈ current.units) (hfresh : attacker.hasAttacked = false)
    (hid : params.unitId = some attacker.id) (hpos : 0 < attacker.id)
    (hx : params.x = some x) (hy : params.y = some y)
    (htarget : g.getUnitAt x y = some target) (henemy : target.player ≠ current.id)
    (hrange : inAttackRange (target.x - attacker.x) (target.y - attacker.y) = true) :
    ∃ g1, g.executeAIAction (Action.mk "attackUnit" params) = Completion.ok g1 ∧
      ({ attacker with hasAttacked := true } ∈ g1.units ∧
        (∃ p ∈ g1.players, p.id = current.id ∧ { attacker with hasAttacked := true } ∈ p.units) ∧
        (∀ v ∈ g1.units, v.id = attacker.id → v.hasAttacked = true) ∧
        (∀ p ∈ g1.players, ∀ v ∈ p.units, v.id = attacker.id → v.hasAttacked = true)) ∧
      (0 < target.hp - attacker.atk →
        { target with hp := target.hp - attacker.atk } ∈ g1.units ∧
        ∃ p ∈ g1.players, p.id = target.player ∧
          { target with hp := target.hp - attacker.atk } ∈ p.units) ∧
      (target.hp - attacker.atk ≤ 0 →
        (∀ v ∈ g1.units, v.id ≠ target.id) ∧
        ∀ p ∈ g1.players, ∀ v ∈ p.units, v.id ≠ target.id) ∧
      (∀ v ∈ g.units, v.id ≠ attacker.id → v.id ≠ target.id → v ∈ g1.units) ∧
      (∀ params2 : Params, params2.unitId = some attacker.id →
        (g1.executeAIAction (Action.mk "attackUnit" params2)).state.units = g1.units ∧
        (g1.executeAIAction (Action.mk "attackUnit" params2)).state.players = g1.players ∧
        ∀ current2, g1.currentPlayer = some current2 →
          g1.aiAttackUnit current2 params2 = g1) := by
  have hmem : current ∈ g.players := currentPlayer_mem hcur
  obtain ⟨hapl, hag⟩ := hwf.rosterOwned current hmem attacker hown
  have htg : target ∈ g.units := by
    unfold Game.getUnitAt at htarget
    exact List.mem_of_find?_eq_some htarget
  have hne : attacker.id ≠ target.id := by
    intro h
    have := List.inj_on_of_nodup_map hwf.unitIds hag htg h
    rw [← this, hapl] at henemy
    exact henemy rfl
  obtain ⟨owner, howner, hoid⟩ := hwf.unitOwnerActive target htg
  have htro : target ∈ owner.units := hwf.rosterComplete target htg owner howner hoid.symm
  have hfind : current.units.find? (fun v => v.id = attacker.id) = some attacker :=
    find?_key_of_mem (fun v => v.id) current.units attacker (roster_ids_nodup hwf hmem) hown
  have hact : g.aiAttackUnit current params = attackOutcome attacker target g :=
    Game.aiAttackUnit_of_found g current params attacker target x y hid hpos hx hy hfind
      htarget henemy hfresh hrange
  have havail : g.isActionAvailable current "attackUnit" params = true := by
    unfold Game.isActionAvailable
    simp only [String.reduceEq, ↓reduceIte]
    rw [List.any_eq_true]
    refine ⟨_, (mem_attackUnit_menu g current _).mpr ⟨attacker, hown, hfresh, rfl, ?_⟩, ?_⟩
    · refine List.ne_nil_of_mem ((mem_potentialTargets g current attacker _).mpr
        ⟨owner, howner, ?_, target, htro, hrange, rfl⟩)
      rw [hoid]; exact henemy
    · simp [hid]
  have hexec : g.executeAIAction (Action.mk "attackUnit" params) =
      Completion.ok (attackOutcome attacker target g) := by
    unfold Game.executeAIAction
    simp [hagent, hcur, havail, hact]
  have hunits := attackOutcome_units attacker target g hfresh
  have hplayers := attackOutcome_players attacker target g hfresh
  have hflagU : ∀ v ∈ (attackOutcome attacker target g).units, v.id = attacker.id →
      v.hasAttacked = true := by
    intro v hv hvid
    rw [hunits] at hv
    have hv2 : v ∈ g.units.map (struck attacker target) := by
      split_ifs at hv
      · exact List.mem_of_mem_eraseP hv
      · exact hv
    obtain ⟨v0, _, rfl⟩ := List.mem_map.mp hv2
    rw [struck_id] at hvid
    exact struck_hasAttacked attacker target v0 hvid
  have hflagP : ∀ p ∈ (attackOutcome attacker target g).players, ∀ v ∈ p.units,
      v.id = attacker.id → v.hasAttacked = true := by
    intro p hp v hv hvid
    rw [hplayers] at hp
    obtain ⟨p0, _, rfl⟩ := List.mem_map.mp hp
    have hv2 : v ∈ p0.units.map (struck attacker target) := by
      split_ifs at hv
      · exact List.mem_of_mem_eraseP hv
      · exact hv
    obtain ⟨v0, _, rfl⟩ := List.mem_map.mp hv2
    rw [struck_id] at hvid
    exact struck_hasAttacked attacker target v0 hvid
  refine ⟨attackOutcome attacker target g, hexec, ⟨?_, ?_, hflagU, hflagP⟩, ?_, ?_, ?_, ?_⟩
  · rw [hunits]
    have hin : { attacker with hasAttacked := true } ∈ g.units.map (struck attacker target) :=
      List.mem_map.mpr ⟨attacker, hag, struck_attacker attacker target hne⟩
    split_ifs
    · rw [List.mem_eraseP_of_neg]
      · exact hin
      · simpa using hne
    · exact hin
  · rw [hplayers]
    refine ⟨_, List.mem_map.mpr ⟨current, hmem, rfl⟩, ?_, ?_⟩
    · split_ifs <;> rfl
    · rw [if_neg (fun h => henemy h.2.symm)]
      exact List.mem_map.mpr ⟨attacker, hown, struck_attacker attacker target hne⟩
  · intro hlive
    have hnk : ¬ target.hp - attacker.atk ≤ 0 := not_le.mpr hlive
    constructor
    · rw [hunits, if_neg hnk]
      exact List.mem_map.mpr ⟨target, htg, struck_target attacker target (Ne.symm hne)⟩
    · rw [hplayers]
      refine ⟨_, List.mem_map.mpr ⟨owner, howner, rfl⟩, ?_, ?_⟩
      · rw [if_neg (fun h => hnk h.1)]; exact hoid
      · rw [if_neg (fun h => hnk h.1)]
        exact List.mem_map.mpr ⟨target, htro, struck_target attacker target (Ne.symm hne)⟩
  · intro hk
    constructor
    · intro v hv
      rw [hunits, if_pos hk] at hv
      have hnd : ((g.units.map (struck attacker target)).map (fun v => v.id)).Nodup := by
        rw [List.map_map]
        have : ((fun v => v.id) ∘ struck attacker target) = (fun v : Unit => v.id) := by
          funext v; exact struck_id attacker target v
        rw [this]; exact hwf.unitIds
      rw [eraseP_key_eq_filter (fun v : Unit => v.id) target.id _ hnd, List.mem_filter] at hv
      simpa using hv.2
    · intro p hp v hv
      rw [hplayers] at hp
      obtain ⟨p0, hp0, rfl⟩ := List.mem_map.mp hp
      by_cases hpo : p0.id = target.player
      · rw [if_pos ⟨hk, hpo⟩] at hv
        unfold Player.removeUnit at hv
        dsimp only at hv
        have hnd : ((p0.units.map (struck attacker target)).map (fun v => v.id)).Nodup := by
          rw [List.map_map]
          have : ((fun v => v.id) ∘ struck attacker target) = (fun v : Unit => v.id) := by
            funext v; exact struck_id attacker target v
          rw [this]; exact roster_ids_nodup hwf hp0
        rw [eraseP_key_eq_filter (fun v : Unit => v.id) target.id _ hnd, List.mem_filter] at hv
        simpa using hv.2
      · rw [if_neg (fun h => hpo h.2)] at hv
        obtain ⟨v0, hv0, rfl⟩ := List.mem_map.mp hv
        rw [struck_id]
        intro hveq
        obtain ⟨hv0p, hv0g⟩ := hwf.rosterOwned p0 hp0 v0 hv0
        have := List.inj_on_of_nodup_map hwf.unitIds hv0g htg hveq
        rw [this] at hv0p
        exact hpo hv0p.symm
  · intro v hv h1 h2
    rw [hunits]
    have hin : v ∈ g.units.map (struck attacker target) :=
      List.mem_map.mpr ⟨v, hv, struck_other attacker target v h1 h2⟩
    split_ifs
    · rw [List.mem_eraseP_of_neg]
      · exact hin
      · simpa using h2
    · exact hin
  · intro params2 h2
    obtain ⟨h3, h4⟩ := attackUnit_again _ attacker.id hpos hflagP params2 h2
    refine ⟨h3, h4, ?_⟩
    intro current2 hcur2
    exact Game.aiAttackUnit_again _ current2 attacker.id hpos
      (hflagP current2 (currentPlayer_mem hcur2)) params2 h2

/-- C13 at `Scenario.standoff 3 3 5`: the soldier of player 0 at (3,3) strikes the soldier
of player 1 at (4,4), which keeps 3 of its 5 hit points. -/
theorem attackUnit_effect_witness :
    (Scenario.standoff 3 3 5).WellFormed ∧
    (Scenario.standoff 3 3 5).getUnitAt 4 4 = some (Scenario.soldier 2 4 4 1) ∧
    inAttackRange ((Scenario.soldier 2 4 4 1).x - (Scenario.soldier 1 3 3 0).x)
      ((Scenario.soldier 2 4 4 1).y - (Scenario.soldier 1 3 3 0).y) = true ∧
    (∃ g1,
      (Scenario.standoff 3 3 5).executeAIAction (Action.mk "attackUnit" Scenario.strike) =
        Completion.ok g1 ∧
      ({ Scenario.soldier 1 3 3 0 with hasAttacked := true } ∈ g1.units ∧
        (∃ p ∈ g1.players,
          p.id = (Scenario.activePlayer 0 [0, 1] [City.new 1 0 0 0]
            [Scenario.soldier 1 3 3 0]).id ∧
          { Scenario.soldier 1 3 3 0 with hasAttacked := true } ∈ p.units) ∧
        (∀ v ∈ g1.units, v.id = (Scenario.soldier 1 3 3 0).id → v.hasAttacked = true) ∧
        (∀ p ∈ g1.players, ∀ v ∈ p.units,
          v.id = (Scenario.soldier 1 3 3 0).id → v.hasAttacked = true)) ∧
      (0 < (Scenario.soldier 2 4 4 1).hp - (Scenario.soldier 1 3 3 0).atk →
        { Scenario.soldier 2 4 4 1 with
            hp := (Scenario.soldier 2 4 4 1).hp - (Scenario.soldier 1 3 3 0).atk } ∈ g1.units ∧
        ∃ p ∈ g1.players, p.id = (Scenario.soldier 2 4 4 1).player ∧
          { Scenario.soldier 2 4 4 1 with
            hp := (Scenario.soldier 2 4 4 1).hp - (Scenario.soldier 1 3 3 0).atk } ∈ p.units) ∧
      ((Scenario.soldier 2 4 4 1).hp - (Scenario.soldier 1 3 3 0).atk ≤ 0 →
        (∀ v ∈ g1.units, v.id ≠ (Scenario.soldier 2 4 4 1).id) ∧
        ∀ p ∈ g1.players, ∀ v ∈ p.units, v.id ≠ (Scenario.soldier 2 4 4 1).id) ∧
      (∀ v ∈ (Scenario.standoff 3 3 5).units, v.id ≠ (Scenario.soldier 1 3 3 0).id →
        v.id ≠ (Scenario.soldier 2 4 4 1).id → v ∈ g1.units) ∧
      (∀ params2 : Params, params2.unitId = some (Scenario.soldier 1 3 3 0).id →
        (g1.executeAIAction (Action.mk "attackUnit" params2)).state.units = g1.units ∧
        (g1.executeAIAction (Action.mk "attackUnit" params2)).state.players = g1.players ∧
        ∀ current2, g1.currentPlayer = some current2 →
          g1.aiAttackUnit current2 params2 = g1)) ∧
    ((Scenario.standoff 3 3 5).executeAIAction (Action.mk "attackUnit" Scenario.strike)).state.units.map
      (fun v => (v.id, v.hp, v.hasAttacked)) = [(1, 5, true), (2, 3, false)] ∧
    ((Scenario.standoff 3 3 2).executeAIAction (Action.mk "attackUnit" Scenario.strike)).state.units.map
      (fun v => (v.id, v.hp, v.hasAttacked)) = [(1, 5, true)] :=
  ⟨Scenario.standoff_wellFormed, by decide, by decide,
    attackUnit_effect (Scenario.standoff 3 3 5) (Agent.mk [] [] none [])
      (Scenario.activePlayer 0 [0, 1] [City.new 1 0 0 0] [Scenario.soldier 1 3 3 0])
      (Scenario.soldier 1 3 3 0) (Scenario.soldier 2 4 4 1) Scenario.strike 4 4
      Scenario.standoff_wellFormed (by decide) (by decide) (by decide) (by decide) (by decide)
      (by decide) (by decide) (by decide) (by decide) (by decide) (by decide),
    by decide, by decide⟩

/-! ## C14: the attack range -/

/-- C14.  For all integer offsets `dx`, `dy` the range test, the square root of
`dx*dx + dy*dy` (taken exactly) being at most 1.5, holds exactly when
`dx*dx + dy*dy ≤ 2`, that is exactly when the Chebyshev distance is at most 1; so (1,1)
is in range of (0,0) and (2,0) is not.  The three range tests agree: `canAttack` is true
exactly for an attacker that has not attacked and a target at Chebyshev distance at
most 1; the `attackUnit` menu lists as targets of a unit only units at Chebyshev distance
at most 1, and lists every unit of another active player at that distance; and
`aiAttackUnit` changes the state only when the unit on the target tile is at Chebyshev
distance at most 1 from a unit of the current player. -/
theorem attack_range_is_adjacency :
    (∀ dx dy : Int,
      (inAttackRange dx dy = true ↔ Real.sqrt ((dx * dx + dy * dy : Int) : Real) ≤ 1.5) ∧
      (inAttackRange dx dy = true ↔ dx * dx + dy * dy ≤ 2) ∧
      (inAttackRange dx dy = true ↔ max |dx| |dy| ≤ 1)) ∧
    inAttackRange (1 - 0) (1 - 0) = true ∧
    inAttackRange (2 - 0) (0 - 0) = false ∧
    (∀ u t : Unit,
      u.canAttack t = true ↔ u.hasAttacked = false ∧ max |t.x - u.x| |t.y - u.y| ≤ 1) ∧
    (∀ (g : Game) (player : Player),
      (∀ e ∈ (Agent.evaluateAvailableActions g player).attackUnit,
        ∀ tg ∈ e.potentialTargets, max |tg.x - e.x| |tg.y - e.y| ≤ 1) ∧
      (∀ u ∈ player.units, u.hasAttacked = false →
        ∀ other ∈ g.players, other.id ≠ player.id → ∀ t ∈ other.units,
          max |t.x - u.x| |t.y - u.y| ≤ 1 →
          ∃ e ∈ (Agent.evaluateAvailableActions g player).attackUnit,
            e.unitId = u.id ∧ Target.mk t.id other.id t.x t.y t.hp ∈ e.potentialTargets)) ∧
    (∀ (g : Game) (current : Player) (params : Params),
      g.aiAttackUnit current params ≠ g →
        ∃ u ∈ current.units, ∃ t x y, params.x = some x ∧ params.y = some y ∧
          g.getUnitAt x y = some t ∧ max |t.x - u.x| |t.y - u.y| ≤ 1) := by
  refine ⟨fun dx dy => ⟨?_, inAttackRange_iff_sq dx dy, inAttackRange_iff_adjacent dx dy⟩,
    by decide, by decide, ?_, ?_, ?_⟩
  · rw [sqrt_le_iff_sq]
    unfold inAttackRange
    rw [decide_eq_true_iff]
  · intro u t
    rw [← inAttackRange_iff_adjacent]
    unfold Unit.canAttack
    cases u.hasAttacked <;> simp
  · intro g player
    constructor
    · intro e he tg htg
      obtain ⟨u, _, _, rfl, _⟩ := (mem_attackUnit_menu g player e).mp he
      obtain ⟨other, _, _, t, _, hr, rfl⟩ := (mem_potentialTargets g player u tg).mp htg
      exact (inAttackRange_iff_adjacent _ _).mp hr
    · intro u hu hfresh other ho hne t ht hd
      have hin := (mem_potentialTargets g player u (Target.mk t.id other.id t.x t.y t.hp)).mpr
        ⟨other, ho, hne, t, ht, (inAttackRange_iff_adjacent _ _).mpr hd, rfl⟩
      exact ⟨_, (mem_attackUnit_menu g player _).mpr
        ⟨u, hu, hfresh, rfl, List.ne_nil_of_mem hin⟩, rfl, hin⟩
  · intro g current params hne
    rcases Game.aiAttackUnit_cases g current params with h | h
    · exact absurd h hne
    · obtain ⟨u, hu, t, _, x, y, hx, hy, _, ht, _, _, hr, _⟩ := h
      exact ⟨u, hu, t, x, y, hx, hy, ht, (inAttackRange_iff_adjacent _ _).mp hr⟩

/-! ## C15: the conquest menu -/

/-- C15 as stated fails: in `Scenario.truce 5 5 5` player 0 holds an active peace treaty
with player 1, and the `conquerCity` menu of player 0 lists its soldier, which stands on
the city of player 1. -/
theorem conquerCity_menu_ignores_peace_treaty :
    (Scenario.truce 5 5 5).currentPlayer.map
        (fun a => (a.id, a.diplomacy.hasPeaceTreaty 1,
          (Agent.evaluateAvailableActions (Scenario.truce 5 5 5) a).conquerCity)) =
      some (0, true, [ConquerEntry.mk 1 5 5 2 1]) := by
  decide

/-- C15, amended: a unit id appears in the `conquerCity` entry of the menu exactly when a
unit of the player's roster has that id, has none of `hasMoved`, `hasAttacked`,
`hasPerformedAction` set, and stands on a city whose owner is a different player.
Peace treaties play no part. -/
theorem conquerCity_menu_iff (g : Game) (player : Player) (uid : Nat) :
    (∃ e ∈ (Agent.evaluateAvailableActions g player).conquerCity, e.unitId = uid) ↔
      ∃ u ∈ player.units, u.id = uid ∧
        u.hasMoved = false ∧ u.hasAttacked = false ∧ u.hasPerformedAction = false ∧
        ∃ c, g.getCityAt u.x u.y = some c ∧ c.player ≠ player.id := by
  unfold Agent.evaluateAvailableActions
  dsimp only
  constructor
  · rintro ⟨e, he, rfl⟩
    rw [List.mem_filterMap] at he
    obtain ⟨u, hu, h⟩ := he
    refine ⟨u, hu, ?_⟩
    cases hc : u.canConquerCity
    · rw [hc] at h; simp at h
    · rw [hc, if_pos rfl] at h
      cases hcity : g.getCityAt u.x u.y with
      | none => rw [hcity] at h; cases h
      | some c =>
        rw [hcity] at h
        dsimp only at h
        split_ifs at h with hp
        injection h with h
        subst h
        unfold Unit.canConquerCity at hc
        simp only [Bool.and_eq_true, Bool.not_eq_true'] at hc
        exact ⟨rfl, hc.1.1, hc.1.2, hc.2, c, rfl, hp⟩
  · rintro ⟨u, hu, rfl, h1, h2, h3, c, hc, hp⟩
    refine ⟨ConquerEntry.mk u.id u.x u.y c.id c.player, ?_, rfl⟩
    rw [List.mem_filterMap]
    refine ⟨u, hu, ?_⟩
    have hcan : u.canConquerCity = true := by
      unfold Unit.canConquerCity
      rw [h1, h2, h3]; rfl
    rw [hcan, if_pos rfl, hc]
    dsimp only
    rw [if_pos hp]

/-! ## C16: attacks between treaty partners -/

/-- C16, evaluated on `Scenario.truce 3 3 5`: player 0, whose turn it is, holds an active
peace treaty with player 1; the `attackUnit` menu lists the soldier of player 1 at (4,4)
as a target of the soldier of player 0 at (3,3), and executing `attackUnit` with
`{ unitId: 1, x: 4, y: 4 }` lowers the target's hit points from 5 to 3 and marks the
attacker as having attacked. -/
theorem attackUnit_ignores_peace_treaty :
    (Scenario.truce 3 3 5).currentPlayer.map
        (fun a => (a.id, a.diplomacy.hasPeaceTreaty 1,
          (Agent.evaluateAvailableActions (Scenario.truce 3 3 5) a).attackUnit)) =
      some (0, true, [AttackEntry.mk 1 "soldier" 3 3 [Target.mk 2 1 4 4 5]]) ∧
    (Scenario.truce 3 3 5).units =
      [Scenario.soldier 1 3 3 0, Scenario.soldier 2 4 4 1] ∧
    ((Scenario.truce 3 3 5).executeAIAction (Action.mk "attackUnit" Scenario.strike)).state.units =
      [{ Scenario.soldier 1 3 3 0 with hasAttacked := true },
       { Scenario.soldier 2 4 4 1 with hp := 3 }] := by
  refine ⟨by decide, by decide, by decide⟩

/-! ## C17: the radius of a city and its level -/

/-- C17 as stated fails: from `Scenario.wealthySiege`, where every city has level 1 and
radius 1, three upgrades of the city of player 2 and its conquest by the soldier of
player 1 lead to a state in which that city has level 3 and radius 2, where the table
gives radius 1. -/
theorem range_kept_by_conquest :
    (∀ c ∈ Scenario.wealthySiege.allCities, c.level = 1 ∧ c.range = 1) ∧
    ((Scenario.wealthySiege.cityRun Scenario.riseAndFall).allCities.map
      (fun c => (c.id, c.level, c.range, radiusOfLevel c.level))) =
      [(1, 1, 1, 1), (2, 1, 1, 1), (3, 3, 2, 1)] := by
  decide

/-- C17, amended.  From a state whose cities all have level 1 and radius 1, as the
constructor leaves them: in every state reached through foundings and upgrades every
city has a level of at least 1 and the radius the table gives for its level (1 for
levels 1 to 3, 2 for 4 to 6, 3 for 7 to 9, 4 from 10 on); a conquest lowers the level
and keeps the radius, so in every state reached through foundings, upgrades and
conquests every city has a level of at least 1 and a radius that is at least the one
the table gives for its level. -/
theorem range_follows_level (g : Game) (ops : List CityOp)
    (hinit : ∀ c ∈ g.allCities, c.level = 1 ∧ c.range = 1) :
    (∀ c ∈ (g.cityRun ops).allCities, 1 ≤ c.level ∧ radiusOfLevel c.level ≤ c.range) ∧
    ((∀ op ∈ ops, op.isConquest = false) →
      ∀ c ∈ (g.cityRun ops).allCities, 1 ≤ c.level ∧ c.range = radiusOfLevel c.level) := by
  have hnewEq : ∀ id x y pl, 1 ≤ (City.new id x y pl).level ∧
      (City.new id x y pl).range = radiusOfLevel (City.new id x y pl).level := by
    intro id x y pl
    rw [City.new_level, City.new_range]
    exact ⟨le_refl _, by decide⟩
  have hupEq : ∀ c : City, (1 ≤ c.level ∧ c.range = radiusOfLevel c.level) →
      (1 ≤ (City.calculateTerritory (City.updateRange
          { c with level := c.level + 1, population := c.population + 10 })).level ∧
        (City.calculateTerritory (City.updateRange
          { c with level := c.level + 1, population := c.population + 10 })).range =
        radiusOfLevel (City.calculateTerritory (City.updateRange
          { c with level := c.level + 1, population := c.population + 10 })).level) := by
    intro c hc
    rw [City.upgraded_level, City.upgraded_range]
    obtain ⟨h1, h2⟩ := hc
    unfold radiusOfLevel at h2 ⊢
    refine ⟨by omega, ?_⟩
    split_ifs at h2 ⊢ <;> omega
  have hupLe : ∀ c : City, (1 ≤ c.level ∧ radiusOfLevel c.level ≤ c.range) →
      (1 ≤ (City.calculateTerritory (City.updateRange
          { c with level := c.level + 1, population := c.population + 10 })).level ∧
        radiusOfLevel (City.calculateTerritory (City.updateRange
          { c with level := c.level + 1, population := c.population + 10 })).level ≤
        (City.calculateTerritory (City.updateRange
          { c with level := c.level + 1, population := c.population + 10 })).range) := by
    intro c hc
    rw [City.upgraded_level, City.upgraded_range]
    obtain ⟨h1, h2⟩ := hc
    unfold radiusOfLevel at h2 ⊢
    refine ⟨by omega, ?_⟩
    split_ifs at h2 ⊢ <;> omega
  have hconqLe : ∀ (u : Unit) (c : City), (1 ≤ c.level ∧ radiusOfLevel c.level ≤ c.range) →
      (1 ≤ (conqueredCity u c).level ∧
        radiusOfLevel (conqueredCity u c).level ≤ (conqueredCity u c).range) := by
    intro u c hc
    rw [conqueredCity_level, conqueredCity_range]
    obtain ⟨h1, h2⟩ := hc
    unfold radiusOfLevel at h2 ⊢
    split_ifs at h2 ⊢ <;> constructor <;> omega
  have hstepLe : ∀ (g : Game) (op : CityOp),
      (∀ p ∈ g.players, ∀ c ∈ p.cities, 1 ≤ c.level ∧ radiusOfLevel c.level ≤ c.range) →
      ∀ p ∈ (g.cityStep op).players, ∀ c ∈ p.cities,
        1 ≤ c.level ∧ radiusOfLevel c.level ≤ c.range := by
    intro g op h
    cases op with
    | found unitId =>
      unfold Game.cityStep
      dsimp only
      cases g.units.find? (fun u => u.id = unitId) with
      | none => exact h
      | some u =>
        exact foundCity_cities_all _ u g
          (fun id x y pl => ⟨(hnewEq id x y pl).1, le_of_eq (hnewEq id x y pl).2.symm⟩) h
    | upgrade cityId =>
      unfold Game.cityStep
      dsimp only
      cases g.allCities.find? (fun c => c.id = cityId) with
      | none => exact h
      | some city => exact upgrade_cities_all _ city g hupLe h
    | conquer unitId =>
      unfold Game.cityStep
      dsimp only
      cases g.units.find? (fun u => u.id = unitId) with
      | none => exact h
      | some u =>
        dsimp only
        cases hc : g.getCityAt u.x u.y with
        | none => exact h
        | some city =>
          dsimp only
          split_ifs
          · obtain ⟨p, hp, hcp⟩ := getCityAt_mem hc
            exact conquerCity_cities_all _ u city g (fun c hc => hc) (hconqLe u)
              (h p hp city hcp) h
          · exact h
  have hstepEq : ∀ (g : Game) (op : CityOp), op.isConquest = false →
      (∀ p ∈ g.players, ∀ c ∈ p.cities, 1 ≤ c.level ∧ c.range = radiusOfLevel c.level) →
      ∀ p ∈ (g.cityStep op).players, ∀ c ∈ p.cities,
        1 ≤ c.level ∧ c.range = radiusOfLevel c.level := by
    intro g op hop h
    cases op with
    | found unitId =>
      unfold Game.cityStep
      dsimp only
      cases g.units.find? (fun u => u.id = unitId) with
      | none => exact h
      | some u => exact foundCity_cities_all _ u g hnewEq h
    | upgrade cityId =>
      unfold Game.cityStep
      dsimp only
      cases g.allCities.find? (fun c => c.id = cityId) with
      | none => exact h
      | some city => exact upgrade_cities_all _ city g hupEq h
    | conquer unitId => cases hop
  have hrunLe : ∀ (ops : List CityOp) (g : Game),
      (∀ p ∈ g.players, ∀ c ∈ p.cities, 1 ≤ c.level ∧ radiusOfLevel c.level ≤ c.range) →
      ∀ p ∈ (g.cityRun ops).players, ∀ c ∈ p.cities,
        1 ≤ c.level ∧ radiusOfLevel c.level ≤ c.range := by
    intro ops
    induction ops with
    | nil => intro g h; exact h
    | cons op rest ih => intro g h; exact ih (g.cityStep op) (hstepLe g op h)
  have hrunEq : ∀ (ops : List CityOp) (g : Game), (∀ op ∈ ops, op.isConquest = false) →
      (∀ p ∈ g.players, ∀ c ∈ p.cities, 1 ≤ c.level ∧ c.range = radiusOfLevel c.level) →
      ∀ p ∈ (g.cityRun ops).players, ∀ c ∈ p.cities,
        1 ≤ c.level ∧ c.range = radiusOfLevel c.level := by
    intro ops
    induction ops with
    | nil => intro g _ h; exact h
    | cons op rest ih =>
      intro g hops h
      exact ih (g.cityStep op) (fun o ho => hops o (List.mem_cons_of_mem _ ho))
        (hstepEq g op (hops op (List.mem_cons_self _ _)) h)
  have h0 : ∀ p ∈ g.players, ∀ c ∈ p.cities, 1 ≤ c.level ∧ c.range = radiusOfLevel c.level := by
    intro p hp c hc
    obtain ⟨hl, hr⟩ := hinit c (mem_allCities.mpr ⟨p, hp, hc⟩)
    rw [hl, hr]
    exact ⟨le_refl _, by decide⟩
  constructor
  · intro c hc
    obtain ⟨p, hp, hcp⟩ := mem_allCities.mp hc
    exact hrunLe ops g (fun p hp c hc => ⟨(h0 p hp c hc).1, le_of_eq (h0 p hp c hc).2.symm⟩)
      p hp c hcp
  · intro hops c hc
    obtain ⟨p, hp, hcp⟩ := mem_allCities.mp hc
    exact hrunEq ops g hops h0 p hp c hcp

/-- C17, amended, at `Scenario.wealthySiege` and the three upgrades of `riseAndFall`: the
city of player 2 reaches level 4 with radius 2. -/
theorem range_follows_level_witness :
    (∀ c ∈ Scenario.wealthySiege.allCities, c.level = 1 ∧ c.range = 1) ∧
    ((∀ c ∈ (Scenario.wealthySiege.cityRun (Scenario.riseAndFall.take 3)).allCities,
        1 ≤ c.level ∧ radiusOfLevel c.level ≤ c.range) ∧
      ((∀ op ∈ Scenario.riseAndFall.take 3, op.isConquest = false) →
        ∀ c ∈ (Scenario.wealthySiege.cityRun (Scenario.riseAndFall.take 3)).allCities,
          1 ≤ c.level ∧ c.range = radiusOfLevel c.level)) ∧
    (Scenario.wealthySiege.cityRun (Scenario.riseAndFall.take 3)).allCities.map
      (fun c => (c.id, c.level, c.range)) = [(1, 1, 1), (2, 1, 1), (3, 4, 2)] :=
  ⟨by decide,
    range_follows_level Scenario.wealthySiege (Scenario.riseAndFall.take 3) (by decide),
    by decide⟩

/-! ## C18: upgrading a city -/

/-- C18.  In a well-formed state, for a city of level `L` on the list of the active
player it names as owner, who has `c` coins: `upgrade` succeeds exactly when
`c ≥ 50 * L`; on success the owner has `c - 50 * L` coins and the city, still on the
owner's list, has level `L + 1` (as has every city object with its id); on failure the
whole state, so coins, level, range and territory, is unchanged. -/
theorem upgrade_iff_affordable (g : Game) (owner : Player) (city : City)
    (hwf : g.WellFormed)
    (howner : g.findPlayer city.player = some owner) (hcity : city ∈ owner.cities) :
    ((city.upgrade g).1 = true ↔ owner.coins ≥ 50 * city.level) ∧
    (owner.coins ≥ 50 * city.level →
      ∃ owner1, (city.upgrade g).2.findPlayer city.player = some owner1 ∧
        owner1.coins = owner.coins - 50 * city.level ∧
        (∃ city1 ∈ owner1.cities, city1.id = city.id ∧ city1.level = city.level + 1) ∧
        ∀ c ∈ (city.upgrade g).2.allCities, c.id = city.id → c.level = city.level + 1) ∧
    (owner.coins < 50 * city.level → (city.upgrade g).2 = g) := by
  have hfail : owner.coins < 50 * city.level → city.upgrade g = (false, g) :=
    City.upgrade_failure city g owner howner
  refine ⟨?_, ?_, fun h => by rw [hfail h]⟩
  · constructor
    · intro h
      by_contra hlt
      rw [hfail (not_le.mp hlt)] at h
      cases h
    · intro h
      exact (City.upgrade_success city g owner howner h).1
  · intro h
    obtain ⟨_, hpl⟩ := City.upgrade_success city g owner howner h
    have hfind : (city.upgrade g).2.findPlayer city.player =
        some (upgradePlayer city owner) := by
      unfold Game.findPlayer at howner ⊢
      rw [hpl, List.find?_map]
      have : ((fun p : Player => decide (p.id = city.player)) ∘ upgradePlayer city) =
          (fun p : Player => decide (p.id = city.player)) := by
        funext p
        simp [upgradePlayer_id]
      rw [this, howner]
      rfl
    have hoid : owner.id = city.player := findPlayer_id howner
    have hcan : owner.canAfford city.getUpgradeCost = true := by
      unfold Player.canAfford City.getUpgradeCost
      rw [decide_eq_true_iff]
      omega
    refine ⟨upgradePlayer city owner, hfind, ?_, ?_, ?_⟩
    · unfold upgradePlayer Player.spend
      rw [if_pos hoid, if_pos hcan]
      unfold City.getUpgradeCost
      dsimp only
      omega
    · refine ⟨City.calculateTerritory (City.updateRange
        { city with level := city.level + 1, population := city.population + 10 }), ?_,
        City.upgraded_id city, City.upgraded_level city⟩
      unfold upgradePlayer
      dsimp only
      exact List.mem_map.mpr ⟨city, hcity, by rw [if_pos rfl]⟩
    · intro c hc hcid
      obtain ⟨p, hp, hcp⟩ := mem_allCities.mp hc
      rw [hpl] at hp
      obtain ⟨p0, hp0, rfl⟩ := List.mem_map.mp hp
      unfold upgradePlayer at hcp
      dsimp only at hcp
      obtain ⟨c0, hc0, rfl⟩ := List.mem_map.mp hcp
      have hc0id : c0.id = city.id := by
        split_ifs at hcid with h0
        · exact h0
        · exact hcid
      have hc0all : c0 ∈ g.allCities := mem_allCities.mpr ⟨p0, hp0, hc0⟩
      have hcall : city ∈ g.allCities := mem_allCities.mpr ⟨owner, findPlayer_mem howner, hcity⟩
      have heq : c0 = city := List.inj_on_of_nodup_map hwf.cityIds hc0all hcall hc0id
      rw [if_pos hc0id, heq]
      exact City.upgraded_level city

/-- C18 at `Scenario.wealthySiege`: player 2 has 300 coins and a city of level 1; the
upgrade succeeds and leaves 250 coins and a city of level 2.  Player 0, with 10 coins,
cannot upgrade its city of level 1. -/
theorem upgrade_iff_affordable_witness :
    Scenario.wealthySiege.WellFormed ∧
    (((City.new 3 9 9 2).upgrade Scenario.wealthySiege).1 = true ↔
      ({ Scenario.player 2 [0, 1, 2] [City.new 3 9 9 2] [Scenario.soldier 2 9 8 2] with
          coins := 300 } : Player).coins ≥ 50 * (City.new 3 9 9 2).level) ∧
    (((City.new 3 9 9 2).upgrade Scenario.wealthySiege).2.players.map
      (fun p => (p.id, p.coins, p.cities.map (fun c => (c.id, c.level))))) =
      [(0, 10, [(1, 1)]), (1, 10, [(2, 1)]), (2, 250, [(3, 2)])] ∧
    ((City.new 1 0 0 0).upgrade Scenario.wealthySiege) = (false, Scenario.wealthySiege) :=
  ⟨Scenario.wealthySiege_wellFormed,
    (upgrade_iff_affordable Scenario.wealthySiege
      { Scenario.player 2 [0, 1, 2] [City.new 3 9 9 2] [Scenario.soldier 2 9 8 2] with
        coins := 300 }
      (City.new 3 9 9 2) Scenario.wealthySiege_wellFormed (by decide) (by decide)).1,
    by decide, by decide⟩

/-! ## C19: the statistics of a new unit -/

/-- C19, evaluated on the type string `"constructor"`, which is none of the five catalogue
names: `stats["constructor"]` is the function every object literal inherits, so the
default to soldier is skipped; the unit built is no soldier and has no statistics, and
`Unit.getCost` returns no number.  For another unknown type, `"wizard"`, the unit is a
soldier and the cost is 3. -/
theorem inherited_type_is_no_soldier :
    Unit.stats (toLowerCase "constructor") = none ∧
    Unit.new 1 0 0 0 "constructor" = none ∧
    Unit.getCost "constructor" = none ∧
    Unit.new 1 0 0 0 "wizard" = some (Scenario.soldier 1 0 0 0) ∧
    Unit.getCost "wizard" = some 3 := by
  refine ⟨by decide, by decide, by decide, by decide, by decide⟩

/-! ## C20: breaking a peace treaty -/

/-- C20 as stated fails.  The ledger of player 0 after `Scenario.atOdds` holds a treaty
with player 1 and favor -100 toward player 2; after the treaty with player 1 is broken
the favor toward player 2 is still -100, not 15 lower.  The ledger after
`Scenario.twice` holds two treaties with player 1, and after one is broken it still
holds a treaty with player 1. -/
theorem breakPeaceTreaty_favor_is_clamped :
    (Scenario.ledger.run Scenario.atOdds).hasPeaceTreaty 1 = true ∧
    (Scenario.ledger.run Scenario.atOdds).getFavor 2 = -100 ∧
    ((Scenario.ledger.run Scenario.atOdds).breakPeaceTreaty 1).2.getFavor 2 = -100 ∧
    (Scenario.ledger.run Scenario.twice).hasPeaceTreaty 1 = true ∧
    ((Scenario.ledger.run Scenario.twice).breakPeaceTreaty 1).2.hasPeaceTreaty 1 = true := by
  decide

/-- C20, amended.  For a ledger of A (a `Map` holds each key once) holding exactly one
treaty with B, and every third party C other than B that has an entry in A's favor map:
after A breaks the treaty with B, A's favor toward C is the old favor less 15, clamped
to the interval from -100 to 100, hence exactly 15 lower when the old favor is between
-85 and 100; A's favor toward B is exactly -100; and A's ledger holds no treaty with
B. -/
theorem breakPeaceTreaty_favor (d : Diplomacy) (b c : Nat)
    (hkeys : (d.favorMap.map Prod.fst).Nodup)
    (hone : (d.peaceTreaties.filter (fun treaty => decide (treaty.playerId = b))).length = 1)
    (hcb : c ≠ b) (hc : c ∈ d.favorMap.map Prod.fst) :
    (d.breakPeaceTreaty b).1 = true ∧
    (d.breakPeaceTreaty b).2.getFavor c = max (-100) (min 100 (d.getFavor c - 15)) ∧
    (-85 ≤ d.getFavor c → d.getFavor c ≤ 100 →
      (d.breakPeaceTreaty b).2.getFavor c = d.getFavor c - 15) ∧
    (d.breakPeaceTreaty b).2.getFavor b = -100 ∧
    (d.breakPeaceTreaty b).2.hasPeaceTreaty b = false := by
  have hany : d.peaceTreaties.any (fun treaty => decide (treaty.playerId = b)) = true := by
    rw [List.any_eq_true]
    have hpos : 0 < (d.peaceTreaties.filter
        (fun treaty => decide (treaty.playerId = b))).length := by omega
    obtain ⟨t, ht⟩ := List.exists_mem_of_length_pos hpos
    rw [List.mem_filter] at ht
    exact ⟨t, ht.1, ht.2⟩
  have hkeys2 : ((mapSet d.favorMap b (-100)).map Prod.fst).Nodup := by
    rw [keys_mapSet]
    split_ifs with hb
    · exact hkeys
    · rw [List.nodup_append]
      refine ⟨hkeys, List.nodup_singleton b, ?_⟩
      intro x hx hxb
      rw [List.mem_singleton] at hxb
      exact hb (hxb ▸ hx)
  have hc2 : c ∈ (mapSet d.favorMap b (-100)).map Prod.fst := by
    rw [keys_mapSet]
    split_ifs
    · exact hc
    · exact List.mem_append_left _ hc
  have hfav : (d.breakPeaceTreaty b).2.getFavor c =
      max (-100) (min 100 (d.getFavor c - 15)) := by
    unfold Diplomacy.breakPeaceTreaty
    rw [if_pos hany]
    dsimp only
    have hmap : (List.map (fun e => e.1) (mapSet d.favorMap b (-100))) =
        (mapSet d.favorMap b (-100)).map Prod.fst := rfl
    rw [hmap, breakLoop_getFavor b c hcb _ hkeys2, if_pos hc2]
    unfold Diplomacy.getFavor
    dsimp only
    rw [mapGet_mapSet_ne _ _ _ _ hcb]
    rfl
  refine ⟨?_, hfav, ?_, ?_, ?_⟩
  · unfold Diplomacy.breakPeaceTreaty
    rw [if_pos hany]
  · intro h1 h2
    rw [hfav]
    omega
  · unfold Diplomacy.breakPeaceTreaty
    rw [if_pos hany]
    dsimp only
    rw [breakLoop_getFavor_self]
    unfold Diplomacy.getFavor
    dsimp only
    rw [mapGet_mapSet_self]
    rfl
  · unfold Diplomacy.breakPeaceTreaty
    rw [if_pos hany]
    dsimp only
    unfold Diplomacy.hasPeaceTreaty
    rw [breakLoop_peaceTreaties]
    exact any_eraseP_of_one _ _ hone

/-- C20, amended, at the ledger of player 0 after `Scenario.calm`: breaking the treaty
with player 1 lowers the favor toward player 2 from 0 to -15. -/
theorem breakPeaceTreaty_favor_witness :
    (Scenario.ledger.run Scenario.calm).getFavor 2 = 0 ∧
    ((Scenario.ledger.run Scenario.calm).breakPeaceTreaty 1).2.getFavor 2 = -15 ∧
    ((Scenario.ledger.run Scenario.calm).breakPeaceTreaty 1).2.getFavor 1 = -100 ∧
    ((Scenario.ledger.run Scenario.calm).breakPeaceTreaty 1).2.hasPeaceTreaty 1 = false :=
  ⟨by decide,
    ((breakPeaceTreaty_favor (Scenario.ledger.run Scenario.calm) 1 2 (by decide) (by decide)
      (by decide) (by decide)).2.2.1 (by decide) (by decide)).trans (by decide),
    (breakPeaceTreaty_favor (Scenario.ledger.run Scenario.calm) 1 2 (by decide) (by decide)
      (by decide) (by decide)).2.2.2.1,
    (breakPeaceTreaty_favor (Scenario.ledger.run Scenario.calm) 1 2 (by decide) (by decide)
      (by decide) (by decide)).2.2.2.2⟩

/-! ## C21: declaring war -/

/-- C21, evaluated on `Scenario.doubleTreaty`: players 0 and 1 are not at war and the
ledger of player 1 holds two treaty entries for player 0.  After `declareWar(0, 1)` each
ledger holds one war entry for the other player with `turnsRemaining = 10` and favor
-100 toward it, but the ledger of player 1 still holds a peace treaty with player 0. -/
theorem declareWar_leaves_second_treaty :
    (Scenario.doubleTreaty.players.map
      (fun p => (p.id, p.diplomacy.isAtWar 0, p.diplomacy.isAtWar 1,
        (p.diplomacy.treatiesWith 0).length))) = [(0, false, false, 0), (1, false, false, 2)] ∧
    (Scenario.doubleTreaty.declareWar 0 1).1 = true ∧
    ((Scenario.doubleTreaty.declareWar 0 1).2.ledgerOf 1).map
      (fun d => (d.warsWith 0, d.getFavor 0, d.hasPeaceTreaty 0)) =
      some ([War.mk 0 10], -100, true) ∧
    ((Scenario.doubleTreaty.declareWar 0 1).2.ledgerOf 0).map
      (fun d => (d.warsWith 1, d.getFavor 1, d.hasPeaceTreaty 1)) =
      some ([War.mk 1 10], -100, false) := by
  refine ⟨by decide, by decide, by decide, by decide⟩

/-! ## C22: how long a war lasts -/

/-- C22.  When a ledger declares war on `target` (the call returns `true`) and
`processTurn` is then called `n` times on it: the war with `target` has
`turnsRemaining = max 0 (10 - n)`, and `proposePeace(target)` returns `true` exactly
when `n ≥ 10`.  On every ledger, a `proposePeace` that returns `false` leaves the
ledger unchanged, and it returns `false` when there is no war with the target. -/
theorem war_countdown (d : Diplomacy) (target n : Nat)
    (h : (d.declareWar target).1 = true) :
    (∃ war, ((d.declareWar target).2.elapse n).getWarWith target = some war ∧
      war.playerId = target ∧ war.turnsRemaining = max 0 (10 - (n : Int))) ∧
    ((((d.declareWar target).2.elapse n).proposePeace target).1 = true ↔ 10 ≤ n) ∧
    (∀ (d2 : Diplomacy) (t : Nat), (d2.proposePeace t).1 = false →
      (d2.proposePeace t).2 = d2) ∧
    (∀ (d2 : Diplomacy) (t : Nat), d2.isAtWar t = false → d2.proposePeace t = (false, d2)) := by
  obtain ⟨ws, hws, hwars⟩ := Diplomacy.declareWar_wars d target h
  have hget : ((d.declareWar target).2.elapse n).getWarWith target =
      some (War.mk target (max 0 (10 - (n : Int)))) := by
    have hnone : ∀ F : War → War, (∀ w, (F w).playerId = w.playerId) →
        List.find? (fun war => decide (war.playerId = target)) (ws.map F) = none := by
      intro F hF
      rw [List.find?_eq_none]
      intro w hw
      obtain ⟨w0, hw0, rfl⟩ := List.mem_map.mp hw
      rw [hF]
      simpa using hws w0 hw0
    unfold Diplomacy.getWarWith
    rw [Diplomacy.elapse_wars, hwars, List.map_append, List.find?_append]
    rw [hnone (fun war => War.mk war.playerId
      (if war.turnsRemaining ≤ 0 then war.turnsRemaining else max 0 (war.turnsRemaining - n)))
      (fun _ => rfl)]
    simp
  have hatwar : ((d.declareWar target).2.elapse n).isAtWar target = true := by
    unfold Diplomacy.isAtWar
    rw [List.any_eq_true]
    have := List.find?_some hget
    exact ⟨_, List.mem_of_find?_eq_some hget, this⟩
  refine ⟨⟨_, hget, rfl, rfl⟩, ?_, ?_, ?_⟩
  · unfold Diplomacy.proposePeace
    rw [if_pos hatwar, hget]
    dsimp only
    split_ifs with hle
    · simp only [true_iff]
      omega
    · simp only [Bool.false_eq_true, false_iff]
      omega
  · intro d2 t hfalse
    unfold Diplomacy.proposePeace at hfalse ⊢
    split_ifs at hfalse ⊢ with h1
    · cases hg : d2.getWarWith t with
      | none => rfl
      | some war =>
        rw [hg] at hfalse
        dsimp only at hfalse ⊢
        split_ifs at hfalse ⊢
        rfl
    · rfl
  · intro d2 t hno
    unfold Diplomacy.proposePeace
    rw [hno]
    rfl

/-- C22 at the ledger `Scenario.ledger` with target 2: after 3 turns 7 remain and peace
cannot be proposed; after 10 turns none remain and it can. -/
theorem war_countdown_witness :
    (Scenario.ledger.declareWar 2).1 = true ∧
    ((∃ war, ((Scenario.ledger.declareWar 2).2.elapse 3).getWarWith 2 = some war ∧
      war.playerId = 2 ∧ war.turnsRemaining = max 0 (10 - ((3 : Nat) : Int))) ∧
    ((((Scenario.ledger.declareWar 2).2.elapse 3).proposePeace 2).1 = true ↔ 10 ≤ 3) ∧
    (∀ (d2 : Diplomacy) (t : Nat), (d2.proposePeace t).1 = false →
      (d2.proposePeace t).2 = d2) ∧
    (∀ (d2 : Diplomacy) (t : Nat), d2.isAtWar t = false → d2.proposePeace t = (false, d2))) ∧
    (((Scenario.ledger.declareWar 2).2.elapse 3).getWarWith 2 = some (War.mk 2 7)) ∧
    (((Scenario.ledger.declareWar 2).2.elapse 10).proposePeace 2).1 = true ∧
    (((Scenario.ledger.declareWar 2).2.elapse 12).getWarWith 2 = some (War.mk 2 0)) :=
  ⟨by decide, war_countdown Scenario.ledger 2 3 (by decide), by decide, by decide, by decide⟩

/-! ## C23: who receives a peace proposal -/

/-- C23, evaluated on `Scenario.longWar` (players 0 and 1 at war, no turn of war
remaining, no pending proposal): `Game.proposePeace(0, 1)` succeeds and records the
proposal in the pending list of player 0, the proposer, as if received from player 1;
the pending list of player 1 stays empty. -/
theorem proposePeace_recorded_for_proposer :
    Scenario.longWar.players.map (fun p => (p.id, p.diplomacy.pendingTreaties)) =
      [(0, []), (1, [])] ∧
    (Scenario.longWar.proposePeace 0 1).1 = true ∧
    (Scenario.longWar.proposePeace 0 1).2.players.map
      (fun p => (p.id, p.diplomacy.pendingTreaties)) = [(0, [1]), (1, [])] := by
  refine ⟨by decide, by decide, by decide⟩

/-! ## C24: favor stays within bounds -/

/-- C24.  If every favor value of a ledger lies in [-100, 100], then so does every favor
value after `changeFavor` with any integer amount, after `acceptPeaceTreaty`,
`rejectPeaceTreaty`, `breakPeaceTreaty` and `declareWar` (and after each of the other
ledger operations) for any counterpart; the border scan `processDiplomaticEvents` keeps
the bounds in every ledger of a game; and `changeFavor(p, amount)` sets the favor toward
`p` to `max(-100, min(100, old + amount))` and returns that value. -/
theorem favor_stays_bounded (d : Diplomacy) (h : d.favorBounded) :
    (∀ (p : Nat) (amount : Int), (d.changeFavor p amount).2.favorBounded) ∧
    (∀ p : Nat, (d.acceptPeaceTreaty p).2.favorBounded ∧ (d.rejectPeaceTreaty p).2.favorBounded ∧
      (d.breakPeaceTreaty p).2.favorBounded ∧ (d.declareWar p).2.favorBounded) ∧
    (∀ op : LedgerOp, (d.step op).favorBounded) ∧
    (∀ g : Game, (∀ p ∈ g.players, p.diplomacy.favorBounded) →
      ∀ p ∈ g.processDiplomaticEvents.players, p.diplomacy.favorBounded) ∧
    (∀ (d2 : Diplomacy) (p : Nat) (amount : Int),
      (d2.changeFavor p amount).1 = max (-100) (min 100 (d2.getFavor p + amount)) ∧
      (d2.changeFavor p amount).2.getFavor p = max (-100) (min 100 (d2.getFavor p + amount))) := by
  refine ⟨fun p amount => Diplomacy.changeFavor_bounded d p amount h,
    fun p => ⟨Diplomacy.acceptPeaceTreaty_bounded d p h, Diplomacy.rejectPeaceTreaty_bounded d p h,
      Diplomacy.breakPeaceTreaty_bounded d p h, Diplomacy.declareWar_bounded d p h⟩,
    ?_, processDiplomaticEvents_bounded, ?_⟩
  · intro op
    cases op with
    | proposePeaceTreaty p =>
      unfold Diplomacy.step Diplomacy.proposePeaceTreaty
      dsimp only
      split_ifs <;> exact h
    | acceptPeaceTreaty p => exact Diplomacy.acceptPeaceTreaty_bounded d p h
    | rejectPeaceTreaty p => exact Diplomacy.rejectPeaceTreaty_bounded d p h
    | breakPeaceTreaty p => exact Diplomacy.breakPeaceTreaty_bounded d p h
    | declareWar p => exact Diplomacy.declareWar_bounded d p h
    | proposePeace p =>
      unfold Diplomacy.step Diplomacy.proposePeace
      dsimp only
      split_ifs
      · cases d.getWarWith p with
        | none => exact h
        | some war =>
          dsimp only
          unfold Diplomacy.proposePeaceTreaty
          split_ifs <;> exact h
      · exact h
    | processTurn => exact h
  · intro d2 p amount
    have hget : (d2.changeFavor p amount).2.getFavor p =
        max (-100) (min 100 (d2.getFavor p + amount)) := by
      rw [Diplomacy.getFavor_changeFavor, if_pos rfl]
    exact ⟨hget, hget⟩

/-- C24 at `Scenario.ledger`: a change of favor by -250 toward player 1 leaves -100, and
the border scan keeps the bounds in `Scenario.siege`. -/
theorem favor_stays_bounded_witness :
    Scenario.ledger.favorBounded ∧
    (Scenario.ledger.changeFavor 1 (-250)).2.favorBounded ∧
    (Scenario.ledger.changeFavor 1 (-250)).1 = -100 ∧
    (∀ p ∈ Scenario.siege.processDiplomaticEvents.players, p.diplomacy.favorBounded) :=
  ⟨by decide, (favor_stays_bounded Scenario.ledger (by decide)).1 1 (-250), by decide,
    (favor_stays_bounded Scenario.ledger (by decide)).2.2.2.1 Scenario.siege (by decide)⟩

/-! ## C25: income -/

/-- C25.  For every player whose treaty entries carry the bonus 2, as every entry a
ledger creates does: `collectIncome` returns the sum of the levels of the player's
cities plus 2 for each of the player's peace-treaty entries, adds that amount to the
player's coins and changes nothing else.  In every ledger reached from a new one
through ledger operations every treaty entry carries the bonus 2. -/
theorem collectIncome_amount (p : Player)
    (h : ∀ treaty ∈ p.diplomacy.peaceTreaties, treaty.bonusCoins = 2) :
    p.collectIncome.1 =
      (p.cities.map (fun city => city.level)).sum + 2 * (p.diplomacy.peaceTreaties.length : Int) ∧
    p.collectIncome.2 =
      { p with coins := p.coins +
        ((p.cities.map (fun city => city.level)).sum +
          2 * (p.diplomacy.peaceTreaties.length : Int)) } ∧
    (∀ (pid : Nat) (ops : List LedgerOp),
      ∀ treaty ∈ ((Diplomacy.new pid).run ops).peaceTreaties, treaty.bonusCoins = 2) := by
  have hsum : ∀ (l : List Treaty), (∀ t ∈ l, t.bonusCoins = 2) →
      (l.map (fun treaty => treaty.bonusCoins)).sum = 2 * (l.length : Int) := by
    intro l
    induction l with
    | nil => intro _; rfl
    | cons t r ih =>
      intro hl
      simp only [List.map_cons, List.sum_cons, List.length_cons]
      rw [ih (fun x hx => hl x (List.mem_cons_of_mem _ hx)), hl t (List.mem_cons_self _ _)]
      push_cast
      omega
  have hinc : p.collectIncome.1 =
      (p.cities.map (fun city => city.level)).sum +
        2 * (p.diplomacy.peaceTreaties.length : Int) := by
    unfold Player.collectIncome
    dsimp only
    rw [foldl_add_eq_sum (fun treaty : Treaty => treaty.bonusCoins),
      foldl_add_eq_sum (fun city : City => city.level), hsum _ h]
    omega
  refine ⟨hinc, ?_, ?_⟩
  · rw [← hinc]
    rfl
  · intro pid ops
    exact Diplomacy.run_bonus ops (Diplomacy.new pid) (fun t ht => by cases ht)

/-- C25 at player 1 of `Scenario.truce 3 3 5`, who has one city of level 1 and one
treaty: the income is 3 and the coins go from 10 to 13. -/
theorem collectIncome_amount_witness :
    (Scenario.truce 3 3 5).findPlayer 1 = some (Scenario.truceHolder) ∧
    Scenario.truceHolder.collectIncome.1 =
      (Scenario.truceHolder.cities.map (fun city => city.level)).sum +
        2 * (Scenario.truceHolder.diplomacy.peaceTreaties.length : Int) ∧
    Scenario.truceHolder.collectIncome.1 = 3 ∧
    Scenario.truceHolder.coins = 10 ∧ Scenario.truceHolder.collectIncome.2.coins = 13 :=
  ⟨by decide, (collectIncome_amount Scenario.truceHolder (by decide)).1, by decide, by decide,
    by decide⟩

/-! ## C26: the menu is read off the board -/

/-- C26.  `evaluateAvailableActions` assigns no field of the game, of a player, of a city or
of a unit (agent.js 145-278 only reads and pushes onto the fresh menu object), so its model
returns the menu alone and the state after the call is the state before it.  What the menu is
read from is the global unit list, the purchase gate, the ids, cities and rosters of the
players, and the id, coins, cities and roster of the player it is for: two computations that
agree on these give the same menu.  In particular a second computation gives the menu of the
first whenever nothing in between changes these fields; turn counters, the agent's chat
history, failure records and queue, and the diplomacy ledgers do not enter. -/
theorem menu_is_read_off_the_board (g1 g2 : Game) (p1 p2 : Player)
    (hunits : g1.units = g2.units)
    (hgate : g1.hasPurchasedUnitThisTurn = g2.hasPurchasedUnitThisTurn)
    (hplayers : g1.players.map (fun p => (p.id, p.cities, p.units)) =
      g2.players.map (fun p => (p.id, p.cities, p.units)))
    (hid : p1.id = p2.id) (hcoins : p1.coins = p2.coins) (hcities : p1.cities = p2.cities)
    (hroster : p1.units = p2.units) :
    Agent.evaluateAvailableActions g1 p1 = Agent.evaluateAvailableActions g2 p2 := by
  have hget : ∀ x y, g1.getUnitAt x y = g2.getUnitAt x y := by
    intro x y
    unfold Game.getUnitAt
    rw [hunits]
  have hcity : ∀ x y, g1.getCityAt x y = g2.getCityAt x y := by
    intro x y
    have key : ∀ g : Game, g.getCityAt x y =
        (g.players.map (fun p => (p.id, p.cities, p.units))).findSome?
          (fun c => c.2.1.find? (fun city => decide (city.x = x ∧ city.y = y))) := by
      intro g
      unfold Game.getCityAt
      rw [List.findSome?_map]
      rfl
    rw [key g1, key g2, hplayers]
  have hcan : ∀ c, p1.canAfford c = p2.canAfford c := by
    intro c
    unfold Player.canAfford
    rw [hcoins]
  have hcanU : ∀ t, p1.canAffordUnit t = p2.canAffordUnit t := by
    intro t
    unfold Player.canAffordUnit
    cases Unit.getCost t with
    | none => rfl
    | some c => exact hcan c
  have hflat : ∀ (F : Nat → List Unit → List Target),
      g1.players.flatMap (fun p => F p.id p.units) =
        g2.players.flatMap (fun p => F p.id p.units) := by
    intro F
    have key : ∀ g : Game, g.players.flatMap (fun p => F p.id p.units) =
        (g.players.map (fun p => (p.id, p.cities, p.units))).flatMap
          (fun c => F c.1 c.2.2) := by
      intro g
      rw [List.flatMap_map]
    rw [key g1, key g2, hplayers]
  unfold Agent.evaluateAvailableActions
  simp only [hcities, hroster, hid, hgate, hget, hcity, hcan, hcanU, Unit.playerGame_none]
  congr 1
  apply List.filterMap_congr
  intro unit _
  rw [hflat (fun pid units => if pid = p2.id then []
    else (units.filter (fun enemyUnit =>
      inAttackRange (enemyUnit.x - unit.x) (enemyUnit.y - unit.y))).map
        (fun enemyUnit => Target.mk enemyUnit.id pid enemyUnit.x enemyUnit.y enemyUnit.hp))]

/-- C26 at player 1 of `Scenario.standoff 3 3 5` and of `Scenario.truce 3 3 5`: the two
states differ (the second has a peace treaty in each ledger), the two player objects differ,
and the menus are the same; it offers a move and an attack of unit 2. -/
theorem menu_is_read_off_the_board_witness :
    (Scenario.standoff 3 3 5).findPlayer 1 =
      some (Scenario.player 1 [0, 1] [City.new 2 5 5 1] [Scenario.soldier 2 4 4 1]) ∧
    (Scenario.truce 3 3 5).findPlayer 1 = some Scenario.truceHolder ∧
    Scenario.standoff 3 3 5 ≠ Scenario.truce 3 3 5 ∧
    Scenario.player 1 [0, 1] [City.new 2 5 5 1] [Scenario.soldier 2 4 4 1] ≠
      Scenario.truceHolder ∧
    Agent.evaluateAvailableActions (Scenario.standoff 3 3 5)
        (Scenario.player 1 [0, 1] [City.new 2 5 5 1] [Scenario.soldier 2 4 4 1]) =
      Agent.evaluateAvailableActions (Scenario.truce 3 3 5) Scenario.truceHolder ∧
    (Agent.evaluateAvailableActions (Scenario.truce 3 3 5) Scenario.truceHolder).moveUnit.map
        (fun entry => entry.unitId) = [2] ∧
    (Agent.evaluateAvailableActions (Scenario.truce 3 3 5) Scenario.truceHolder).attackUnit.map
        (fun entry => (entry.unitId, entry.potentialTargets.map (fun target => target.unitId))) =
      [(2, [1])] :=
  ⟨by decide, by decide, by decide, by decide,
    menu_is_read_off_the_board _ _ _ _ (by decide) (by decide) (by decide) (by decide)
      (by decide) (by decide) (by decide),
    by decide, by decide⟩

/-! ## C27: a turn with nothing to do -/

/-- C27.  In a state whose agent has an empty queue of pending actions and in which the
menu of the current player lists no action of any kind (only `endTurn` is left):
`getAction` returns `endTurn` after adding a chat message, whatever the oracle would
reply and without a call of it; and in agent mode with more than one active player the
decision loop of `processAITurn` ends after exactly one iteration, no oracle call is
made, and the turn is advanced by `nextTurn()`. -/
theorem idle_turn_ends_without_oracle (g : Game) (agent : Agent) (current : Player)
    (oracle : Nat → OracleReply) (calls : Nat)
    (hagent : g.agent = some agent) (hqueue : agent.pendingActions = [])
    (hcur : g.currentPlayer = some current)
    (hmenu : Agent.evaluateAvailableActions g current = AvailableActions.mk [] [] [] [] [] []) :
    agent.getAction g (some current) oracle calls =
      Decision.mk Action.endTurn
        { g with agent := some (agent.addChatMessage current.id "Nothing else I can do this turn.") }
        calls ∧
    (g.agentMode = true → 1 < g.players.length → ∀ fuel : Nat,
      g.processAITurn oracle (fuel + 1) calls =
        some (LoopResult.mk
          (Game.nextTurn
            { g with agent := some (agent.addChatMessage current.id "Nothing else I can do this turn.") })
          calls 1)) := by
  have hget : agent.getAction g (some current) oracle calls =
      Decision.mk Action.endTurn
        { g with agent := some (agent.addChatMessage current.id "Nothing else I can do this turn.") }
        calls := by
    unfold Agent.getAction
    rw [hqueue]
    dsimp only
    rw [hmenu]
    rfl
  refine ⟨hget, ?_⟩
  intro hmode hlen fuel
  have hloop : Game.decisionLoop oracle (fuel + 1) g calls 0 =
      some (LoopResult.mk (Completion.ok
        { g with agent := some (agent.addChatMessage current.id "Nothing else I can do this turn.") })
        calls 1) := by
    unfold Game.decisionLoop
    rw [if_pos hlen, hagent]
    dsimp only
    rw [hcur, hget]
    rfl
  unfold Game.processAITurn
  have hguard : (!g.agentMode || decide (g.players.length ≤ 1)) = false := by
    rw [hmode]
    simp only [Bool.not_true, Bool.false_or, decide_eq_false_iff_not]
    omega
  rw [hguard, hloop]
  simp only [Bool.false_eq_true, if_false]
  rw [if_pos (show (1 : Nat) < g.players.length from hlen)]

/-- C27 at `Scenario.idle`, with an oracle that would fail: player 0 ends its turn at once
and it is the turn of player 1. -/
theorem idle_turn_ends_without_oracle_witness :
    Agent.evaluateAvailableActions Scenario.idle
      (Scenario.activePlayer 0 [0, 1] [City.new 1 0 0 0] []) =
      AvailableActions.mk [] [] [] [] [] [] ∧
    (Agent.mk [] [] none []).getAction Scenario.idle
        (some (Scenario.activePlayer 0 [0, 1] [City.new 1 0 0 0] []))
        (Scenario.always OracleReply.failure) 0 =
      Decision.mk Action.endTurn
        { Scenario.idle with agent := some ((Agent.mk [] [] none []).addChatMessage
            (Scenario.activePlayer 0 [0, 1] [City.new 1 0 0 0] []).id
            "Nothing else I can do this turn.") }
        0 ∧
    (Scenario.idle.processAITurn (Scenario.always OracleReply.failure) 1 0).map
      (fun r => (r.calls, r.iterations, r.completion.state.currentPlayerIndex)) =
      some (0, 1, 1) :=
  ⟨by decide,
    (idle_turn_ends_without_oracle Scenario.idle (Agent.mk [] [] none [])
      (Scenario.activePlayer 0 [0, 1] [City.new 1 0 0 0] [])
      (Scenario.always OracleReply.failure) 0 (by decide) (by decide) (by decide)
      (by decide)).1,
    by decide⟩

/-! ## C28: a plan of several actions -/

/-- C28.  Let the queue of pending actions be empty, the menu of the player (an active
player) list some action, and the oracle answer the next call with a reply that
`parseResponse` turns into a plan of `n ≥ 1` actions `a1, ..., an`: the actions of the
reply that are left when the acceptances and rejections of peace treaties have been
carried out and removed, the one action of a reply in the single-action format, or the
fallback plan.  Then the `getAction` call that obtains this reply returns `a1`, and `n`
successive calls of `getAction` return `a1, ..., an` in that order with one call of
the oracle in all; afterwards the queue is empty, the units are as before and the players
are as `parseResponse` left them. -/
theorem plan_is_consumed_in_order (g : Game) (agent : Agent) (current : Player)
    (oracle : Nat → OracleReply) (calls : Nat) (r : Response)
    (hagent : g.agent = some agent) (hqueue : agent.pendingActions = [])
    (hplayer : (g.findPlayer current.id).isSome = true)
    (hmenu : Agent.hasActions (Agent.evaluateAvailableActions g current) = true)
    (horacle : oracle calls = OracleReply.response r)
    (hlen : 0 < (Agent.parseResponse g r).1.actions.length) :
    (some (agent.getAction g (some current) oracle calls).action =
        (Agent.parseResponse g r).1.actions.head? ∧
      (agent.getAction g (some current) oracle calls).calls = calls + 1) ∧
    ∃ g1, Game.getActions oracle (some current) (Agent.parseResponse g r).1.actions.length g
        calls = some ((Agent.parseResponse g r).1.actions, g1, calls + 1) ∧
      g1.agent.map (fun a => a.pendingActions) = some [] ∧
      g1.players = (Agent.parseResponse g r).2.players ∧ g1.units = g.units := by
  obtain ⟨hunits, hpend⟩ := Agent.parseResponse_frame g r
  rw [hagent, Option.map_some', hqueue] at hpend
  cases hparse : Agent.parseResponse g r with
  | mk plan gp =>
    rw [hparse] at hunits hpend hlen
    dsimp only at hunits hpend hlen ⊢
    cases hgp : gp.agent with
    | none => rw [hgp] at hpend; cases hpend
    | some agentp =>
      rw [hgp, Option.map_some', Option.some.injEq] at hpend
      cases hplan : plan.actions with
      | nil => rw [hplan] at hlen; cases hlen
      | cons a rest =>
        have hdec : ∃ agent1 : Agent, agent.getAction g (some current) oracle calls =
            Decision.mk a { gp with agent := some agent1 } (calls + 1) ∧
            agent1.pendingActions = rest := by
          unfold Agent.getAction
          rw [hqueue]
          dsimp only
          rw [hmenu]
          have hsome : (g.findPlayer current.id).isNone = false := by
            cases hf : g.findPlayer current.id with
            | none => rw [hf] at hplayer; cases hplayer
            | some p => rfl
          simp only [Bool.not_true, Bool.false_eq_true, if_false, hsome]
          rw [horacle]
          dsimp only
          rw [hparse]
          dsimp only
          rw [hplan, hgp]
          simp only [Option.map_some', List.head?_cons, Option.getD_some, List.tail_cons,
            List.length_cons]
          cases rest with
          | nil =>
            simp only [List.length_nil, Nat.zero_add, lt_self_iff_false, if_false]
            split_ifs
            · refine ⟨_, rfl, ?_⟩
              unfold Agent.addChatMessage
              dsimp only
              exact hpend
            · refine ⟨agentp, ?_, hpend⟩
              rw [← hgp]
          | cons b more =>
            simp only [List.length_cons]
            rw [if_pos (by omega)]
            split_ifs
            · exact ⟨_, rfl, rfl⟩
            · rw [hgp]
              exact ⟨_, rfl, rfl⟩
        obtain ⟨agent1, hdec, hpending⟩ := hdec
        refine ⟨?_, ?_⟩
        · rw [hdec]
          exact ⟨rfl, rfl⟩
        · simp only [List.length_cons]
          unfold Game.getActions
          rw [hagent]
          dsimp only
          rw [hdec]
          dsimp only
          have hrest := Game.getActions_pending oracle (some current) rest
            { gp with agent := some agent1 } agent1 (calls + 1) rfl hpending
          rw [hrest]
          exact ⟨_, rfl, rfl, rfl, hunits⟩

/-- C28 at `Scenario.courted`.  The oracle answers with `Scenario.treatyThenBuild`:
`parseResponse` carries out the acceptance of the treaty, which changes the ledger of
player 0, and the plan is the purchase and the move; two calls of `getAction` return them
in order, with one oracle call.  With the single-action reply `Scenario.singleMove` the
plan is the one move, which `getAction` returns.  At `Scenario.settling 9 0 false` with
the reply `Scenario.twoMoves` the plan is the two moves of the reply, the state is left
as it is by `parseResponse`, and two calls of `getAction` return the two moves. -/
theorem plan_is_consumed_in_order_witness :
    Scenario.courted.currentPlayer = some Scenario.courtedSettler ∧
    (Agent.parseResponse Scenario.courted (Response.object Scenario.treatyThenBuild)).1.actions =
      Scenario.buildPlan ∧
    (Agent.parseResponse Scenario.courted (Response.object Scenario.treatyThenBuild)).2.players ≠
      Scenario.courted.players ∧
    (∃ g1, Game.getActions
        (Scenario.always (OracleReply.response (Response.object Scenario.treatyThenBuild)))
        (some Scenario.courtedSettler)
        (Agent.parseResponse Scenario.courted
          (Response.object Scenario.treatyThenBuild)).1.actions.length Scenario.courted 0 =
        some ((Agent.parseResponse Scenario.courted
          (Response.object Scenario.treatyThenBuild)).1.actions, g1, 0 + 1) ∧
      g1.agent.map (fun a => a.pendingActions) = some [] ∧
      g1.players = (Agent.parseResponse Scenario.courted
        (Response.object Scenario.treatyThenBuild)).2.players ∧
      g1.units = Scenario.courted.units) ∧
    (Agent.parseResponse Scenario.courted (Response.object Scenario.singleMove)).1.actions =
      [Action.mk "moveUnit" (Scenario.moveTo 8 0)] ∧
    some ((Agent.mk [] [] none []).getAction Scenario.courted (some Scenario.courtedSettler)
      (Scenario.always (OracleReply.response (Response.object Scenario.singleMove))) 0).action =
      (Agent.parseResponse Scenario.courted (Response.object Scenario.singleMove)).1.actions.head? ∧
    Agent.parseResponse (Scenario.settling 9 0 false) (Response.object Scenario.twoMoves) =
      (ActionPlan.mk Scenario.twoMoves.intention (Scenario.coastPlan.map Prod.fst),
        Scenario.settling 9 0 false) ∧
    (∃ g1, Game.getActions
        (Scenario.always (OracleReply.response (Response.object Scenario.twoMoves)))
        (some Scenario.settler)
        (Agent.parseResponse (Scenario.settling 9 0 false)
          (Response.object Scenario.twoMoves)).1.actions.length (Scenario.settling 9 0 false) 0 =
        some ((Agent.parseResponse (Scenario.settling 9 0 false)
          (Response.object Scenario.twoMoves)).1.actions, g1, 0 + 1) ∧
      g1.agent.map (fun a => a.pendingActions) = some [] ∧
      g1.players = (Agent.parseResponse (Scenario.settling 9 0 false)
        (Response.object Scenario.twoMoves)).2.players ∧
      g1.units = (Scenario.settling 9 0 false).units) :=
  ⟨by decide, by decide, by decide,
    (plan_is_consumed_in_order Scenario.courted (Agent.mk [] [] none []) Scenario.courtedSettler
      (Scenario.always (OracleReply.response (Response.object Scenario.treatyThenBuild))) 0
      (Response.object Scenario.treatyThenBuild) (by decide) (by decide) (by decide) (by decide)
      (by decide) (by decide)).2,
    by decide,
    (plan_is_consumed_in_order Scenario.courted (Agent.mk [] [] none []) Scenario.courtedSettler
      (Scenario.always (OracleReply.response (Response.object Scenario.singleMove))) 0
      (Response.object Scenario.singleMove) (by decide) (by decide) (by decide) (by decide)
      (by decide) (by decide)).1.1,
    by decide,
    (plan_is_consumed_in_order (Scenario.settling 9 0 false) (Agent.mk [] [] none [])
      Scenario.settler
      (Scenario.always (OracleReply.response (Response.object Scenario.twoMoves))) 0
      (Response.object Scenario.twoMoves) (by decide) (by decide) (by decide) (by decide)
      (by decide) (by decide)).2⟩

/-! ## C29: replies that cannot be used -/

/-- C29.  `parseResponse` returns the fallback plan, whose one action is `endTurn`, and
leaves the state as it is, for every reply that is not parseable as JSON, that has no
(truthy) intention (among them a reply that is `null` or no object at all), whose
`actions` array is empty, or that has neither an `actions` array nor a (truthy)
`action` field.  When the queue of pending actions is empty, the menu of the player (an
active player) lists some action and the call of the oracle fails, `getAction` returns
`endTurn` and leaves the state as it is. -/
theorem unusable_reply_ends_turn (g : Game) (agent : Agent) (current : Player)
    (oracle : Nat → OracleReply) (calls : Nat)
    (hqueue : agent.pendingActions = [])
    (hplayer : (g.findPlayer current.id).isSome = true)
    (hmenu : Agent.hasActions (Agent.evaluateAvailableActions g current) = true)
    (horacle : oracle calls = OracleReply.failure) :
    ActionPlan.fallback.actions = [Action.endTurn] ∧
    (∀ g2 : Game, Agent.parseResponse g2 Response.unparseable = (ActionPlan.fallback, g2) ∧
      Agent.parseResponse g2 Response.null = (ActionPlan.fallback, g2) ∧
      Agent.parseResponse g2 Response.scalar = (ActionPlan.fallback, g2)) ∧
    (∀ (g2 : Game) (o : ReplyObject), truthy o.intention = false →
      Agent.parseResponse g2 (Response.object o) = (ActionPlan.fallback, g2)) ∧
    (∀ (g2 : Game) (o : ReplyObject), o.actions = some [] →
      Agent.parseResponse g2 (Response.object o) = (ActionPlan.fallback, g2)) ∧
    (∀ (g2 : Game) (o : ReplyObject), o.actions = none → truthy o.action = false →
      Agent.parseResponse g2 (Response.object o) = (ActionPlan.fallback, g2)) ∧
    agent.getAction g (some current) oracle calls = Decision.mk Action.endTurn g (calls + 1) := by
  refine ⟨rfl, fun g2 => ⟨rfl, rfl, rfl⟩, ?_, ?_, ?_, ?_⟩
  · intro g2 o h
    unfold Agent.parseResponse
    dsimp only
    rw [h]
    cases o.actions with
    | none => simp
    | some items => simp
  · intro g2 o h
    unfold Agent.parseResponse
    dsimp only
    rw [h]
    simp
  · intro g2 o h1 h2
    unfold Agent.parseResponse
    dsimp only
    rw [h1, h2]
    simp
  · unfold Agent.getAction
    rw [hqueue]
    dsimp only
    rw [hmenu]
    have hsome : (g.findPlayer current.id).isNone = false := by
      cases hf : g.findPlayer current.id with
      | none => rw [hf] at hplayer; cases hplayer
      | some p => rfl
    simp only [Bool.not_true, Bool.false_eq_true, if_false, hsome]
    rw [horacle]

/-- C29 at `Scenario.opening`, whose current player can buy a unit, with an oracle that
fails: `getAction` returns `endTurn`, the state is unchanged. -/
theorem unusable_reply_ends_turn_witness :
    Agent.hasActions (Agent.evaluateAvailableActions Scenario.opening
      (Scenario.activePlayer 0 [0, 1] [City.new 1 0 0 0] [])) = true ∧
    (Agent.mk [] [] none []).getAction Scenario.opening
        (some (Scenario.activePlayer 0 [0, 1] [City.new 1 0 0 0] []))
        (Scenario.always OracleReply.failure) 0 =
      Decision.mk Action.endTurn Scenario.opening (0 + 1) :=
  ⟨by decide,
    (unusable_reply_ends_turn Scenario.opening (Agent.mk [] [] none [])
      (Scenario.activePlayer 0 [0, 1] [City.new 1 0 0 0] [])
      (Scenario.always OracleReply.failure) 0 (by decide) (by decide) (by decide)
      (by decide)).2.2.2.2.2⟩

/-! ## C30: a proposed action that is not on the menu -/

/-- C30.  In a state with an agent and a current player, let a proposed action, of name
(`unknown` when it has none) other than `endTurn`, fail the check against the menu
computed afresh: its kind is none of the six kinds of the menu, or the menu lists no
entry of that kind with its `unitId` (for `upgradeCity` and `buyUnit`: its `cityId`).
Then `executeAIAction` ends normally and changes nothing but the agent: players (with
their coins, cities and units), the global unit list, the purchase gate and the index
of the current player are as before, and exactly one failure record, naming the action,
is appended. -/
theorem rejected_action_is_recorded (g : Game) (agent : Agent) (current : Player)
    (action : Action)
    (hagent : g.agent = some agent) (hcur : g.currentPlayer = some current)
    (hname : (if action.action = "" then "unknown" else action.action) ≠ "endTurn")
    (hillegal : g.isActionAvailable current
      (if action.action = "" then "unknown" else action.action) action.parameters = false) :
    (∃ agent1, g.executeAIAction action = Completion.ok { g with agent := some agent1 } ∧
      agent1.failedActions = agent.failedActions ++
        [FailedAction.mk (if action.action = "" then "unknown" else action.action)
          "This action is not available in the current turn state"] ∧
      agent1.pendingActions = agent.pendingActions) ∧
    (g.executeAIAction action).state.players = g.players ∧
    (g.executeAIAction action).state.units = g.units ∧
    (g.executeAIAction action).state.hasPurchasedUnitThisTurn = g.hasPurchasedUnitThisTurn ∧
    (g.executeAIAction action).state.currentPlayerIndex = g.currentPlayerIndex ∧
    (∀ (name : String) (parameters : Params),
      g.isActionAvailable current name parameters = true ↔
        name = "endTurn" ∨
        (name = "foundCity" ∧ ∃ e ∈ (Agent.evaluateAvailableActions g current).foundCity,
          some e.unitId = parameters.unitId) ∨
        (name = "upgradeCity" ∧ ∃ e ∈ (Agent.evaluateAvailableActions g current).upgradeCity,
          some e.cityId = parameters.cityId) ∨
        (name = "buyUnit" ∧ ∃ e ∈ (Agent.evaluateAvailableActions g current).buyUnit,
          some e.cityId = parameters.cityId) ∨
        (name = "moveUnit" ∧ ∃ e ∈ (Agent.evaluateAvailableActions g current).moveUnit,
          some e.unitId = parameters.unitId) ∨
        (name = "attackUnit" ∧ ∃ e ∈ (Agent.evaluateAvailableActions g current).attackUnit,
          some e.unitId = parameters.unitId) ∨
        (name = "conquerCity" ∧ ∃ e ∈ (Agent.evaluateAvailableActions g current).conquerCity,
          some e.unitId = parameters.unitId)) := by
  have hexec : ∃ agent1, g.executeAIAction action = Completion.ok { g with agent := some agent1 } ∧
      agent1.failedActions = agent.failedActions ++
        [FailedAction.mk (if action.action = "" then "unknown" else action.action)
          "This action is not available in the current turn state"] ∧
      agent1.pendingActions = agent.pendingActions := by
    unfold Game.executeAIAction
    dsimp only
    rw [if_neg hname, hagent, hcur]
    dsimp only
    rw [hillegal]
    exact ⟨_, rfl, rfl, rfl⟩
  obtain ⟨agent1, hexec, hrec, hpend⟩ := hexec
  refine ⟨⟨agent1, hexec, hrec, hpend⟩, ?_, ?_, ?_, ?_, ?_⟩
  · rw [hexec]; rfl
  · rw [hexec]; rfl
  · rw [hexec]; rfl
  · rw [hexec]; rfl
  · intro name parameters
    unfold Game.isActionAvailable
    dsimp only
    split_ifs with h1 h2 h3 h4 h5 h6 h7
    all_goals try simp only [List.any_eq_true, decide_eq_true_eq]
    all_goals subst_vars
    all_goals simp_all

/-- C30 at `Scenario.opening`, where player 0 has no unit: a `moveUnit` for unit 1 is
rejected and recorded. -/
theorem rejected_action_is_recorded_witness :
    Scenario.opening.isActionAvailable (Scenario.activePlayer 0 [0, 1] [City.new 1 0 0 0] [])
      "moveUnit" (Scenario.moveTo 8 0) = false ∧
    (∃ agent1, Scenario.opening.executeAIAction (Action.mk "moveUnit" (Scenario.moveTo 8 0)) =
        Completion.ok { Scenario.opening with agent := some agent1 } ∧
      agent1.failedActions = (Agent.mk [] [] none []).failedActions ++
        [FailedAction.mk "moveUnit" "This action is not available in the current turn state"] ∧
      agent1.pendingActions = (Agent.mk [] [] none []).pendingActions) ∧
    (Scenario.opening.executeAIAction (Action.mk "moveUnit" (Scenario.moveTo 8 0))).state.agent.map
      (fun a => a.failedActions.length) = some 1 :=
  ⟨by decide,
    (rejected_action_is_recorded Scenario.opening (Agent.mk [] [] none [])
      (Scenario.activePlayer 0 [0, 1] [City.new 1 0 0 0] [])
      (Action.mk "moveUnit" (Scenario.moveTo 8 0)) (by decide) (by decide) (by decide)
      (by decide)).1,
    by decide⟩

/-! ## C31: proposed actions rejected without a trace -/

/-- C31, evaluated on three proposed actions that pass the check against the menu and are
then turned down by the function that applies them: a `moveUnit` of the colonizer at (9,0)
to the tile (3,3), six tiles away; a `buyUnit` of a dragon (30 coins) by a player with 10
coins; a `foundCity` by a colonizer at (1,1), next to the city at (0,0).  In each case
`executeAIAction` ends normally in the state it started in: nothing is applied and no
failure record is added. -/
theorem rejected_without_failure_record :
    (Scenario.settling 9 0 false).currentPlayer.map
        (fun current => (Scenario.settling 9 0 false).isActionAvailable current "moveUnit"
          (Scenario.moveTo 3 3)) = some true ∧
    (Scenario.settling 9 0 false).executeAIAction (Action.mk "moveUnit" (Scenario.moveTo 3 3)) =
      Completion.ok (Scenario.settling 9 0 false) ∧
    Scenario.opening.currentPlayer.map
        (fun current => (current.coins, Unit.getCost "dragon",
          Scenario.opening.isActionAvailable current "buyUnit"
            { Scenario.buyColonizer with unitType := some "dragon" })) =
      some (10, some 30, true) ∧
    Scenario.opening.executeAIAction
        (Action.mk "buyUnit" { Scenario.buyColonizer with unitType := some "dragon" }) =
      Completion.ok Scenario.opening ∧
    (Scenario.settling 1 1 false).currentPlayer.map
        (fun current => (Scenario.settling 1 1 false).isActionAvailable current "foundCity"
          (Scenario.moveTo 1 1)) = some true ∧
    (Scenario.settling 1 1 false).executeAIAction (Action.mk "foundCity" (Scenario.moveTo 1 1)) =
      Completion.ok (Scenario.settling 1 1 false) ∧
    (Scenario.settling 9 0 false).agent.map (fun agent => agent.failedActions) = some [] := by
  refine ⟨by decide, by decide, by decide, by decide, by decide, by decide, by decide⟩

/-! ## C32: the border scan -/

/-- C32.  In a state whose players have distinct ids, let `A` and `B` be two active
players with different ids, and call a tile of `A` a tile the territory map of the scan
(`getPlayerTerritories`) assigns to `A`.  After one run of `processDiplomaticEvents` the
favor of `A` toward `B` is: the favor of before when `A` is at war with `B`; otherwise the
favor of before plus an amount, clamped to [-100, 100], the amount being -10 when some
unit of `B` stands on a tile of `A`, -5 when none does but some unit of `B` stands within
one tile of a tile of `A`, and +1 when neither is the case. -/
theorem border_scan_favor (g : Game) (A B : Player)
    (hids : (g.players.map (fun p => p.id)).Nodup) (hA : A ∈ g.players) (hB : B ∈ g.players)
    (hAB : A.id ≠ B.id) :
    ∃ d, g.processDiplomaticEvents.ledgerOf A.id = some d ∧
      (A.diplomacy.isAtWar B.id = true → d.getFavor B.id = A.diplomacy.getFavor B.id) ∧
      (A.diplomacy.isAtWar B.id = false →
        ((∃ u ∈ B.units, mapGet g.getPlayerTerritories (u.x, u.y) = some A.id) →
          d.getFavor B.id = max (-100) (min 100 (A.diplomacy.getFavor B.id + -10))) ∧
        ((¬ ∃ u ∈ B.units, mapGet g.getPlayerTerritories (u.x, u.y) = some A.id) →
          (∃ u ∈ B.units, ∃ dx dy : Int, |dx| ≤ 1 ∧ |dy| ≤ 1 ∧
            mapGet g.getPlayerTerritories (u.x + dx, u.y + dy) = some A.id) →
          d.getFavor B.id = max (-100) (min 100 (A.diplomacy.getFavor B.id + -5))) ∧
        ((¬ ∃ u ∈ B.units, mapGet g.getPlayerTerritories (u.x, u.y) = some A.id) →
          (¬ ∃ u ∈ B.units, ∃ dx dy : Int, |dx| ≤ 1 ∧ |dy| ≤ 1 ∧
            mapGet g.getPlayerTerritories (u.x + dx, u.y + dy) = some A.id) →
          d.getFavor B.id = max (-100) (min 100 (A.diplomacy.getFavor B.id + 1)))) := by
  have hledger : g.processDiplomaticEvents.ledgerOf A.id =
      some (scanLedger g.getPlayerTerritories A g.players A.diplomacy) := by
    unfold Game.ledgerOf Game.findPlayer
    rw [processDiplomaticEvents_players, List.find?_map]
    have hfind : g.players.find? ((fun p : Player => decide (p.id = A.id)) ∘
        (fun p => { p with diplomacy := scanRounds g g.players p })) = some A :=
      findPlayer_eq_of_mem hids hA
    rw [hfind]
    simp only [Option.map_some', scanRounds]
    rw [foldl_own_id (fun player d => scanLedger g.getPlayerTerritories player g.players d)
      g.players hids A hA]
  have hfavor := scanLedger_getFavor g.getPlayerTerritories A B g.players hids hB hAB A.diplomacy
  refine ⟨_, hledger, ?_, ?_⟩
  · intro hwar
    rw [hfavor, if_pos hwar]
  · intro hpeace
    rw [hfavor, if_neg (by rw [hpeace]; exact Bool.false_ne_true)]
    unfold scanAmount
    refine ⟨?_, ?_, ?_⟩
    · intro hon
      rw [if_pos ((territoryViolation_iff _ _ _).mpr hon)]
    · intro hoff hnear
      rw [if_neg (fun h => hoff ((territoryViolation_iff _ _ _).mp h)),
        if_pos ((borderViolation_iff _ _ _ hoff).mpr hnear)]
    · intro hoff hfar
      rw [if_neg (fun h => hoff ((territoryViolation_iff _ _ _).mp h)),
        if_neg (fun h => hfar ((borderViolation_iff _ _ _ hoff).mp h))]

/-- C32 at `Scenario.siege`, with `A` player 2 and `B` player 1, whose soldier stands on
the city tile of player 2: the favor of player 2 toward player 1 goes from 0 to -10, and
the favor of player 1 toward player 2, none of whose units is near, from 0 to 1. -/
theorem border_scan_favor_witness :
    (Scenario.siege.ledgerOf 2).map (fun d => (d.isAtWar 1, d.getFavor 1)) = some (false, 0) ∧
    (∃ u ∈ (Scenario.activePlayer 1 [0, 1, 2] [City.new 2 5 5 1] [Scenario.soldier 1 9 9 1]).units,
      mapGet Scenario.siege.getPlayerTerritories (u.x, u.y) = some 2) ∧
    (∃ d, Scenario.siege.processDiplomaticEvents.ledgerOf 2 = some d ∧ d.getFavor 1 = -10) ∧
    (Scenario.siege.processDiplomaticEvents.ledgerOf 1).map (fun d => d.getFavor 2) = some 1 := by
  have h := border_scan_favor Scenario.siege
    (Scenario.player 2 [0, 1, 2] [City.new 3 9 9 2] [Scenario.soldier 2 9 8 2])
    (Scenario.activePlayer 1 [0, 1, 2] [City.new 2 5 5 1] [Scenario.soldier 1 9 9 1])
    (by decide) (by decide) (by decide) (by decide)
  obtain ⟨d, hd, _, hpeace⟩ := h
  have hon : ∃ u ∈ (Scenario.activePlayer 1 [0, 1, 2] [City.new 2 5 5 1]
      [Scenario.soldier 1 9 9 1]).units,
      mapGet Scenario.siege.getPlayerTerritories (u.x, u.y) = some 2 :=
    ⟨Scenario.soldier 1 9 9 1, by decide, by decide⟩
  exact ⟨by decide, hon, ⟨d, hd, (hpeace (by decide)).1 hon⟩, by decide⟩

/-! ## C33: which player a contested tile belongs to -/

/-- C33, evaluated on `Scenario.contested`: the city of player 0 at (0,0) has level 7 and
range 3, the city of player 1 at (2,0) has level 4 and range 2, and both players claim the
tiles (0,0) and (1,0).  The territory map of the border scan assigns both tiles to
player 1, the player written last: the tile (0,0), on which the city of player 0 stands,
and the tile (1,0), claimed by player 0 at level 7 and by player 1 at level 4.  The map
`renderTerritory` computes for the same state gives both tiles to player 0. -/
theorem territory_map_last_writer_wins :
    Scenario.contested.allCities.map (fun c => (c.id, c.player, (c.x, c.y), c.level, c.range)) =
      [(1, 0, (0, 0), 7, 3), (2, 1, (2, 0), 4, 2)] ∧
    Scenario.contested.claimants 0 0 = [0, 1] ∧
    Scenario.contested.claimants 1 0 = [0, 1] ∧
    mapGet Scenario.contested.getPlayerTerritories (0, 0) = some 1 ∧
    mapGet Scenario.contested.getPlayerTerritories (1, 0) = some 1 ∧
    (UI.territoryMap Scenario.contested).map (fun m => (mapGet m (0, 0), mapGet m (1, 0))) =
      some (some (0, 9007199254740991), some (0, 7)) := by
  refine ⟨by decide, by decide, by decide, ?_, ?_, ?_⟩
  · rw [getPlayerTerritories_last_claimant]
    decide
  · rw [getPlayerTerritories_last_claimant]
    decide
  · set_option maxRecDepth 1000000 in decide

/-! ## C34: the cached territory size -/

/-- C34, evaluated on two states in which every player's cached `territorySize` is the sum
over its cities.  In `Scenario.beforeGrowth` the proposed action `upgradeCity` takes the
city of player 0 from level 3 to level 4: the city then has range 2 and territory size
25, and the cache of player 0 still says 9.  In `Scenario.twoCities` the soldier of
player 1 conquers one of the two cities of player 2: player 2 is left with one city of
territory size 9 and a cache that still says 18. -/
theorem territory_cache_goes_stale :
    (∀ p ∈ Scenario.beforeGrowth.players, p.territoryCached) ∧
    (Scenario.beforeGrowth.executeAIAction Scenario.upgradeFirst).state.players.map
      (fun p => (p.id, p.cities.map (fun city => (city.level, city.range, city.territorySize)),
        p.territorySize)) = [(0, [(4, 2, 25)], 9), (1, [(1, 1, 9)], 9)] ∧
    (∀ p ∈ Scenario.twoCities.players, p.territoryCached) ∧
    ((Scenario.soldier 1 9 9 1).conquerCity (City.new 3 9 9 2) Scenario.twoCities).1 = true ∧
    ((Scenario.soldier 1 9 9 1).conquerCity (City.new 3 9 9 2) Scenario.twoCities).2.players.map
      (fun p => (p.id, p.cities.map (fun city => (city.id, city.territorySize)),
        p.territorySize)) = [(0, [(1, 9)], 9), (1, [(2, 9), (3, 9)], 18), (2, [(4, 9)], 18)] := by
  refine ⟨by decide, by decide, by decide, by decide, by decide⟩

/-! ## C35: eliminating a player who is not the current one -/

/-- C35.  In a state whose players have distinct ids, let `P` be an active player other
than the one the current index designates.  After `eliminatePlayer(P)` the current index
designates the same player as before (no player if it designated none), no active player
has the id of `P`, and the active players are those of before without `P`, in the same
order.  The index is lowered by one exactly when `P` stood before it. -/
theorem eliminatePlayer_keeps_current (g : Game) (P : Player)
    (hids : (g.players.map (fun p => p.id)).Nodup) (hP : P ∈ g.players)
    (hcur : g.currentPlayer ≠ some P) :
    (g.eliminatePlayer P).currentPlayer = g.currentPlayer ∧
    (∀ q ∈ (g.eliminatePlayer P).players, q.id ≠ P.id) ∧
    (g.eliminatePlayer P).players = g.players.filter (fun q => decide (q.id ≠ P.id)) ∧
    (g.eliminatePlayer P).currentPlayerIndex =
      (if g.playerIndexOf P < g.currentPlayerIndex then g.currentPlayerIndex - 1
        else g.currentPlayerIndex) := by
  have hplayers : (g.eliminatePlayer P).players =
      g.players.filter (fun q => decide (q.id ≠ P.id)) := by
    rw [eliminatePlayer_players]
    exact eraseP_key_eq_filter (fun p : Player => p.id) P.id g.players hids
  refine ⟨?_, ?_, hplayers, rfl⟩
  · obtain ⟨k, hk, hget⟩ := findIdx?_of_mem_players hids hP
    have hidx : g.playerIndexOf P = (k : Int) := by
      unfold Game.playerIndexOf
      rw [hk]
    have hindex : (g.eliminatePlayer P).currentPlayerIndex =
        (if g.playerIndexOf P < g.currentPlayerIndex then g.currentPlayerIndex - 1
          else g.currentPlayerIndex) := rfl
    unfold Game.currentPlayer at hcur ⊢
    rw [hindex, hidx, eliminatePlayer_players]
    by_cases hneg : 0 ≤ g.currentPlayerIndex
    · rw [if_pos hneg] at hcur ⊢
      have hn : g.currentPlayerIndex.toNat ≠ k := by
        intro h
        rw [h] at hcur
        exact hcur hget
      have key := getElem?_eraseP_of_findIdx? (fun p : Player => decide (p.id = P.id)) g.players k
        g.currentPlayerIndex.toNat hk hn
      by_cases hlt : (k : Int) < g.currentPlayerIndex
      · rw [if_pos hlt, if_pos (by omega)]
        rw [if_pos (by omega)] at key
        rw [← key]
        congr 1
        omega
      · rw [if_neg hlt, if_pos hneg]
        rw [if_neg (by omega)] at key
        exact key
    · rw [if_neg hneg]
      have hlt : ¬ ((k : Int) < g.currentPlayerIndex) := by omega
      rw [if_neg hlt, if_neg hneg]
  · intro q hq
    rw [hplayers, List.mem_filter] at hq
    simpa using hq.2

/-- C35 at `Scenario.siege`: it is the turn of player 1, at index 1; after the elimination
of player 0, who stood before it, the index is 0 and still designates player 1, and the
players left are 1 and 2 in this order. -/
theorem eliminatePlayer_keeps_current_witness :
    Scenario.siege.players.map (fun p => p.id) = [0, 1, 2] ∧
    Scenario.siege.currentPlayerIndex = 1 ∧
    Scenario.siege.findPlayer 0 = some (Scenario.player 0 [0, 1, 2] [City.new 1 0 0 0] []) ∧
    ((Scenario.siege.eliminatePlayer
        (Scenario.player 0 [0, 1, 2] [City.new 1 0 0 0] [])).currentPlayer =
      Scenario.siege.currentPlayer) ∧
    (Scenario.siege.eliminatePlayer
      (Scenario.player 0 [0, 1, 2] [City.new 1 0 0 0] [])).currentPlayerIndex = 0 ∧
    (Scenario.siege.eliminatePlayer
      (Scenario.player 0 [0, 1, 2] [City.new 1 0 0 0] [])).players.map (fun p => p.id) = [1, 2] :=
  ⟨by decide, by decide, by decide,
    (eliminatePlayer_keeps_current Scenario.siege
      (Scenario.player 0 [0, 1, 2] [City.new 1 0 0 0] []) (by decide) (by decide) (by decide)).1,
    by decide, by decide⟩

/-! ## C36: attacks ordered by clicks -/

/-- C36, evaluated on `Scenario.bystander`: it is the turn of player 0, who has no unit.
A click on (9,9) selects the soldier of player 1 that stands there; a click on (9,8),
where a soldier of player 2 stands next to it, makes the selected soldier attack: the
soldier of player 2 goes from 5 to 3 hit points and the soldier of player 1 is marked as
having attacked.  On the autonomous path the same attack changes nothing, and the menu
of player 0 lists no attack. -/
theorem click_attack_by_foreign_unit :
    Scenario.bystander.currentPlayer.map (fun p => (p.id, p.units)) = some (0, []) ∧
    UI.handleClick Scenario.bystander none false 9 9 =
      (Scenario.bystander, some (Entity.unit (Scenario.soldier 1 9 9 1))) ∧
    (UI.handleClick Scenario.bystander (some (Entity.unit (Scenario.soldier 1 9 9 1)))
      false 9 8).2 = none ∧
    (UI.handleClick Scenario.bystander (some (Entity.unit (Scenario.soldier 1 9 9 1)))
      false 9 8).1.units.map (fun u => (u.id, u.player, u.hp, u.hasAttacked)) =
      [(1, 1, 5, true), (2, 2, 3, false)] ∧
    Scenario.bystander.units.map (fun u => (u.id, u.player, u.hp, u.hasAttacked)) =
      [(1, 1, 5, false), (2, 2, 5, false)] ∧
    Scenario.bystander.currentPlayer.map
      (fun current => Scenario.bystander.aiAttackUnit current Scenario.strikeNorth) =
      some Scenario.bystander ∧
    Scenario.bystander.currentPlayer.map
      (fun current => (Agent.evaluateAvailableActions Scenario.bystander current).attackUnit) =
      some [] := by
  refine ⟨by decide, by decide, by decide, by decide, by decide, by decide, by decide⟩

/-! ## C37: the tiles a city claims -/

/-- C37.  For every city at `(x, y)` with range `R` and level `L`, `calculateTerritory`
sets the territory to the tiles `(x + dx, y + dy)` with `1 ≤ max(|dx|, |dy|) ≤ R`, each
tagged with level `L` and each listed once, sets `territorySize` to `(2R + 1)²`, and
leaves the other fields of the city as they are. -/
theorem calculateTerritory_claims (c : City) :
    (∀ t : Tile, t ∈ c.calculateTerritory.territory ↔
      ∃ dx dy : Int, 1 ≤ max |dx| |dy| ∧ max |dx| |dy| ≤ (c.range : Int) ∧
        t = Tile.mk (c.x + dx) (c.y + dy) c.level) ∧
    c.calculateTerritory.territory.Nodup ∧
    c.calculateTerritory.territorySize = (2 * c.range + 1) ^ 2 ∧
    c.calculateTerritory =
      { c with territory := c.calculateTerritory.territory
               territorySize := c.calculateTerritory.territorySize } := by
  have hnodup : ((((List.range (2 * c.range + 1)).map (fun i : Nat => (i : Int) - (c.range : Int))) ×ˢ
      ((List.range (2 * c.range + 1)).map (fun i : Nat => (i : Int) - (c.range : Int))))).Nodup :=
    List.Nodup.product (offsets_nodup c.range) (offsets_nodup c.range)
  refine ⟨?_, ?_, ?_, rfl⟩
  · intro t
    rw [City.calculateTerritory_territory]
    constructor
    · intro h
      obtain ⟨d, hd, rfl⟩ := List.mem_map.mp h
      rw [List.mem_filter, List.mem_product, mem_offsets, mem_offsets] at hd
      obtain ⟨⟨⟨h1, h2⟩, h3, h4⟩, h0⟩ := hd
      refine ⟨d.1, d.2, ?_, max_le (abs_le.mpr ⟨h1, h2⟩) (abs_le.mpr ⟨h3, h4⟩), rfl⟩
      by_contra hlt
      have hne : d ≠ (0, 0) := by simpa using h0
      apply hne
      have hx := abs_nonneg d.1
      have hy := abs_nonneg d.2
      have hx0 : |d.1| = 0 := by
        have := le_max_left |d.1| |d.2|
        omega
      have hy0 : |d.2| = 0 := by
        have := le_max_right |d.1| |d.2|
        omega
      exact Prod.ext (abs_eq_zero.mp hx0) (abs_eq_zero.mp hy0)
    · rintro ⟨dx, dy, h1, h2, rfl⟩
      have hx := abs_le.mp (le_trans (le_max_left |dx| |dy|) h2)
      have hy := abs_le.mp (le_trans (le_max_right |dx| |dy|) h2)
      apply List.mem_map.mpr
      refine ⟨(dx, dy), ?_, rfl⟩
      rw [List.mem_filter, List.mem_product, mem_offsets, mem_offsets]
      refine ⟨⟨hx, hy⟩, ?_⟩
      rw [decide_eq_true_eq]
      intro h0
      rw [Prod.mk.injEq] at h0
      rw [h0.1, h0.2] at h1
      simp at h1
  · rw [City.calculateTerritory_territory]
    apply List.Nodup.map _ (List.Nodup.filter _ hnodup)
    intro d e hde
    simp only [Tile.mk.injEq, add_right_inj, and_true] at hde
    exact Prod.ext hde.1 hde.2
  · have hsize : c.calculateTerritory.territorySize = c.calculateTerritory.territory.length + 1 := rfl
    have hmem : ((0 : Int), (0 : Int)) ∈
        (((List.range (2 * c.range + 1)).map (fun i : Nat => (i : Int) - (c.range : Int))) ×ˢ
          ((List.range (2 * c.range + 1)).map (fun i : Nat => (i : Int) - (c.range : Int)))) := by
      simp only [List.mem_product, mem_offsets]
      omega
    rw [hsize, City.calculateTerritory_territory, List.length_map]
    have herase := List.Nodup.erase_eq_filter hnodup ((0 : Int), (0 : Int))
    have hfilter : List.filter (fun d : Int × Int => decide (d ≠ (0, 0)))
        (((List.range (2 * c.range + 1)).map (fun i : Nat => (i : Int) - (c.range : Int))) ×ˢ
          ((List.range (2 * c.range + 1)).map (fun i : Nat => (i : Int) - (c.range : Int)))) =
        List.erase (((List.range (2 * c.range + 1)).map (fun i : Nat => (i : Int) - (c.range : Int))) ×ˢ
          ((List.range (2 * c.range + 1)).map (fun i : Nat => (i : Int) - (c.range : Int))))
          ((0 : Int), (0 : Int)) := by
      rw [herase]
      apply List.filter_congr
      intro d _
      by_cases h0 : d = ((0 : Int), (0 : Int))
      · rw [h0]
        rfl
      · have hb : (d != ((0 : Int), (0 : Int))) = true := bne_iff_ne.mpr h0
        rw [hb]
        exact decide_eq_true h0
    rw [hfilter, List.length_erase_of_mem hmem, List.length_product, List.length_map,
      List.length_range]
    have hpos : 0 < (2 * c.range + 1) * (2 * c.range + 1) := by positivity
    rw [pow_two]
    omega

/-! ## C38: rosters and the global unit list -/

/-- C38.  Let a state be roster-consistent (every roster holds units of its player that
are in the global unit list, and every unit of the global list is in the roster of an
active player, its owner), with ids used once among the players and among the units and
each roster listing a unit once.  Then the state is roster-consistent again after
`executeAIAction` for every proposed action (`buyUnit`, `moveUnit`, `attackUnit`,
`foundCity`, `conquerCity`, `upgradeCity`, or any other), after `nextTurn`, after
`foundCity` by any unit of the global list, after `conquerCity` by any unit on any city,
elimination of the old owner included, and after the elimination of any active player.
In a roster-consistent state a unit is in the global list exactly when it is in the
roster of an active player with the id of its owner. -/
theorem rosters_stay_consistent (g : Game) (h : g.rostersConsistent)
    (hpid : (g.players.map (fun p => p.id)).Nodup)
    (hnd : (g.units.map (fun v => v.id)).Nodup)
    (hr : ∀ p ∈ g.players, p.units.Nodup) :
    (∀ action : Action, (g.executeAIAction action).state.rostersConsistent) ∧
    g.nextTurn.state.rostersConsistent ∧
    (∀ u ∈ g.units, (u.foundCity g).2.rostersConsistent) ∧
    (∀ (u : Unit) (city : City), (u.conquerCity city g).2.rostersConsistent) ∧
    (∀ old ∈ g.players, (g.eliminatePlayer old).rostersConsistent) ∧
    (∀ g1 : Game, g1.rostersConsistent →
      ∀ v : Unit, v ∈ g1.units ↔ ∃ p ∈ g1.players, p.id = v.player ∧ v ∈ p.units) := by
  have hrnd := roster_ids_nodup_of hnd hr h
  refine ⟨fun action => Game.executeAIAction_rostersConsistent g action hpid hnd hrnd h,
    Game.nextTurn_rostersConsistent g h,
    fun u hu => Unit.foundCity_rostersConsistent u g hu hnd hrnd h,
    fun u city => Unit.conquerCity_rostersConsistent u city g hpid hnd h,
    fun old hold => rostersConsistent_eliminatePlayer g old hold hpid hnd h, ?_⟩
  intro g1 h1 v
  constructor
  · exact h1.2 v
  · rintro ⟨p, hp, hid, hv⟩
    exact (h1.1 p hp v hv).2

/-- C38 at `Scenario.standoff 4 3 2`, where the soldier of player 0 stands next to the
soldier of player 1, which has 2 hit points left: the attack kills it, the soldier is
removed from the global list and from the roster of player 1, and the state reached is
roster-consistent. -/
theorem rosters_stay_consistent_witness :
    (Scenario.standoff 4 3 2).rostersConsistent ∧
    (Scenario.standoff 4 3 2).units.map (fun v => v.id) = [1, 2] ∧
    ((Scenario.standoff 4 3 2).executeAIAction (Action.mk "attackUnit" Scenario.strike)).state.units.map
      (fun v => v.id) = [1] ∧
    ((Scenario.standoff 4 3 2).executeAIAction
      (Action.mk "attackUnit" Scenario.strike)).state.players.map
        (fun p => (p.id, p.units.map (fun v => v.id))) = [(0, [1]), (1, [])] ∧
    ((Scenario.standoff 4 3 2).executeAIAction
      (Action.mk "attackUnit" Scenario.strike)).state.rostersConsistent :=
  ⟨by decide, by decide, by decide, by decide,
    (rosters_stay_consistent (Scenario.standoff 4 3 2) (by decide) (by decide) (by decide)
      (by decide)).1 (Action.mk "attackUnit" Scenario.strike)⟩

/-! ## C39: one unit to a tile -/

/-- C39.  In a state in which no two units of the global list stand on the same tile (and
no two have the same id), no two units stand on the same tile after `aiBuyUnit` and after
`aiMoveUnit`, whatever the player and the parameters, and after `executeAIAction` for
every proposed action named `buyUnit` or `moveUnit`.  A unit is bought only onto a city
tile with no unit on it, and moved only onto a tile with no unit on it. -/
theorem tiles_stay_distinct (g : Game) (hids : (g.units.map (fun u => u.id)).Nodup)
    (h : g.tilesDistinct) :
    (∀ (current : Player) (params : Params),
      (g.aiBuyUnit current params).tilesDistinct ∧ (g.aiMoveUnit current params).tilesDistinct) ∧
    (∀ action : Action, action.action = "buyUnit" ∨ action.action = "moveUnit" →
      (g.executeAIAction action).state.tilesDistinct) := by
  refine ⟨fun current params => ⟨Game.aiBuyUnit_tilesDistinct g current params h,
    Game.aiMoveUnit_tilesDistinct g current params hids h⟩, ?_⟩
  intro action hkind
  have hname : (if action.action = "" then "unknown" else action.action) = action.action := by
    rcases hkind with hk | hk <;> rw [hk] <;> rfl
  unfold Game.executeAIAction
  dsimp only
  rw [hname]
  rcases hkind with hk | hk
  · rw [hk, if_neg (by decide)]
    cases g.agent with
    | none => exact h
    | some agent =>
      dsimp only
      cases g.currentPlayer with
      | none => exact h
      | some current =>
        dsimp only
        by_cases hav : (!g.isActionAvailable current "buyUnit" action.parameters) = true
        · rw [if_pos hav]
          exact h
        · rw [if_neg hav, if_neg (by decide), if_pos rfl]
          exact Game.aiBuyUnit_tilesDistinct g current _ h
  · rw [hk, if_neg (by decide)]
    cases g.agent with
    | none => exact h
    | some agent =>
      dsimp only
      cases g.currentPlayer with
      | none => exact h
      | some current =>
        dsimp only
        by_cases hav : (!g.isActionAvailable current "moveUnit" action.parameters) = true
        · rw [if_pos hav]
          exact h
        · rw [if_neg hav, if_neg (by decide), if_neg (by decide), if_pos rfl]
          exact Game.aiMoveUnit_tilesDistinct g current _ hids h

/-- C39 at `Scenario.standoff 3 3 5`, where soldier 1 stands at (3,3) and soldier 2 at
(4,4).  The move of soldier 1 onto the tile of soldier 2 is refused and both stay where
they are; its move to (3,4), beside soldier 2, is carried out; a colonizer bought in
the city at (0,0) is a third unit on a third tile.  At `Scenario.standoff 0 0 5`, where
soldier 1 stands on that city, the purchase is refused.  The units stand on distinct
tiles after each of the four actions. -/
theorem tiles_stay_distinct_witness :
    (Scenario.standoff 3 3 5).units.map (fun u => (u.id, u.x, u.y)) = [(1, 3, 3), (2, 4, 4)] ∧
    ((Scenario.standoff 3 3 5).executeAIAction
      (Action.mk "moveUnit" Scenario.strike)).state.units.map (fun u => (u.id, u.x, u.y)) =
      [(1, 3, 3), (2, 4, 4)] ∧
    ((Scenario.standoff 3 3 5).executeAIAction
      (Action.mk "moveUnit" Scenario.strike)).state.tilesDistinct ∧
    ((Scenario.standoff 3 3 5).executeAIAction
      (Action.mk "moveUnit" (Scenario.moveTo 3 4))).state.units.map (fun u => (u.id, u.x, u.y)) =
      [(1, 3, 4), (2, 4, 4)] ∧
    ((Scenario.standoff 3 3 5).executeAIAction
      (Action.mk "moveUnit" (Scenario.moveTo 3 4))).state.tilesDistinct ∧
    ((Scenario.standoff 3 3 5).executeAIAction
      (Action.mk "buyUnit" Scenario.buyColonizer)).state.units.map (fun u => (u.id, u.x, u.y)) =
      [(1, 3, 3), (2, 4, 4), (3, 0, 0)] ∧
    ((Scenario.standoff 3 3 5).executeAIAction
      (Action.mk "buyUnit" Scenario.buyColonizer)).state.tilesDistinct ∧
    ((Scenario.standoff 0 0 5).executeAIAction
      (Action.mk "buyUnit" Scenario.buyColonizer)).state.units.map (fun u => (u.id, u.x, u.y)) =
      [(1, 0, 0), (2, 4, 4)] ∧
    ((Scenario.standoff 0 0 5).executeAIAction
      (Action.mk "buyUnit" Scenario.buyColonizer)).state.tilesDistinct :=
  ⟨by decide, by decide,
    (tiles_stay_distinct (Scenario.standoff 3 3 5) (by decide) (by decide)).2
      (Action.mk "moveUnit" Scenario.strike) (Or.inr rfl),
    by decide,
    (tiles_stay_distinct (Scenario.standoff 3 3 5) (by decide) (by decide)).2
      (Action.mk "moveUnit" (Scenario.moveTo 3 4)) (Or.inr rfl),
    by decide,
    (tiles_stay_distinct (Scenario.standoff 3 3 5) (by decide) (by decide)).2
      (Action.mk "buyUnit" Scenario.buyColonizer) (Or.inl rfl),
    by decide,
    (tiles_stay_distinct (Scenario.standoff 0 0 5) (by decide) (by decide)).2
      (Action.mk "buyUnit" Scenario.buyColonizer) (Or.inl rfl)⟩

/-! ## C40: one entry for each counterpart -/

/-- C40, evaluated on the run `Scenario.renewedTreaty` from `Scenario.opening`, whose
ledgers are freshly initialised: player 0 proposes a peace treaty to player 1 and player 1
accepts, twice over.  The ledger of player 1 then holds two peace-treaty entries for
player 0, and `collectIncome` pays player 1, who has one city of level 1, 1 + 2 + 2 = 5
coins: the counterpart contributes two treaty bonuses. -/
theorem second_treaty_with_same_player :
    Scenario.opening.players.map (fun p => p.diplomacy) =
      [(Diplomacy.new 0).initializeRelations [0, 1], (Diplomacy.new 1).initializeRelations [0, 1]] ∧
    (Scenario.opening.diplomacyRun Scenario.renewedTreaty).players.map
      (fun p => (p.id, p.diplomacy.peaceTreaties.map (fun treaty => treaty.playerId))) =
      [(0, []), (1, [0, 0])] ∧
    ((Scenario.opening.diplomacyRun Scenario.renewedTreaty).ledgerOf 1).map
      (fun d => decide d.treatiesDistinct) = some false ∧
    (Scenario.opening.diplomacyRun Scenario.renewedTreaty).players.map
      (fun p => (p.id, p.cities.map (fun city => city.level), p.collectIncome.1)) =
      [(0, [1], 1), (1, [1], 5)] := by
  refine ⟨by decide, by decide, by decide, by decide⟩

/-! ## Further properties -/

/-- X1.  Whenever `nextTurn` gets past its guard (more than one active player, and the
index designates a player), the index it leaves is `(index + 1) % playerCount`, the
remainder by the number of players the game started with. -/
theorem nextTurn_index (g : Game) (hlen : 1 < g.players.length)
    (hcur : g.currentPlayer ≠ none) :
    g.nextTurn.state.currentPlayerIndex =
      Int.tmod (g.currentPlayerIndex + 1) (g.playerCount : Int) := by
  unfold Game.nextTurn
  rw [if_neg (by omega)]
  cases hc : g.currentPlayer with
  | none => exact absurd hc hcur
  | some current =>
    dsimp only
    refine (state_index_of_match _ _ ?_).trans ?_
    · intro n
      simp only [Game.updateRankings, foldl_updateUnit_index, Game.updatePlayer_index]
    · cases hm : g.agentMode
      · simp only [Game.updatePlayer, hm, Bool.false_eq_true, ↓reduceIte]
        split
        · rw [processDiplomaticEvents_index]
        · rfl
      · simp only [Game.updatePlayer, hm, ↓reduceIte]
        split
        · rw [processDiplomaticEvents_index]
        · rfl


/-- X1 at `Scenario.siege`: three players, index 1, so the index becomes 2. -/
theorem nextTurn_index_witness :
    1 < Scenario.siege.players.length ∧ Scenario.siege.currentPlayer ≠ none ∧
    Scenario.siege.nextTurn.state.currentPlayerIndex =
      Int.tmod (Scenario.siege.currentPlayerIndex + 1) (Scenario.siege.playerCount : Int) ∧
    Scenario.siege.nextTurn.state.currentPlayerIndex = 2 :=
  ⟨by decide, by decide, nextTurn_index Scenario.siege (by decide) (by decide), by decide⟩

/-- X2.  When some city of the board is at Chebyshev distance less than 2 from the
colonizer's tile, `foundCity` returns false and leaves the state as it is. -/
theorem foundCity_rejects_adjacent (u : Unit) (g : Game)
    (h : ∃ c ∈ g.allCities, c.distanceTo u.x u.y < 2) :
    u.foundCity g = (false, g) := by
  have hv : Utils.validateCityPlacement u.x u.y g = false := by
    cases hb : Utils.validateCityPlacement u.x u.y g with
    | false => rfl
    | true =>
      obtain ⟨c, hc, hlt⟩ := h
      have := (validateCityPlacement_iff u.x u.y g).mp hb c hc
      omega
  unfold Unit.foundCity
  split
  · rfl
  · simp [hv]

/-- X2 at `Scenario.settling 1 0 false`: the colonizer stands next to the city at (0,0). -/
theorem foundCity_rejects_adjacent_witness :
    (∃ c ∈ (Scenario.settling 1 0 false).allCities,
      c.distanceTo (Scenario.colonizer 1 1 0 0).x (Scenario.colonizer 1 1 0 0).y < 2) ∧
    (Scenario.colonizer 1 1 0 0).foundCity (Scenario.settling 1 0 false) =
      (false, Scenario.settling 1 0 false) :=
  ⟨by decide, foundCity_rejects_adjacent (Scenario.colonizer 1 1 0 0)
    (Scenario.settling 1 0 false) (by decide)⟩

/-- X3.  For every type string whose lower case is not a property name that object
literals inherit: the constructor builds a unit whose `maxHp` equals its `hp`; when the
lower-cased type is a catalogue name the unit has that type and the catalogue's cost,
hit points, attack and movement, otherwise it is a soldier with cost 3, 5 hit points,
attack 2 and movement 1; and `Unit.getCost` of the type string is the cost of the unit. -/
theorem unit_stats_of_type (id : Nat) (x y : Int) (player : Nat) (type : String)
    (h : inheritedProperty (toLowerCase type) = false) :
    ∃ u, Unit.new id x y player type = some u ∧ u.maxHp = u.hp ∧
      Unit.getCost type = some u.cost ∧
      (∀ st, Unit.stats (toLowerCase type) = some st →
        u.type = toLowerCase type ∧ (u.cost, u.hp, u.atk, u.movement) = st) ∧
      (Unit.stats (toLowerCase type) = none →
        u.type = "soldier" ∧ (u.cost, u.hp, u.atk, u.movement) = (3, 5, 2, 1)) := by
  unfold Unit.new Unit.getCost
  dsimp only
  cases hs : Unit.stats (toLowerCase type) with
  | some st =>
    obtain ⟨cost, hp, atk, movement⟩ := st
    refine ⟨_, rfl, rfl, rfl, ?_, ?_⟩
    · intro st hst
      injection hst with hst
      exact ⟨rfl, hst⟩
    · intro hn; cases hn
  | none =>
    dsimp only
    rw [h]
    refine ⟨_, rfl, rfl, rfl, ?_, ?_⟩
    · intro st hst; cases hst
    · intro _; exact ⟨rfl, rfl⟩

/-- X3 at the type string `"Dragon"`. -/
theorem unit_stats_of_type_witness :
    inheritedProperty (toLowerCase "Dragon") = false ∧
    Unit.stats (toLowerCase "Dragon") = some (30, 25, 7, 3) ∧
    ∃ u, Unit.new 1 0 0 0 "Dragon" = some u ∧ u.maxHp = u.hp ∧
      Unit.getCost "Dragon" = some u.cost ∧
      (∀ st, Unit.stats (toLowerCase "Dragon") = some st →
        u.type = toLowerCase "Dragon" ∧ (u.cost, u.hp, u.atk, u.movement) = st) ∧
      (Unit.stats (toLowerCase "Dragon") = none →
        u.type = "soldier" ∧ (u.cost, u.hp, u.atk, u.movement) = (3, 5, 2, 1)) :=
  ⟨by decide, by decide, unit_stats_of_type 1 0 0 0 "Dragon" (by decide)⟩

/-- X4.  For two distinct active players A and B not at war, each of whose ledgers holds
at most one treaty entry for the other: after `Game.declareWar(A, B)` each of the two
ledgers holds exactly one war entry for the other player, with `turnsRemaining = 10`,
holds no peace treaty with the other player and has favor -100 toward it; a second
`Game.declareWar(A, B)` leaves both ledgers as they are. -/
theorem declareWar_from_peace (g : Game) (a b : Nat) (da db : Diplomacy) (hab : a ≠ b)
    (ha : g.ledgerOf a = some da) (hb : g.ledgerOf b = some db)
    (hwa : da.isAtWar b = false) (hwb : db.isAtWar a = false)
    (hta : (da.treatiesWith b).length ≤ 1) (htb : (db.treatiesWith a).length ≤ 1) :
    (g.declareWar a b).1 = true ∧
    ∃ da1 db1, (g.declareWar a b).2.ledgerOf a = some da1 ∧
      (g.declareWar a b).2.ledgerOf b = some db1 ∧
      da1.warsWith b = [War.mk b 10] ∧ da1.hasPeaceTreaty b = false ∧ da1.getFavor b = -100 ∧
      db1.warsWith a = [War.mk a 10] ∧ db1.hasPeaceTreaty a = false ∧ db1.getFavor a = -100 ∧
      ((g.declareWar a b).2.declareWar a b).2.ledgerOf a = some da1 ∧
      ((g.declareWar a b).2.declareWar a b).2.ledgerOf b = some db1 := by
  obtain ⟨h1, h2, h3⟩ := Game.declareWar_ledgers g a b da db hab ha hb
  obtain ⟨_, wa, ta, fa, ra⟩ := Diplomacy.declareWar_fresh da b hwa hta
  obtain ⟨_, wb, tb, fb, rb⟩ := Diplomacy.declareWar_fresh db a hwb htb
  obtain ⟨_, h5, h6⟩ := Game.declareWar_ledgers (g.declareWar a b).2 a b _ _ hab h2 h3
  refine ⟨h1, _, _, h2, h3, wa, ta, fa, wb, tb, fb, ?_, ?_⟩
  · rw [h5, ra]
  · rw [h6, rb]

/-- X4 at `Scenario.opening`, where no ledger holds a treaty or a war. -/
theorem declareWar_from_peace_witness :
    Scenario.opening.ledgerOf 0 = some ((Diplomacy.new 0).initializeRelations [0, 1]) ∧
    Scenario.opening.ledgerOf 1 = some ((Diplomacy.new 1).initializeRelations [0, 1]) ∧
    (Scenario.opening.declareWar 0 1).1 = true ∧
    ∃ da1 db1, (Scenario.opening.declareWar 0 1).2.ledgerOf 0 = some da1 ∧
      (Scenario.opening.declareWar 0 1).2.ledgerOf 1 = some db1 ∧
      da1.warsWith 1 = [War.mk 1 10] ∧ da1.hasPeaceTreaty 1 = false ∧ da1.getFavor 1 = -100 ∧
      db1.warsWith 0 = [War.mk 0 10] ∧ db1.hasPeaceTreaty 0 = false ∧ db1.getFavor 0 = -100 ∧
      ((Scenario.opening.declareWar 0 1).2.declareWar 0 1).2.ledgerOf 0 = some da1 ∧
      ((Scenario.opening.declareWar 0 1).2.declareWar 0 1).2.ledgerOf 1 = some db1 :=
  ⟨by decide, by decide,
    declareWar_from_peace Scenario.opening 0 1 ((Diplomacy.new 0).initializeRelations [0, 1])
      ((Diplomacy.new 1).initializeRelations [0, 1]) (by decide) (by decide) (by decide)
      (by decide) (by decide) (by decide) (by decide)⟩

/-- X5.  The territory map of the border scan assigns a tile to the last of the players,
in the order of the player list, one of whose cities stands on the tile or lists it in
its territory: to no player when there is none, and to the one such player when there is
exactly one. -/
theorem territory_map_assigns_last_claimant (g : Game) (x y : Int) :
    mapGet g.getPlayerTerritories (x, y) = (g.claimants x y).getLast? ∧
    (g.claimants x y = [] → mapGet g.getPlayerTerritories (x, y) = none) ∧
    (∀ pid : Nat, g.claimants x y = [pid] → mapGet g.getPlayerTerritories (x, y) = some pid) := by
  refine ⟨getPlayerTerritories_last_claimant g x y, ?_, ?_⟩
  · intro h
    rw [getPlayerTerritories_last_claimant, h]
    rfl
  · intro pid h
    rw [getPlayerTerritories_last_claimant, h]
    rfl

/-- X6.  When every ledger of a state holds at most one war entry for each counterpart,
so does every ledger of the state reached through any sequence of the game-level
diplomacy operations `proposePeaceTreaty`, `acceptPeaceTreaty`, `rejectPeaceTreaty`,
`breakPeaceTreaty`, `declareWar` and `proposePeace`. -/
theorem one_war_entry_for_each_counterpart (g : Game) (ops : List DiplomacyOp)
    (h : ∀ p ∈ g.players, p.diplomacy.warsDistinct) :
    ∀ p ∈ (g.diplomacyRun ops).players, p.diplomacy.warsDistinct := by
  unfold Game.diplomacyRun
  induction ops generalizing g with
  | nil => exact h
  | cons op t ih =>
    rw [List.foldl_cons]
    exact ih _ (Game.diplomacyStep_warsDistinct g op h)

/-- X6 at `Scenario.opening`, where no ledger holds a war: after war is declared twice
between players 0 and 1, from either side, each ledger holds one war entry. -/
theorem one_war_entry_for_each_counterpart_witness :
    (∀ p ∈ Scenario.opening.players, p.diplomacy.warsDistinct) ∧
    (∀ p ∈ (Scenario.opening.diplomacyRun
      [DiplomacyOp.declareWar 0 1, DiplomacyOp.declareWar 1 0]).players,
      p.diplomacy.warsDistinct) ∧
    (Scenario.opening.diplomacyRun
      [DiplomacyOp.declareWar 0 1, DiplomacyOp.declareWar 1 0]).players.map
      (fun p => (p.id, p.diplomacy.wars)) = [(0, [War.mk 1 10]), (1, [War.mk 0 10])] :=
  ⟨by decide,
    one_war_entry_for_each_counterpart Scenario.opening
      [DiplomacyOp.declareWar 0 1, DiplomacyOp.declareWar 1 0] (by decide),
    by decide⟩

/-- X7.  The cached `territorySize` of every active player is the sum of the territory
sizes of its cities after `updateRankings`, hence in the state a `nextTurn` that gets past
its guard and finds the next player ends in; and a successful `foundCity` leaves the
caches right when they were right before. -/
theorem territory_cache_refreshed (g : Game) :
    (∀ p ∈ g.updateRankings.players, p.territoryCached) ∧
    (∀ g1 : Game, 1 < g.players.length → g.nextTurn = Completion.ok g1 →
      ∀ p ∈ g1.players, p.territoryCached) ∧
    (∀ u : Unit, (∀ p ∈ g.players, p.territoryCached) → (u.foundCity g).1 = true →
      ∀ p ∈ (u.foundCity g).2.players, p.territoryCached) := by
  refine ⟨updateRankings_cached g, ?_, ?_⟩
  · intro g1 hlen hnext
    unfold Game.nextTurn at hnext
    rw [if_neg (by omega)] at hnext
    cases hcur : g.currentPlayer with
    | none =>
      rw [hcur] at hnext
      cases hnext
    | some current =>
      rw [hcur] at hnext
      dsimp only at hnext
      split at hnext
      · cases hnext
      · cases hnext
        exact updateRankings_cached _
  · intro u hcached hok
    obtain ⟨_, _, hplayers, _⟩ := foundCity_success u g hok
    rw [hplayers]
    intro p hp
    obtain ⟨q, hq, rfl⟩ := List.mem_map.mp hp
    unfold foundPlayer
    split_ifs
    · exact Player.updateTerritorySize_cached _
    · exact hcached q hq

end StrategIA
